import Mathlib

/-!
# PNG colour-mode reduction: a shallow embedding of `pngtest.c`

The definitions below follow the C functions of `src/pngtest.c` one by one.

Conventions of the embedding.

* A byte buffer (`unsigned char*`) is a function from offsets to values; a buffer
  that really holds bytes satisfies `ValidBuf`.  A store `p[i] = v` is `Buf.set`.
* `unsigned` is 32 bits wide: the products `w * h` and the sizes of scanlines are reduced
  modulo `2 ^ 32`.
  `size_t` is taken to be 64 bits wide, so offsets computed from 32-bit pixel
  counts do not wrap.
* Output parameters (`unsigned char* r`, ...) become state that is passed in and
  returned: a function that does not store through a pointer leaves the value
  that was there before.
* Loops that run `i = 0 .. n - 1` without leaving early are `forLoop`; loops with a
  `break` or a `return` are written as recursions on the number of remaining
  iterations.
* Allocation never fails, a request of zero bytes included.
* The model is exact where the C code is defined for bytes in the buffers; a shift by
  32 or more and a division by zero, which only bit depths outside the legal ones can
  cause, are not modelled.
-/

namespace LodePNG

/-! ## Buffers and colours -/

/-- Memory reached through an `unsigned char*`: the value stored at each offset. -/
abbrev Buf := Nat → Nat

/-- Every cell of the buffer holds an `unsigned char`. -/
def ValidBuf (b : Buf) : Prop := ∀ i, b i < 256

/-- The store `b[i] = v`. -/
def Buf.set (b : Buf) (i v : Nat) : Buf := fun j => if j = i then v else b j

/-- The loop `for(i = 0; i != n; ++i) s = body(i, s)`. -/
def forLoop {σ : Type} (n : Nat) (body : Nat → σ → σ) (s : σ) : σ :=
  match n with
  | 0 => s
  | k + 1 => body k (forLoop k body s)

/-- Four channel values `r, g, b, a` (8 or 16 bits each). -/
structure Color where
  r : Nat
  g : Nat
  b : Nat
  a : Nat
deriving DecidableEq, Repr

/-- Local variables declared as `r = 0, g = 0, b = 0, a = 0`. -/
def Color.zero : Color := ⟨0, 0, 0, 0⟩

/-! ## Colour modes and profiles -/

abbrev LCT_GREY : Nat := 0
abbrev LCT_RGB : Nat := 2
abbrev LCT_PALETTE : Nat := 3
abbrev LCT_GREY_ALPHA : Nat := 4
abbrev LCT_RGBA : Nat := 6

/-- The struct `LodePNGColorMode`. -/
structure LodePNGColorMode where
  colortype : Nat
  bitdepth : Nat
  palette : Buf
  palettesize : Nat
  key_defined : Nat
  key_r : Nat
  key_g : Nat
  key_b : Nat

/-- The struct `LodePNGColorProfile`. -/
structure LodePNGColorProfile where
  colored : Nat
  key : Nat
  key_r : Nat
  key_g : Nat
  key_b : Nat
  alpha : Nat
  numcolors : Nat
  palette : Buf
  bits : Nat

/-- A node of the colour tree as seen through a `ColorTree*`: the null pointer, or
a node with its children (only the entries `0 .. 15` exist) and its payload. -/
inductive ColorTree where
  | null : ColorTree
  | node (children : Nat → ColorTree) (index : Int) : ColorTree

def lodepng_is_greyscale_type (info : LodePNGColorMode) : Bool :=
  info.colortype = LCT_GREY || info.colortype = LCT_GREY_ALPHA

def lodepng_is_alpha_type (info : LodePNGColorMode) : Bool :=
  (info.colortype &&& 4) != 0

def lodepng_is_palette_type (info : LodePNGColorMode) : Bool :=
  info.colortype = LCT_PALETTE

/-- The search loop of `lodepng_has_palette_alpha` over the entries `i .. i + fuel - 1`. -/
def lodepng_has_palette_alpha_from (info : LodePNGColorMode) : Nat → Nat → Bool
  | 0, _ => false
  | fuel + 1, i => if info.palette (i * 4 + 3) < 255 then true
                   else lodepng_has_palette_alpha_from info fuel (i + 1)

def lodepng_has_palette_alpha (info : LodePNGColorMode) : Bool :=
  lodepng_has_palette_alpha_from info info.palettesize 0

def lodepng_can_have_alpha (info : LodePNGColorMode) : Bool :=
  info.key_defined != 0 || lodepng_is_alpha_type info || lodepng_has_palette_alpha info

def getNumColorChannels (colortype : Nat) : Nat :=
  if colortype = 0 then 1
  else if colortype = 2 then 3
  else if colortype = 3 then 1
  else if colortype = 4 then 2
  else if colortype = 6 then 4
  else 0

def lodepng_get_bpp_lct (colortype bitdepth : Nat) : Nat :=
  (getNumColorChannels colortype * bitdepth) % 2 ^ 32

def lodepng_get_bpp (info : LodePNGColorMode) : Nat :=
  lodepng_get_bpp_lct info.colortype info.bitdepth

def color_tree_init : ColorTree := ColorTree.node (fun _ => ColorTree.null) (-1)

/-! ## Reading pixels -/

/-- Decoder `getPixelColorRGBA16`: `c` holds the values found in `*r, *g, *b, *a`
on entry, the result those on exit. -/
def getPixelColorRGBA16 (c : Color) (inp : Buf) (i : Nat) (mode : LodePNGColorMode) : Color :=
  if mode.colortype = LCT_GREY then
    let v := 256 * inp (i * 2 + 0) + inp (i * 2 + 1)
    ⟨v, v, v, if mode.key_defined ≠ 0 ∧ v = mode.key_r then 0 else 65535⟩
  else if mode.colortype = LCT_RGB then
    let r := 256 * inp (i * 6 + 0) + inp (i * 6 + 1)
    let g := 256 * inp (i * 6 + 2) + inp (i * 6 + 3)
    let b := 256 * inp (i * 6 + 4) + inp (i * 6 + 5)
    ⟨r, g, b, if mode.key_defined ≠ 0 ∧ r = mode.key_r ∧ g = mode.key_g ∧ b = mode.key_b
              then 0 else 65535⟩
  else if mode.colortype = LCT_GREY_ALPHA then
    let v := 256 * inp (i * 4 + 0) + inp (i * 4 + 1)
    ⟨v, v, v, 256 * inp (i * 4 + 2) + inp (i * 4 + 3)⟩
  else if mode.colortype = LCT_RGBA then
    ⟨256 * inp (i * 8 + 0) + inp (i * 8 + 1), 256 * inp (i * 8 + 2) + inp (i * 8 + 3),
     256 * inp (i * 8 + 4) + inp (i * 8 + 5), 256 * inp (i * 8 + 6) + inp (i * 8 + 7)⟩
  else c

/-- Reads one bit, most significant bit of each byte first; returns the bit and the
advanced bit pointer. -/
def readBitFromReversedStream (bitpointer : Nat) (bitstream : Buf) : Nat × Nat :=
  (((bitstream (bitpointer >>> 3)) >>> (7 - (bitpointer &&& 7))) &&& 1, bitpointer + 1)

/-- The loop `for(i = nbits - 1; i < nbits; --i) result += bit << i` of
`readBitsFromReversedStream`; returns the value and the advanced bit pointer. -/
def readBitsFromReversedStream (bitpointer : Nat) (bitstream : Buf) (nbits : Nat) : Nat × Nat :=
  match nbits with
  | 0 => (0, bitpointer)
  | i + 1 =>
    let bit := readBitFromReversedStream bitpointer bitstream
    let rest := readBitsFromReversedStream bit.2 bitstream i
    ((bit.1 <<< i) + rest.1, rest.2)

/-- Decoder `getPixelColorRGBA8`: `c` holds the values found in `*r, *g, *b, *a` on
entry, the result those on exit.  For greyscale below 8 bits the source assigns to the
pointer `r` itself (`r = *g = *b = ...`), so `*r` keeps its previous value.  The division
by `highest` of that branch is undefined in C for a bit depth of 0; the value given here is
meaningful only for the modes of `getPixelColorRGBA8_defined`. -/
def getPixelColorRGBA8 (c : Color) (inp : Buf) (i : Nat) (mode : LodePNGColorMode) : Color :=
  if mode.colortype = LCT_GREY then
    if mode.bitdepth = 8 then
      ⟨inp i, inp i, inp i, if mode.key_defined ≠ 0 ∧ inp i = mode.key_r then 0 else 255⟩
    else if mode.bitdepth = 16 then
      ⟨inp (i * 2 + 0), inp (i * 2 + 0), inp (i * 2 + 0),
       if mode.key_defined ≠ 0 ∧ 256 * inp (i * 2 + 0) + inp (i * 2 + 1) = mode.key_r
       then 0 else 255⟩
    else
      let highest := (1 <<< mode.bitdepth) - 1
      let value := (readBitsFromReversedStream (i * mode.bitdepth) inp mode.bitdepth).1
      let v := ((value * 255) / highest) % 256
      ⟨c.r, v, v, if mode.key_defined ≠ 0 ∧ value = mode.key_r then 0 else 255⟩
  else if mode.colortype = LCT_RGB then
    if mode.bitdepth = 8 then
      let r := inp (i * 3 + 0)
      let g := inp (i * 3 + 1)
      let b := inp (i * 3 + 2)
      ⟨r, g, b, if mode.key_defined ≠ 0 ∧ r = mode.key_r ∧ g = mode.key_g ∧ b = mode.key_b
                then 0 else 255⟩
    else
      ⟨inp (i * 6 + 0), inp (i * 6 + 2), inp (i * 6 + 4),
       if mode.key_defined ≠ 0 ∧ 256 * inp (i * 6 + 0) + inp (i * 6 + 1) = mode.key_r
          ∧ 256 * inp (i * 6 + 2) + inp (i * 6 + 3) = mode.key_g
          ∧ 256 * inp (i * 6 + 4) + inp (i * 6 + 5) = mode.key_b
       then 0 else 255⟩
  else if mode.colortype = LCT_PALETTE then
    let index := if mode.bitdepth = 8 then inp i
                 else (readBitsFromReversedStream (i * mode.bitdepth) inp mode.bitdepth).1
    if index ≥ mode.palettesize then ⟨0, 0, 0, 255⟩
    else ⟨mode.palette (index * 4 + 0), mode.palette (index * 4 + 1),
          mode.palette (index * 4 + 2), mode.palette (index * 4 + 3)⟩
  else if mode.colortype = LCT_GREY_ALPHA then
    if mode.bitdepth = 8 then
      ⟨inp (i * 2 + 0), inp (i * 2 + 0), inp (i * 2 + 0), inp (i * 2 + 1)⟩
    else
      ⟨inp (i * 4 + 0), inp (i * 4 + 0), inp (i * 4 + 0), inp (i * 4 + 2)⟩
  else if mode.colortype = LCT_RGBA then
    if mode.bitdepth = 8 then
      ⟨inp (i * 4 + 0), inp (i * 4 + 1), inp (i * 4 + 2), inp (i * 4 + 3)⟩
    else
      ⟨inp (i * 8 + 0), inp (i * 8 + 2), inp (i * 8 + 4), inp (i * 8 + 6)⟩
  else c

def getValueRequiredBits (value : Nat) : Nat :=
  if value = 0 ∨ value = 255 then 1
  else if value % 17 = 0 then (if value % 85 = 0 then 2 else 4)
  else 8

/-! ## The colour tree -/

/-- The child selected at level `bit`: one bit of each channel. -/
def color_tree_child (r g b a bit : Nat) : Nat :=
  8 * ((r >>> bit) &&& 1) + 4 * ((g >>> bit) &&& 1) + 2 * ((b >>> bit) &&& 1)
    + 1 * ((a >>> bit) &&& 1)

/-- The loop of `color_tree_get` from level `bit` on, with `fuel` levels to go. -/
def color_tree_get_from (r g b a : Nat) : Nat → Nat → ColorTree → Int
  | 0, _, tree =>
    match tree with
    | ColorTree.null => -1
    | ColorTree.node _ index => index
  | fuel + 1, bit, tree =>
    match tree with
    | ColorTree.null => -1
    | ColorTree.node children _ =>
      match children (color_tree_child r g b a bit) with
      | ColorTree.null => -1
      | ColorTree.node ch index =>
        color_tree_get_from r g b a fuel (bit + 1) (ColorTree.node ch index)

def color_tree_get (tree : ColorTree) (r g b a : Nat) : Int :=
  color_tree_get_from r g b a 8 0 tree

def color_tree_has (tree : ColorTree) (r g b a : Nat) : Bool :=
  decide (color_tree_get tree r g b a ≥ 0)

/-- The loop of `color_tree_add` from level `bit` on, with `fuel` levels to go: a
missing child is allocated and initialised, and the last node gets the index. -/
def color_tree_add_from (r g b a : Nat) (index : Nat) : Nat → Nat → ColorTree → ColorTree
  | 0, _, tree =>
    match tree with
    | ColorTree.null => ColorTree.null
    | ColorTree.node children _ => ColorTree.node children (index : Int)
  | fuel + 1, bit, tree =>
    match tree with
    | ColorTree.null => ColorTree.null
    | ColorTree.node children idx =>
      let i := color_tree_child r g b a bit
      let child := match children i with
        | ColorTree.null => color_tree_init
        | ColorTree.node ch x => ColorTree.node ch x
      ColorTree.node
        (fun j => if j = i then color_tree_add_from r g b a index fuel (bit + 1) child
                  else children j) idx

def color_tree_add (tree : ColorTree) (r g b a : Nat) (index : Nat) : ColorTree :=
  color_tree_add_from r g b a index 8 0 tree

/-! ## The colour profile -/

/-- Local state of the scanning loops of `lodepng_get_color_profile`. -/
structure ProfileState where
  profile : LodePNGColorProfile
  tree : ColorTree
  colored_done : Bool
  alpha_done : Bool
  numcolors_done : Bool
  bits_done : Bool
  c : Color

/-- Raises `profile->bits` to 8: `if(profile->bits < 8) profile->bits = 8`. -/
def bits_at_least_8 (p : LodePNGColorProfile) : LodePNGColorProfile :=
  if p.bits < 8 then { p with bits := 8 } else p

/-- The test `(r & 255) != ((r >> 8) & 255) || ...` of the 16-bit pre-check. -/
def bytes_differ (c : Color) : Bool :=
  (c.r &&& 255) != ((c.r >>> 8) &&& 255) || (c.g &&& 255) != ((c.g >>> 8) &&& 255) ||
  (c.b &&& 255) != ((c.b >>> 8) &&& 255) || (c.a &&& 255) != ((c.a >>> 8) &&& 255)

/-- The loop that checks whether a 16-bit input is truly 16-bit; the result is the
value of `sixteen`. -/
def profile_sixteen_loop (inp : Buf) (mode : LodePNGColorMode) : Nat → Nat → Color → Bool
  | 0, _, _ => false
  | fuel + 1, i, c =>
    let c1 := getPixelColorRGBA16 c inp i mode
    if bytes_differ c1 then true else profile_sixteen_loop inp mode fuel (i + 1) c1

/-- The block `if(!colored_done && (r != g || r != b))` of the 16-bit loop. -/
def profile_colored16 (s : ProfileState) : ProfileState :=
  if !s.colored_done ∧ (s.c.r ≠ s.c.g ∨ s.c.r ≠ s.c.b) then
    { s with profile := { s.profile with colored := 1 }, colored_done := true }
  else s

/-- The block `if(!alpha_done)` of the 16-bit loop. -/
def profile_alpha16 (s : ProfileState) : ProfileState :=
  if !s.alpha_done then
    let p := s.profile
    let c := s.c
    let matchkey : Bool := c.r = p.key_r ∧ c.g = p.key_g ∧ c.b = p.key_b
    if c.a ≠ 65535 ∧ (c.a ≠ 0 ∨ (p.key ≠ 0 ∧ !matchkey)) then
      { s with profile := bits_at_least_8 { p with alpha := 1 }, alpha_done := true }
    else if c.a = 0 ∧ p.alpha = 0 ∧ p.key = 0 then
      { s with profile := { p with key := 1, key_r := c.r, key_g := c.g, key_b := c.b } }
    else if c.a = 65535 ∧ p.key ≠ 0 ∧ matchkey then
      { s with profile := { p with alpha := 1 }, alpha_done := true }
    else s
  else s

/-- One iteration of the 16-bit scanning loop, up to the test for `break`. -/
def profile_step16 (inp : Buf) (mode : LodePNGColorMode) (i : Nat) (s : ProfileState) :
    ProfileState :=
  profile_alpha16 (profile_colored16 { s with c := getPixelColorRGBA16 s.c inp i mode })

/-- The condition `alpha_done && numcolors_done && colored_done && bits_done`. -/
def profile_all_done (s : ProfileState) : Bool :=
  s.alpha_done && s.numcolors_done && s.colored_done && s.bits_done

/-- The 16-bit scanning loop, with its `break`. -/
def profile_loop16 (inp : Buf) (mode : LodePNGColorMode) : Nat → Nat → ProfileState → ProfileState
  | 0, _, s => s
  | fuel + 1, i, s =>
    let s1 := profile_step16 inp mode i s
    if profile_all_done s1 then s1 else profile_loop16 inp mode fuel (i + 1) s1

/-- One iteration of the second pass of the 16-bit branch: an opaque pixel with the
colour of the key forces alpha. -/
def profile_keycheck16 (inp : Buf) (mode : LodePNGColorMode) (i : Nat) (s : ProfileState) :
    ProfileState :=
  let c := getPixelColorRGBA16 s.c inp i mode
  let p := s.profile
  if c.a ≠ 0 ∧ c.r = p.key_r ∧ c.g = p.key_g ∧ c.b = p.key_b then
    { s with c := c, profile := { p with alpha := 1 }, alpha_done := true }
  else { s with c := c }

/-- The block `if(!bits_done && profile->bits < 8)` followed by the update of
`bits_done`. -/
def profile_bits8 (bpp : Nat) (s : ProfileState) : ProfileState :=
  let p := s.profile
  let p1 := if !s.bits_done ∧ p.bits < 8 then
      (if getValueRequiredBits s.c.r > p.bits then { p with bits := getValueRequiredBits s.c.r }
       else p)
    else p
  { s with profile := p1, bits_done := decide (p1.bits ≥ bpp) }

/-- The block `if(!colored_done && (r != g || r != b))` of the 8-bit loop. -/
def profile_colored8 (s : ProfileState) : ProfileState :=
  if !s.colored_done ∧ (s.c.r ≠ s.c.g ∨ s.c.r ≠ s.c.b) then
    { s with profile := bits_at_least_8 { s.profile with colored := 1 }, colored_done := true }
  else s

/-- The block `if(!alpha_done)` of the 8-bit loop. -/
def profile_alpha8 (s : ProfileState) : ProfileState :=
  if !s.alpha_done then
    let p := s.profile
    let c := s.c
    let matchkey : Bool := c.r = p.key_r ∧ c.g = p.key_g ∧ c.b = p.key_b
    if c.a ≠ 255 ∧ (c.a ≠ 0 ∨ (p.key ≠ 0 ∧ !matchkey)) then
      { s with profile := bits_at_least_8 { p with alpha := 1 }, alpha_done := true }
    else if c.a = 0 ∧ p.alpha = 0 ∧ p.key = 0 then
      { s with profile := { p with key := 1, key_r := c.r, key_g := c.g, key_b := c.b } }
    else if c.a = 255 ∧ p.key ≠ 0 ∧ matchkey then
      { s with profile := bits_at_least_8 { p with alpha := 1 }, alpha_done := true }
    else s
  else s

/-- The block `if(!numcolors_done)` of the 8-bit loop: a colour not yet in the tree is
added to it, and to the palette of the profile while there is room. -/
def profile_numcolors8 (maxnumcolors : Nat) (s : ProfileState) : ProfileState :=
  if !s.numcolors_done then
    let c := s.c
    if !color_tree_has s.tree c.r c.g c.b c.a then
      let p := s.profile
      let n := p.numcolors
      let pal := if n < 256 then
          (((p.palette.set (n * 4 + 0) c.r).set (n * 4 + 1) c.g).set (n * 4 + 2) c.b).set
            (n * 4 + 3) c.a
        else p.palette
      { s with tree := color_tree_add s.tree c.r c.g c.b c.a n,
               profile := { p with palette := pal, numcolors := n + 1 },
               numcolors_done := decide (n + 1 ≥ maxnumcolors) }
    else s
  else s

/-- One iteration of the 8-bit scanning loop, up to the test for `break`. -/
def profile_step8 (inp : Buf) (mode : LodePNGColorMode) (bpp maxnumcolors : Nat) (i : Nat)
    (s : ProfileState) : ProfileState :=
  profile_numcolors8 maxnumcolors (profile_alpha8 (profile_colored8
    (profile_bits8 bpp { s with c := getPixelColorRGBA8 s.c inp i mode })))

/-- The 8-bit scanning loop, with its `break`. -/
def profile_loop8 (inp : Buf) (mode : LodePNGColorMode) (bpp maxnumcolors : Nat) :
    Nat → Nat → ProfileState → ProfileState
  | 0, _, s => s
  | fuel + 1, i, s =>
    let s1 := profile_step8 inp mode bpp maxnumcolors i s
    if profile_all_done s1 then s1 else profile_loop8 inp mode bpp maxnumcolors fuel (i + 1) s1

/-- One iteration of the second pass of the 8-bit branch. -/
def profile_keycheck8 (inp : Buf) (mode : LodePNGColorMode) (i : Nat) (s : ProfileState) :
    ProfileState :=
  let c := getPixelColorRGBA8 s.c inp i mode
  let p := s.profile
  if c.a ≠ 0 ∧ c.r = p.key_r ∧ c.g = p.key_g ∧ c.b = p.key_b then
    { s with c := c, profile := { p with alpha := 1 }, alpha_done := true }
  else { s with c := c }

/-- The final `profile->key_r += (profile->key_r << 8)` on `unsigned short` fields. -/
def profile_key_to_16 (p : LodePNGColorProfile) : LodePNGColorProfile :=
  { p with key_r := (p.key_r + (p.key_r <<< 8)) % 65536,
           key_g := (p.key_g + (p.key_g <<< 8)) % 65536,
           key_b := (p.key_b + (p.key_b <<< 8)) % 65536 }

/-- The bound `maxnumcolors` on the number of colours worth counting. -/
def profile_maxnumcolors (bpp : Nat) : Nat :=
  if bpp ≤ 8 then (if bpp = 1 then 2 else if bpp = 2 then 4 else if bpp = 4 then 16 else 256)
  else 257

/-- The locals of `lodepng_get_color_profile` before the scanning loops. -/
def profile_start (profile : LodePNGColorProfile) (mode : LodePNGColorMode) : ProfileState :=
  { profile := profile, tree := color_tree_init,
    colored_done := lodepng_is_greyscale_type mode,
    alpha_done := !lodepng_can_have_alpha mode,
    numcolors_done := false,
    bits_done := decide (lodepng_get_bpp mode = 1),
    c := Color.zero }

/-- The value of `sixteen` after the pre-check. -/
def profile_sixteen (inp : Buf) (numpixels : Nat) (mode : LodePNGColorMode) : Bool :=
  if mode.bitdepth = 16 then profile_sixteen_loop inp mode numpixels 0 Color.zero else false

/-- The branch `if(sixteen)` of `lodepng_get_color_profile`. -/
def profile_run16 (inp : Buf) (numpixels : Nat) (mode : LodePNGColorMode) (s0 : ProfileState) :
    LodePNGColorProfile :=
  let s1 := { s0 with profile := { s0.profile with bits := 16 }, bits_done := true,
                      numcolors_done := true }
  let s2 := profile_loop16 inp mode numpixels 0 s1
  let s3 := if s2.profile.key ≠ 0 ∧ s2.profile.alpha = 0 then
      forLoop numpixels (profile_keycheck16 inp mode) s2
    else s2
  s3.profile

/-- The branch `else` (below 16 bits) of `lodepng_get_color_profile`. -/
def profile_run8 (inp : Buf) (numpixels : Nat) (mode : LodePNGColorMode) (s0 : ProfileState) :
    LodePNGColorProfile :=
  let bpp := lodepng_get_bpp mode
  let s2 := profile_loop8 inp mode bpp (profile_maxnumcolors bpp) numpixels 0 s0
  let s3 := if s2.profile.key ≠ 0 ∧ s2.profile.alpha = 0 then
      forLoop numpixels (profile_keycheck8 inp mode) s2
    else s2
  profile_key_to_16 s3.profile

/-- The function `lodepng_get_color_profile`: returns the error code (always 0 in this
source) and the updated profile. -/
def lodepng_get_color_profile (profile : LodePNGColorProfile) (inp : Buf) (w h : Nat)
    (mode : LodePNGColorMode) : Nat × LodePNGColorProfile :=
  let numpixels := (w * h) % 2 ^ 32
  if profile_sixteen inp numpixels mode then
    (0, profile_run16 inp numpixels mode (profile_start profile mode))
  else
    (0, profile_run8 inp numpixels mode (profile_start profile mode))

/-! ## Choosing the colour mode -/

def lodepng_palette_clear (info : LodePNGColorMode) : LodePNGColorMode :=
  { info with palette := fun _ => 0, palettesize := 0 }

def lodepng_palette_add (info : LodePNGColorMode) (r g b a : Nat) : Nat × LodePNGColorMode :=
  (0, { info with
          palette := (((info.palette.set (4 * info.palettesize + 0) r).set
            (4 * info.palettesize + 1) g).set (4 * info.palettesize + 2) b).set
            (4 * info.palettesize + 3) a,
          palettesize := info.palettesize + 1 })

def lodepng_color_profile_init (profile : LodePNGColorProfile) : LodePNGColorProfile :=
  { profile with colored := 0, key := 0, alpha := 0, key_r := 0, key_g := 0, key_b := 0,
                 numcolors := 0, bits := 1 }

def lodepng_color_mode_cleanup (info : LodePNGColorMode) : LodePNGColorMode :=
  lodepng_palette_clear info

/-- The function `lodepng_color_mode_copy`: the destination becomes a copy of the source,
palette included. -/
def lodepng_color_mode_copy (_dest source : LodePNGColorMode) : Nat × LodePNGColorMode :=
  (0, source)

/-- The local variable `LodePNGColorProfile prof` before `lodepng_color_profile_init`
(its palette is never read before it is written). -/
def profile_local : LodePNGColorProfile := ⟨0, 0, 0, 0, 0, 0, 0, fun _ => 0, 0⟩

/-- The adjustment `if(prof.key && w * h <= 16)` of `lodepng_auto_choose_color`. -/
def choose_adjust_profile (prof : LodePNGColorProfile) (wh : Nat) : LodePNGColorProfile :=
  if prof.key ≠ 0 ∧ wh ≤ 16 then bits_at_least_8 { prof with alpha := 1 } else prof

/-- The value of `palettebits` for `n` colours. -/
def choose_palettebits (n : Nat) : Nat :=
  if n ≤ 2 then 1 else if n ≤ 4 then 2 else if n ≤ 16 then 4 else 8

/-- The final value of `palette_ok` for the adjusted profile. -/
def choose_palette_ok (prof : LodePNGColorProfile) (wh : Nat) : Bool :=
  let grey_ok : Bool := prof.colored = 0 ∧ prof.alpha = 0
  let n := prof.numcolors
  let palettebits := choose_palettebits n
  let palette_ok : Bool := n ≤ 256 ∧ (n * 2) % 2 ^ 32 < wh ∧ prof.bits ≤ 8
  let palette_ok := if wh < (n * 2) % 2 ^ 32 then false else palette_ok
  if grey_ok ∧ prof.bits ≤ palettebits then false else palette_ok

/-- The branch `if(palette_ok)` of `lodepng_auto_choose_color`; `lodepng_palette_add` does
not fail, so the loop that fills the palette runs to its end. -/
def choose_palette (mode_out : LodePNGColorMode) (prof : LodePNGColorProfile)
    (mode_in : LodePNGColorMode) : LodePNGColorMode :=
  let p := prof.palette
  let mode_out := forLoop prof.numcolors
    (fun i m => (lodepng_palette_add m (p (i * 4 + 0)) (p (i * 4 + 1)) (p (i * 4 + 2))
      (p (i * 4 + 3))).2)
    (lodepng_palette_clear mode_out)
  let mode_out := { mode_out with colortype := LCT_PALETTE,
                                  bitdepth := choose_palettebits prof.numcolors }
  if mode_in.colortype = LCT_PALETTE ∧ mode_in.palettesize ≥ mode_out.palettesize
      ∧ mode_in.bitdepth = mode_out.bitdepth then
    (lodepng_color_mode_copy (lodepng_color_mode_cleanup mode_out) mode_in).2
  else mode_out

/-- The branch `else` (8 or 16 bits per channel) of `lodepng_auto_choose_color`. -/
def choose_plain (mode_out : LodePNGColorMode) (prof : LodePNGColorProfile) :
    LodePNGColorMode :=
  let mode_out := { mode_out with
    bitdepth := prof.bits,
    colortype := if prof.alpha ≠ 0 then (if prof.colored ≠ 0 then LCT_RGBA else LCT_GREY_ALPHA)
                 else (if prof.colored ≠ 0 then LCT_RGB else LCT_GREY) }
  if prof.key ≠ 0 ∧ prof.alpha = 0 then
    let mask := (1 <<< mode_out.bitdepth) - 1
    { mode_out with key_r := prof.key_r &&& mask, key_g := prof.key_g &&& mask,
                    key_b := prof.key_b &&& mask, key_defined := 1 }
  else mode_out

/-- The function `lodepng_auto_choose_color`: `mode_out` is the descriptor found in
`*mode_out` on entry; returns the error code and the descriptor left in `*mode_out`. -/
def lodepng_auto_choose_color (mode_out : LodePNGColorMode) (image : Buf) (w h : Nat)
    (mode_in : LodePNGColorMode) : Nat × LodePNGColorMode :=
  let res := lodepng_get_color_profile (lodepng_color_profile_init profile_local) image w h
    mode_in
  if res.1 ≠ 0 then (res.1, mode_out)
  else
    let mode_out := { mode_out with key_defined := 0 }
    let wh := (w * h) % 2 ^ 32
    let prof := choose_adjust_profile res.2 wh
    if choose_palette_ok prof wh then (0, choose_palette mode_out prof mode_in)
    else (0, choose_plain mode_out prof)

def lodepng_color_mode_init (info : LodePNGColorMode) : LodePNGColorMode :=
  { info with key_defined := 0, key_r := 0, key_g := 0, key_b := 0, colortype := LCT_RGBA,
              bitdepth := 8, palette := fun _ => 0, palettesize := 0 }

/-- The function `checkColorValidity`: 0 for an allowed combination of colour type and
bit depth, 37 for a bit depth that the colour type does not allow, 31 for an unknown
colour type. -/
def checkColorValidity (colortype bd : Nat) : Nat :=
  if colortype = 0 then
    (if ¬(bd = 1 ∨ bd = 2 ∨ bd = 4 ∨ bd = 8 ∨ bd = 16) then 37 else 0)
  else if colortype = 2 then (if ¬(bd = 8 ∨ bd = 16) then 37 else 0)
  else if colortype = 3 then (if ¬(bd = 1 ∨ bd = 2 ∨ bd = 4 ∨ bd = 8) then 37 else 0)
  else if colortype = 4 then (if ¬(bd = 8 ∨ bd = 16) then 37 else 0)
  else if colortype = 6 then (if ¬(bd = 8 ∨ bd = 16) then 37 else 0)
  else 31

/-- The function `lodepng_color_mode_equal`; the palettes are compared entry by entry
whatever their sizes (the test for an empty palette is commented out in the source). -/
def lodepng_color_mode_equal (a b : LodePNGColorMode) : Bool :=
  if a.colortype ≠ b.colortype then false
  else if a.bitdepth ≠ b.bitdepth then false
  else if a.key_defined ≠ b.key_defined then false
  else if a.key_defined ≠ 0 ∧ (a.key_r ≠ b.key_r ∨ a.key_g ≠ b.key_g ∨ a.key_b ≠ b.key_b) then
    false
  else if a.palettesize ≠ b.palettesize then false
  else (List.range (a.palettesize * 4)).all (fun i => a.palette i == b.palette i)

def lodepng_get_raw_size (w h : Nat) (color : LodePNGColorMode) : Nat :=
  let bpp := lodepng_get_bpp color
  let n := (w * h) % 2 ^ 32
  ((n / 8) * bpp) + ((n &&& 7) * bpp + 7) / 8

/-! ## Converting pixels -/

def rgba16ToPixel (out : Buf) (i : Nat) (mode : LodePNGColorMode) (c : Color) : Buf :=
  if mode.colortype = LCT_GREY then
    (out.set (i * 2 + 0) ((c.r >>> 8) &&& 255)).set (i * 2 + 1) (c.r &&& 255)
  else if mode.colortype = LCT_RGB then
    (((((out.set (i * 6 + 0) ((c.r >>> 8) &&& 255)).set (i * 6 + 1) (c.r &&& 255)).set
      (i * 6 + 2) ((c.g >>> 8) &&& 255)).set (i * 6 + 3) (c.g &&& 255)).set
      (i * 6 + 4) ((c.b >>> 8) &&& 255)).set (i * 6 + 5) (c.b &&& 255)
  else if mode.colortype = LCT_GREY_ALPHA then
    (((out.set (i * 4 + 0) ((c.r >>> 8) &&& 255)).set (i * 4 + 1) (c.r &&& 255)).set
      (i * 4 + 2) ((c.a >>> 8) &&& 255)).set (i * 4 + 3) (c.a &&& 255)
  else if mode.colortype = LCT_RGBA then
    (((((((out.set (i * 8 + 0) ((c.r >>> 8) &&& 255)).set (i * 8 + 1) (c.r &&& 255)).set
      (i * 8 + 2) ((c.g >>> 8) &&& 255)).set (i * 8 + 3) (c.g &&& 255)).set
      (i * 8 + 4) ((c.b >>> 8) &&& 255)).set (i * 8 + 5) (c.b &&& 255)).set
      (i * 8 + 6) ((c.a >>> 8) &&& 255)).set (i * 8 + 7) (c.a &&& 255)
  else out

/-- The stores `buffer[0] = r; buffer[1] = g; buffer[2] = b; if(has_alpha) buffer[3] = a`
of the fast decoder, `buffer` pointing at offset `off`. -/
def store_pixel (buffer : Buf) (off has_alpha : Nat) (r g b a : Nat) : Buf :=
  let buf := ((buffer.set (off + 0) r).set (off + 1) g).set (off + 2) b
  if has_alpha ≠ 0 then buf.set (off + 3) a else buf

/-- The function `getPixelColorsRGBA8`: the loops over all pixels, one per source
layout.  In the loops that read bit groups the state is the buffer together with the
running bit pointer `j`.  For 8-bit RGB the key test of the source reads `buffer[0..2]`,
the bytes it has just stored there. -/
def getPixelColorsRGBA8 (buffer : Buf) (numpixels has_alpha : Nat) (inp : Buf)
    (mode : LodePNGColorMode) : Buf :=
  let num_channels := if has_alpha ≠ 0 then 4 else 3
  if mode.colortype = LCT_GREY then
    if mode.bitdepth = 8 then
      forLoop numpixels (fun i buf =>
        store_pixel buf (i * num_channels) has_alpha (inp i) (inp i) (inp i)
          (if mode.key_defined ≠ 0 ∧ inp i = mode.key_r then 0 else 255)) buffer
    else if mode.bitdepth = 16 then
      forLoop numpixels (fun i buf =>
        store_pixel buf (i * num_channels) has_alpha (inp (i * 2)) (inp (i * 2)) (inp (i * 2))
          (if mode.key_defined ≠ 0 ∧ 256 * inp (i * 2 + 0) + inp (i * 2 + 1) = mode.key_r
           then 0 else 255)) buffer
    else
      let highest := (1 <<< mode.bitdepth) - 1
      (forLoop numpixels (fun i (st : Buf × Nat) =>
        let rd := readBitsFromReversedStream st.2 inp mode.bitdepth
        let v := ((rd.1 * 255) / highest) % 256
        (store_pixel st.1 (i * num_channels) has_alpha v v v
          (if mode.key_defined ≠ 0 ∧ rd.1 = mode.key_r then 0 else 255), rd.2)) (buffer, 0)).1
  else if mode.colortype = LCT_RGB then
    if mode.bitdepth = 8 then
      forLoop numpixels (fun i buf =>
        store_pixel buf (i * num_channels) has_alpha (inp (i * 3 + 0)) (inp (i * 3 + 1))
          (inp (i * 3 + 2))
          (if mode.key_defined ≠ 0 ∧ inp (i * 3 + 0) = mode.key_r ∧ inp (i * 3 + 1) = mode.key_g
              ∧ inp (i * 3 + 2) = mode.key_b then 0 else 255)) buffer
    else
      forLoop numpixels (fun i buf =>
        store_pixel buf (i * num_channels) has_alpha (inp (i * 6 + 0)) (inp (i * 6 + 2))
          (inp (i * 6 + 4))
          (if mode.key_defined ≠ 0 ∧ 256 * inp (i * 6 + 0) + inp (i * 6 + 1) = mode.key_r
              ∧ 256 * inp (i * 6 + 2) + inp (i * 6 + 3) = mode.key_g
              ∧ 256 * inp (i * 6 + 4) + inp (i * 6 + 5) = mode.key_b then 0 else 255)) buffer
  else if mode.colortype = LCT_PALETTE then
    (forLoop numpixels (fun i (st : Buf × Nat) =>
      let rd := if mode.bitdepth = 8 then (inp i, st.2)
                else readBitsFromReversedStream st.2 inp mode.bitdepth
      if rd.1 ≥ mode.palettesize then
        (store_pixel st.1 (i * num_channels) has_alpha 0 0 0 255, rd.2)
      else
        (store_pixel st.1 (i * num_channels) has_alpha (mode.palette (rd.1 * 4 + 0))
          (mode.palette (rd.1 * 4 + 1)) (mode.palette (rd.1 * 4 + 2))
          (mode.palette (rd.1 * 4 + 3)), rd.2)) (buffer, 0)).1
  else if mode.colortype = LCT_GREY_ALPHA then
    if mode.bitdepth = 8 then
      forLoop numpixels (fun i buf =>
        store_pixel buf (i * num_channels) has_alpha (inp (i * 2 + 0)) (inp (i * 2 + 0))
          (inp (i * 2 + 0)) (inp (i * 2 + 1))) buffer
    else
      forLoop numpixels (fun i buf =>
        store_pixel buf (i * num_channels) has_alpha (inp (i * 4 + 0)) (inp (i * 4 + 0))
          (inp (i * 4 + 0)) (inp (i * 4 + 2))) buffer
  else if mode.colortype = LCT_RGBA then
    if mode.bitdepth = 8 then
      forLoop numpixels (fun i buf =>
        store_pixel buf (i * num_channels) has_alpha (inp (i * 4 + 0)) (inp (i * 4 + 1))
          (inp (i * 4 + 2)) (inp (i * 4 + 3))) buffer
    else
      forLoop numpixels (fun i buf =>
        store_pixel buf (i * num_channels) has_alpha (inp (i * 8 + 0)) (inp (i * 8 + 2))
          (inp (i * 8 + 4)) (inp (i * 8 + 6))) buffer
  else buffer

/-- The function `addColorBits`: `bits` is 1, 2 or 4; the stored value is an
`unsigned char`. -/
def addColorBits (out : Buf) (index bits inp : Nat) : Buf :=
  let m := if bits = 1 then 7 else if bits = 2 then 3 else 1
  let p := index &&& m
  let v := (inp &&& ((1 <<< bits) - 1)) <<< (bits * (m - p))
  if p = 0 then out.set (index * bits / 8) (v % 256)
  else out.set (index * bits / 8) ((out (index * bits / 8) ||| v) % 256)

/-- The function `rgba8ToPixel`: returns the error code and the output buffer. -/
def rgba8ToPixel (out : Buf) (i : Nat) (mode : LodePNGColorMode) (tree : ColorTree)
    (c : Color) : Nat × Buf :=
  if mode.colortype = LCT_GREY then
    if mode.bitdepth = 8 then (0, out.set i c.r)
    else if mode.bitdepth = 16 then (0, (out.set (i * 2 + 1) c.r).set (i * 2 + 0) c.r)
    else
      let grey := ((c.r >>> (8 - mode.bitdepth)) &&& ((1 <<< mode.bitdepth) - 1)) % 256
      (0, addColorBits out i mode.bitdepth grey)
  else if mode.colortype = LCT_RGB then
    if mode.bitdepth = 8 then
      (0, ((out.set (i * 3 + 0) c.r).set (i * 3 + 1) c.g).set (i * 3 + 2) c.b)
    else
      (0, (((((out.set (i * 6 + 1) c.r).set (i * 6 + 0) c.r).set (i * 6 + 3) c.g).set
        (i * 6 + 2) c.g).set (i * 6 + 5) c.b).set (i * 6 + 4) c.b)
  else if mode.colortype = LCT_PALETTE then
    let index := color_tree_get tree c.r c.g c.b c.a
    if index < 0 then (82, out)
    else if mode.bitdepth = 8 then (0, out.set i (index.toNat % 256))
    else (0, addColorBits out i mode.bitdepth index.toNat)
  else if mode.colortype = LCT_GREY_ALPHA then
    if mode.bitdepth = 8 then (0, (out.set (i * 2 + 0) c.r).set (i * 2 + 1) c.a)
    else if mode.bitdepth = 16 then
      (0, (((out.set (i * 4 + 1) c.r).set (i * 4 + 0) c.r).set (i * 4 + 3) c.a).set
        (i * 4 + 2) c.a)
    else (0, out)
  else if mode.colortype = LCT_RGBA then
    if mode.bitdepth = 8 then
      (0, (((out.set (i * 4 + 0) c.r).set (i * 4 + 1) c.g).set (i * 4 + 2) c.b).set
        (i * 4 + 3) c.a)
    else
      (0, (((((((out.set (i * 8 + 1) c.r).set (i * 8 + 0) c.r).set (i * 8 + 3) c.g).set
        (i * 8 + 2) c.g).set (i * 8 + 5) c.b).set (i * 8 + 4) c.b).set (i * 8 + 7) c.a).set
        (i * 8 + 6) c.a)
  else (0, out)

/-- The tree that `lodepng_convert` builds for a palette target: the first
`min(palettesize, 2 ^ bitdepth)` entries of the target palette, or of the source palette
when the target has none. -/
def convert_palette_tree (mode_out mode_in : LodePNGColorMode) : ColorTree :=
  let palettesize := if mode_out.palettesize = 0 then mode_in.palettesize
                     else mode_out.palettesize
  let palette := if mode_out.palettesize = 0 then mode_in.palette else mode_out.palette
  let palsize := if palettesize < 1 <<< mode_out.bitdepth then palettesize
                 else 1 <<< mode_out.bitdepth
  forLoop palsize (fun i tree =>
    color_tree_add tree (palette (i * 4 + 0)) (palette (i * 4 + 1)) (palette (i * 4 + 2))
      (palette (i * 4 + 3)) i) color_tree_init

/-- The general loop of `lodepng_convert`, which returns as soon as `rgba8ToPixel`
reports an error; `c` holds the locals `r, g, b, a`. -/
def convert_loop (inp : Buf) (mode_out mode_in : LodePNGColorMode) (tree : ColorTree) :
    Nat → Nat → Buf → Color → Nat × Buf
  | 0, _, out, _ => (0, out)
  | fuel + 1, i, out, c =>
    let c1 := getPixelColorRGBA8 c inp i mode_in
    let res := rgba8ToPixel out i mode_out tree c1
    if res.1 ≠ 0 then (res.1, res.2)
    else convert_loop inp mode_out mode_in tree fuel (i + 1) res.2 c1

/-- The function `lodepng_convert`: `out` is the content of the output buffer on entry;
returns the error code and the content of the output buffer on exit. -/
def lodepng_convert (out inp : Buf) (mode_out mode_in : LodePNGColorMode) (w h : Nat) :
    Nat × Buf :=
  let numpixels := (w * h) % 2 ^ 32
  if lodepng_color_mode_equal mode_out mode_in then
    (0, forLoop (lodepng_get_raw_size w h mode_in) (fun i o => o.set i (inp i)) out)
  else
    let tree := if mode_out.colortype = LCT_PALETTE then convert_palette_tree mode_out mode_in
                else color_tree_init
    if mode_in.bitdepth = 16 ∧ mode_out.bitdepth = 16 then
      (0, forLoop numpixels (fun i o =>
        rgba16ToPixel o i mode_out (getPixelColorRGBA16 Color.zero inp i mode_in)) out)
    else if mode_out.bitdepth = 8 ∧ mode_out.colortype = LCT_RGBA then
      (0, getPixelColorsRGBA8 out numpixels 1 inp mode_in)
    else if mode_out.bitdepth = 8 ∧ mode_out.colortype = LCT_RGB then
      (0, getPixelColorsRGBA8 out numpixels 0 inp mode_in)
    else
      convert_loop inp mode_out mode_in tree numpixels 0 out Color.zero

/-! ## Vocabulary of the statements -/

/-- The descriptor of an 8-bit RGBA image without key and without palette, as left by
`lodepng_color_mode_init`. -/
def rgba8_mode : LodePNGColorMode := ⟨LCT_RGBA, 8, fun _ => 0, 0, 0, 0, 0, 0⟩

/-- Pixel `i` of an 8-bit RGBA buffer. -/
def pixel_rgba8 (P : Buf) (i : Nat) : Color :=
  ⟨P (i * 4 + 0), P (i * 4 + 1), P (i * 4 + 2), P (i * 4 + 3)⟩

/-- The profile that `lodepng_auto_choose_color` computes for an image. -/
def image_profile (image : Buf) (w h : Nat) (mode_in : LodePNGColorMode) : LodePNGColorProfile :=
  (lodepng_get_color_profile (lodepng_color_profile_init profile_local) image w h mode_in).2

/-- A buffer given by the list of its first bytes (zero beyond). -/
def bufOfList (l : List Nat) : Buf := fun i => l.getD i 0

/-- A greyscale image of two bits per pixel, without key. -/
def grey2_mode : LodePNGColorMode := ⟨LCT_GREY, 2, fun _ => 0, 0, 0, 0, 0, 0⟩

/-- Pixel `i` decodes to `r = g = b` with the decoder that the profile uses for the mode
(`getPixelColorRGBA16` at 16 bits, `getPixelColorRGBA8` below); the pixels of the greyscale
colour types are grey whatever they hold. -/
def decodes_grey (inp : Buf) (mode : LodePNGColorMode) (i : Nat) : Prop :=
  lodepng_is_greyscale_type mode = true ∨
  (if mode.bitdepth = 16 then
     (getPixelColorRGBA16 Color.zero inp i mode).r = (getPixelColorRGBA16 Color.zero inp i mode).g ∧
     (getPixelColorRGBA16 Color.zero inp i mode).r = (getPixelColorRGBA16 Color.zero inp i mode).b
   else
     (getPixelColorRGBA8 Color.zero inp i mode).r = (getPixelColorRGBA8 Color.zero inp i mode).g ∧
     (getPixelColorRGBA8 Color.zero inp i mode).r = (getPixelColorRGBA8 Color.zero inp i mode).b)

/-- Bit `q` of a stream, the most significant bit of each byte first: bit `7 - q % 8` of
byte `q / 8`. -/
def bit_at (buf : Buf) (q : Nat) : Bool := (buf (q / 8)).testBit (7 - q % 8)

/-- The colour that the general loop of `lodepng_convert` and the 8-bit loop of the profile
decode for pixel `i`: the result of `getPixelColorRGBA8` on locals that started at zero. -/
def decoded_pixel (inp : Buf) (mode : LodePNGColorMode) (i : Nat) : Color :=
  getPixelColorRGBA8 Color.zero inp i mode

/-- Entry `j` of a palette stored as `RGBARGBA...`. -/
def palette_entry (pal : Buf) (j : Nat) : Color :=
  ⟨pal (j * 4 + 0), pal (j * 4 + 1), pal (j * 4 + 2), pal (j * 4 + 3)⟩

/-- Every channel of the colour fits in a byte. -/
def Color.IsByte (c : Color) : Prop := c.r < 256 ∧ c.g < 256 ∧ c.b < 256 ∧ c.a < 256

/-- The palette that `lodepng_convert` looks colours up in: that of the target, or that
of the source when the target has none. -/
def effective_palette (mode_out mode_in : LodePNGColorMode) : Buf :=
  if mode_out.palettesize = 0 then mode_in.palette else mode_out.palette

/-- The number of entries of the effective palette that `lodepng_convert` enters in its
tree: `min(palettesize, 2 ^ bitdepth)`. -/
def effective_palsize (mode_out mode_in : LodePNGColorMode) : Nat :=
  min (if mode_out.palettesize = 0 then mode_in.palettesize else mode_out.palettesize)
    (2 ^ mode_out.bitdepth)

/-- The sample stored for pixel `i` in a buffer of one channel of `d` bits per pixel: the
byte itself at 8 bits, the bit group read by `readBitsFromReversedStream` below. -/
def sample_at (buf : Buf) (d i : Nat) : Nat :=
  if d = 8 then buf i else (readBitsFromReversedStream (i * d) buf d).1

/-- The samples `v 0 .. v (k - 1)` of `d` bits each are packed at the start of the
buffer, most significant bit first, and the rest of a byte that is only partly filled is
zero. -/
def packed_upto (d : Nat) (v : Nat → Nat) (k : Nat) (out : Buf) : Prop :=
  (∀ j t, j < k → t < d → bit_at out (j * d + t) = (v j).testBit (d - 1 - t)) ∧
  (∀ q, k * d ≤ q → q / 8 * 8 < k * d → bit_at out q = false)

/-- A palette target of depth 2 whose palette has five entries, the grey levels 1 to 5. -/
def five_entry_palette_mode : LodePNGColorMode :=
  ⟨LCT_PALETTE, 2,
    bufOfList [1, 1, 1, 255, 2, 2, 2, 255, 3, 3, 3, 255, 4, 4, 4, 255, 5, 5, 5, 255],
    5, 0, 0, 0, 0⟩

/-! ## Invariants of the profile of an 8-bit RGBA image -/

/-- After `k` pixels: the bit depth of the profile is legal and, while below 8, the image
so far is grey, opaque or keyed, and every red sample fits in that depth. -/
structure InvBits (P : Buf) (k : Nat) (s : ProfileState) : Prop where
  legal : s.profile.bits = 1 ∨ s.profile.bits = 2 ∨ s.profile.bits = 4 ∨ s.profile.bits = 8
  low : s.profile.bits < 8 → s.profile.colored = 0 ∧ s.profile.alpha = 0 ∧
    ∀ j, j < k → getValueRequiredBits (pixel_rgba8 P j).r ≤ s.profile.bits
  notdone : s.bits_done = false

/-- After `k` pixels: `colored` is 0 or 1, settled exactly when it is 1, and while it is 0
every pixel so far is grey. -/
structure InvColored (P : Buf) (k : Nat) (s : ProfileState) : Prop where
  flag : s.profile.colored = 0 ∨ s.profile.colored = 1
  done : s.colored_done = false ↔ s.profile.colored = 0
  grey : s.profile.colored = 0 → ∀ j, j < k →
    (pixel_rgba8 P j).r = (pixel_rgba8 P j).g ∧ (pixel_rgba8 P j).r = (pixel_rgba8 P j).b

/-- After `k` pixels: `alpha` and `key` are flags; a key is the colour of a fully
transparent pixel met so far; and while `alpha` is 0 every pixel so far is fully opaque,
or fully transparent with the colour of the key. -/
structure InvAlpha (P : Buf) (k : Nat) (s : ProfileState) : Prop where
  flag : s.profile.alpha = 0 ∨ s.profile.alpha = 1
  keyflag : s.profile.key = 0 ∨ s.profile.key = 1
  done : s.alpha_done = false ↔ s.profile.alpha = 0
  solid : s.profile.alpha = 0 → s.profile.key = 0 → ∀ j, j < k → (pixel_rgba8 P j).a = 255
  keyed : s.profile.alpha = 0 → s.profile.key ≠ 0 → ∀ j, j < k →
    (pixel_rgba8 P j).a = 255 ∨
    ((pixel_rgba8 P j).a = 0 ∧ (pixel_rgba8 P j).r = s.profile.key_r ∧
      (pixel_rgba8 P j).g = s.profile.key_g ∧ (pixel_rgba8 P j).b = s.profile.key_b)
  origin : s.profile.key ≠ 0 → ∃ j, j < k ∧ (pixel_rgba8 P j).a = 0 ∧
    (pixel_rgba8 P j).r = s.profile.key_r ∧ (pixel_rgba8 P j).g = s.profile.key_g ∧
    (pixel_rgba8 P j).b = s.profile.key_b

/-- After `k` pixels, while colours are still counted: `numcolors` is the number of
distinct colours met so far, the tree holds exactly these colours and the palette of the
profile holds each of them; once counting has stopped, 257 distinct colours were met. -/
structure InvCount (P : Buf) (k : Nat) (s : ProfileState) : Prop where
  tree_ok : s.tree ≠ ColorTree.null
  counting : s.numcolors_done = false →
    s.profile.numcolors = (Finset.image (pixel_rgba8 P) (Finset.range k)).card ∧
    s.profile.numcolors ≤ 256 ∧
    (∀ c : Color, c.IsByte →
      (0 ≤ color_tree_get s.tree c.r c.g c.b c.a ↔
        c ∈ Finset.image (pixel_rgba8 P) (Finset.range k))) ∧
    (∀ j, j < k → ∃ t, t < s.profile.numcolors ∧
      palette_entry s.profile.palette t = pixel_rgba8 P j)
  full : s.numcolors_done = true →
    s.profile.numcolors = 257 ∧ 257 ≤ (Finset.image (pixel_rgba8 P) (Finset.range k)).card

/-- The four invariants of the scanning loop together. -/
structure InvProfile (P : Buf) (k : Nat) (s : ProfileState) : Prop where
  bits : InvBits P k s
  colored : InvColored P k s
  alpha : InvAlpha P k s
  count : InvCount P k s

/-- What the profile of an 8-bit RGBA image of `n` pixels tells about the image; the key
of the profile is compared in its 16-bit form, each byte `v` being `257 * v`. -/
structure ProfileSound (P : Buf) (n : Nat) (p : LodePNGColorProfile) : Prop where
  bits_legal : p.bits = 1 ∨ p.bits = 2 ∨ p.bits = 4 ∨ p.bits = 8
  colored_flag : p.colored = 0 ∨ p.colored = 1
  alpha_flag : p.alpha = 0 ∨ p.alpha = 1
  key_flag : p.key = 0 ∨ p.key = 1
  grey : p.colored = 0 → ∀ j, j < n →
    (pixel_rgba8 P j).r = (pixel_rgba8 P j).g ∧ (pixel_rgba8 P j).r = (pixel_rgba8 P j).b
  low : p.bits < 8 → p.colored = 0 ∧
    ∀ j, j < n → getValueRequiredBits (pixel_rgba8 P j).r ≤ p.bits
  solid : p.alpha = 0 → p.key = 0 → ∀ j, j < n → (pixel_rgba8 P j).a = 255
  keyed : p.alpha = 0 → p.key ≠ 0 → ∀ j, j < n →
    ((pixel_rgba8 P j).a = 255 ∧
      ¬(257 * (pixel_rgba8 P j).r = p.key_r ∧ 257 * (pixel_rgba8 P j).g = p.key_g ∧
        257 * (pixel_rgba8 P j).b = p.key_b)) ∨
    ((pixel_rgba8 P j).a = 0 ∧ 257 * (pixel_rgba8 P j).r = p.key_r ∧
      257 * (pixel_rgba8 P j).g = p.key_g ∧ 257 * (pixel_rgba8 P j).b = p.key_b)
  origin : p.key ≠ 0 → ∃ j, j < n ∧ (pixel_rgba8 P j).a = 0 ∧
    257 * (pixel_rgba8 P j).r = p.key_r ∧ 257 * (pixel_rgba8 P j).g = p.key_g ∧
    257 * (pixel_rgba8 P j).b = p.key_b
  count_small : p.numcolors ≤ 256 →
    p.numcolors = (Finset.image (pixel_rgba8 P) (Finset.range n)).card ∧
    ∀ j, j < n → ∃ t, t < p.numcolors ∧ palette_entry p.palette t = pixel_rgba8 P j
  count_large : 256 < p.numcolors →
    257 ≤ (Finset.image (pixel_rgba8 P) (Finset.range n)).card

/-- A 17x1 grey 8-bit RGBA image: an opaque black pixel, a fully transparent black pixel,
then the opaque grey levels 17, 34, 51, 68, 85, 102 and nine pixels of level 119. -/
def shared_key_image : Buf :=
  bufOfList [0, 0, 0, 255, 0, 0, 0, 0, 17, 17, 17, 255, 34, 34, 34, 255, 51, 51, 51, 255,
    68, 68, 68, 255, 85, 85, 85, 255, 102, 102, 102, 255, 119, 119, 119, 255,
    119, 119, 119, 255, 119, 119, 119, 255, 119, 119, 119, 255, 119, 119, 119, 255,
    119, 119, 119, 255, 119, 119, 119, 255, 119, 119, 119, 255, 119, 119, 119, 255]

/-! ## Scanlines: padding bits and the filter stage -/

/-- The function `setBitOfReversedStream`: sets or clears bit `7 - (bitpointer & 7)` of byte
`bitpointer >> 3`; returns the advanced bit pointer and the buffer. -/
def setBitOfReversedStream (bitpointer : Nat) (bitstream : Buf) (bit : Nat) : Nat × Buf :=
  if bit = 0 then
    (bitpointer + 1, bitstream.set (bitpointer >>> 3)
      (bitstream (bitpointer >>> 3) &&& (255 - (1 <<< (7 - (bitpointer &&& 7))))))
  else
    (bitpointer + 1, bitstream.set (bitpointer >>> 3)
      ((bitstream (bitpointer >>> 3) ||| (1 <<< (7 - (bitpointer &&& 7)))) % 256))

/-- The locals `obp`, `ibp` of `addPaddingBits` and the content of its output buffer. -/
structure PadState where
  obp : Nat
  ibp : Nat
  out : Buf

/-- One iteration of the loop of `addPaddingBits` that copies the bits of a line. -/
def pad_copy_bit (inp : Buf) (s : PadState) : PadState :=
  let bit := readBitFromReversedStream s.ibp inp
  let o := setBitOfReversedStream s.obp s.out bit.1
  { obp := o.1, ibp := bit.2, out := o.2 }

/-- One iteration of the loop of `addPaddingBits` that fills the padding of a line. -/
def pad_zero_bit (s : PadState) : PadState :=
  let o := setBitOfReversedStream s.obp s.out 0
  { s with obp := o.1, out := o.2 }

/-- The body of the loop over the lines in `addPaddingBits`. -/
def pad_line (inp : Buf) (ilinebits diff : Nat) (s : PadState) : PadState :=
  forLoop diff (fun _ t => pad_zero_bit t) (forLoop ilinebits (fun _ t => pad_copy_bit inp t) s)

/-- The function `addPaddingBits`: `out` is the content of the output buffer on entry, the
result its content on exit; `diff = olinebits - ilinebits` is a difference of `size_t`. -/
def addPaddingBits (out inp : Buf) (olinebits ilinebits h : Nat) : Buf :=
  let diff := (olinebits + 2 ^ 64 - ilinebits) % 2 ^ 64
  (forLoop h (fun _ s => pad_line inp ilinebits diff s) ⟨0, 0, out⟩).out

/-- The function `paethPredictor` on its `short` arguments; the result is an
`unsigned char`. -/
def paethPredictor (a b c : Int) : Nat :=
  let pa := |b - c|
  let pb := |a - c|
  let pc := |a + b - c - c|
  if pc < pa ∧ pc < pb then (c % 256).toNat
  else if pb < pa then (b % 256).toNat
  else (a % 256).toNat

/-- The value stored by `out[i] = x - y` into an `unsigned char`. -/
def byte_diff (x y : Nat) : Nat := (((x : Int) - (y : Int)) % 256).toNat

/-- The function `filterScanline`: `out`, `scanline` and `prevline` point at the offsets
`o` of the output buffer and `s`, `p` of the input buffer; `prevline` is `none` for the null
pointer. -/
def filterScanline (out : Buf) (o : Nat) (inp : Buf) (s : Nat) (prevline : Option Nat)
    (length bytewidth filterType : Nat) : Buf :=
  if filterType = 0 then
    forLoop length (fun i b => b.set (o + i) (inp (s + i))) out
  else if filterType = 1 then
    forLoop (length - bytewidth)
      (fun j b => b.set (o + (bytewidth + j))
        (byte_diff (inp (s + (bytewidth + j))) (inp (s + j))))
      (forLoop bytewidth (fun i b => b.set (o + i) (inp (s + i))) out)
  else if filterType = 2 then
    match prevline with
    | some p => forLoop length (fun i b => b.set (o + i) (byte_diff (inp (s + i)) (inp (p + i)))) out
    | none => forLoop length (fun i b => b.set (o + i) (inp (s + i))) out
  else if filterType = 3 then
    match prevline with
    | some p =>
      forLoop (length - bytewidth)
        (fun j b => b.set (o + (bytewidth + j))
          (byte_diff (inp (s + (bytewidth + j))) ((inp (s + j) + inp (p + (bytewidth + j))) >>> 1)))
        (forLoop bytewidth
          (fun i b => b.set (o + i) (byte_diff (inp (s + i)) (inp (p + i) >>> 1))) out)
    | none =>
      forLoop (length - bytewidth)
        (fun j b => b.set (o + (bytewidth + j))
          (byte_diff (inp (s + (bytewidth + j))) (inp (s + j) >>> 1)))
        (forLoop bytewidth (fun i b => b.set (o + i) (inp (s + i))) out)
  else if filterType = 4 then
    match prevline with
    | some p =>
      forLoop (length - bytewidth)
        (fun j b => b.set (o + (bytewidth + j))
          (byte_diff (inp (s + (bytewidth + j)))
            (paethPredictor (inp (s + j)) (inp (p + (bytewidth + j))) (inp (p + j)))))
        (forLoop bytewidth
          (fun i b => b.set (o + i) (byte_diff (inp (s + i)) (inp (p + i)))) out)
    | none =>
      forLoop (length - bytewidth)
        (fun j b => b.set (o + (bytewidth + j))
          (byte_diff (inp (s + (bytewidth + j))) (inp (s + j))))
        (forLoop bytewidth (fun i b => b.set (o + i) (inp (s + i))) out)
  else out

/-- The body of the loop over the scanlines in `filter`: the state is the output buffer
and the pointer `prevline`. -/
def filter_line (inp : Buf) (linebytes bytewidth : Nat) (y : Nat) (st : Buf × Option Nat) :
    Buf × Option Nat :=
  let outindex := linebytes * y
  let inindex := linebytes * y
  (filterScanline (st.1.set outindex 0) outindex inp inindex st.2 linebytes bytewidth 0,
   some inindex)

/-- The function `filter`: `out` is the content of the output buffer on entry; returns the
error code and the content of the output buffer on exit. -/
def filter (out inp : Buf) (w h : Nat) (info : LodePNGColorMode) : Nat × Buf :=
  let bpp := lodepng_get_bpp info
  let linebytes := (w * bpp + 7) % 2 ^ 32 / 8
  let bytewidth := (bpp + 7) % 2 ^ 32 / 8
  if bpp = 0 then (31, out)
  else if info.colortype = LCT_PALETTE ∨ info.bitdepth < 8 then
    (0, (forLoop h (filter_line inp linebytes bytewidth) (out, none)).1)
  else (88, out)

/-- The function `preProcessScanlines`: `out0` and `padded0` are the contents of the two
allocated buffers before they are written; returns the error code, `*outsize` and the
content of `*out`. -/
def preProcessScanlines (out0 padded0 inp : Buf) (w h : Nat) (color : LodePNGColorMode) :
    Nat × Nat × Buf :=
  let bpp := lodepng_get_bpp color
  let linebytes := (w * bpp + 7) % 2 ^ 32 / 8
  let outsize := (h * linebytes) % 2 ^ 32
  let padded := addPaddingBits padded0 inp ((linebytes * 8) % 2 ^ 32) ((w * bpp) % 2 ^ 32) h
  let res := filter out0 padded w h color
  (res.1, outsize, res.2)

/-- A palette descriptor of depth 8 whose palette holds the single entry `(r, g, b, 255)`. -/
def one_entry_palette_mode (r g b : Nat) : LodePNGColorMode :=
  ⟨LCT_PALETTE, 8, bufOfList [r, g, b, 255], 1, 0, 0, 0, 0⟩

/-- A palette descriptor of depth 8 with the empty palette. -/
def empty_palette_mode : LodePNGColorMode := ⟨LCT_PALETTE, 8, fun _ => 0, 0, 0, 0, 0, 0⟩

/-- The legal pairs of colour type and bit depth, as the specification lists them:
Grey 1, 2, 4, 8, 16; RGB 8, 16; Palette 1, 2, 4, 8; GreyAlpha 8, 16; RGBA 8, 16. -/
def legal_pair (colortype bitdepth : Nat) : Prop :=
  (colortype = LCT_GREY ∧
    (bitdepth = 1 ∨ bitdepth = 2 ∨ bitdepth = 4 ∨ bitdepth = 8 ∨ bitdepth = 16)) ∨
  (colortype = LCT_RGB ∧ (bitdepth = 8 ∨ bitdepth = 16)) ∨
  (colortype = LCT_PALETTE ∧ (bitdepth = 1 ∨ bitdepth = 2 ∨ bitdepth = 4 ∨ bitdepth = 8)) ∨
  (colortype = LCT_GREY_ALPHA ∧ (bitdepth = 8 ∨ bitdepth = 16)) ∨
  (colortype = LCT_RGBA ∧ (bitdepth = 8 ∨ bitdepth = 16))

instance (colortype bitdepth : Nat) : Decidable (legal_pair colortype bitdepth) := by
  unfold legal_pair; infer_instance

/-- The number of channels of the five colour types, as the specification lists them:
Grey 1, RGB 3, Palette 1, GreyAlpha 2, RGBA 4. -/
def channel_count (colortype : Nat) : Nat :=
  if colortype = LCT_GREY then 1
  else if colortype = LCT_RGB then 3
  else if colortype = LCT_PALETTE then 1
  else if colortype = LCT_GREY_ALPHA then 2
  else 4

/-- The 2x2 image of the concrete scenario: three opaque black pixels and an opaque white
one, 8-bit RGBA. -/
def scenario_image : Buf :=
  bufOfList [0, 0, 0, 255, 0, 0, 0, 255, 0, 0, 0, 255, 255, 255, 255, 255]

/-- A greyscale descriptor of one bit per pixel, without key. -/
def grey1_mode : LodePNGColorMode := ⟨LCT_GREY, 1, fun _ => 0, 0, 0, 0, 0, 0⟩

/-- A descriptor whose colour type, 5, is none of the five PNG colour types. -/
def unknown_type_mode : LodePNGColorMode := ⟨5, 8, fun _ => 0, 0, 0, 0, 0, 0⟩

/-! ## Invariant of the padding loop -/

/-- The bytes below the output bit pointer are bytes. -/
def PadValid (s : PadState) : Prop := ∀ i, i * 8 < s.obp → s.out i < 256

/-- After `y` lines of `addPaddingBits`: the bit pointers, the bits of the lines written so
far, and the bytes written so far. -/
structure PadInv (inp : Buf) (il diff y : Nat) (s : PadState) : Prop where
  obp_eq : s.obp = y * (il + diff)
  ibp_eq : s.ibp = y * il
  copied : ∀ j x, j < y → x < il → bit_at s.out (j * (il + diff) + x) = bit_at inp (j * il + x)
  cleared : ∀ j x, j < y → il ≤ x → x < il + diff → bit_at s.out (j * (il + diff) + x) = false
  valid : PadValid s

/-- The profile that `lodepng_auto_choose_color` decides on: the profile of the image after
the adjustment `if(prof.key && w * h <= 16)`. -/
def chosen_profile (image : Buf) (w h : Nat) (mode_in : LodePNGColorMode) :
    LodePNGColorProfile :=
  choose_adjust_profile (image_profile image w h mode_in) ((w * h) % 2 ^ 32)

/-- A palette source of depth 2 with the three entries red, green, blue. -/
def rgb_palette_mode : LodePNGColorMode :=
  ⟨LCT_PALETTE, 2, bufOfList [255, 0, 0, 255, 0, 255, 0, 255, 0, 0, 255, 255], 3, 0, 0, 0, 0⟩

/-- A 3x3 image in `rgb_palette_mode`: the indices 0, 1, 2 three times over. -/
def rgb_palette_image : Buf := bufOfList [24, 97, 128]

/-- The 8-bit RGBA image made of the high bytes of a 16-bit RGBA image: sample `c` of pixel
`i` is byte `i * 8 + 2 * c` of the 16-bit buffer. -/
def high_bytes (inp : Buf) : Buf := fun j => inp (j / 4 * 8 + j % 4 * 2)

/-- The sample `k` is the one sample of depth `d` that stands for the 8-bit level `v`:
`k < 2 ^ d`, `k * 255 / (2 ^ d - 1) = v`, and no other sample of that depth gives `v`. -/
def sample_of_level (d v k : Nat) : Prop :=
  k < 2 ^ d ∧ k * 255 / (2 ^ d - 1) = v ∧
  ∀ k2, k2 < 2 ^ d → k2 * 255 / (2 ^ d - 1) = v → k2 = k

/-- A 17x1 grey 8-bit RGBA image: a fully transparent pixel of level 85, an opaque pixel of
level 170 and fifteen opaque black pixels. -/
def keyed_grey_image : Buf :=
  bufOfList [85, 85, 85, 0, 170, 170, 170, 255, 0, 0, 0, 255, 0, 0, 0, 255, 0, 0, 0, 255,
    0, 0, 0, 255, 0, 0, 0, 255, 0, 0, 0, 255, 0, 0, 0, 255, 0, 0, 0, 255, 0, 0, 0, 255,
    0, 0, 0, 255, 0, 0, 0, 255, 0, 0, 0, 255, 0, 0, 0, 255, 0, 0, 0, 255, 0, 0, 0, 255]

/-- The 8-bit level `v` is exactly representable at depth `d`: `v = k * 255 / (2 ^ d - 1)`
for a sample `k < 2 ^ d`. -/
def level_representable (d v : Nat) : Prop := ∃ k, k < 2 ^ d ∧ k * 255 / (2 ^ d - 1) = v

/-- After `k` pixels of an 8-bit RGBA image whose pixels so far are grey and fully opaque:
no key, no alpha, and `bits` is the largest of 1 and the bits required by the red samples
so far. -/
structure InvGreyOpaque (P : Buf) (k : Nat) (s : ProfileState) : Prop where
  key0 : s.profile.key = 0
  alpha0 : s.profile.alpha = 0
  colored0 : s.profile.colored = 0
  notdone : s.bits_done = false
  bits_le : s.profile.bits ≤ 8
  attained : s.profile.bits = 1 ∨
    ∃ j, j < k ∧ getValueRequiredBits (pixel_rgba8 P j).r = s.profile.bits
  bound : ∀ j, j < k → getValueRequiredBits (pixel_rgba8 P j).r ≤ s.profile.bits

/-- Pixel `i` of an 8-bit RGBA image has a colour that no earlier pixel has. -/
def new_colour_at (P : Buf) (i : Nat) : Prop :=
  ∀ i2, i2 < i → pixel_rgba8 P i2 ≠ pixel_rgba8 P i

instance (P : Buf) (i : Nat) : Decidable (new_colour_at P i) := by
  unfold new_colour_at; infer_instance

/-- The distinct colours of the first `n` pixels of an 8-bit RGBA image in order of first
occurrence: the colours of the pixels at which a new colour appears, in scan order. -/
def first_seen (P : Buf) (n : Nat) : List Color :=
  ((List.range n).filter (fun i => decide (new_colour_at P i))).map (pixel_rgba8 P)

/-- After `k` pixels: `numcolors` is the number of distinct colours so far, capped at 257,
and the palette of the profile holds the first 256 of them in order of first occurrence. -/
structure InvOrder (P : Buf) (k : Nat) (s : ProfileState) : Prop where
  count : s.profile.numcolors = min (first_seen P k).length 257
  entries : ∀ t, t < s.profile.numcolors → t < 256 →
    palette_entry s.profile.palette t = (first_seen P k).getD t Color.zero

/-- The byte `scanline[i - bytewidth]` to the left of byte `i` of a scanline that starts at
offset `s`; 0 when there is none (`i < bytewidth`). -/
def filter_left (inp : Buf) (s bytewidth i : Nat) : Nat :=
  if i < bytewidth then 0 else inp (s + (i - bytewidth))

/-- The byte `prevline[i]` above byte `i`; 0 when there is no previous line. -/
def filter_up (inp : Buf) (prevline : Option Nat) (i : Nat) : Nat :=
  match prevline with
  | some p => inp (p + i)
  | none => 0

/-- The byte `prevline[i - bytewidth]` above and to the left of byte `i`; 0 when there is
none (`i < bytewidth`, or no previous line). -/
def filter_upleft (inp : Buf) (prevline : Option Nat) (bytewidth i : Nat) : Nat :=
  if i < bytewidth then 0
  else match prevline with
    | some p => inp (p + (i - bytewidth))
    | none => 0

/-- The value that the PNG filter of type `t` subtracts from a byte, given its three
neighbours: nothing, the left byte, the upper byte, the floor of their mean, or the Paeth
predictor. -/
def filter_prediction (t left up upleft : Nat) : Nat :=
  if t = 0 then 0
  else if t = 1 then left
  else if t = 2 then up
  else if t = 3 then (left + up) / 2
  else paethPredictor left up upleft

/-- The number whose `n` binary digits, the most significant first, are the bits
`p, p + 1, .., p + n - 1` of a stream: the sum of `bit (p + k) * 2 ^ (n - 1 - k)`. -/
def bits_value (buf : Buf) (p n : Nat) : Nat :=
  Finset.sum (Finset.range n) (fun k => (bit_at buf (p + k)).toNat * 2 ^ (n - 1 - k))

/-- The tree built from an empty root by `color_tree_add` of the colours of a list with
their indices, in the order of the list. -/
def tree_of_colors (l : List (Color × Nat)) : ColorTree :=
  l.foldl (fun t e => color_tree_add t e.1.r e.1.g e.1.b e.1.a e.2) color_tree_init

/-- Whether the C operations of `getPixelColorRGBA8` are defined for the mode.  In the
greyscale branch for depths other than 8 and 16 the source computes
`highest = (1U << bitdepth) - 1U` and divides by it (`(value * 255) / highest`): the shift
needs `bitdepth < 32` and the division `highest != 0`, that is `bitdepth != 0`.  In the
palette branch for depths other than 8, `readBitsFromReversedStream` shifts a bit by up to
`bitdepth - 1` places in an `unsigned`, which needs `bitdepth <= 32`.  The other branches
only read bytes. -/
def getPixelColorRGBA8_defined (mode : LodePNGColorMode) : Bool :=
  if mode.colortype = LCT_GREY then
    decide (mode.bitdepth = 8 ∨ mode.bitdepth = 16 ∨ (mode.bitdepth ≠ 0 ∧ mode.bitdepth < 32))
  else if mode.colortype = LCT_PALETTE then
    decide (mode.bitdepth = 8 ∨ mode.bitdepth ≤ 32)
  else true

/-- The function `lodepng_get_color_profile` with the undefined operations of its decoder
made explicit.  When the input is not read as 16-bit the scanning loop calls
`getPixelColorRGBA8` on pixel 0 as soon as there is a pixel; if the decoder is not defined
for the mode the call has no result (`none`).  Otherwise the result is that of
`lodepng_get_color_profile`. -/
def lodepng_get_color_profile_checked (profile : LodePNGColorProfile) (inp : Buf) (w h : Nat)
    (mode : LodePNGColorMode) : Option (Nat × LodePNGColorProfile) :=
  let numpixels := (w * h) % 2 ^ 32
  if profile_sixteen inp numpixels mode = false ∧ numpixels ≠ 0 ∧
      getPixelColorRGBA8_defined mode = false then none
  else some (lodepng_get_color_profile profile inp w h mode)

/-! ## Basic facts on buffers and loops -/

@[simp] theorem Buf.set_same (b : Buf) (i v : Nat) : b.set i v i = v := by
  simp [Buf.set]

theorem Buf.set_other (b : Buf) (i v j : Nat) (h : j ≠ i) : b.set i v j = b j := by
  simp [Buf.set, h]

theorem Buf.set_apply (b : Buf) (i v j : Nat) : b.set i v j = if j = i then v else b j := rfl

@[simp] theorem forLoop_zero {σ : Type} (body : Nat → σ → σ) (s : σ) : forLoop 0 body s = s := rfl

theorem forLoop_succ {σ : Type} (n : Nat) (body : Nat → σ → σ) (s : σ) :
    forLoop (n + 1) body s = body n (forLoop n body s) := rfl

/-- The copying loop `for(i = 0; i != n; ++i) out[i] = in[i]`. -/
theorem forLoop_copy (inp : Buf) (n : Nat) (out : Buf) (j : Nat) :
    forLoop n (fun i o => o.set i (inp i)) out j = if j < n then inp j else out j := by
  induction n with
  | zero => simp
  | succ k ih =>
    rw [forLoop_succ, Buf.set_apply, ih]
    by_cases h1 : j = k
    · subst h1; simp
    · by_cases h2 : j < k
      · have : j < k + 1 := by omega
        simp [h1, h2, this]
      · have : ¬ j < k + 1 := by omega
        simp [h1, h2, this]

theorem lodepng_color_mode_equal_self (a : LodePNGColorMode) :
    lodepng_color_mode_equal a a = true := by
  simp [lodepng_color_mode_equal]

/-! ## C8: equal descriptors -/

/-- C8: converting a buffer between equal descriptors returns 0 and leaves in the output
every one of the `lodepng_get_raw_size(w, h, D)` bytes of the input, for any descriptor
`D`, any `w`, `h` and any prior content of the output buffer. -/
theorem C8_convert_equal_descriptor_copies (D : LodePNGColorMode) (w h : Nat) (out P : Buf) :
    (lodepng_convert out P D D w h).1 = 0 ∧
    ∀ i, i < lodepng_get_raw_size w h D → (lodepng_convert out P D D w h).2 i = P i := by
  unfold lodepng_convert
  simp only [lodepng_color_mode_equal_self, if_true]
  refine ⟨trivial, ?_⟩
  intro i hi
  rw [forLoop_copy]
  simp [hi]

/-! ## C5: small images -/

theorem lodepng_get_color_profile_error (p : LodePNGColorProfile) (inp : Buf) (w h : Nat)
    (mode : LodePNGColorMode) : (lodepng_get_color_profile p inp w h mode).1 = 0 := by
  unfold lodepng_get_color_profile
  dsimp only
  split <;> rfl

theorem bits_at_least_8_bits (p : LodePNGColorProfile) : 8 ≤ (bits_at_least_8 p).bits := by
  unfold bits_at_least_8
  split
  · exact Nat.le_refl 8
  · omega

@[simp] theorem bits_at_least_8_alpha (p : LodePNGColorProfile) :
    (bits_at_least_8 p).alpha = p.alpha := by
  unfold bits_at_least_8; split <;> rfl

@[simp] theorem bits_at_least_8_colored (p : LodePNGColorProfile) :
    (bits_at_least_8 p).colored = p.colored := by
  unfold bits_at_least_8; split <;> rfl

@[simp] theorem bits_at_least_8_key (p : LodePNGColorProfile) :
    (bits_at_least_8 p).key = p.key := by
  unfold bits_at_least_8; split <;> rfl

/-- The descriptor chosen for an image, as a function of its profile. -/
theorem lodepng_auto_choose_color_eq (mode_out mode_in : LodePNGColorMode) (image : Buf)
    (w h : Nat) :
    (lodepng_auto_choose_color mode_out image w h mode_in).2 =
      if choose_palette_ok (choose_adjust_profile (image_profile image w h mode_in)
          ((w * h) % 2 ^ 32)) ((w * h) % 2 ^ 32) then
        choose_palette { mode_out with key_defined := 0 }
          (choose_adjust_profile (image_profile image w h mode_in) ((w * h) % 2 ^ 32)) mode_in
      else
        choose_plain { mode_out with key_defined := 0 }
          (choose_adjust_profile (image_profile image w h mode_in) ((w * h) % 2 ^ 32)) := by
  have herr := lodepng_get_color_profile_error (lodepng_color_profile_init profile_local)
    image w h mode_in
  unfold lodepng_auto_choose_color image_profile
  simp only [herr, ne_eq, not_true_eq_false, if_false]
  split <;> rfl

theorem choose_palette_colortype (mode_out mode_in : LodePNGColorMode)
    (prof : LodePNGColorProfile) :
    (choose_palette mode_out prof mode_in).colortype = LCT_PALETTE := by
  unfold choose_palette
  dsimp only
  split
  · rename_i h
    simp [lodepng_color_mode_copy, h.1]
  · rfl

theorem choose_plain_colortype (m : LodePNGColorMode) (p : LodePNGColorProfile) :
    (choose_plain m p).colortype =
      if p.alpha ≠ 0 then (if p.colored ≠ 0 then LCT_RGBA else LCT_GREY_ALPHA)
      else (if p.colored ≠ 0 then LCT_RGB else LCT_GREY) := by
  unfold choose_plain
  dsimp only
  split <;> rfl

theorem choose_plain_bitdepth (m : LodePNGColorMode) (p : LodePNGColorProfile) :
    (choose_plain m p).bitdepth = p.bits := by
  unfold choose_plain
  dsimp only
  split <;> rfl

theorem choose_plain_key_defined (m : LodePNGColorMode) (p : LodePNGColorProfile) :
    (choose_plain m p).key_defined = if p.key ≠ 0 ∧ p.alpha = 0 then 1 else m.key_defined := by
  unfold choose_plain
  dsimp only
  split <;> rfl

/-- C5: for an image of at most 16 pixels, whatever the source mode, the chosen descriptor
is never Grey or RGB with a colour key; and when the profile holds a candidate key, alpha
is forced in the profile (`alpha = 1`, `bits >= 8`) and the result is Palette, or GreyAlpha
or RGBA with at least 8 bits. -/
theorem C5_small_image_never_keyed (mode_out mode_in : LodePNGColorMode) (image : Buf)
    (w h : Nat) (hsmall : w * h ≤ 16) :
    (((lodepng_auto_choose_color mode_out image w h mode_in).2.colortype = LCT_GREY ∨
      (lodepng_auto_choose_color mode_out image w h mode_in).2.colortype = LCT_RGB) →
      (lodepng_auto_choose_color mode_out image w h mode_in).2.key_defined = 0) ∧
    ((image_profile image w h mode_in).key ≠ 0 →
      (choose_adjust_profile (image_profile image w h mode_in) ((w * h) % 2 ^ 32)).alpha = 1 ∧
      8 ≤ (choose_adjust_profile (image_profile image w h mode_in) ((w * h) % 2 ^ 32)).bits ∧
      ((lodepng_auto_choose_color mode_out image w h mode_in).2.colortype = LCT_PALETTE ∨
       (((lodepng_auto_choose_color mode_out image w h mode_in).2.colortype = LCT_GREY_ALPHA ∨
         (lodepng_auto_choose_color mode_out image w h mode_in).2.colortype = LCT_RGBA) ∧
        8 ≤ (lodepng_auto_choose_color mode_out image w h mode_in).2.bitdepth))) := by
  have hwh : (w * h) % 2 ^ 32 = w * h := Nat.mod_eq_of_lt (by omega)
  rw [lodepng_auto_choose_color_eq, hwh]
  generalize image_profile image w h mode_in = prof
  have hadjk : prof.key ≠ 0 → choose_adjust_profile prof (w * h) =
      bits_at_least_8 { prof with alpha := 1 } := by
    intro hk
    simp [choose_adjust_profile, hk, hsmall]
  by_cases hpal : choose_palette_ok (choose_adjust_profile prof (w * h)) (w * h) = true
  · simp only [hpal, if_true, choose_palette_colortype]
    refine ⟨fun h => ?_, fun hk => ?_⟩
    · rcases h with h | h <;> exact absurd h (by decide)
    · rw [hadjk hk]
      exact ⟨by simp, bits_at_least_8_bits _, Or.inl trivial⟩
  · simp only [hpal, Bool.false_eq_true, if_false]
    by_cases hk : prof.key = 0
    · have hadj : choose_adjust_profile prof (w * h) = prof := by
        simp [choose_adjust_profile, hk]
      simp [hadj, choose_plain_key_defined, hk]
    · have hb := bits_at_least_8_bits { prof with alpha := 1 }
      rw [hadjk hk]
      simp only [choose_plain_colortype, choose_plain_bitdepth, choose_plain_key_defined,
        bits_at_least_8_alpha, bits_at_least_8_colored, bits_at_least_8_key]
      refine ⟨?_, ?_⟩
      · intro _
        simp
      · intro _
        refine ⟨trivial, hb, Or.inr ⟨?_, hb⟩⟩
        by_cases hc : prof.colored = 0 <;> simp [hc]

/-- Witness of C5: a 2x1 image with one transparent pixel, whose profile holds a key, gets
alpha forced and the mode RGBA or GreyAlpha of at least 8 bits, or Palette. -/
theorem C5_small_image_never_keyed_witness :
    (choose_adjust_profile (image_profile (bufOfList [10, 20, 30, 0, 1, 2, 3, 255]) 2 1
      rgba8_mode) ((2 * 1) % 2 ^ 32)).alpha = 1 ∧
    8 ≤ (choose_adjust_profile (image_profile (bufOfList [10, 20, 30, 0, 1, 2, 3, 255]) 2 1
      rgba8_mode) ((2 * 1) % 2 ^ 32)).bits ∧
    ((lodepng_auto_choose_color rgba8_mode (bufOfList [10, 20, 30, 0, 1, 2, 3, 255]) 2 1
        rgba8_mode).2.colortype = LCT_PALETTE ∨
      (((lodepng_auto_choose_color rgba8_mode (bufOfList [10, 20, 30, 0, 1, 2, 3, 255]) 2 1
          rgba8_mode).2.colortype = LCT_GREY_ALPHA ∨
        (lodepng_auto_choose_color rgba8_mode (bufOfList [10, 20, 30, 0, 1, 2, 3, 255]) 2 1
          rgba8_mode).2.colortype = LCT_RGBA) ∧
       8 ≤ (lodepng_auto_choose_color rgba8_mode (bufOfList [10, 20, 30, 0, 1, 2, 3, 255]) 2 1
          rgba8_mode).2.bitdepth)) :=
  (C5_small_image_never_keyed rgba8_mode rgba8_mode (bufOfList [10, 20, 30, 0, 1, 2, 3, 255]) 2 1
    (by decide)).2 (by decide)

/-! ## C10, C1, C3: greyscale below 8 bits in the general decoder -/

/-- C10 fails on the code: for a 2-bit greyscale pixel of value 3 the fast decoder
`getPixelColorsRGBA8` stores red 255, whereas the general decoder `getPixelColorRGBA8`
leaves red at its previous value 0, which `rgba8ToPixel` then stores. -/
theorem C10_fast_and_general_decoders_differ :
    getPixelColorsRGBA8 (fun _ => 0) 1 1 (bufOfList [192]) grey2_mode 0 = 255 ∧
    (getPixelColorRGBA8 Color.zero (bufOfList [192]) 0 grey2_mode).r = 0 ∧
    (rgba8ToPixel (fun _ => 0) 0 rgba8_mode color_tree_init
      (getPixelColorRGBA8 Color.zero (bufOfList [192]) 0 grey2_mode)).2 0 = 0 := by
  decide

/-- C1 fails on the code: for the 1x1 greyscale image of depth 2 holding the value 3
(white) the chosen mode is Grey of depth 1, the conversion returns 0, and the converted
image decodes to red 0 whereas the source image decodes to red 255. -/
theorem C1_reduction_of_grey2_is_lossy :
    (lodepng_auto_choose_color grey2_mode (bufOfList [192]) 1 1 grey2_mode).2.colortype
      = LCT_GREY ∧
    (lodepng_auto_choose_color grey2_mode (bufOfList [192]) 1 1 grey2_mode).2.bitdepth = 1 ∧
    (lodepng_convert (fun _ => 0) (bufOfList [192])
      (lodepng_auto_choose_color grey2_mode (bufOfList [192]) 1 1 grey2_mode).2
      grey2_mode 1 1).1 = 0 ∧
    (lodepng_convert (fun _ => 0)
      (lodepng_convert (fun _ => 0) (bufOfList [192])
        (lodepng_auto_choose_color grey2_mode (bufOfList [192]) 1 1 grey2_mode).2
        grey2_mode 1 1).2
      rgba8_mode
      (lodepng_auto_choose_color grey2_mode (bufOfList [192]) 1 1 grey2_mode).2 1 1).2 0 = 0 ∧
    (lodepng_convert (fun _ => 0) (bufOfList [192]) rgba8_mode grey2_mode 1 1).2 0 = 255 := by
  decide

/-- C3 fails on the code: for the 1x1 RGBA image (85, 85, 85, 255) the chosen mode is
Grey of depth 2, and choosing again on the converted image yields depth 1. -/
theorem C3_choice_is_not_a_fixed_point :
    (lodepng_auto_choose_color rgba8_mode (bufOfList [85, 85, 85, 255]) 1 1
      rgba8_mode).2.colortype = LCT_GREY ∧
    (lodepng_auto_choose_color rgba8_mode (bufOfList [85, 85, 85, 255]) 1 1
      rgba8_mode).2.bitdepth = 2 ∧
    (lodepng_convert (fun _ => 0) (bufOfList [85, 85, 85, 255])
      (lodepng_auto_choose_color rgba8_mode (bufOfList [85, 85, 85, 255]) 1 1 rgba8_mode).2
      rgba8_mode 1 1).1 = 0 ∧
    (lodepng_auto_choose_color
      (lodepng_auto_choose_color rgba8_mode (bufOfList [85, 85, 85, 255]) 1 1 rgba8_mode).2
      (lodepng_convert (fun _ => 0) (bufOfList [85, 85, 85, 255])
        (lodepng_auto_choose_color rgba8_mode (bufOfList [85, 85, 85, 255]) 1 1 rgba8_mode).2
        rgba8_mode 1 1).2
      1 1
      (lodepng_auto_choose_color rgba8_mode (bufOfList [85, 85, 85, 255]) 1 1
        rgba8_mode).2).2.bitdepth = 1 := by
  decide

/-! ## Loop invariants -/

theorem forLoop_invariant {σ : Type} (Inv : σ → Prop) (n : Nat) (body : Nat → σ → σ)
    (hstep : ∀ i s, i < n → Inv s → Inv (body i s)) (s : σ) (h0 : Inv s) :
    Inv (forLoop n body s) := by
  induction n with
  | zero => exact h0
  | succ k ih =>
    rw [forLoop_succ]
    exact hstep k _ (Nat.lt_succ_self k)
      (ih (fun i s hi hs => hstep i s (Nat.lt_succ_of_lt hi) hs))

theorem profile_loop8_invariant (Inv : ProfileState → Prop) (inp : Buf) (mode : LodePNGColorMode)
    (bpp maxn n : Nat)
    (hstep : ∀ i s, i < n → Inv s → Inv (profile_step8 inp mode bpp maxn i s)) :
    ∀ fuel i s, i + fuel ≤ n → Inv s → Inv (profile_loop8 inp mode bpp maxn fuel i s) := by
  intro fuel
  induction fuel with
  | zero => intro i s _ hs; exact hs
  | succ k ih =>
    intro i s hi hs
    unfold profile_loop8
    dsimp only
    have h1 := hstep i s (by omega) hs
    split
    · exact h1
    · exact ih (i + 1) _ (by omega) h1

theorem profile_loop16_invariant (Inv : ProfileState → Prop) (inp : Buf) (mode : LodePNGColorMode)
    (n : Nat)
    (hstep : ∀ i s, i < n → Inv s → Inv (profile_step16 inp mode i s)) :
    ∀ fuel i s, i + fuel ≤ n → Inv s → Inv (profile_loop16 inp mode fuel i s) := by
  intro fuel
  induction fuel with
  | zero => intro i s _ hs; exact hs
  | succ k ih =>
    intro i s hi hs
    unfold profile_loop16
    dsimp only
    have h1 := hstep i s (by omega) hs
    split
    · exact h1
    · exact ih (i + 1) _ (by omega) h1

/-! ## C7: greyscale detection -/

/-- What the blocks of the 8-bit loop do to `colored` and `colored_done`. -/
theorem profile_bits8_colored (bpp : Nat) (s : ProfileState) :
    (profile_bits8 bpp s).profile.colored = s.profile.colored ∧
    (profile_bits8 bpp s).colored_done = s.colored_done ∧
    (profile_bits8 bpp s).c = s.c := by
  unfold profile_bits8
  dsimp only
  refine ⟨?_, rfl, rfl⟩
  split
  · split <;> rfl
  · rfl

theorem profile_alpha8_colored (s : ProfileState) :
    (profile_alpha8 s).profile.colored = s.profile.colored ∧
    (profile_alpha8 s).colored_done = s.colored_done ∧
    (profile_alpha8 s).c = s.c := by
  unfold profile_alpha8
  dsimp only
  split
  · split
    · simp
    · split
      · simp
      · split
        · simp
        · simp
  · simp

theorem profile_numcolors8_colored (maxn : Nat) (s : ProfileState) :
    (profile_numcolors8 maxn s).profile.colored = s.profile.colored ∧
    (profile_numcolors8 maxn s).colored_done = s.colored_done ∧
    (profile_numcolors8 maxn s).c = s.c := by
  unfold profile_numcolors8
  dsimp only
  split
  · split <;> simp
  · simp

theorem profile_colored8_colored (s : ProfileState)
    (h : s.colored_done = true ∨ (s.c.r = s.c.g ∧ s.c.r = s.c.b)) :
    (profile_colored8 s).profile.colored = s.profile.colored ∧
    (profile_colored8 s).colored_done = s.colored_done := by
  unfold profile_colored8
  split
  · rename_i hc
    rcases h with h | h
    · simp [h] at hc
    · exact absurd h.1 (by
        intro h1
        rcases hc.2 with h2 | h2
        · exact h2 h1
        · exact h2 h.2)
  · simp

theorem profile_alpha16_colored (s : ProfileState) :
    (profile_alpha16 s).profile.colored = s.profile.colored ∧
    (profile_alpha16 s).colored_done = s.colored_done ∧
    (profile_alpha16 s).c = s.c := by
  unfold profile_alpha16
  dsimp only
  split
  · split
    · simp
    · split
      · simp
      · split
        · simp
        · simp
  · simp

theorem profile_colored16_colored (s : ProfileState)
    (h : s.colored_done = true ∨ (s.c.r = s.c.g ∧ s.c.r = s.c.b)) :
    (profile_colored16 s).profile.colored = s.profile.colored ∧
    (profile_colored16 s).colored_done = s.colored_done := by
  unfold profile_colored16
  split
  · rename_i hc
    rcases h with h | h
    · simp [h] at hc
    · exact absurd h.1 (by
        intro h1
        rcases hc.2 with h2 | h2
        · exact h2 h1
        · exact h2 h.2)
  · simp

theorem getPixelColorRGBA8_indep (c c1 : Color) (inp : Buf) (i : Nat) (mode : LodePNGColorMode)
    (h : mode.colortype = LCT_RGB ∨ mode.colortype = LCT_PALETTE ∨ mode.colortype = LCT_RGBA) :
    getPixelColorRGBA8 c inp i mode = getPixelColorRGBA8 c1 inp i mode := by
  unfold getPixelColorRGBA8
  rcases h with h | h | h <;> simp [h]

theorem getPixelColorRGBA16_indep (c c1 : Color) (inp : Buf) (i : Nat) (mode : LodePNGColorMode)
    (h : mode.colortype = LCT_GREY ∨ mode.colortype = LCT_RGB ∨ mode.colortype = LCT_GREY_ALPHA
      ∨ mode.colortype = LCT_RGBA) :
    getPixelColorRGBA16 c inp i mode = getPixelColorRGBA16 c1 inp i mode := by
  unfold getPixelColorRGBA16
  rcases h with h | h | h | h <;> simp [h]

/-- A legal mode that is not of a greyscale type is RGB, Palette or RGBA, and a palette
has at most 8 bits. -/
theorem legal_not_grey (mode : LodePNGColorMode)
    (hlegal : checkColorValidity mode.colortype mode.bitdepth = 0)
    (hg : lodepng_is_greyscale_type mode = false) :
    mode.colortype = LCT_RGB ∨ (mode.colortype = LCT_PALETTE ∧ mode.bitdepth ≠ 16)
      ∨ mode.colortype = LCT_RGBA := by
  unfold checkColorValidity at hlegal
  unfold lodepng_is_greyscale_type at hg
  simp at hg
  by_cases h0 : mode.colortype = 0
  · exact absurd h0 hg.1
  · by_cases h2 : mode.colortype = 2
    · exact Or.inl h2
    · by_cases h3 : mode.colortype = 3
      · right; left
        refine ⟨h3, ?_⟩
        simp [h3] at hlegal
        omega
      · by_cases h4 : mode.colortype = 4
        · exact absurd h4 hg.2
        · by_cases h6 : mode.colortype = 6
          · exact Or.inr (Or.inr h6)
          · simp [h0, h2, h3, h4, h6] at hlegal

/-- For 16-bit RGB and RGBA a pixel that is grey at 16 bits is grey in its high bytes. -/
theorem grey16_grey8 (c c1 : Color) (inp : Buf) (i : Nat) (mode : LodePNGColorMode)
    (hvalid : ValidBuf inp) (hbd : mode.bitdepth = 16)
    (hct : mode.colortype = LCT_RGB ∨ mode.colortype = LCT_RGBA)
    (h : (getPixelColorRGBA16 c inp i mode).r = (getPixelColorRGBA16 c inp i mode).g ∧
         (getPixelColorRGBA16 c inp i mode).r = (getPixelColorRGBA16 c inp i mode).b) :
    (getPixelColorRGBA8 c1 inp i mode).r = (getPixelColorRGBA8 c1 inp i mode).g ∧
    (getPixelColorRGBA8 c1 inp i mode).r = (getPixelColorRGBA8 c1 inp i mode).b := by
  unfold getPixelColorRGBA16 at h
  unfold getPixelColorRGBA8
  rcases hct with hct | hct
  · simp [hct, hbd] at h ⊢
    have h0 := hvalid (i * 6); have h1 := hvalid (i * 6 + 1); have h2 := hvalid (i * 6 + 2)
    have h3 := hvalid (i * 6 + 3); have h4 := hvalid (i * 6 + 4); have h5 := hvalid (i * 6 + 5)
    omega
  · simp [hct, hbd] at h ⊢
    have h0 := hvalid (i * 8); have h1 := hvalid (i * 8 + 1); have h2 := hvalid (i * 8 + 2)
    have h3 := hvalid (i * 8 + 3); have h4 := hvalid (i * 8 + 4); have h5 := hvalid (i * 8 + 5)
    omega

theorem profile_step8_colored (inp : Buf) (mode : LodePNGColorMode) (bpp maxn i : Nat)
    (s : ProfileState)
    (h : s.colored_done = true ∨
      ((getPixelColorRGBA8 s.c inp i mode).r = (getPixelColorRGBA8 s.c inp i mode).g ∧
       (getPixelColorRGBA8 s.c inp i mode).r = (getPixelColorRGBA8 s.c inp i mode).b)) :
    (profile_step8 inp mode bpp maxn i s).profile.colored = s.profile.colored ∧
    (profile_step8 inp mode bpp maxn i s).colored_done = s.colored_done := by
  unfold profile_step8
  have hb := profile_bits8_colored bpp { s with c := getPixelColorRGBA8 s.c inp i mode }
  have hc := profile_colored8_colored
    (profile_bits8 bpp { s with c := getPixelColorRGBA8 s.c inp i mode })
    (by rw [hb.2.1, hb.2.2]; exact h)
  have ha := profile_alpha8_colored (profile_colored8
    (profile_bits8 bpp { s with c := getPixelColorRGBA8 s.c inp i mode }))
  have hn := profile_numcolors8_colored maxn (profile_alpha8 (profile_colored8
    (profile_bits8 bpp { s with c := getPixelColorRGBA8 s.c inp i mode })))
  constructor
  · rw [hn.1, ha.1, hc.1, hb.1]
  · rw [hn.2.1, ha.2.1, hc.2, hb.2.1]

theorem profile_step16_colored (inp : Buf) (mode : LodePNGColorMode) (i : Nat)
    (s : ProfileState)
    (h : s.colored_done = true ∨
      ((getPixelColorRGBA16 s.c inp i mode).r = (getPixelColorRGBA16 s.c inp i mode).g ∧
       (getPixelColorRGBA16 s.c inp i mode).r = (getPixelColorRGBA16 s.c inp i mode).b)) :
    (profile_step16 inp mode i s).profile.colored = s.profile.colored ∧
    (profile_step16 inp mode i s).colored_done = s.colored_done := by
  unfold profile_step16
  have hc := profile_colored16_colored { s with c := getPixelColorRGBA16 s.c inp i mode } h
  have ha := profile_alpha16_colored
    (profile_colored16 { s with c := getPixelColorRGBA16 s.c inp i mode })
  constructor
  · rw [ha.1, hc.1]
  · rw [ha.2.1, hc.2]

theorem profile_keycheck8_colored (inp : Buf) (mode : LodePNGColorMode) (i : Nat)
    (s : ProfileState) : (profile_keycheck8 inp mode i s).profile.colored = s.profile.colored := by
  unfold profile_keycheck8
  dsimp only
  split <;> rfl

theorem profile_keycheck16_colored (inp : Buf) (mode : LodePNGColorMode) (i : Nat)
    (s : ProfileState) : (profile_keycheck16 inp mode i s).profile.colored = s.profile.colored := by
  unfold profile_keycheck16
  dsimp only
  split <;> rfl

theorem profile_sixteen_bitdepth (inp : Buf) (n : Nat) (mode : LodePNGColorMode)
    (h : profile_sixteen inp n mode = true) : mode.bitdepth = 16 := by
  unfold profile_sixteen at h
  by_cases hb : mode.bitdepth = 16
  · exact hb
  · simp [hb] at h

/-- The profile of an image whose pixels all decode to grey is not coloured. -/
theorem profile_colored_of_grey (p : LodePNGColorProfile) (mode : LodePNGColorMode) (inp : Buf)
    (w h : Nat) (hvalid : ValidBuf inp)
    (hlegal : checkColorValidity mode.colortype mode.bitdepth = 0)
    (hp : p.colored = 0)
    (hgrey : ∀ i, i < (w * h) % 2 ^ 32 → decodes_grey inp mode i) :
    (lodepng_get_color_profile p inp w h mode).2.colored = 0 := by
  unfold lodepng_get_color_profile
  dsimp only
  by_cases hg : lodepng_is_greyscale_type mode = true
  · -- greyscale types: `colored_done` is set from the start
    split
    · unfold profile_run16
      dsimp only
      have h2 := profile_loop16_invariant
        (fun s => s.profile.colored = 0 ∧ s.colored_done = true) inp mode ((w * h) % 2 ^ 32)
        (fun i s _ hs => by
          have := profile_step16_colored inp mode i s (Or.inl hs.2)
          exact ⟨this.1.trans hs.1, this.2.trans hs.2⟩)
        ((w * h) % 2 ^ 32) 0 _ (by omega)
        (show ({ profile_start p mode with
                  profile := { (profile_start p mode).profile with bits := 16 },
                  bits_done := true, numcolors_done := true } : ProfileState).profile.colored = 0
              ∧ _ from ⟨hp, hg⟩)
      split
      · exact forLoop_invariant (fun s => s.profile.colored = 0) _ _
          (fun i s _ hs => (profile_keycheck16_colored inp mode i s).trans hs) _ h2.1
      · exact h2.1
    · unfold profile_run8
      dsimp only
      have h2 := profile_loop8_invariant
        (fun s => s.profile.colored = 0 ∧ s.colored_done = true) inp mode (lodepng_get_bpp mode)
        (profile_maxnumcolors (lodepng_get_bpp mode)) ((w * h) % 2 ^ 32)
        (fun i s _ hs => by
          have := profile_step8_colored inp mode (lodepng_get_bpp mode)
            (profile_maxnumcolors (lodepng_get_bpp mode)) i s (Or.inl hs.2)
          exact ⟨this.1.trans hs.1, this.2.trans hs.2⟩)
        ((w * h) % 2 ^ 32) 0 (profile_start p mode) (by omega) ⟨hp, hg⟩
      show (profile_key_to_16 _).colored = 0
      unfold profile_key_to_16
      dsimp only
      split
      · exact forLoop_invariant (fun s => s.profile.colored = 0) _ _
          (fun i s _ hs => (profile_keycheck8_colored inp mode i s).trans hs) _ h2.1
      · exact h2.1
  · -- the other types: every decoded pixel is grey
    have hg1 : lodepng_is_greyscale_type mode = false := by
      cases hx : lodepng_is_greyscale_type mode
      · rfl
      · exact absurd hx hg
    have hct := legal_not_grey mode hlegal hg1
    have hgrey1 : ∀ i, i < (w * h) % 2 ^ 32 →
        (if mode.bitdepth = 16 then
          (getPixelColorRGBA16 Color.zero inp i mode).r = (getPixelColorRGBA16 Color.zero inp i mode).g ∧
          (getPixelColorRGBA16 Color.zero inp i mode).r = (getPixelColorRGBA16 Color.zero inp i mode).b
        else
          (getPixelColorRGBA8 Color.zero inp i mode).r = (getPixelColorRGBA8 Color.zero inp i mode).g ∧
          (getPixelColorRGBA8 Color.zero inp i mode).r = (getPixelColorRGBA8 Color.zero inp i mode).b) := by
      intro i hi
      rcases hgrey i hi with h1 | h1
      · exact absurd h1 hg
      · exact h1
    split
    · rename_i hsix
      have hbd := profile_sixteen_bitdepth inp _ mode hsix
      have hct16 : mode.colortype = LCT_GREY ∨ mode.colortype = LCT_RGB ∨
          mode.colortype = LCT_GREY_ALPHA ∨ mode.colortype = LCT_RGBA := by
        rcases hct with h1 | h1 | h1
        · exact Or.inr (Or.inl h1)
        · exact absurd hbd h1.2
        · exact Or.inr (Or.inr (Or.inr h1))
      unfold profile_run16
      dsimp only
      have h2 := profile_loop16_invariant
        (fun s => s.profile.colored = 0) inp mode ((w * h) % 2 ^ 32)
        (fun i s hi hs => by
          have hgi := hgrey1 i hi
          rw [if_pos hbd] at hgi
          rw [getPixelColorRGBA16_indep Color.zero s.c inp i mode hct16] at hgi
          exact (profile_step16_colored inp mode i s (Or.inr hgi)).1.trans hs)
        ((w * h) % 2 ^ 32) 0 _ (by omega)
        (show ({ profile_start p mode with
                  profile := { (profile_start p mode).profile with bits := 16 },
                  bits_done := true, numcolors_done := true } : ProfileState).profile.colored = 0
          from hp)
      split
      · exact forLoop_invariant (fun s => s.profile.colored = 0) _ _
          (fun i s _ hs => (profile_keycheck16_colored inp mode i s).trans hs) _ h2
      · exact h2
    · unfold profile_run8
      dsimp only
      have hct8 : mode.colortype = LCT_RGB ∨ mode.colortype = LCT_PALETTE ∨
          mode.colortype = LCT_RGBA := by
        rcases hct with h1 | h1 | h1
        · exact Or.inl h1
        · exact Or.inr (Or.inl h1.1)
        · exact Or.inr (Or.inr h1)
      have h2 := profile_loop8_invariant
        (fun s => s.profile.colored = 0) inp mode (lodepng_get_bpp mode)
        (profile_maxnumcolors (lodepng_get_bpp mode)) ((w * h) % 2 ^ 32)
        (fun i s hi hs => by
          have hgi := hgrey1 i hi
          have hg8 : (getPixelColorRGBA8 s.c inp i mode).r = (getPixelColorRGBA8 s.c inp i mode).g ∧
              (getPixelColorRGBA8 s.c inp i mode).r = (getPixelColorRGBA8 s.c inp i mode).b := by
            by_cases hbd : mode.bitdepth = 16
            · rw [if_pos hbd] at hgi
              have hct2 : mode.colortype = LCT_RGB ∨ mode.colortype = LCT_RGBA := by
                rcases hct with h1 | h1 | h1
                · exact Or.inl h1
                · exact absurd hbd h1.2
                · exact Or.inr h1
              exact grey16_grey8 Color.zero s.c inp i mode hvalid hbd hct2 hgi
            · rw [if_neg hbd] at hgi
              rw [getPixelColorRGBA8_indep s.c Color.zero inp i mode hct8]
              exact hgi
          exact (profile_step8_colored inp mode _ _ i s (Or.inr hg8)).1.trans hs)
        ((w * h) % 2 ^ 32) 0 (profile_start p mode) (by omega) hp
      show (profile_key_to_16 _).colored = 0
      unfold profile_key_to_16
      dsimp only
      split
      · exact forLoop_invariant (fun s => s.profile.colored = 0) _ _
          (fun i s _ hs => (profile_keycheck8_colored inp mode i s).trans hs) _ h2
      · exact h2

@[simp] theorem choose_adjust_profile_colored (prof : LodePNGColorProfile) (wh : Nat) :
    (choose_adjust_profile prof wh).colored = prof.colored := by
  unfold choose_adjust_profile
  split
  · simp
  · rfl

/-- C7: for a legal source mode and an image in which every pixel decodes to
`r = g = b`, `lodepng_get_color_profile` leaves `colored` at 0 and
`lodepng_auto_choose_color` outputs Grey, GreyAlpha or Palette, never RGB or RGBA. -/
theorem C7_grey_image_never_rgb (p : LodePNGColorProfile) (mode_out mode : LodePNGColorMode)
    (inp : Buf) (w h : Nat) (hvalid : ValidBuf inp)
    (hlegal : checkColorValidity mode.colortype mode.bitdepth = 0)
    (hp : p.colored = 0)
    (hgrey : ∀ i, i < w * h → decodes_grey inp mode i) :
    (lodepng_get_color_profile p inp w h mode).2.colored = 0 ∧
    ((lodepng_auto_choose_color mode_out inp w h mode).2.colortype = LCT_GREY ∨
     (lodepng_auto_choose_color mode_out inp w h mode).2.colortype = LCT_GREY_ALPHA ∨
     (lodepng_auto_choose_color mode_out inp w h mode).2.colortype = LCT_PALETTE) := by
  have hgrey1 : ∀ i, i < (w * h) % 2 ^ 32 → decodes_grey inp mode i :=
    fun i hi => hgrey i (Nat.lt_of_lt_of_le hi (Nat.mod_le _ _))
  refine ⟨profile_colored_of_grey p mode inp w h hvalid hlegal hp hgrey1, ?_⟩
  have hc : (image_profile inp w h mode).colored = 0 :=
    profile_colored_of_grey _ mode inp w h hvalid hlegal rfl hgrey1
  rw [lodepng_auto_choose_color_eq]
  split
  · right; right
    exact choose_palette_colortype _ _ _
  · rw [choose_plain_colortype, choose_adjust_profile_colored, hc]
    generalize (choose_adjust_profile (image_profile inp w h mode) (w * h % 2 ^ 32)).alpha = al
    by_cases ha : al = 0
    · left; simp [ha]
    · right; left; simp [ha]

/-- Witness of C7: a 2x1 RGB image with the pixels (7, 7, 7) and (9, 9, 9). -/
theorem C7_grey_image_never_rgb_witness :
    (lodepng_get_color_profile (lodepng_color_profile_init profile_local)
      (bufOfList [7, 7, 7, 9, 9, 9]) 2 1 ⟨LCT_RGB, 8, fun _ => 0, 0, 0, 0, 0, 0⟩).2.colored = 0 ∧
    ((lodepng_auto_choose_color rgba8_mode (bufOfList [7, 7, 7, 9, 9, 9]) 2 1
        ⟨LCT_RGB, 8, fun _ => 0, 0, 0, 0, 0, 0⟩).2.colortype = LCT_GREY ∨
     (lodepng_auto_choose_color rgba8_mode (bufOfList [7, 7, 7, 9, 9, 9]) 2 1
        ⟨LCT_RGB, 8, fun _ => 0, 0, 0, 0, 0, 0⟩).2.colortype = LCT_GREY_ALPHA ∨
     (lodepng_auto_choose_color rgba8_mode (bufOfList [7, 7, 7, 9, 9, 9]) 2 1
        ⟨LCT_RGB, 8, fun _ => 0, 0, 0, 0, 0, 0⟩).2.colortype = LCT_PALETTE) :=
  C7_grey_image_never_rgb (lodepng_color_profile_init profile_local) rgba8_mode
    ⟨LCT_RGB, 8, fun _ => 0, 0, 0, 0, 0, 0⟩ (bufOfList [7, 7, 7, 9, 9, 9]) 2 1
    (by
      intro i
      unfold bufOfList
      by_cases hi : i < 6
      · interval_cases i <;> simp
      · rw [List.getD_eq_default _ _ (by simpa using hi)]
        decide)
    (by decide) rfl
    (by
      intro i hi
      have hi2 : i < 2 := by omega
      interval_cases i <;> (right; decide))

/-! ## The colour tree is a finite map -/

theorem color_tree_get_from_null (r g b a fuel bit : Nat) :
    color_tree_get_from r g b a fuel bit ColorTree.null = -1 := by
  cases fuel <;> rfl

theorem color_tree_get_from_succ (r g b a fuel bit : Nat) (ch : Nat → ColorTree) (x : Int) :
    color_tree_get_from r g b a (fuel + 1) bit (ColorTree.node ch x) =
      color_tree_get_from r g b a fuel (bit + 1) (ch (color_tree_child r g b a bit)) := by
  conv => lhs; unfold color_tree_get_from
  dsimp only
  cases hc : ch (color_tree_child r g b a bit) with
  | null => simp [color_tree_get_from_null]
  | node c y => simp

theorem color_tree_get_from_init (r g b a fuel bit : Nat) :
    color_tree_get_from r g b a fuel bit color_tree_init = -1 := by
  unfold color_tree_init
  cases fuel with
  | zero => rfl
  | succ k => rw [color_tree_get_from_succ, color_tree_get_from_null]

theorem color_tree_add_from_succ (r g b a index fuel bit : Nat) (ch : Nat → ColorTree) (x : Int) :
    color_tree_add_from r g b a index (fuel + 1) bit (ColorTree.node ch x) =
      ColorTree.node
        (fun j => if j = color_tree_child r g b a bit then
            color_tree_add_from r g b a index fuel (bit + 1)
              (match ch (color_tree_child r g b a bit) with
               | ColorTree.null => color_tree_init
               | ColorTree.node c y => ColorTree.node c y)
          else ch j) x := by
  conv => lhs; unfold color_tree_add_from

/-- Looking up the colour that was just added gives its index. -/
theorem color_tree_get_add_same (r g b a index : Nat) :
    ∀ fuel bit (ch : Nat → ColorTree) (x : Int),
      color_tree_get_from r g b a fuel bit
        (color_tree_add_from r g b a index fuel bit (ColorTree.node ch x)) = (index : Int) := by
  intro fuel
  induction fuel with
  | zero => intro bit ch x; rfl
  | succ k ih =>
    intro bit ch x
    rw [color_tree_add_from_succ, color_tree_get_from_succ]
    simp only [if_true]
    cases ch (color_tree_child r g b a bit) with
    | null => exact ih (bit + 1) _ _
    | node c y => exact ih (bit + 1) c y

/-- Adding a colour does not change the lookup of a colour whose path differs. -/
theorem color_tree_get_add_other (r g b a index r1 g1 b1 a1 : Nat) :
    ∀ fuel bit (ch : Nat → ColorTree) (x : Int),
      (∃ k, k < fuel ∧ color_tree_child r g b a (bit + k) ≠ color_tree_child r1 g1 b1 a1 (bit + k)) →
      color_tree_get_from r1 g1 b1 a1 fuel bit
        (color_tree_add_from r g b a index fuel bit (ColorTree.node ch x)) =
      color_tree_get_from r1 g1 b1 a1 fuel bit (ColorTree.node ch x) := by
  intro fuel
  induction fuel with
  | zero => intro bit ch x ⟨k, hk, _⟩; omega
  | succ n ih =>
    intro bit ch x ⟨k, hk, hne⟩
    rw [color_tree_add_from_succ, color_tree_get_from_succ, color_tree_get_from_succ]
    by_cases hi : color_tree_child r1 g1 b1 a1 bit = color_tree_child r g b a bit
    · simp only [hi, if_true]
      have hk0 : k ≠ 0 := by
        intro h0
        subst h0
        exact hne hi.symm
      have hex : ∃ k1, k1 < n ∧ color_tree_child r g b a (bit + 1 + k1) ≠
          color_tree_child r1 g1 b1 a1 (bit + 1 + k1) := by
        refine ⟨k - 1, by omega, ?_⟩
        have : bit + 1 + (k - 1) = bit + k := by omega
        rw [this]
        exact hne
      cases ch (color_tree_child r g b a bit) with
      | null =>
        have := ih (bit + 1) (fun _ => ColorTree.null) (-1) hex
        rw [color_tree_get_from_null]
        rw [show color_tree_init = ColorTree.node (fun _ => ColorTree.null) (-1) from rfl]
        rw [this]
        exact color_tree_get_from_init r1 g1 b1 a1 n (bit + 1)
      | node c y => exact ih (bit + 1) c y hex
    · simp only [hi, if_false]

theorem byte_bits (r : Nat) (h : r < 256) :
    r = ((r >>> 0) &&& 1) + 2 * ((r >>> 1) &&& 1) + 4 * ((r >>> 2) &&& 1)
      + 8 * ((r >>> 3) &&& 1) + 16 * ((r >>> 4) &&& 1) + 32 * ((r >>> 5) &&& 1)
      + 64 * ((r >>> 6) &&& 1) + 128 * ((r >>> 7) &&& 1) := by
  interval_cases r <;> rfl

theorem and_one_lt_two (x : Nat) : x &&& 1 < 2 := by
  rw [Nat.and_one_is_mod]
  exact Nat.mod_lt _ (by decide)

/-- Two colours made of bytes that select the same child at the eight levels are equal. -/
theorem color_tree_child_injective (r g b a r1 g1 b1 a1 : Nat)
    (hr : r < 256) (hg : g < 256) (hb : b < 256) (ha : a < 256)
    (hr1 : r1 < 256) (hg1 : g1 < 256) (hb1 : b1 < 256) (ha1 : a1 < 256)
    (h : ∀ k, k < 8 → color_tree_child r g b a k = color_tree_child r1 g1 b1 a1 k) :
    r = r1 ∧ g = g1 ∧ b = b1 ∧ a = a1 := by
  have hbit : ∀ k, k < 8 → ((r >>> k) &&& 1) = ((r1 >>> k) &&& 1) ∧
      ((g >>> k) &&& 1) = ((g1 >>> k) &&& 1) ∧ ((b >>> k) &&& 1) = ((b1 >>> k) &&& 1) ∧
      ((a >>> k) &&& 1) = ((a1 >>> k) &&& 1) := by
    intro k hk
    have := h k hk
    unfold color_tree_child at this
    have e1 := and_one_lt_two (r >>> k); have e2 := and_one_lt_two (g >>> k)
    have e3 := and_one_lt_two (b >>> k); have e4 := and_one_lt_two (a >>> k)
    have e5 := and_one_lt_two (r1 >>> k); have e6 := and_one_lt_two (g1 >>> k)
    have e7 := and_one_lt_two (b1 >>> k); have e8 := and_one_lt_two (a1 >>> k)
    omega
  have h0 := hbit 0 (by decide); have h1 := hbit 1 (by decide); have h2 := hbit 2 (by decide)
  have h3 := hbit 3 (by decide); have h4 := hbit 4 (by decide); have h5 := hbit 5 (by decide)
  have h6 := hbit 6 (by decide); have h7 := hbit 7 (by decide)
  refine ⟨?_, ?_, ?_, ?_⟩
  · rw [byte_bits r hr, byte_bits r1 hr1, h0.1, h1.1, h2.1, h3.1, h4.1, h5.1, h6.1, h7.1]
  · rw [byte_bits g hg, byte_bits g1 hg1, h0.2.1, h1.2.1, h2.2.1, h3.2.1, h4.2.1, h5.2.1,
      h6.2.1, h7.2.1]
  · rw [byte_bits b hb, byte_bits b1 hb1, h0.2.2.1, h1.2.2.1, h2.2.2.1, h3.2.2.1, h4.2.2.1,
      h5.2.2.1, h6.2.2.1, h7.2.2.1]
  · rw [byte_bits a ha, byte_bits a1 ha1, h0.2.2.2, h1.2.2.2, h2.2.2.2, h3.2.2.2, h4.2.2.2,
      h5.2.2.2, h6.2.2.2, h7.2.2.2]

/-- A tree reached through the root is never the null pointer. -/
theorem color_tree_add_node (tree : ColorTree) (r g b a index : Nat)
    (h : tree ≠ ColorTree.null) : color_tree_add tree r g b a index ≠ ColorTree.null := by
  cases tree with
  | null => exact absurd rfl h
  | node ch x =>
    unfold color_tree_add
    rw [color_tree_add_from_succ]
    intro hc
    cases hc

theorem color_tree_get_add_eq (tree : ColorTree) (r g b a index : Nat)
    (h : tree ≠ ColorTree.null) :
    color_tree_get (color_tree_add tree r g b a index) r g b a = (index : Int) := by
  cases tree with
  | null => exact absurd rfl h
  | node ch x => exact color_tree_get_add_same r g b a index 8 0 ch x

theorem color_tree_get_add_ne (tree : ColorTree) (r g b a index r1 g1 b1 a1 : Nat)
    (hr : r < 256) (hg : g < 256) (hb : b < 256) (ha : a < 256)
    (hr1 : r1 < 256) (hg1 : g1 < 256) (hb1 : b1 < 256) (ha1 : a1 < 256)
    (hne : ¬(r = r1 ∧ g = g1 ∧ b = b1 ∧ a = a1)) :
    color_tree_get (color_tree_add tree r g b a index) r1 g1 b1 a1 =
      color_tree_get tree r1 g1 b1 a1 := by
  cases tree with
  | null => rfl
  | node ch x =>
    apply color_tree_get_add_other
    by_contra hcon
    apply hne
    apply color_tree_child_injective r g b a r1 g1 b1 a1 hr hg hb ha hr1 hg1 hb1 ha1
    intro k hk
    by_contra hk2
    exact hcon ⟨k, hk, by simpa using hk2⟩

/-! ## Bit streams -/

theorem readBitFromReversedStream_eq (q : Nat) (buf : Buf) :
    readBitFromReversedStream q buf = ((bit_at buf q).toNat, q + 1) := by
  unfold readBitFromReversedStream bit_at
  have h3 : q >>> 3 = q / 8 := by rw [Nat.shiftRight_eq_div_pow]
  have h7 : q &&& 7 = q % 8 := Nat.and_pow_two_sub_one_eq_mod q 3
  rw [h3, h7, Nat.and_one_is_mod, Nat.shiftRight_eq_div_pow, Nat.toNat_testBit]

theorem readBitsFromReversedStream_snd (buf : Buf) :
    ∀ n q, (readBitsFromReversedStream q buf n).2 = q + n := by
  intro n
  induction n with
  | zero => intro q; rfl
  | succ k ih =>
    intro q
    unfold readBitsFromReversedStream
    dsimp only
    rw [ih, readBitFromReversedStream_eq]
    dsimp only
    omega

/-- Reading `n` bits whose values are those of the low `n` bits of `v`, the highest
first, gives `v % 2 ^ n`. -/
theorem readBitsFromReversedStream_val (buf : Buf) (v : Nat) :
    ∀ n q, (∀ k, k < n → bit_at buf (q + k) = v.testBit (n - 1 - k)) →
      (readBitsFromReversedStream q buf n).1 = v % 2 ^ n := by
  intro n
  induction n with
  | zero => intro q _; simp [readBitsFromReversedStream, Nat.mod_one]
  | succ m ih =>
    intro q h
    unfold readBitsFromReversedStream
    dsimp only
    rw [readBitFromReversedStream_eq]
    dsimp only
    have h0 := h 0 (Nat.succ_pos m)
    have hrest : ∀ k, k < m → bit_at buf (q + 1 + k) = v.testBit (m - 1 - k) := by
      intro k hk
      have := h (k + 1) (by omega)
      have e1 : q + (k + 1) = q + 1 + k := by omega
      have e2 : m + 1 - 1 - (k + 1) = m - 1 - k := by omega
      rw [e1, e2] at this
      exact this
    rw [ih (q + 1) hrest]
    simp only [Nat.add_zero, Nat.add_sub_cancel, Nat.sub_zero] at h0
    rw [h0, Nat.toNat_testBit, Nat.shiftLeft_eq, Nat.mod_pow_succ]
    rw [Nat.mul_comm, Nat.add_comm]

theorem bit_at_set (buf : Buf) (i v q : Nat) :
    bit_at (buf.set i v) q = if q / 8 = i then v.testBit (7 - q % 8) else bit_at buf q := by
  unfold bit_at
  rw [Buf.set_apply]
  split <;> rfl

/-- Bit `7 - a` of a byte into which a sample of `d` bits was or-ed at position `p`. -/
theorem testBit_or_sample (B v d m p a : Nat)
    (hdm : (d = 1 ∧ m = 7) ∨ (d = 2 ∧ m = 3) ∨ (d = 4 ∧ m = 1)) (hp : p ≤ m) (ha : a < 8) :
    ((B ||| ((v &&& ((1 <<< d) - 1)) <<< (d * (m - p)))) % 256).testBit (7 - a) =
      (B.testBit (7 - a) ||
        (decide (d * p ≤ a) && decide (a < d * p + d) && v.testBit (d * p + d - 1 - a))) := by
  have hm : ((1 : Nat) <<< d) - 1 = 2 ^ d - 1 := by rw [Nat.shiftLeft_eq, Nat.one_mul]
  rw [show (256 : Nat) = 2 ^ 8 from rfl, Nat.testBit_mod_two_pow, Nat.testBit_or,
    Nat.testBit_shiftLeft, hm, Nat.testBit_and, Nat.testBit_two_pow_sub_one]
  have e0 : 7 - a < 8 := by omega
  simp only [e0, decide_True, Bool.true_and]
  by_cases h1 : d * p ≤ a ∧ a < d * p + d
  · have e1 : 7 - a ≥ d * (m - p) := by
      rcases hdm with ⟨hd1, hm1⟩ | ⟨hd1, hm1⟩ | ⟨hd1, hm1⟩ <;> subst hd1 <;> subst hm1 <;> omega
    have e2 : 7 - a - d * (m - p) = d * p + d - 1 - a := by
      rcases hdm with ⟨hd1, hm1⟩ | ⟨hd1, hm1⟩ | ⟨hd1, hm1⟩ <;> subst hd1 <;> subst hm1 <;> omega
    have e3 : d * p + d - 1 - a < d := by omega
    simp only [e1, e2, e3, h1.1, h1.2, decide_True, Bool.true_and, Bool.and_true]
  · have e4 : (decide (d * p ≤ a) && decide (a < d * p + d)) = false := by
      by_cases h2 : d * p ≤ a
      · have : ¬ a < d * p + d := fun h3 => h1 ⟨h2, h3⟩
        simp [this]
      · simp [h2]
    rw [e4, Bool.false_and, Bool.or_false]
    by_cases h5 : 7 - a ≥ d * (m - p)
    · have e6 : ¬ (7 - a - d * (m - p) < d) := by
        rcases hdm with ⟨hd1, hm1⟩ | ⟨hd1, hm1⟩ | ⟨hd1, hm1⟩ <;> subst hd1 <;> subst hm1 <;> omega
      simp [e6]
    · simp [h5]

/-- The bits of the output after `addColorBits` for a depth of 1, 2 or 4. -/
theorem bit_at_addColorBits (out : Buf) (i d v q : Nat) (hd : d = 1 ∨ d = 2 ∨ d = 4) :
    bit_at (addColorBits out i d v) q =
      if q / 8 = i * d / 8 then
        (if (i * d) % 8 = 0 then decide (q % 8 < d) && v.testBit (d - 1 - q % 8)
         else bit_at out q ||
           (decide ((i * d) % 8 ≤ q % 8) && decide (q % 8 < (i * d) % 8 + d)
             && v.testBit ((i * d) % 8 + d - 1 - q % 8)))
      else bit_at out q := by
  have hq : q % 8 < 8 := Nat.mod_lt _ (by decide)
  obtain ⟨m, hm, hdm⟩ : ∃ m, (if d = 1 then 7 else if d = 2 then 3 else 1) = m ∧
      ((d = 1 ∧ m = 7) ∨ (d = 2 ∧ m = 3) ∨ (d = 4 ∧ m = 1)) := by
    rcases hd with hd | hd | hd <;> subst hd <;> simp
  have hp : i &&& m = i % (m + 1) := by
    rcases hdm with ⟨_, hm1⟩ | ⟨_, hm1⟩ | ⟨_, hm1⟩ <;> subst hm1
    · exact Nat.and_pow_two_sub_one_eq_mod i 3
    · exact Nat.and_pow_two_sub_one_eq_mod i 2
    · exact Nat.and_pow_two_sub_one_eq_mod i 1
  have hple : i % (m + 1) ≤ m := Nat.le_of_lt_succ (Nat.mod_lt _ (Nat.succ_pos m))
  have hoff : (i * d) % 8 = d * (i % (m + 1)) := by
    rcases hdm with ⟨hd1, hm1⟩ | ⟨hd1, hm1⟩ | ⟨hd1, hm1⟩ <;> subst hd1 <;> subst hm1 <;> omega
  have hzero : (i % (m + 1) = 0) ↔ ((i * d) % 8 = 0) := by
    rcases hdm with ⟨hd1, hm1⟩ | ⟨hd1, hm1⟩ | ⟨hd1, hm1⟩ <;> subst hd1 <;> subst hm1 <;> omega
  unfold addColorBits
  simp only [hm, hp]
  by_cases h0 : i % (m + 1) = 0
  · have h0b := hzero.mp h0
    simp only [h0, h0b, if_true, bit_at_set]
    by_cases hb : q / 8 = i * d / 8
    · simp only [hb, if_true]
      have := testBit_or_sample 0 v d m 0 (q % 8) hdm (Nat.zero_le m) hq
      simp only [Nat.zero_or, Nat.sub_zero, Nat.mul_zero, Nat.zero_add, Nat.zero_testBit,
        Bool.false_or, Nat.zero_le, decide_True, Bool.true_and] at this
      exact this
    · simp only [hb, if_false]
  · have h0b : ¬ (i * d) % 8 = 0 := fun h => h0 (hzero.mpr h)
    simp only [h0, h0b, if_false, bit_at_set]
    by_cases hb : q / 8 = i * d / 8
    · simp only [hb, if_true]
      have hbit : bit_at out q = (out (i * d / 8)).testBit (7 - q % 8) := by
        unfold bit_at; rw [hb]
      rw [hbit, hoff]
      exact testBit_or_sample (out (i * d / 8)) v d m (i % (m + 1)) (q % 8) hdm hple hq
    · simp only [hb, if_false]

/-! ## The general conversion loop -/

/-- The locals `r, g, b, a` of the general loop, started at zero, hold after any pixel what
`getPixelColorRGBA8` yields from zero: the only value kept from one pixel to the next is
the red of greyscale below 8 bits, which stays 0. -/
theorem getPixelColorRGBA8_chain (inp : Buf) (mode : LodePNGColorMode) (i : Nat) (c : Color)
    (hc : c = Color.zero ∨ ∃ j, c = decoded_pixel inp mode j) :
    getPixelColorRGBA8 c inp i mode = decoded_pixel inp mode i := by
  have key : ∀ c1 : Color, getPixelColorRGBA8 c1 inp i mode = decoded_pixel inp mode i ∨
      (getPixelColorRGBA8 c1 inp i mode = c1 ∧ ∀ c2 j, getPixelColorRGBA8 c2 inp j mode = c2) ∨
      (mode.colortype = LCT_GREY ∧ mode.bitdepth ≠ 8 ∧ mode.bitdepth ≠ 16) := by
    intro c1
    unfold decoded_pixel
    by_cases h0 : mode.colortype = LCT_GREY
    · by_cases h8 : mode.bitdepth = 8
      · left; unfold getPixelColorRGBA8; simp [h0, h8]
      · by_cases h16 : mode.bitdepth = 16
        · left; unfold getPixelColorRGBA8; simp [h0, h16]
        · right; right; exact ⟨h0, h8, h16⟩
    · by_cases h2 : mode.colortype = LCT_RGB
      · left; unfold getPixelColorRGBA8; simp [h2]
      · by_cases h3 : mode.colortype = LCT_PALETTE
        · left; unfold getPixelColorRGBA8; simp [h3]
        · by_cases h4 : mode.colortype = LCT_GREY_ALPHA
          · left; unfold getPixelColorRGBA8; simp [h4]
          · by_cases h6 : mode.colortype = LCT_RGBA
            · left; unfold getPixelColorRGBA8; simp [h6]
            · right; left
              constructor
              · unfold getPixelColorRGBA8; simp [h0, h2, h3, h4, h6]
              · intro c2 j; unfold getPixelColorRGBA8; simp [h0, h2, h3, h4, h6]
  rcases key c with h | h | h
  · exact h
  · rcases hc with hc | ⟨j, hc⟩
    · subst hc; rfl
    · have hz : decoded_pixel inp mode j = Color.zero := h.2 Color.zero j
      have hz2 : decoded_pixel inp mode i = Color.zero := h.2 Color.zero i
      rw [h.1, hc, hz, hz2]
  · have hr : c.r = 0 := by
      rcases hc with hc | ⟨j, hc⟩
      · subst hc; rfl
      · subst hc
        unfold decoded_pixel getPixelColorRGBA8
        simp [h.1, h.2.1, h.2.2, Color.zero]
    unfold decoded_pixel getPixelColorRGBA8
    simp [h.1, h.2.1, h.2.2, Color.zero, hr]

/-- The error code of `rgba8ToPixel` does not depend on the output buffer. -/
theorem rgba8ToPixel_error (out : Buf) (i : Nat) (mode : LodePNGColorMode) (tree : ColorTree)
    (c : Color) :
    (rgba8ToPixel out i mode tree c).1 =
      if mode.colortype = LCT_PALETTE ∧ color_tree_get tree c.r c.g c.b c.a < 0 then 82 else 0 := by
  unfold rgba8ToPixel
  by_cases h0 : mode.colortype = LCT_GREY
  · simp only [h0, if_true]
    have : ¬ (LCT_GREY = LCT_PALETTE) := by decide
    simp only [this, false_and, if_false]
    split
    · rfl
    · split <;> rfl
  · by_cases h2 : mode.colortype = LCT_RGB
    · simp only [h2]
      have : ¬ (LCT_RGB = LCT_PALETTE) := by decide
      have h20 : ¬ (LCT_RGB = LCT_GREY) := by decide
      simp only [this, h20, false_and, if_false, if_true]
      split <;> rfl
    · by_cases h3 : mode.colortype = LCT_PALETTE
      · simp only [h3]
        have h30 : ¬ (LCT_PALETTE = LCT_GREY) := by decide
        have h32 : ¬ (LCT_PALETTE = LCT_RGB) := by decide
        simp only [h30, h32, if_false, if_true, true_and]
        split
        · rfl
        · split <;> rfl
      · simp only [h0, h2, h3, if_false, false_and]
        split
        · split
          · rfl
          · split <;> rfl
        · split
          · split <;> rfl
          · rfl

/-- The general loop establishes any property of the output buffer that each pixel
without error carries from `j` pixels done to `j + 1`. -/
theorem convert_loop_invariant (Inv : Nat → Buf → Prop) (inp : Buf)
    (mode_out mode_in : LodePNGColorMode) (tree : ColorTree) (n : Nat)
    (hstep : ∀ j out, j < n → Inv j out →
      (rgba8ToPixel out j mode_out tree (decoded_pixel inp mode_in j)).1 = 0 →
      Inv (j + 1) (rgba8ToPixel out j mode_out tree (decoded_pixel inp mode_in j)).2)
    (hok : ∀ j out, j < n →
      (rgba8ToPixel out j mode_out tree (decoded_pixel inp mode_in j)).1 = 0) :
    ∀ fuel i out c, i + fuel = n → (c = Color.zero ∨ ∃ j, c = decoded_pixel inp mode_in j) →
      Inv i out →
      (convert_loop inp mode_out mode_in tree fuel i out c).1 = 0 ∧
      Inv n (convert_loop inp mode_out mode_in tree fuel i out c).2 := by
  intro fuel
  induction fuel with
  | zero =>
    intro i out c hi _ hinv
    have : i = n := by omega
    subst this
    exact ⟨rfl, hinv⟩
  | succ k ih =>
    intro i out c hi hc hinv
    unfold convert_loop
    dsimp only
    rw [getPixelColorRGBA8_chain inp mode_in i c hc]
    have he := hok i out (by omega)
    simp only [he, ne_eq, not_true_eq_false, if_false]
    exact ih (i + 1) _ _ (by omega) (Or.inr ⟨i, rfl⟩) (hstep i out (by omega) hinv he)

/-- The general loop returns the first error that `rgba8ToPixel` reports. -/
theorem convert_loop_error (inp : Buf) (mode_out mode_in : LodePNGColorMode) (tree : ColorTree) :
    ∀ fuel i out c, (c = Color.zero ∨ ∃ j, c = decoded_pixel inp mode_in j) →
      (∃ j, i ≤ j ∧ j < i + fuel ∧ mode_out.colortype = LCT_PALETTE ∧
        color_tree_get tree (decoded_pixel inp mode_in j).r (decoded_pixel inp mode_in j).g
          (decoded_pixel inp mode_in j).b (decoded_pixel inp mode_in j).a < 0) →
      (convert_loop inp mode_out mode_in tree fuel i out c).1 = 82 := by
  intro fuel
  induction fuel with
  | zero => intro i out c _ ⟨j, h1, h2, _⟩; omega
  | succ k ih =>
    intro i out c hc ⟨j, h1, h2, h3, h4⟩
    unfold convert_loop
    dsimp only
    rw [getPixelColorRGBA8_chain inp mode_in i c hc]
    by_cases he : (rgba8ToPixel out i mode_out tree (decoded_pixel inp mode_in i)).1 = 0
    · simp only [he, ne_eq, not_true_eq_false, if_false]
      apply ih (i + 1) _ _ (Or.inr ⟨i, rfl⟩)
      refine ⟨j, ?_, by omega, h3, h4⟩
      by_contra hlt
      have hji : j = i := by omega
      subst hji
      rw [rgba8ToPixel_error] at he
      simp [h3, h4] at he
    · simp only [he, ne_eq, not_false_eq_true, if_true]
      rw [rgba8ToPixel_error] at he ⊢
      split
      · rfl
      · rename_i hx
        simp [hx] at he

/-! ## Packing samples of 1, 2 or 4 bits -/

theorem packed_upto_zero (d : Nat) (v : Nat → Nat) (out : Buf) : packed_upto d v 0 out := by
  constructor
  · intro j t hj; omega
  · intro q _ h; omega

/-- One call of `addColorBits` extends the packed samples by one. -/
theorem packed_upto_step (d : Nat) (v : Nat → Nat) (k : Nat) (out : Buf) (x : Nat)
    (hd : d = 1 ∨ d = 2 ∨ d = 4) (hx : ∀ t, t < d → x.testBit t = (v k).testBit t)
    (h : packed_upto d v k out) :
    packed_upto d v (k + 1) (addColorBits out k d x) := by
  obtain ⟨h1, h2⟩ := h
  constructor
  · intro j t hj ht
    rw [bit_at_addColorBits out k d x _ hd]
    by_cases hjk : j < k
    · -- an earlier sample
      have hold := h1 j t hjk ht
      by_cases hb : (j * d + t) / 8 = k * d / 8
      · rw [if_pos hb]
        have hk0 : ¬ (k * d) % 8 = 0 := by
          rcases hd with hd | hd | hd <;> subst hd <;> omega
        rw [if_neg hk0, hold]
        have hlt : ¬ ((k * d) % 8 ≤ (j * d + t) % 8) := by
          rcases hd with hd | hd | hd <;> subst hd <;> omega
        simp [hlt]
      · rw [if_neg hb, hold]
    · -- the new sample
      have hjk2 : j = k := by omega
      subst hjk2
      have hb : (j * d + t) / 8 = j * d / 8 := by
        rcases hd with hd | hd | hd <;> subst hd <;> omega
      rw [if_pos hb]
      by_cases hk0 : (j * d) % 8 = 0
      · rw [if_pos hk0]
        have e1 : (j * d + t) % 8 = t := by
          rcases hd with hd | hd | hd <;> subst hd <;> omega
        rw [e1]
        simp only [ht, decide_True, Bool.true_and]
        exact hx _ (by omega)
      · rw [if_neg hk0]
        have hz := h2 (j * d + t) (by omega) (by
          rcases hd with hd | hd | hd <;> subst hd <;> omega)
        rw [hz, Bool.false_or]
        have e1 : (j * d) % 8 ≤ (j * d + t) % 8 := by
          rcases hd with hd | hd | hd <;> subst hd <;> omega
        have e2 : (j * d + t) % 8 < (j * d) % 8 + d := by
          rcases hd with hd | hd | hd <;> subst hd <;> omega
        have e3 : (j * d) % 8 + d - 1 - (j * d + t) % 8 = d - 1 - t := by
          rcases hd with hd | hd | hd <;> subst hd <;> omega
        simp only [e1, e2, e3, decide_True, Bool.true_and]
        exact hx _ (by omega)
  · intro q hq1 hq2
    rw [bit_at_addColorBits out k d x _ hd]
    have hb : q / 8 = k * d / 8 := by
      rcases hd with hd | hd | hd <;> subst hd <;> omega
    rw [if_pos hb]
    by_cases hk0 : (k * d) % 8 = 0
    · rw [if_pos hk0]
      have e1 : ¬ (q % 8 < d) := by
        rcases hd with hd | hd | hd <;> subst hd <;> omega
      simp [e1]
    · rw [if_neg hk0]
      have hz := h2 q (by
        rcases hd with hd | hd | hd <;> subst hd <;> omega) (by
        rcases hd with hd | hd | hd <;> subst hd <;> omega)
      rw [hz, Bool.false_or]
      have e2 : ¬ (q % 8 < (k * d) % 8 + d) := by
        rcases hd with hd | hd | hd <;> subst hd <;> omega
      simp [e2]

/-- Reading back a packed sample gives its value modulo `2 ^ d`. -/
theorem packed_upto_read (d : Nat) (v : Nat → Nat) (n : Nat) (out : Buf)
    (h : packed_upto d v n out) (j : Nat) (hj : j < n) :
    (readBitsFromReversedStream (j * d) out d).1 = v j % 2 ^ d :=
  readBitsFromReversedStream_val out (v j) d (j * d) (fun t ht => h.1 j t hj ht)

/-! ## The tree of a palette -/

theorem palette_entry_isByte (pal : Buf) (hv : ValidBuf pal) (j : Nat) :
    (palette_entry pal j).IsByte :=
  ⟨hv _, hv _, hv _, hv _⟩

theorem color_ne_channels (c c1 : Color) (h : c ≠ c1) :
    ¬(c.r = c1.r ∧ c.g = c1.g ∧ c.b = c1.b ∧ c.a = c1.a) := by
  intro ⟨h1, h2, h3, h4⟩
  apply h
  cases c; cases c1
  simp only [Color.mk.injEq]
  exact ⟨h1, h2, h3, h4⟩

/-- The tree built from the first `k` entries of a palette maps every colour of these
entries to the index of an entry that holds it, and every other colour to -1. -/
theorem palette_tree_spec (pal : Buf) (hv : ValidBuf pal) :
    ∀ k,
      forLoop k (fun i tree => color_tree_add tree (pal (i * 4 + 0)) (pal (i * 4 + 1))
        (pal (i * 4 + 2)) (pal (i * 4 + 3)) i) color_tree_init ≠ ColorTree.null ∧
      ∀ c : Color, c.IsByte →
        ((∀ j, j < k → palette_entry pal j ≠ c) →
          color_tree_get (forLoop k (fun i tree => color_tree_add tree (pal (i * 4 + 0))
            (pal (i * 4 + 1)) (pal (i * 4 + 2)) (pal (i * 4 + 3)) i) color_tree_init)
            c.r c.g c.b c.a = -1) ∧
        ((∃ j, j < k ∧ palette_entry pal j = c) →
          ∃ j, j < k ∧ palette_entry pal j = c ∧
            color_tree_get (forLoop k (fun i tree => color_tree_add tree (pal (i * 4 + 0))
              (pal (i * 4 + 1)) (pal (i * 4 + 2)) (pal (i * 4 + 3)) i) color_tree_init)
              c.r c.g c.b c.a = (j : Int)) := by
  intro k
  induction k with
  | zero =>
    refine ⟨by simp [color_tree_init], ?_⟩
    intro c _
    refine ⟨fun _ => ?_, fun ⟨j, hj, _⟩ => absurd hj (Nat.not_lt_zero j)⟩
    exact color_tree_get_from_init c.r c.g c.b c.a 8 0
  | succ n ih =>
    obtain ⟨hnn, ih⟩ := ih
    rw [forLoop_succ]
    refine ⟨color_tree_add_node _ _ _ _ _ _ hnn, ?_⟩
    intro c hc
    by_cases hcn : palette_entry pal n = c
    · have hget : color_tree_get (color_tree_add
          (forLoop n (fun i tree => color_tree_add tree (pal (i * 4 + 0)) (pal (i * 4 + 1))
            (pal (i * 4 + 2)) (pal (i * 4 + 3)) i) color_tree_init)
          (pal (n * 4 + 0)) (pal (n * 4 + 1)) (pal (n * 4 + 2)) (pal (n * 4 + 3)) n)
          c.r c.g c.b c.a = (n : Int) := by
        have := color_tree_get_add_eq
          (forLoop n (fun i tree => color_tree_add tree (pal (i * 4 + 0)) (pal (i * 4 + 1))
            (pal (i * 4 + 2)) (pal (i * 4 + 3)) i) color_tree_init)
          (pal (n * 4 + 0)) (pal (n * 4 + 1)) (pal (n * 4 + 2)) (pal (n * 4 + 3)) n hnn
        rw [← hcn]
        exact this
      constructor
      · intro hall
        exact absurd hcn (hall n (Nat.lt_succ_self n))
      · intro _
        exact ⟨n, Nat.lt_succ_self n, hcn, hget⟩
    · have hget : color_tree_get (color_tree_add
          (forLoop n (fun i tree => color_tree_add tree (pal (i * 4 + 0)) (pal (i * 4 + 1))
            (pal (i * 4 + 2)) (pal (i * 4 + 3)) i) color_tree_init)
          (pal (n * 4 + 0)) (pal (n * 4 + 1)) (pal (n * 4 + 2)) (pal (n * 4 + 3)) n)
          c.r c.g c.b c.a =
          color_tree_get (forLoop n (fun i tree => color_tree_add tree (pal (i * 4 + 0))
            (pal (i * 4 + 1)) (pal (i * 4 + 2)) (pal (i * 4 + 3)) i) color_tree_init)
            c.r c.g c.b c.a :=
        color_tree_get_add_ne _ _ _ _ _ n c.r c.g c.b c.a (hv _) (hv _) (hv _) (hv _)
          hc.1 hc.2.1 hc.2.2.1 hc.2.2.2 (color_ne_channels (palette_entry pal n) c hcn)
      rw [hget]
      constructor
      · intro hall
        exact (ih c hc).1 (fun j hj => hall j (Nat.lt_succ_of_lt hj))
      · intro ⟨j, hj, hjc⟩
        have hjn : j < n := by
          rcases Nat.lt_succ_iff_lt_or_eq.mp hj with h | h
          · exact h
          · subst h; exact absurd hjc hcn
        obtain ⟨j1, hj1, hj1c, hj1g⟩ := (ih c hc).2 ⟨j, hjn, hjc⟩
        exact ⟨j1, Nat.lt_succ_of_lt hj1, hj1c, hj1g⟩

/-- The tree that `lodepng_convert` builds, in terms of the effective palette. -/
theorem convert_palette_tree_eq (mode_out mode_in : LodePNGColorMode) :
    convert_palette_tree mode_out mode_in =
      forLoop (effective_palsize mode_out mode_in)
        (fun i tree => color_tree_add tree (effective_palette mode_out mode_in (i * 4 + 0))
          (effective_palette mode_out mode_in (i * 4 + 1))
          (effective_palette mode_out mode_in (i * 4 + 2))
          (effective_palette mode_out mode_in (i * 4 + 3)) i) color_tree_init := by
  unfold convert_palette_tree effective_palsize effective_palette
  dsimp only
  have h1 : (1 : Nat) <<< mode_out.bitdepth = 2 ^ mode_out.bitdepth := by
    rw [Nat.shiftLeft_eq, Nat.one_mul]
  rw [h1]
  congr 1
  by_cases h : (if mode_out.palettesize = 0 then mode_in.palettesize else mode_out.palettesize)
      < 2 ^ mode_out.bitdepth
  · rw [if_pos h, Nat.min_eq_left (Nat.le_of_lt h)]
  · rw [if_neg h, Nat.min_eq_right (Nat.le_of_not_lt h)]

/-! ## C9: conversion to a palette -/

theorem decoded_pixel_isByte (inp : Buf) (mode : LodePNGColorMode) (i : Nat)
    (hin : ValidBuf inp) (hpal : ValidBuf mode.palette) : (decoded_pixel inp mode i).IsByte := by
  unfold decoded_pixel getPixelColorRGBA8 Color.IsByte
  have hm : ∀ x : Nat, x % 256 < 256 := fun x => Nat.mod_lt _ (by decide)
  dsimp only
  split_ifs <;>
    (refine ⟨?_, ?_, ?_, ?_⟩ <;>
      first
      | exact hin _
      | exact hpal _
      | exact hm _
      | simp [Color.zero])

theorem effective_palette_valid (mode_out mode_in : LodePNGColorMode)
    (hpin : ValidBuf mode_in.palette) (hpout : ValidBuf mode_out.palette) :
    ValidBuf (effective_palette mode_out mode_in) := by
  unfold effective_palette
  split
  · exact hpin
  · exact hpout

/-- What `rgba8ToPixel` stores for a palette target when the colour is found. -/
theorem rgba8ToPixel_palette (out : Buf) (i : Nat) (mode : LodePNGColorMode) (tree : ColorTree)
    (c : Color) (hpal : mode.colortype = LCT_PALETTE)
    (hfound : ¬ color_tree_get tree c.r c.g c.b c.a < 0) :
    (rgba8ToPixel out i mode tree c).2 =
      if mode.bitdepth = 8 then out.set i ((color_tree_get tree c.r c.g c.b c.a).toNat % 256)
      else addColorBits out i mode.bitdepth (color_tree_get tree c.r c.g c.b c.a).toNat := by
  unfold rgba8ToPixel
  have h30 : ¬ (LCT_PALETTE = LCT_GREY) := by decide
  have h32 : ¬ (LCT_PALETTE = LCT_RGB) := by decide
  simp only [hpal, h30, h32, if_false, if_true, hfound]
  split <;> rfl

/-- With a palette target of a legal depth and unequal descriptors, `lodepng_convert` is
its general loop run with the tree of the effective palette. -/
theorem lodepng_convert_palette_eq (out inp : Buf) (mode_out mode_in : LodePNGColorMode)
    (w h : Nat) (hpal : mode_out.colortype = LCT_PALETTE)
    (hbd : mode_out.bitdepth = 1 ∨ mode_out.bitdepth = 2 ∨ mode_out.bitdepth = 4 ∨
      mode_out.bitdepth = 8)
    (hne : lodepng_color_mode_equal mode_out mode_in = false) :
    lodepng_convert out inp mode_out mode_in w h =
      convert_loop inp mode_out mode_in (convert_palette_tree mode_out mode_in)
        ((w * h) % 2 ^ 32) 0 out Color.zero := by
  unfold lodepng_convert
  have h16 : ¬ (mode_in.bitdepth = 16 ∧ mode_out.bitdepth = 16) := by
    intro hx; omega
  have h36 : ¬ (LCT_PALETTE = LCT_RGBA) := by decide
  have h32 : ¬ (LCT_PALETTE = LCT_RGB) := by decide
  simp only [hne, Bool.false_eq_true, if_false, hpal, if_true, h16, h36, h32, and_false]

/-- C9: for a palette target of depth 1, 2, 4 or 8 whose descriptor differs from the
source's, `lodepng_convert` returns 82 exactly when some pixel it processes decodes to a
colour that is not among the first `min(palettesize, 2 ^ bitdepth)` entries of the
effective palette (the target's, or the source's when the target's is empty); otherwise it
returns 0 and the index stored for every pixel addresses one of these entries, which
holds exactly the pixel's colour. -/
theorem C9_palette_color_not_found (out inp : Buf) (mode_out mode_in : LodePNGColorMode)
    (w h : Nat) (hpal : mode_out.colortype = LCT_PALETTE)
    (hbd : mode_out.bitdepth = 1 ∨ mode_out.bitdepth = 2 ∨ mode_out.bitdepth = 4 ∨
      mode_out.bitdepth = 8)
    (hne : lodepng_color_mode_equal mode_out mode_in = false)
    (hin : ValidBuf inp) (hpin : ValidBuf mode_in.palette) (hpout : ValidBuf mode_out.palette) :
    ((lodepng_convert out inp mode_out mode_in w h).1 = 82 ↔
      ∃ i, i < (w * h) % 2 ^ 32 ∧ ∀ j, j < effective_palsize mode_out mode_in →
        palette_entry (effective_palette mode_out mode_in) j ≠ decoded_pixel inp mode_in i) ∧
    ((lodepng_convert out inp mode_out mode_in w h).1 ≠ 82 →
      (lodepng_convert out inp mode_out mode_in w h).1 = 0 ∧
      ∀ i, i < (w * h) % 2 ^ 32 →
        sample_at (lodepng_convert out inp mode_out mode_in w h).2 mode_out.bitdepth i
          < effective_palsize mode_out mode_in ∧
        palette_entry (effective_palette mode_out mode_in)
          (sample_at (lodepng_convert out inp mode_out mode_in w h).2 mode_out.bitdepth i)
          = decoded_pixel inp mode_in i) := by
  rw [lodepng_convert_palette_eq out inp mode_out mode_in w h hpal hbd hne,
    convert_palette_tree_eq]
  have hpv := effective_palette_valid mode_out mode_in hpin hpout
  have hspec := palette_tree_spec (effective_palette mode_out mode_in) hpv
    (effective_palsize mode_out mode_in)
  generalize hT : forLoop (effective_palsize mode_out mode_in)
    (fun i tree => color_tree_add tree (effective_palette mode_out mode_in (i * 4 + 0))
      (effective_palette mode_out mode_in (i * 4 + 1))
      (effective_palette mode_out mode_in (i * 4 + 2))
      (effective_palette mode_out mode_in (i * 4 + 3)) i) color_tree_init = tree at hspec ⊢
  generalize hn : (w * h) % 2 ^ 32 = n
  generalize hP : effective_palette mode_out mode_in = pal at hspec hpv ⊢
  have hps : effective_palsize mode_out mode_in ≤ 2 ^ mode_out.bitdepth := by
    unfold effective_palsize; exact Nat.min_le_right _ _
  generalize hS : effective_palsize mode_out mode_in = ps at hspec hps ⊢
  have hbyte : ∀ i, (decoded_pixel inp mode_in i).IsByte :=
    fun i => decoded_pixel_isByte inp mode_in i hin hpin
  -- the two cases: some colour is missing, or all are found
  by_cases hmiss : ∃ i, i < n ∧ ∀ j, j < ps → palette_entry pal j ≠ decoded_pixel inp mode_in i
  · obtain ⟨i, hi, hall⟩ := hmiss
    have hget := (hspec.2 _ (hbyte i)).1 hall
    have herr := convert_loop_error inp mode_out mode_in tree n 0 out Color.zero (Or.inl rfl)
      ⟨i, Nat.zero_le i, by omega, hpal, by rw [hget]; decide⟩
    exact ⟨⟨fun _ => ⟨i, hi, hall⟩, fun _ => herr⟩, fun hx => absurd herr hx⟩
  · have hfound : ∀ i, i < n → ∃ j, j < ps ∧ palette_entry pal j = decoded_pixel inp mode_in i ∧
        color_tree_get tree (decoded_pixel inp mode_in i).r (decoded_pixel inp mode_in i).g
          (decoded_pixel inp mode_in i).b (decoded_pixel inp mode_in i).a = (j : Int) := by
      intro i hi
      apply (hspec.2 _ (hbyte i)).2
      by_contra hno
      apply hmiss
      refine ⟨i, hi, fun j hj hje => hno ⟨j, hj, hje⟩⟩
    have hnn : ∀ i, i < n → ¬ color_tree_get tree (decoded_pixel inp mode_in i).r
        (decoded_pixel inp mode_in i).g (decoded_pixel inp mode_in i).b
        (decoded_pixel inp mode_in i).a < 0 := by
      intro i hi
      obtain ⟨j, _, _, hg⟩ := hfound i hi
      rw [hg]
      omega
    have hidx : ∀ i, i < n →
        (color_tree_get tree (decoded_pixel inp mode_in i).r (decoded_pixel inp mode_in i).g
          (decoded_pixel inp mode_in i).b (decoded_pixel inp mode_in i).a).toNat < ps ∧
        palette_entry pal (color_tree_get tree (decoded_pixel inp mode_in i).r
          (decoded_pixel inp mode_in i).g (decoded_pixel inp mode_in i).b
          (decoded_pixel inp mode_in i).a).toNat = decoded_pixel inp mode_in i := by
      intro i hi
      obtain ⟨j, hj, hje, hg⟩ := hfound i hi
      rw [hg]
      simp only [Int.toNat_ofNat]
      exact ⟨hj, hje⟩
    have hok : ∀ j o, j < n →
        (rgba8ToPixel o j mode_out tree (decoded_pixel inp mode_in j)).1 = 0 := by
      intro j o hj
      rw [rgba8ToPixel_error]
      simp [hnn j hj]
    by_cases h8 : mode_out.bitdepth = 8
    · -- one byte per index
      have hloop := convert_loop_invariant
        (fun k o => ∀ j, j < k → o j =
          (color_tree_get tree (decoded_pixel inp mode_in j).r (decoded_pixel inp mode_in j).g
            (decoded_pixel inp mode_in j).b (decoded_pixel inp mode_in j).a).toNat)
        inp mode_out mode_in tree n
        (fun j o hj hinv _ => by
          rw [rgba8ToPixel_palette o j mode_out tree _ hpal (hnn j hj), if_pos h8]
          intro j1 hj1
          rw [Buf.set_apply]
          by_cases he : j1 = j
          · subst he
            simp only [if_true]
            have := (hidx j1 hj).1
            rw [h8] at hps
            exact Nat.mod_eq_of_lt (by omega)
          · simp only [he, if_false]
            exact hinv j1 (by omega))
        hok n 0 out Color.zero (by omega) (Or.inl rfl) (fun j hj => absurd hj (Nat.not_lt_zero j))
      refine ⟨⟨fun hx => ?_, fun hx => absurd hx hmiss⟩, fun _ => ⟨hloop.1, ?_⟩⟩
      · rw [hloop.1] at hx; exact absurd hx (by decide)
      · intro i hi
        unfold sample_at
        rw [if_pos h8, hloop.2 i hi]
        exact hidx i hi
    · -- packed indices
      have hd : mode_out.bitdepth = 1 ∨ mode_out.bitdepth = 2 ∨ mode_out.bitdepth = 4 := by
        omega
      have hloop := convert_loop_invariant
        (fun k o => packed_upto mode_out.bitdepth (fun j =>
          (color_tree_get tree (decoded_pixel inp mode_in j).r (decoded_pixel inp mode_in j).g
            (decoded_pixel inp mode_in j).b (decoded_pixel inp mode_in j).a).toNat) k o)
        inp mode_out mode_in tree n
        (fun j o hj hinv _ => by
          rw [rgba8ToPixel_palette o j mode_out tree _ hpal (hnn j hj), if_neg h8]
          exact packed_upto_step _ _ j o _ hd (fun _ _ => rfl) hinv)
        hok n 0 out Color.zero (by omega) (Or.inl rfl) (packed_upto_zero _ _ _)
      refine ⟨⟨fun hx => ?_, fun hx => absurd hx hmiss⟩, fun _ => ⟨hloop.1, ?_⟩⟩
      · rw [hloop.1] at hx; exact absurd hx (by decide)
      · intro i hi
        unfold sample_at
        rw [if_neg h8, packed_upto_read _ _ n _ hloop.2 i hi]
        have := (hidx i hi).1
        rw [Nat.mod_eq_of_lt (by omega)]
        exact hidx i hi

theorem validBuf_bufOfList (l : List Nat) (h : ∀ x ∈ l, x < 256) : ValidBuf (bufOfList l) := by
  intro i
  unfold bufOfList
  by_cases hi : i < l.length
  · rw [List.getD_eq_getElem _ _ hi]
    exact h _ (List.getElem_mem hi)
  · rw [List.getD_eq_default _ _ (Nat.le_of_not_lt hi)]
    decide

/-- Witness of C9: a five-entry target palette at depth 2 rejects the 1x1 RGBA image
whose colour (5, 5, 5, 255) is only the fifth entry. -/
theorem C9_palette_color_not_found_witness :
    (lodepng_convert (fun _ => 0) (bufOfList [5, 5, 5, 255]) five_entry_palette_mode
      rgba8_mode 1 1).1 = 82 :=
  (C9_palette_color_not_found (fun _ => 0) (bufOfList [5, 5, 5, 255]) five_entry_palette_mode
    rgba8_mode 1 1 rfl (Or.inr (Or.inl rfl)) (by decide)
    (validBuf_bufOfList _ (by decide)) (fun _ => Nat.zero_lt_succ 255)
    (validBuf_bufOfList _ (by decide))).1.2 ⟨0, by decide, by decide⟩

/-! ## The profile of an 8-bit RGBA image -/

theorem getPixelColorRGBA8_rgba8 (c : Color) (P : Buf) (i : Nat) :
    getPixelColorRGBA8 c P i rgba8_mode = pixel_rgba8 P i := by
  unfold getPixelColorRGBA8 pixel_rgba8 rgba8_mode
  simp

theorem getValueRequiredBits_legal (v : Nat) :
    getValueRequiredBits v = 1 ∨ getValueRequiredBits v = 2 ∨ getValueRequiredBits v = 4 ∨
      getValueRequiredBits v = 8 := by
  unfold getValueRequiredBits
  split
  · exact Or.inl rfl
  · split
    · split
      · exact Or.inr (Or.inl rfl)
      · exact Or.inr (Or.inr (Or.inl rfl))
    · exact Or.inr (Or.inr (Or.inr rfl))

/-- The block on `bits` accounts for the red sample of the current pixel. -/
theorem profile_bits8_InvBits (P : Buf) (k : Nat) (s : ProfileState)
    (h : InvBits P k s) (hc : s.c = pixel_rgba8 P k) : InvBits P (k + 1) (profile_bits8 32 s) := by
  obtain ⟨hl, hlow, hnd⟩ := h
  have hreq := getValueRequiredBits_legal s.c.r
  unfold profile_bits8
  dsimp only
  by_cases h8 : s.profile.bits < 8
  · by_cases hgt : getValueRequiredBits s.c.r > s.profile.bits
    · simp only [hnd, h8, hgt, Bool.not_false, true_and, if_true]
      refine ⟨hreq, ?_, by simp; omega⟩
      intro hb
      refine ⟨(hlow h8).1, (hlow h8).2.1, ?_⟩
      intro j hj
      by_cases hjk : j = k
      · subst hjk; rw [← hc]
      · have := (hlow h8).2.2 j (by omega)
        dsimp only at hb ⊢
        omega
    · simp only [hnd, h8, hgt, Bool.not_false, true_and, if_true, if_false]
      refine ⟨hl, ?_, by simp; omega⟩
      intro hb
      refine ⟨(hlow h8).1, (hlow h8).2.1, ?_⟩
      intro j hj
      by_cases hjk : j = k
      · subst hjk; rw [← hc]; dsimp only at hb ⊢; omega
      · exact (hlow h8).2.2 j (by omega)
  · simp only [h8, and_false, if_false]
    refine ⟨hl, fun hb => absurd hb h8, by simp; omega⟩

theorem InvBits_of_fields (P : Buf) (k : Nat) (s s1 : ProfileState) (h : InvBits P k s)
    (hb : s1.bits_done = s.bits_done)
    (hcase : (s1.profile.bits = s.profile.bits ∧ s1.profile.colored = s.profile.colored ∧
        s1.profile.alpha = s.profile.alpha) ∨
      (s1.profile.bits = 8 ∨ (s1.profile.bits = s.profile.bits ∧ ¬ s.profile.bits < 8))) :
    InvBits P k s1 := by
  obtain ⟨hl, hlow, hnd⟩ := h
  rcases hcase with ⟨e1, e2, e3⟩ | hx | ⟨e1, e2⟩
  · exact ⟨by rw [e1]; exact hl, by rw [e1, e2, e3]; exact hlow, by rw [hb]; exact hnd⟩
  · exact ⟨by rw [hx]; simp, by rw [hx]; intro h; omega, by rw [hb]; exact hnd⟩
  · exact ⟨by rw [e1]; exact hl, by rw [e1]; intro h; exact absurd h e2, by rw [hb]; exact hnd⟩

theorem bits_at_least_8_cases (p : LodePNGColorProfile) :
    (bits_at_least_8 p).bits = 8 ∨ ((bits_at_least_8 p).bits = p.bits ∧ ¬ p.bits < 8) := by
  unfold bits_at_least_8
  split
  · exact Or.inl rfl
  · rename_i h; exact Or.inr ⟨rfl, h⟩

theorem profile_colored8_InvBits (P : Buf) (k : Nat) (s : ProfileState) (h : InvBits P k s) :
    InvBits P k (profile_colored8 s) := by
  unfold profile_colored8
  split
  · exact InvBits_of_fields P k s _ h rfl (Or.inr (bits_at_least_8_cases _))
  · exact h

theorem profile_alpha8_InvBits (P : Buf) (k : Nat) (s : ProfileState) (h : InvBits P k s) :
    InvBits P k (profile_alpha8 s) := by
  unfold profile_alpha8
  dsimp only
  split
  · split
    · exact InvBits_of_fields P k s _ h rfl (Or.inr (bits_at_least_8_cases _))
    · split
      · exact InvBits_of_fields P k s _ h rfl (Or.inl ⟨rfl, rfl, rfl⟩)
      · split
        · exact InvBits_of_fields P k s _ h rfl (Or.inr (bits_at_least_8_cases _))
        · exact h
  · exact h

@[simp] theorem bits_at_least_8_key_r (p : LodePNGColorProfile) :
    (bits_at_least_8 p).key_r = p.key_r := by
  unfold bits_at_least_8; split <;> rfl

@[simp] theorem bits_at_least_8_key_g (p : LodePNGColorProfile) :
    (bits_at_least_8 p).key_g = p.key_g := by
  unfold bits_at_least_8; split <;> rfl

@[simp] theorem bits_at_least_8_key_b (p : LodePNGColorProfile) :
    (bits_at_least_8 p).key_b = p.key_b := by
  unfold bits_at_least_8; split <;> rfl

@[simp] theorem bits_at_least_8_numcolors (p : LodePNGColorProfile) :
    (bits_at_least_8 p).numcolors = p.numcolors := by
  unfold bits_at_least_8; split <;> rfl

@[simp] theorem bits_at_least_8_palette (p : LodePNGColorProfile) :
    (bits_at_least_8 p).palette = p.palette := by
  unfold bits_at_least_8; split <;> rfl

theorem InvColored_of_fields (P : Buf) (k : Nat) (s s1 : ProfileState) (h : InvColored P k s)
    (h1 : s1.profile.colored = s.profile.colored) (h2 : s1.colored_done = s.colored_done) :
    InvColored P k s1 := by
  obtain ⟨hf, hd, hg⟩ := h
  exact ⟨by rw [h1]; exact hf, by rw [h1, h2]; exact hd, by rw [h1]; exact hg⟩

theorem InvAlpha_of_fields (P : Buf) (k : Nat) (s s1 : ProfileState) (h : InvAlpha P k s)
    (h1 : s1.profile.alpha = s.profile.alpha) (h2 : s1.alpha_done = s.alpha_done)
    (h3 : s1.profile.key = s.profile.key) (h4 : s1.profile.key_r = s.profile.key_r)
    (h5 : s1.profile.key_g = s.profile.key_g) (h6 : s1.profile.key_b = s.profile.key_b) :
    InvAlpha P k s1 := by
  obtain ⟨hf, hkf, hd, ho, hk, hor⟩ := h
  exact ⟨by rw [h1]; exact hf, by rw [h3]; exact hkf, by rw [h1, h2]; exact hd,
    by rw [h1, h3]; exact ho, by rw [h1, h3, h4, h5, h6]; exact hk,
    by rw [h3, h4, h5, h6]; exact hor⟩

theorem profile_bits8_fields (bpp : Nat) (s : ProfileState) :
    (profile_bits8 bpp s).profile.colored = s.profile.colored ∧
    (profile_bits8 bpp s).colored_done = s.colored_done ∧
    (profile_bits8 bpp s).profile.alpha = s.profile.alpha ∧
    (profile_bits8 bpp s).alpha_done = s.alpha_done ∧
    (profile_bits8 bpp s).profile.key = s.profile.key ∧
    (profile_bits8 bpp s).profile.key_r = s.profile.key_r ∧
    (profile_bits8 bpp s).profile.key_g = s.profile.key_g ∧
    (profile_bits8 bpp s).profile.key_b = s.profile.key_b ∧
    (profile_bits8 bpp s).profile.numcolors = s.profile.numcolors ∧
    (profile_bits8 bpp s).profile.palette = s.profile.palette ∧
    (profile_bits8 bpp s).tree = s.tree ∧
    (profile_bits8 bpp s).numcolors_done = s.numcolors_done ∧
    (profile_bits8 bpp s).c = s.c := by
  unfold profile_bits8
  dsimp only
  split
  · split <;> simp
  · simp

theorem profile_colored8_fields (s : ProfileState) :
    (profile_colored8 s).profile.alpha = s.profile.alpha ∧
    (profile_colored8 s).alpha_done = s.alpha_done ∧
    (profile_colored8 s).profile.key = s.profile.key ∧
    (profile_colored8 s).profile.key_r = s.profile.key_r ∧
    (profile_colored8 s).profile.key_g = s.profile.key_g ∧
    (profile_colored8 s).profile.key_b = s.profile.key_b ∧
    (profile_colored8 s).profile.numcolors = s.profile.numcolors ∧
    (profile_colored8 s).profile.palette = s.profile.palette ∧
    (profile_colored8 s).tree = s.tree ∧
    (profile_colored8 s).numcolors_done = s.numcolors_done ∧
    (profile_colored8 s).c = s.c := by
  unfold profile_colored8
  split <;> simp

theorem profile_alpha8_fields (s : ProfileState) :
    (profile_alpha8 s).profile.colored = s.profile.colored ∧
    (profile_alpha8 s).colored_done = s.colored_done ∧
    (profile_alpha8 s).profile.numcolors = s.profile.numcolors ∧
    (profile_alpha8 s).profile.palette = s.profile.palette ∧
    (profile_alpha8 s).tree = s.tree ∧
    (profile_alpha8 s).numcolors_done = s.numcolors_done ∧
    (profile_alpha8 s).c = s.c := by
  unfold profile_alpha8
  dsimp only
  split
  · split
    · simp
    · split
      · simp
      · split <;> simp
  · simp

theorem profile_numcolors8_fields (maxn : Nat) (s : ProfileState) :
    (profile_numcolors8 maxn s).profile.colored = s.profile.colored ∧
    (profile_numcolors8 maxn s).colored_done = s.colored_done ∧
    (profile_numcolors8 maxn s).profile.alpha = s.profile.alpha ∧
    (profile_numcolors8 maxn s).alpha_done = s.alpha_done ∧
    (profile_numcolors8 maxn s).profile.key = s.profile.key ∧
    (profile_numcolors8 maxn s).profile.key_r = s.profile.key_r ∧
    (profile_numcolors8 maxn s).profile.key_g = s.profile.key_g ∧
    (profile_numcolors8 maxn s).profile.key_b = s.profile.key_b ∧
    (profile_numcolors8 maxn s).profile.bits = s.profile.bits ∧
    (profile_numcolors8 maxn s).bits_done = s.bits_done ∧
    (profile_numcolors8 maxn s).c = s.c := by
  unfold profile_numcolors8
  dsimp only
  split
  · split <;> simp
  · simp

/-- The block on `colored` accounts for the current pixel. -/
theorem profile_colored8_InvColored (P : Buf) (k : Nat) (s : ProfileState)
    (h : InvColored P k s) (hc : s.c = pixel_rgba8 P k) :
    InvColored P (k + 1) (profile_colored8 s) := by
  obtain ⟨hf, hd, hg⟩ := h
  unfold profile_colored8
  split
  · refine ⟨Or.inr (by simp), by simp, ?_⟩
    intro h0
    simp at h0
  · rename_i hcond
    refine ⟨hf, hd, ?_⟩
    intro h0 j hj
    by_cases hjk : j = k
    · subst hjk
      have hnd : s.colored_done = false := hd.mpr h0
      rw [← hc]
      simp only [hnd, Bool.not_false, true_and] at hcond
      constructor
      · by_contra hx; exact hcond (Or.inl hx)
      · by_contra hx; exact hcond (Or.inr hx)
    · exact hg h0 j (by omega)

/-- The block on `alpha` accounts for the current pixel. -/
theorem profile_alpha8_InvAlpha (P : Buf) (k : Nat) (s : ProfileState)
    (h : InvAlpha P k s) (hc : s.c = pixel_rgba8 P k) :
    InvAlpha P (k + 1) (profile_alpha8 s) := by
  obtain ⟨hf, hkf, hd, ho, hk, hor⟩ := h
  have horigin : s.profile.key ≠ 0 → ∃ j, j < k + 1 ∧ (pixel_rgba8 P j).a = 0 ∧
      (pixel_rgba8 P j).r = s.profile.key_r ∧ (pixel_rgba8 P j).g = s.profile.key_g ∧
      (pixel_rgba8 P j).b = s.profile.key_b := by
    intro hk0
    obtain ⟨j, hj, hrest⟩ := hor hk0
    exact ⟨j, by omega, hrest⟩
  unfold profile_alpha8
  dsimp only
  by_cases had : s.alpha_done = false
  · have ha0 : s.profile.alpha = 0 := hd.mp had
    simp only [had, Bool.not_false, if_true]
    split
    · -- alpha is forced
      refine ⟨Or.inr (by simp), by simpa using hkf, by simp, ?_, ?_, by simpa using horigin⟩
      · intro h0; simp at h0
      · intro h0; simp at h0
    · rename_i hc1
      split
      · -- the first fully transparent pixel: its colour becomes the key
        rename_i hc2
        refine ⟨Or.inl ha0, Or.inr rfl, ⟨fun _ => ha0, fun _ => rfl⟩, ?_, ?_, ?_⟩
        · intro _ h1; simp at h1
        · intro _ _ j hj
          by_cases hjk : j = k
          · subst hjk
            right
            rw [← hc]
            exact ⟨hc2.1, rfl, rfl, rfl⟩
          · left
            exact ho ha0 hc2.2.2 j (by omega)
        · intro _
          exact ⟨k, by omega, by rw [← hc]; exact hc2.1, by rw [← hc], by rw [← hc],
            by rw [← hc]⟩
      · rename_i hc2
        split
        · -- an opaque pixel with the colour of the key
          refine ⟨Or.inr (by simp), by simpa using hkf, by simp, ?_, ?_, by simpa using horigin⟩
          · intro h0; simp at h0
          · intro h0; simp at h0
        · rename_i hc3
          -- nothing changes: the pixel is opaque, or transparent with the colour of the key
          have hpix : s.c.a = 255 ∨ (s.c.a = 0 ∧ s.profile.key ≠ 0 ∧ s.c.r = s.profile.key_r ∧
              s.c.g = s.profile.key_g ∧ s.c.b = s.profile.key_b) := by
            by_cases h255 : s.c.a = 255
            · exact Or.inl h255
            · right
              by_cases h0 : s.c.a = 0
              · have hkn : s.profile.key ≠ 0 := by
                  intro hk0
                  exact hc2 ⟨h0, ha0, hk0⟩
                have hm : ¬ (s.profile.key ≠ 0 ∧ (!decide (s.c.r = s.profile.key_r ∧
                    s.c.g = s.profile.key_g ∧ s.c.b = s.profile.key_b)) = true) := by
                  intro hx
                  exact hc1 ⟨h255, Or.inr hx⟩
                have hm2 : s.c.r = s.profile.key_r ∧ s.c.g = s.profile.key_g ∧
                    s.c.b = s.profile.key_b := by
                  by_contra hno
                  apply hm
                  refine ⟨hkn, ?_⟩
                  simp [hno]
                exact ⟨h0, hkn, hm2⟩
              · exact absurd ⟨h255, Or.inl h0⟩ hc1
          refine ⟨hf, hkf, hd, ?_, ?_, horigin⟩
          · intro _ hk0 j hj
            by_cases hjk : j = k
            · subst hjk
              rw [← hc]
              rcases hpix with hp | hp
              · exact hp
              · exact absurd hk0 hp.2.1
            · exact ho ha0 hk0 j (by omega)
          · intro _ hk0 j hj
            by_cases hjk : j = k
            · subst hjk
              rw [← hc]
              rcases hpix with hp | hp
              · exact Or.inl hp
              · exact Or.inr ⟨hp.1, hp.2.2⟩
            · exact hk ha0 hk0 j (by omega)
  · have had1 : s.alpha_done = true := by
      cases hx : s.alpha_done
      · exact absurd hx had
      · rfl
    have ha1 : s.profile.alpha ≠ 0 := fun h0 => had (hd.mpr h0)
    simp only [had1, Bool.not_true, Bool.false_eq_true, if_false]
    exact ⟨hf, hkf, hd, fun h0 => absurd h0 ha1, fun h0 => absurd h0 ha1, horigin⟩

theorem pixel_rgba8_isByte (P : Buf) (hP : ValidBuf P) (i : Nat) : (pixel_rgba8 P i).IsByte :=
  ⟨hP _, hP _, hP _, hP _⟩

theorem image_range_succ (P : Buf) (k : Nat) :
    Finset.image (pixel_rgba8 P) (Finset.range (k + 1)) =
      insert (pixel_rgba8 P k) (Finset.image (pixel_rgba8 P) (Finset.range k)) := by
  rw [Finset.range_succ, Finset.image_insert]

theorem InvCount_of_fields (P : Buf) (k : Nat) (s s1 : ProfileState) (h : InvCount P k s)
    (h1 : s1.tree = s.tree) (h2 : s1.numcolors_done = s.numcolors_done)
    (h3 : s1.profile.numcolors = s.profile.numcolors)
    (h4 : s1.profile.palette = s.profile.palette) : InvCount P k s1 := by
  obtain ⟨ht, hc, hf⟩ := h
  exact ⟨by rw [h1]; exact ht, by rw [h1, h2, h3, h4]; exact hc, by rw [h2, h3]; exact hf⟩

/-- The block on `numcolors` accounts for the current pixel. -/
theorem profile_numcolors8_InvCount (P : Buf) (hP : ValidBuf P) (k : Nat) (s : ProfileState)
    (h : InvCount P k s) (hc : s.c = pixel_rgba8 P k) :
    InvCount P (k + 1) (profile_numcolors8 257 s) := by
  obtain ⟨ht, hcount, hfull⟩ := h
  have hcb : s.c.IsByte := by rw [hc]; exact pixel_rgba8_isByte P hP k
  unfold profile_numcolors8
  dsimp only
  by_cases hnd : s.numcolors_done = false
  · obtain ⟨hn, hle, htree, hpal⟩ := hcount hnd
    simp only [hnd, Bool.not_false, if_true]
    by_cases hhas : color_tree_has s.tree s.c.r s.c.g s.c.b s.c.a = true
    · -- a colour met before
      simp only [hhas, Bool.not_true, Bool.false_eq_true, if_false]
      have hmem : pixel_rgba8 P k ∈ Finset.image (pixel_rgba8 P) (Finset.range k) := by
        rw [← hc]
        apply (htree s.c hcb).mp
        unfold color_tree_has at hhas
        simpa using hhas
      have himg : Finset.image (pixel_rgba8 P) (Finset.range (k + 1)) =
          Finset.image (pixel_rgba8 P) (Finset.range k) := by
        rw [image_range_succ, Finset.insert_eq_of_mem hmem]
      refine ⟨ht, fun _ => ?_, fun hx => ?_⟩
      · rw [himg]
        refine ⟨hn, hle, htree, ?_⟩
        intro j hj
        by_cases hjk : j = k
        · subst hjk
          obtain ⟨j1, hj1, hj1e⟩ := Finset.mem_image.mp hmem
          obtain ⟨t, ht1, ht2⟩ := hpal j1 (Finset.mem_range.mp hj1)
          exact ⟨t, ht1, ht2.trans hj1e⟩
        · exact hpal j (by omega)
      · rw [hnd] at hx; exact absurd hx (by decide)
    · -- a new colour
      have hhas0 : color_tree_has s.tree s.c.r s.c.g s.c.b s.c.a = false := by
        cases hx : color_tree_has s.tree s.c.r s.c.g s.c.b s.c.a
        · rfl
        · exact absurd hx hhas
      simp only [hhas0, Bool.not_false, if_true]
      have hnot : pixel_rgba8 P k ∉ Finset.image (pixel_rgba8 P) (Finset.range k) := by
        rw [← hc]
        intro hm
        have := (htree s.c hcb).mpr hm
        unfold color_tree_has at hhas0
        simp at hhas0
        omega
      have hcard : (Finset.image (pixel_rgba8 P) (Finset.range (k + 1))).card =
          s.profile.numcolors + 1 := by
        rw [image_range_succ, Finset.card_insert_of_not_mem hnot, hn]
      refine ⟨color_tree_add_node _ _ _ _ _ _ ht, fun hx => ?_, fun hx => ?_⟩
      · have hlt : ¬ (s.profile.numcolors + 1 ≥ 257) := by simpa using hx
        have hlt256 : s.profile.numcolors < 256 := by omega
        refine ⟨hcard.symm, by show s.profile.numcolors + 1 ≤ 256; omega, ?_, ?_⟩
        · intro c hcB
          rw [image_range_succ, Finset.mem_insert]
          by_cases hce : c = s.c
          · subst hce
            rw [color_tree_get_add_eq _ _ _ _ _ _ ht]
            constructor
            · intro _; exact Or.inl hc
            · intro _; omega
          · rw [color_tree_get_add_ne _ _ _ _ _ _ _ _ _ _ hcb.1 hcb.2.1 hcb.2.2.1 hcb.2.2.2
              hcB.1 hcB.2.1 hcB.2.2.1 hcB.2.2.2 (color_ne_channels s.c c (Ne.symm hce))]
            rw [htree c hcB]
            constructor
            · intro hm; exact Or.inr hm
            · intro hm
              rcases hm with hm | hm
              · exact absurd (hm.trans hc.symm) hce
              · exact hm
        · intro j hj
          simp only [hlt256, if_true]
          by_cases hjk : j = k
          · subst hjk
            refine ⟨s.profile.numcolors, Nat.lt_succ_self _, ?_⟩
            rw [← hc]
            unfold palette_entry
            simp [Buf.set_apply]
          · obtain ⟨t, ht1, ht2⟩ := hpal j (by omega)
            refine ⟨t, Nat.lt_succ_of_lt ht1, ?_⟩
            rw [← ht2]
            unfold palette_entry
            have e0 : t * 4 + 0 ≠ s.profile.numcolors * 4 + 0 := by omega
            have e1 : t * 4 + 0 ≠ s.profile.numcolors * 4 + 1 := by omega
            have e2 : t * 4 + 0 ≠ s.profile.numcolors * 4 + 2 := by omega
            have e3 : t * 4 + 0 ≠ s.profile.numcolors * 4 + 3 := by omega
            have f0 : t * 4 + 1 ≠ s.profile.numcolors * 4 + 0 := by omega
            have f1 : t * 4 + 1 ≠ s.profile.numcolors * 4 + 1 := by omega
            have f2 : t * 4 + 1 ≠ s.profile.numcolors * 4 + 2 := by omega
            have f3 : t * 4 + 1 ≠ s.profile.numcolors * 4 + 3 := by omega
            have g0 : t * 4 + 2 ≠ s.profile.numcolors * 4 + 0 := by omega
            have g1 : t * 4 + 2 ≠ s.profile.numcolors * 4 + 1 := by omega
            have g2 : t * 4 + 2 ≠ s.profile.numcolors * 4 + 2 := by omega
            have g3 : t * 4 + 2 ≠ s.profile.numcolors * 4 + 3 := by omega
            have k0 : t * 4 + 3 ≠ s.profile.numcolors * 4 + 0 := by omega
            have k1 : t * 4 + 3 ≠ s.profile.numcolors * 4 + 1 := by omega
            have k2 : t * 4 + 3 ≠ s.profile.numcolors * 4 + 2 := by omega
            have k3 : t * 4 + 3 ≠ s.profile.numcolors * 4 + 3 := by omega
            simp only [Buf.set_apply, e0, e1, e2, e3, f0, f1, f2, f3, g0, g1, g2, g3, k0, k1,
              k2, k3, if_false]
      · have hge : s.profile.numcolors + 1 ≥ 257 := by simpa using hx
        refine ⟨by show s.profile.numcolors + 1 = 257; omega, ?_⟩
        rw [hcard]
        exact hge
  · have hd1 : s.numcolors_done = true := by
      cases hx : s.numcolors_done
      · exact absurd hx hnd
      · rfl
    simp only [hd1, Bool.not_true, Bool.false_eq_true, if_false]
    refine ⟨ht, fun hx => ?_, fun _ => ⟨(hfull hd1).1, ?_⟩⟩
    · rw [hd1] at hx; exact absurd hx (by decide)
    · refine Nat.le_trans (hfull hd1).2 (Finset.card_le_card ?_)
      rw [image_range_succ]
      exact Finset.subset_insert _ _

theorem profile_loop8_invariant_idx (Inv : Nat → ProfileState → Prop) (inp : Buf)
    (mode : LodePNGColorMode) (bpp maxn n : Nat)
    (hstep : ∀ i s, i < n → Inv i s → Inv (i + 1) (profile_step8 inp mode bpp maxn i s))
    (hgo : ∀ i s, i < n → Inv i s →
      profile_all_done (profile_step8 inp mode bpp maxn i s) = false) :
    ∀ fuel i s, i + fuel = n → Inv i s → Inv n (profile_loop8 inp mode bpp maxn fuel i s) := by
  intro fuel
  induction fuel with
  | zero =>
    intro i s hi hs
    have : i = n := by omega
    subst this
    exact hs
  | succ k ih =>
    intro i s hi hs
    unfold profile_loop8
    dsimp only
    rw [hgo i s (by omega) hs]
    simp only [Bool.false_eq_true, if_false]
    exact ih (i + 1) _ (by omega) (hstep i s (by omega) hs)

theorem forLoop_invariant_idx {σ : Type} (Inv : Nat → σ → Prop) (n : Nat) (body : Nat → σ → σ)
    (hstep : ∀ i s, i < n → Inv i s → Inv (i + 1) (body i s)) (s : σ) (h0 : Inv 0 s) :
    Inv n (forLoop n body s) := by
  induction n with
  | zero => exact h0
  | succ k ih =>
    rw [forLoop_succ]
    exact hstep k _ (Nat.lt_succ_self k)
      (ih (fun i s hi hs => hstep i s (Nat.lt_succ_of_lt hi) hs))

/-- One iteration of the scanning loop on an 8-bit RGBA image. -/
theorem profile_step8_InvProfile (P : Buf) (hP : ValidBuf P) (k : Nat) (s : ProfileState)
    (h : InvProfile P k s) :
    InvProfile P (k + 1) (profile_step8 P rgba8_mode 32 257 k s) := by
  obtain ⟨hb, hc, ha, hn⟩ := h
  unfold profile_step8
  rw [getPixelColorRGBA8_rgba8]
  -- the state with the pixel decoded
  have hb0 : InvBits P k { s with c := pixel_rgba8 P k } := InvBits_of_fields P k s _ hb rfl
    (Or.inl ⟨rfl, rfl, rfl⟩)
  have hc0 : InvColored P k { s with c := pixel_rgba8 P k } :=
    InvColored_of_fields P k s _ hc rfl rfl
  have ha0 : InvAlpha P k { s with c := pixel_rgba8 P k } :=
    InvAlpha_of_fields P k s _ ha rfl rfl rfl rfl rfl rfl
  have hn0 : InvCount P k { s with c := pixel_rgba8 P k } :=
    InvCount_of_fields P k s _ hn rfl rfl rfl rfl
  generalize hs0 : ({ s with c := pixel_rgba8 P k } : ProfileState) = s0 at hb0 hc0 ha0 hn0 ⊢
  have hcs0 : s0.c = pixel_rgba8 P k := by rw [← hs0]
  -- after the block on bits
  have f1 := profile_bits8_fields 32 s0
  have hb1 := profile_bits8_InvBits P k s0 hb0 hcs0
  have hc1 : InvColored P k (profile_bits8 32 s0) :=
    InvColored_of_fields P k s0 _ hc0 f1.1 f1.2.1
  have ha1 : InvAlpha P k (profile_bits8 32 s0) :=
    InvAlpha_of_fields P k s0 _ ha0 f1.2.2.1 f1.2.2.2.1 f1.2.2.2.2.1 f1.2.2.2.2.2.1
      f1.2.2.2.2.2.2.1 f1.2.2.2.2.2.2.2.1
  have hn1 : InvCount P k (profile_bits8 32 s0) :=
    InvCount_of_fields P k s0 _ hn0 f1.2.2.2.2.2.2.2.2.2.2.1 f1.2.2.2.2.2.2.2.2.2.2.2.1
      f1.2.2.2.2.2.2.2.2.1 f1.2.2.2.2.2.2.2.2.2.1
  have hcs1 : (profile_bits8 32 s0).c = pixel_rgba8 P k := by
    rw [f1.2.2.2.2.2.2.2.2.2.2.2.2]; exact hcs0
  generalize profile_bits8 32 s0 = s1 at hb1 hc1 ha1 hn1 hcs1 ⊢
  -- after the block on colored
  have f2 := profile_colored8_fields s1
  have hb2 := profile_colored8_InvBits P (k + 1) s1 hb1
  have hc2 := profile_colored8_InvColored P k s1 hc1 hcs1
  have ha2 : InvAlpha P k (profile_colored8 s1) :=
    InvAlpha_of_fields P k s1 _ ha1 f2.1 f2.2.1 f2.2.2.1 f2.2.2.2.1 f2.2.2.2.2.1 f2.2.2.2.2.2.1
  have hn2 : InvCount P k (profile_colored8 s1) :=
    InvCount_of_fields P k s1 _ hn1 f2.2.2.2.2.2.2.2.2.1 f2.2.2.2.2.2.2.2.2.2.1
      f2.2.2.2.2.2.2.1 f2.2.2.2.2.2.2.2.1
  have hcs2 : (profile_colored8 s1).c = pixel_rgba8 P k := by
    rw [f2.2.2.2.2.2.2.2.2.2.2]; exact hcs1
  generalize profile_colored8 s1 = s2 at hb2 hc2 ha2 hn2 hcs2 ⊢
  -- after the block on alpha
  have f3 := profile_alpha8_fields s2
  have hb3 := profile_alpha8_InvBits P (k + 1) s2 hb2
  have hc3 : InvColored P (k + 1) (profile_alpha8 s2) :=
    InvColored_of_fields P (k + 1) s2 _ hc2 f3.1 f3.2.1
  have ha3 := profile_alpha8_InvAlpha P k s2 ha2 hcs2
  have hn3 : InvCount P k (profile_alpha8 s2) :=
    InvCount_of_fields P k s2 _ hn2 f3.2.2.2.2.1 f3.2.2.2.2.2.1 f3.2.2.1 f3.2.2.2.1
  have hcs3 : (profile_alpha8 s2).c = pixel_rgba8 P k := by
    rw [f3.2.2.2.2.2.2]; exact hcs2
  generalize profile_alpha8 s2 = s3 at hb3 hc3 ha3 hn3 hcs3 ⊢
  -- after the block on numcolors
  have f4 := profile_numcolors8_fields 257 s3
  have hn4 := profile_numcolors8_InvCount P hP k s3 hn3 hcs3
  refine ⟨?_, ?_, ?_, hn4⟩
  · exact InvBits_of_fields P (k + 1) s3 _ hb3 f4.2.2.2.2.2.2.2.2.2.1
      (Or.inl ⟨f4.2.2.2.2.2.2.2.2.1, f4.1, f4.2.2.1⟩)
  · exact InvColored_of_fields P (k + 1) s3 _ hc3 f4.1 f4.2.1
  · exact InvAlpha_of_fields P (k + 1) s3 _ ha3 f4.2.2.1 f4.2.2.2.1 f4.2.2.2.2.1
      f4.2.2.2.2.2.1 f4.2.2.2.2.2.2.1 f4.2.2.2.2.2.2.2.1

theorem InvProfile_not_all_done (P : Buf) (k : Nat) (s : ProfileState) (h : InvProfile P k s) :
    profile_all_done s = false := by
  unfold profile_all_done
  rw [h.bits.notdone]
  simp

theorem InvProfile_start (P : Buf) :
    InvProfile P 0 (profile_start (lodepng_color_profile_init profile_local) rgba8_mode) := by
  refine ⟨⟨Or.inl rfl, fun _ => ⟨rfl, rfl, fun j hj => absurd hj (Nat.not_lt_zero j)⟩, ?_⟩,
    ⟨Or.inl rfl, ⟨fun _ => rfl, fun _ => ?_⟩, fun _ j hj => absurd hj (Nat.not_lt_zero j)⟩,
    ⟨Or.inl rfl, Or.inl rfl, ⟨fun _ => rfl, fun _ => ?_⟩,
      fun _ _ j hj => absurd hj (Nat.not_lt_zero j),
      fun _ _ j hj => absurd hj (Nat.not_lt_zero j), fun hk => absurd rfl hk⟩,
    ⟨by simp [profile_start, color_tree_init], fun _ => ⟨rfl, by decide, ?_,
      fun j hj => absurd hj (Nat.not_lt_zero j)⟩, fun hx => ?_⟩⟩
  · decide
  · decide
  · decide
  · intro c _
    simp only [Finset.range_zero, Finset.image_empty, Finset.not_mem_empty, iff_false]
    have : color_tree_get (profile_start (lodepng_color_profile_init profile_local)
        rgba8_mode).tree c.r c.g c.b c.a = -1 := color_tree_get_from_init c.r c.g c.b c.a 8 0
    rw [this]
    decide
  · exact absurd hx (by decide)

/-- The state of the profile after the scanning loop over an 8-bit RGBA image. -/
theorem profile_loop8_rgba8 (P : Buf) (hP : ValidBuf P) (n : Nat) :
    InvProfile P n (profile_loop8 P rgba8_mode 32 257 n 0
      (profile_start (lodepng_color_profile_init profile_local) rgba8_mode)) :=
  profile_loop8_invariant_idx (InvProfile P) P rgba8_mode 32 257 n
    (fun i s _ hs => profile_step8_InvProfile P hP i s hs)
    (fun i s _ hs => InvProfile_not_all_done P (i + 1) _ (profile_step8_InvProfile P hP i s hs))
    n 0 _ (by omega) (InvProfile_start P)

/-- The second pass over an 8-bit RGBA image only ever sets `alpha`, and leaves it at 0
only if no pixel that is not fully transparent has the colour of the key. -/
theorem profile_keycheck8_rgba8 (P : Buf) (n : Nat) (s : ProfileState)
    (ha : s.profile.alpha = 0) :
    (forLoop n (profile_keycheck8 P rgba8_mode) s).profile.colored = s.profile.colored ∧
    (forLoop n (profile_keycheck8 P rgba8_mode) s).profile.key = s.profile.key ∧
    (forLoop n (profile_keycheck8 P rgba8_mode) s).profile.key_r = s.profile.key_r ∧
    (forLoop n (profile_keycheck8 P rgba8_mode) s).profile.key_g = s.profile.key_g ∧
    (forLoop n (profile_keycheck8 P rgba8_mode) s).profile.key_b = s.profile.key_b ∧
    (forLoop n (profile_keycheck8 P rgba8_mode) s).profile.numcolors = s.profile.numcolors ∧
    (forLoop n (profile_keycheck8 P rgba8_mode) s).profile.palette = s.profile.palette ∧
    (forLoop n (profile_keycheck8 P rgba8_mode) s).profile.bits = s.profile.bits ∧
    ((forLoop n (profile_keycheck8 P rgba8_mode) s).profile.alpha = 0 ∨
      (forLoop n (profile_keycheck8 P rgba8_mode) s).profile.alpha = 1) ∧
    ((forLoop n (profile_keycheck8 P rgba8_mode) s).profile.alpha = 0 →
      ∀ j, j < n → ¬((pixel_rgba8 P j).a ≠ 0 ∧ (pixel_rgba8 P j).r = s.profile.key_r ∧
        (pixel_rgba8 P j).g = s.profile.key_g ∧ (pixel_rgba8 P j).b = s.profile.key_b)) := by
  apply forLoop_invariant_idx (fun k (s1 : ProfileState) =>
    s1.profile.colored = s.profile.colored ∧ s1.profile.key = s.profile.key ∧
    s1.profile.key_r = s.profile.key_r ∧ s1.profile.key_g = s.profile.key_g ∧
    s1.profile.key_b = s.profile.key_b ∧ s1.profile.numcolors = s.profile.numcolors ∧
    s1.profile.palette = s.profile.palette ∧ s1.profile.bits = s.profile.bits ∧
    (s1.profile.alpha = 0 ∨ s1.profile.alpha = 1) ∧
    (s1.profile.alpha = 0 →
      ∀ j, j < k → ¬((pixel_rgba8 P j).a ≠ 0 ∧ (pixel_rgba8 P j).r = s.profile.key_r ∧
        (pixel_rgba8 P j).g = s.profile.key_g ∧ (pixel_rgba8 P j).b = s.profile.key_b)))
  · intro i s1 _ ⟨h1, h2, h3, h4, h5, h6, h7, h8, h9, h10⟩
    unfold profile_keycheck8
    rw [getPixelColorRGBA8_rgba8]
    dsimp only
    split
    · refine ⟨h1, h2, h3, h4, h5, h6, h7, h8, Or.inr rfl, ?_⟩
      intro hx
      simp at hx
    · rename_i hcond
      refine ⟨h1, h2, h3, h4, h5, h6, h7, h8, h9, ?_⟩
      intro h0 j hj
      by_cases hji : j = i
      · subst hji
        rw [h3, h4, h5] at hcond
        exact hcond
      · exact h10 h0 j (by omega)
  · exact ⟨rfl, rfl, rfl, rfl, rfl, rfl, rfl, rfl, Or.inl ha,
      fun _ j hj => absurd hj (Nat.not_lt_zero j)⟩

theorem key_to_16_byte (k : Nat) (hk : k < 256) : (k + (k <<< 8)) % 65536 = 257 * k := by
  rw [Nat.shiftLeft_eq]
  omega

/-- The profile of an 8-bit RGBA image of `n` pixels, as left by the branch below 16
bits. -/
theorem profile_run8_rgba8 (P : Buf) (hP : ValidBuf P) (n : Nat) :
    ProfileSound P n (profile_run8 P n rgba8_mode
      (profile_start (lodepng_color_profile_init profile_local) rgba8_mode)) := by
  have hloop := profile_loop8_rgba8 P hP n
  unfold profile_run8
  have hbpp : lodepng_get_bpp rgba8_mode = 32 := by decide
  have hmax : profile_maxnumcolors 32 = 257 := by decide
  rw [hbpp]
  dsimp only
  rw [hmax]
  generalize profile_loop8 P rgba8_mode 32 257 n 0
    (profile_start (lodepng_color_profile_init profile_local) rgba8_mode) = s2 at hloop ⊢
  obtain ⟨hb, hc, ha, hn⟩ := hloop
  -- the counting part does not depend on the second pass
  have hcount : ∀ p : LodePNGColorProfile, p.numcolors = s2.profile.numcolors →
      p.palette = s2.profile.palette →
      (p.numcolors ≤ 256 →
        p.numcolors = (Finset.image (pixel_rgba8 P) (Finset.range n)).card ∧
        ∀ j, j < n → ∃ t, t < p.numcolors ∧ palette_entry p.palette t = pixel_rgba8 P j) ∧
      (256 < p.numcolors → 257 ≤ (Finset.image (pixel_rgba8 P) (Finset.range n)).card) := by
    intro p hp1 hp2
    rw [hp1, hp2]
    by_cases hd : s2.numcolors_done = false
    · obtain ⟨e1, e2, _, e4⟩ := hn.counting hd
      exact ⟨fun _ => ⟨e1, e4⟩, fun hx => by omega⟩
    · have hd1 : s2.numcolors_done = true := by
        cases hx : s2.numcolors_done
        · exact absurd hx hd
        · rfl
      obtain ⟨e1, e2⟩ := hn.full hd1
      exact ⟨fun hx => by omega, fun _ => e2⟩
  have hkeyb : s2.profile.key ≠ 0 →
      s2.profile.key_r < 256 ∧ s2.profile.key_g < 256 ∧ s2.profile.key_b < 256 := by
    intro hk
    obtain ⟨j, _, _, e1, e2, e3⟩ := ha.origin hk
    rw [← e1, ← e2, ← e3]
    exact ⟨hP _, hP _, hP _⟩
  by_cases hsecond : s2.profile.key ≠ 0 ∧ s2.profile.alpha = 0
  · -- the second pass runs
    rw [if_pos hsecond]
    obtain ⟨g1, g2, g3, g4, g5, g6, g7, g8, g9, g10⟩ :=
      profile_keycheck8_rgba8 P n s2 hsecond.2
    generalize forLoop n (profile_keycheck8 P rgba8_mode) s2 = s3 at g1 g2 g3 g4 g5 g6 g7 g8 g9 g10 ⊢
    obtain ⟨kb1, kb2, kb3⟩ := hkeyb hsecond.1
    have hcnt := hcount (profile_key_to_16 s3.profile) g6 g7
    have e8 : (profile_key_to_16 s3.profile).bits = s2.profile.bits := g8
    have e1 : (profile_key_to_16 s3.profile).colored = s2.profile.colored := g1
    have e2 : (profile_key_to_16 s3.profile).key = s2.profile.key := g2
    refine ⟨by rw [e8]; exact hb.legal, by rw [e1]; exact hc.flag,
      g9, by rw [e2]; exact ha.keyflag, ?_, ?_, ?_, ?_, ?_, hcnt.1, hcnt.2⟩
    · intro h0
      exact hc.grey (by rw [← g1]; exact h0)
    · intro hlt
      have hlt2 : s2.profile.bits < 8 := by rw [← g8]; exact hlt
      refine ⟨by show s3.profile.colored = 0; rw [g1]; exact (hb.low hlt2).1, ?_⟩
      show ∀ j, j < n → getValueRequiredBits (pixel_rgba8 P j).r ≤ s3.profile.bits
      rw [g8]
      exact (hb.low hlt2).2.2
    · intro _ hk0
      exact absurd (show s3.profile.key = 0 from hk0) (by rw [g2]; exact hsecond.1)
    · intro h0 _ j hj
      have hno := g10 h0 j hj
      show _ ∨ ((pixel_rgba8 P j).a = 0 ∧ 257 * (pixel_rgba8 P j).r
        = (s3.profile.key_r + s3.profile.key_r <<< 8) % 65536 ∧ _)
      show ((pixel_rgba8 P j).a = 255 ∧ ¬(257 * (pixel_rgba8 P j).r
          = (s3.profile.key_r + s3.profile.key_r <<< 8) % 65536 ∧
        257 * (pixel_rgba8 P j).g = (s3.profile.key_g + s3.profile.key_g <<< 8) % 65536 ∧
        257 * (pixel_rgba8 P j).b = (s3.profile.key_b + s3.profile.key_b <<< 8) % 65536)) ∨
        ((pixel_rgba8 P j).a = 0 ∧ 257 * (pixel_rgba8 P j).r
          = (s3.profile.key_r + s3.profile.key_r <<< 8) % 65536 ∧
        257 * (pixel_rgba8 P j).g = (s3.profile.key_g + s3.profile.key_g <<< 8) % 65536 ∧
        257 * (pixel_rgba8 P j).b = (s3.profile.key_b + s3.profile.key_b <<< 8) % 65536)
      rw [g3, g4, g5, key_to_16_byte _ kb1, key_to_16_byte _ kb2, key_to_16_byte _ kb3]
      rcases ha.keyed hsecond.2 hsecond.1 j hj with h255 | ⟨h00, e1, e2, e3⟩
      · left
        refine ⟨h255, ?_⟩
        intro ⟨e1, e2, e3⟩
        apply hno
        refine ⟨by omega, by omega, by omega, by omega⟩
      · right
        exact ⟨h00, by rw [e1], by rw [e2], by rw [e3]⟩
    · intro _
      obtain ⟨j, hj, h00, e1, e2, e3⟩ := ha.origin hsecond.1
      refine ⟨j, hj, h00, ?_⟩
      show 257 * (pixel_rgba8 P j).r = (s3.profile.key_r + s3.profile.key_r <<< 8) % 65536 ∧
        257 * (pixel_rgba8 P j).g = (s3.profile.key_g + s3.profile.key_g <<< 8) % 65536 ∧
        257 * (pixel_rgba8 P j).b = (s3.profile.key_b + s3.profile.key_b <<< 8) % 65536
      rw [g3, g4, g5, key_to_16_byte _ kb1, key_to_16_byte _ kb2, key_to_16_byte _ kb3,
        e1, e2, e3]
      exact ⟨rfl, rfl, rfl⟩
  · -- no second pass: there is no key, or alpha is already forced
    rw [if_neg hsecond]
    have hcnt := hcount (profile_key_to_16 s2.profile) rfl rfl
    refine ⟨hb.legal, hc.flag, ha.flag, ha.keyflag, hc.grey, ?_, ha.solid, ?_, ?_,
      hcnt.1, hcnt.2⟩
    · intro hlt
      exact ⟨(hb.low hlt).1, (hb.low hlt).2.2⟩
    · intro h0 hk0
      exact absurd ⟨hk0, h0⟩ hsecond
    · intro hk0
      obtain ⟨kb1, kb2, kb3⟩ := hkeyb hk0
      obtain ⟨j, hj, h00, e1, e2, e3⟩ := ha.origin hk0
      refine ⟨j, hj, h00, ?_⟩
      show 257 * (pixel_rgba8 P j).r = (s2.profile.key_r + s2.profile.key_r <<< 8) % 65536 ∧
        257 * (pixel_rgba8 P j).g = (s2.profile.key_g + s2.profile.key_g <<< 8) % 65536 ∧
        257 * (pixel_rgba8 P j).b = (s2.profile.key_b + s2.profile.key_b <<< 8) % 65536
      rw [key_to_16_byte _ kb1, key_to_16_byte _ kb2, key_to_16_byte _ kb3, e1, e2, e3]
      exact ⟨rfl, rfl, rfl⟩

/-- The profile that `lodepng_auto_choose_color` computes for an 8-bit RGBA image. -/
theorem image_profile_rgba8 (P : Buf) (hP : ValidBuf P) (w h : Nat) :
    ProfileSound P ((w * h) % 2 ^ 32) (image_profile P w h rgba8_mode) := by
  unfold image_profile lodepng_get_color_profile
  have h16 : ∀ n, profile_sixteen P n rgba8_mode = false := by
    intro n
    unfold profile_sixteen
    simp [rgba8_mode]
  simp only [h16, Bool.false_eq_true, if_false]
  exact profile_run8_rgba8 P hP _

/-- The adjustment for small images keeps what the profile tells about the image. -/
theorem choose_adjust_profile_sound (P : Buf) (n : Nat) (p : LodePNGColorProfile) (wh : Nat)
    (h : ProfileSound P n p) : ProfileSound P n (choose_adjust_profile p wh) := by
  unfold choose_adjust_profile
  split
  · obtain ⟨h1, h2, h3, h4, h5, h6, h7, h8, h9, h10, h11⟩ := h
    have hb := bits_at_least_8_cases { p with alpha := 1 }
    refine ⟨?_, by simpa using h2, Or.inr (by simp), by simpa using h4, by simpa using h5, ?_,
      ?_, ?_, by simpa using h9, by simpa using h10, by simpa using h11⟩
    · rcases hb with hb | hb
      · rw [hb]; simp
      · rw [hb.1]; exact h1
    · intro hlt
      rcases hb with hb | hb
      · rw [hb] at hlt; omega
      · rw [hb.1] at hlt; exact absurd hlt hb.2
    · intro h0; simp at h0
    · intro h0; simp at h0
  · exact h

set_option maxRecDepth 100000 in
theorem lowbit_key_recover : ∀ r, r < 256 →
    (getValueRequiredBits r ≤ 1 → r = ((257 * r) &&& ((1 <<< 1) - 1)) * 255 / 1) ∧
    (getValueRequiredBits r ≤ 2 → r = ((257 * r) &&& ((1 <<< 2) - 1)) * 255 / 3) ∧
    (getValueRequiredBits r ≤ 4 → r = ((257 * r) &&& ((1 <<< 4) - 1)) * 255 / 15) := by
  decide

/-- Below 8 bits, two samples that fit in the depth and give the same masked key are
equal. -/
theorem lowbit_key_injective (d x y : Nat) (hd : d = 1 ∨ d = 2 ∨ d = 4)
    (hx : x < 256) (hy : y < 256)
    (hxd : getValueRequiredBits x ≤ d) (hyd : getValueRequiredBits y ≤ d)
    (h : (257 * x) &&& ((1 <<< d) - 1) = (257 * y) &&& ((1 <<< d) - 1)) : x = y := by
  have rx := lowbit_key_recover x hx
  have ry := lowbit_key_recover y hy
  rcases hd with hd | hd | hd <;> subst hd
  · rw [rx.1 hxd, ry.1 hyd, h]
  · rw [rx.2.1 hxd, ry.2.1 hyd, h]
  · rw [rx.2.2 hxd, ry.2.2 hyd, h]

theorem byte_key_mask (x : Nat) (hx : x < 256) : (257 * x) &&& ((1 <<< 8) - 1) = x := by
  have : ((1 : Nat) <<< 8) - 1 = 2 ^ 8 - 1 := rfl
  rw [this, Nat.and_pow_two_sub_one_eq_mod]
  omega

theorem palette_add_loop_fields (p : Buf) (n : Nat) (m : LodePNGColorMode) :
    (forLoop n (fun i m => (lodepng_palette_add m (p (i * 4 + 0)) (p (i * 4 + 1))
      (p (i * 4 + 2)) (p (i * 4 + 3))).2) m).key_defined = m.key_defined ∧
    (forLoop n (fun i m => (lodepng_palette_add m (p (i * 4 + 0)) (p (i * 4 + 1))
      (p (i * 4 + 2)) (p (i * 4 + 3))).2) m).palettesize = m.palettesize + n := by
  induction n with
  | zero => exact ⟨rfl, rfl⟩
  | succ k ih =>
    rw [forLoop_succ]
    generalize forLoop k (fun i m => (lodepng_palette_add m (p (i * 4 + 0)) (p (i * 4 + 1))
      (p (i * 4 + 2)) (p (i * 4 + 3))).2) m = m1 at ih ⊢
    unfold lodepng_palette_add
    dsimp only
    exact ⟨ih.1, by rw [ih.2]; omega⟩

/-- For a source that is not a palette the palette branch keeps `key_defined` and sets the
depth to `palettebits`. -/
theorem choose_palette_fields (mode_out mode_in : LodePNGColorMode) (prof : LodePNGColorProfile)
    (hin : mode_in.colortype ≠ LCT_PALETTE) :
    (choose_palette mode_out prof mode_in).key_defined = mode_out.key_defined ∧
    (choose_palette mode_out prof mode_in).bitdepth = choose_palettebits prof.numcolors := by
  unfold choose_palette
  dsimp only
  have hne : ¬ (mode_in.colortype = LCT_PALETTE ∧ mode_in.palettesize ≥
      (forLoop prof.numcolors (fun i m => (lodepng_palette_add m (prof.palette (i * 4 + 0))
        (prof.palette (i * 4 + 1)) (prof.palette (i * 4 + 2)) (prof.palette (i * 4 + 3))).2)
        (lodepng_palette_clear mode_out)).palettesize ∧
      mode_in.bitdepth = choose_palettebits prof.numcolors) := fun hx => hin hx.1
  rw [if_neg hne]
  exact ⟨(palette_add_loop_fields _ _ _).1, rfl⟩

/-! ## C4: a key that an opaque pixel shares -/

/-- C4: for an 8-bit RGBA image in which a fully transparent pixel and a pixel that is not
fully transparent have the same RGB, the chosen mode has no key and is GreyAlpha, RGBA or
Palette; and whenever the chosen mode has a key, no pixel that is not fully transparent
has the key's RGB (the key of the output is the 16-bit colour `257 * v` masked to the bit
depth).  The pixels are those that the function scans, `w * h` modulo `2 ^ 32` of them. -/
theorem C4_key_exclusive (mode_out : LodePNGColorMode) (P : Buf) (w h : Nat)
    (hP : ValidBuf P) :
    ((∃ i j, i < (w * h) % 2 ^ 32 ∧ j < (w * h) % 2 ^ 32 ∧ (pixel_rgba8 P i).a = 0 ∧
        (pixel_rgba8 P j).a ≠ 0 ∧ (pixel_rgba8 P i).r = (pixel_rgba8 P j).r ∧
        (pixel_rgba8 P i).g = (pixel_rgba8 P j).g ∧ (pixel_rgba8 P i).b = (pixel_rgba8 P j).b) →
      (lodepng_auto_choose_color mode_out P w h rgba8_mode).2.key_defined = 0 ∧
      ((lodepng_auto_choose_color mode_out P w h rgba8_mode).2.colortype = LCT_GREY_ALPHA ∨
       (lodepng_auto_choose_color mode_out P w h rgba8_mode).2.colortype = LCT_RGBA ∨
       (lodepng_auto_choose_color mode_out P w h rgba8_mode).2.colortype = LCT_PALETTE)) ∧
    ((lodepng_auto_choose_color mode_out P w h rgba8_mode).2.key_defined = 1 →
      ∀ j, j < (w * h) % 2 ^ 32 → (pixel_rgba8 P j).a ≠ 0 →
        ¬((lodepng_auto_choose_color mode_out P w h rgba8_mode).2.key_r =
            (257 * (pixel_rgba8 P j).r) &&&
              ((1 <<< (lodepng_auto_choose_color mode_out P w h rgba8_mode).2.bitdepth) - 1) ∧
          (lodepng_auto_choose_color mode_out P w h rgba8_mode).2.key_g =
            (257 * (pixel_rgba8 P j).g) &&&
              ((1 <<< (lodepng_auto_choose_color mode_out P w h rgba8_mode).2.bitdepth) - 1) ∧
          (lodepng_auto_choose_color mode_out P w h rgba8_mode).2.key_b =
            (257 * (pixel_rgba8 P j).b) &&&
              ((1 <<< (lodepng_auto_choose_color mode_out P w h rgba8_mode).2.bitdepth) - 1))) := by
  have hsound := choose_adjust_profile_sound P _ _ ((w * h) % 2 ^ 32)
    (image_profile_rgba8 P hP w h)
  rw [lodepng_auto_choose_color_eq]
  generalize choose_adjust_profile (image_profile P w h rgba8_mode) ((w * h) % 2 ^ 32) = prof
    at hsound ⊢
  generalize (w * h) % 2 ^ 32 = n at hsound ⊢
  have hnp : rgba8_mode.colortype ≠ LCT_PALETTE := by decide
  constructor
  · -- a shared colour forces alpha
    intro ⟨i, j, hi, hj, hai, haj, er, eg, eb⟩
    have halpha : prof.alpha ≠ 0 := by
      intro h0
      by_cases hk : prof.key = 0
      · have := hsound.solid h0 hk i hi
        omega
      · rcases hsound.keyed h0 hk j hj with ⟨_, hne⟩ | ⟨hz, _⟩
        · rcases hsound.keyed h0 hk i hi with ⟨h255, _⟩ | ⟨_, e1, e2, e3⟩
          · omega
          · apply hne
            rw [← er, ← eg, ← eb]
            exact ⟨e1, e2, e3⟩
        · exact haj hz
    split
    · exact ⟨(choose_palette_fields _ _ _ hnp).1, Or.inr (Or.inr (choose_palette_colortype _ _ _))⟩
    · rw [choose_plain_key_defined, choose_plain_colortype]
      simp only [halpha, and_false, if_false, ne_eq, not_false_eq_true, if_true]
      refine ⟨trivial, ?_⟩
      by_cases hc : prof.colored = 0
      · left; simp [hc]
      · right; left; simp [hc]
  · -- a key in the output is the colour of no other pixel
    split
    · intro hkd
      rw [(choose_palette_fields _ _ _ hnp).1] at hkd
      simp at hkd
    · rw [choose_plain_key_defined, choose_plain_bitdepth]
      intro hkd j hj haj
      by_cases hka : prof.key ≠ 0 ∧ prof.alpha = 0
      · obtain ⟨hk, h0⟩ := hka
        have hkr : (choose_plain { mode_out with key_defined := 0 } prof).key_r =
            prof.key_r &&& ((1 <<< prof.bits) - 1) := by
          unfold choose_plain; simp [hk, h0]
        have hkg : (choose_plain { mode_out with key_defined := 0 } prof).key_g =
            prof.key_g &&& ((1 <<< prof.bits) - 1) := by
          unfold choose_plain; simp [hk, h0]
        have hkb : (choose_plain { mode_out with key_defined := 0 } prof).key_b =
            prof.key_b &&& ((1 <<< prof.bits) - 1) := by
          unfold choose_plain; simp [hk, h0]
        rw [hkr, hkg, hkb]
        obtain ⟨i, hi, hai, e1, e2, e3⟩ := hsound.origin hk
        rw [← e1, ← e2, ← e3]
        intro ⟨m1, m2, m3⟩
        rcases hsound.keyed h0 hk j hj with ⟨_, hne⟩ | ⟨hz, _⟩
        · apply hne
          rw [← e1, ← e2, ← e3]
          have hbi := pixel_rgba8_isByte P hP i
          have hbj := pixel_rgba8_isByte P hP j
          by_cases h8 : prof.bits = 8
          · rw [h8, byte_key_mask _ hbi.1, byte_key_mask _ hbj.1] at m1
            rw [h8, byte_key_mask _ hbi.2.1, byte_key_mask _ hbj.2.1] at m2
            rw [h8, byte_key_mask _ hbi.2.2.1, byte_key_mask _ hbj.2.2.1] at m3
            rw [m1, m2, m3]
            exact ⟨rfl, rfl, rfl⟩
          · have hlt : prof.bits < 8 := by
              rcases hsound.bits_legal with hb | hb | hb | hb <;> omega
            have hd : prof.bits = 1 ∨ prof.bits = 2 ∨ prof.bits = 4 := by
              rcases hsound.bits_legal with hb | hb | hb | hb
              · exact Or.inl hb
              · exact Or.inr (Or.inl hb)
              · exact Or.inr (Or.inr hb)
              · exact absurd hb h8
            obtain ⟨hcol, hreq⟩ := hsound.low hlt
            have hgi := hsound.grey hcol i hi
            have hgj := hsound.grey hcol j hj
            have hr : (pixel_rgba8 P i).r = (pixel_rgba8 P j).r :=
              lowbit_key_injective prof.bits _ _ hd hbi.1 hbj.1 (hreq i hi) (hreq j hj) m1
            rw [← hgj.1, ← hgj.2, ← hr]
            exact ⟨rfl, by rw [hgi.1], by rw [hgi.2]⟩
        · exact haj hz
      · rw [if_neg hka] at hkd
        simp at hkd

/-- Witness of C4: the 2x1 image `[(10, 20, 30, 0), (10, 20, 30, 255)]` gets a mode with
alpha and no key. -/
theorem C4_key_exclusive_witness :
    (lodepng_auto_choose_color rgba8_mode (bufOfList [10, 20, 30, 0, 10, 20, 30, 255]) 2 1
      rgba8_mode).2.key_defined = 0 ∧
    ((lodepng_auto_choose_color rgba8_mode (bufOfList [10, 20, 30, 0, 10, 20, 30, 255]) 2 1
        rgba8_mode).2.colortype = LCT_GREY_ALPHA ∨
     (lodepng_auto_choose_color rgba8_mode (bufOfList [10, 20, 30, 0, 10, 20, 30, 255]) 2 1
        rgba8_mode).2.colortype = LCT_RGBA ∨
     (lodepng_auto_choose_color rgba8_mode (bufOfList [10, 20, 30, 0, 10, 20, 30, 255]) 2 1
        rgba8_mode).2.colortype = LCT_PALETTE) :=
  (C4_key_exclusive rgba8_mode (bufOfList [10, 20, 30, 0, 10, 20, 30, 255]) 2 1
    (validBuf_bufOfList _ (by decide))).1 ⟨0, 1, by decide, by decide, by decide, by decide,
      by decide, by decide, by decide⟩

/-! ## C6: selection of a palette -/

/-- C6 fails on the code as stated: the 5x1 image of four black pixels and a white one has
2 distinct colours and `2 * 2 < 5`, yet the chosen mode is Grey at depth 1, not Palette. -/
theorem C6_two_greys_choose_grey :
    (Finset.image (pixel_rgba8 (bufOfList [0, 0, 0, 255, 0, 0, 0, 255, 0, 0, 0, 255,
      0, 0, 0, 255, 255, 255, 255, 255])) (Finset.range (5 * 1))).card = 2 ∧
    2 * 2 < 5 * 1 ∧
    (lodepng_auto_choose_color rgba8_mode (bufOfList [0, 0, 0, 255, 0, 0, 0, 255, 0, 0, 0, 255,
      0, 0, 0, 255, 255, 255, 255, 255]) 5 1 rgba8_mode).2.colortype = LCT_GREY ∧
    (lodepng_auto_choose_color rgba8_mode (bufOfList [0, 0, 0, 255, 0, 0, 0, 255, 0, 0, 0, 255,
      0, 0, 0, 255, 255, 255, 255, 255]) 5 1 rgba8_mode).2.bitdepth = 1 := by
  decide

/-- The depth `palettebits` is the smallest of 1, 2, 4, 8 whose range covers `n`
colours. -/
theorem choose_palettebits_smallest (n : Nat) (hn : n ≤ 256) :
    (choose_palettebits n = 1 ∨ choose_palettebits n = 2 ∨ choose_palettebits n = 4 ∨
      choose_palettebits n = 8) ∧
    n ≤ 2 ^ choose_palettebits n ∧
    ∀ e, (e = 1 ∨ e = 2 ∨ e = 4 ∨ e = 8) → n ≤ 2 ^ e → choose_palettebits n ≤ e := by
  unfold choose_palettebits
  by_cases h2 : n ≤ 2
  · simp only [h2, if_true]
    refine ⟨by simp, by omega, ?_⟩
    intro e he _
    rcases he with he | he | he | he <;> omega
  · by_cases h4 : n ≤ 4
    · simp only [h2, h4, if_true, if_false]
      refine ⟨by simp, by omega, ?_⟩
      intro e he hle
      rcases he with he | he | he | he <;> subst he <;> omega
    · by_cases h16 : n ≤ 16
      · simp only [h2, h4, h16, if_true, if_false]
        refine ⟨by simp, by omega, ?_⟩
        intro e he hle
        rcases he with he | he | he | he <;> subst he <;> simp at hle ⊢ <;> omega
      · simp only [h2, h4, h16, if_false]
        refine ⟨by simp, by omega, ?_⟩
        intro e he hle
        rcases he with he | he | he | he <;> subst he <;> simp at hle ⊢ <;> omega

/-- The number of colours of the profile of an image with at most 256 distinct colours. -/
theorem profile_numcolors_eq (P : Buf) (n : Nat) (p : LodePNGColorProfile)
    (h : ProfileSound P n p) (N : Nat)
    (hN : (Finset.image (pixel_rgba8 P) (Finset.range n)).card = N) (hN256 : N ≤ 256) :
    p.numcolors = N := by
  by_cases hle : p.numcolors ≤ 256
  · rw [(h.count_small hle).1, hN]
  · have := h.count_large (by omega)
    omega

/-- C6, amended: for an 8-bit RGBA image with exactly `N <= 256` distinct colours among the
pixels scanned and `N * 2` below their number, `lodepng_auto_choose_color` selects Palette
with the smallest depth of 1, 2, 4, 8 that covers `N` entries, unless the profile is grey
without alpha (`colored = 0`, `alpha = 0`) with `bits` at most that depth; in that case it
selects Grey with `bitdepth = bits`. -/
theorem C6_palette_unless_grey (mode_out : LodePNGColorMode) (P : Buf) (w h N : Nat)
    (hP : ValidBuf P)
    (hN : (Finset.image (pixel_rgba8 P) (Finset.range ((w * h) % 2 ^ 32))).card = N)
    (hN256 : N ≤ 256) (h2N : N * 2 < (w * h) % 2 ^ 32) :
    (¬((choose_adjust_profile (image_profile P w h rgba8_mode) ((w * h) % 2 ^ 32)).colored = 0 ∧
        (choose_adjust_profile (image_profile P w h rgba8_mode) ((w * h) % 2 ^ 32)).alpha = 0 ∧
        (choose_adjust_profile (image_profile P w h rgba8_mode) ((w * h) % 2 ^ 32)).bits
          ≤ choose_palettebits N) →
      (lodepng_auto_choose_color mode_out P w h rgba8_mode).2.colortype = LCT_PALETTE ∧
      (lodepng_auto_choose_color mode_out P w h rgba8_mode).2.bitdepth = choose_palettebits N) ∧
    (((choose_adjust_profile (image_profile P w h rgba8_mode) ((w * h) % 2 ^ 32)).colored = 0 ∧
        (choose_adjust_profile (image_profile P w h rgba8_mode) ((w * h) % 2 ^ 32)).alpha = 0 ∧
        (choose_adjust_profile (image_profile P w h rgba8_mode) ((w * h) % 2 ^ 32)).bits
          ≤ choose_palettebits N) →
      (lodepng_auto_choose_color mode_out P w h rgba8_mode).2.colortype = LCT_GREY ∧
      (lodepng_auto_choose_color mode_out P w h rgba8_mode).2.bitdepth =
        (choose_adjust_profile (image_profile P w h rgba8_mode) ((w * h) % 2 ^ 32)).bits) ∧
    ((choose_palettebits N = 1 ∨ choose_palettebits N = 2 ∨ choose_palettebits N = 4 ∨
        choose_palettebits N = 8) ∧
      N ≤ 2 ^ choose_palettebits N ∧
      ∀ e, (e = 1 ∨ e = 2 ∨ e = 4 ∨ e = 8) → N ≤ 2 ^ e → choose_palettebits N ≤ e) := by
  have hsound := choose_adjust_profile_sound P _ _ ((w * h) % 2 ^ 32)
    (image_profile_rgba8 P hP w h)
  rw [lodepng_auto_choose_color_eq]
  generalize choose_adjust_profile (image_profile P w h rgba8_mode) ((w * h) % 2 ^ 32) = prof
    at hsound ⊢
  generalize (w * h) % 2 ^ 32 = n at hsound hN h2N ⊢
  have hnum := profile_numcolors_eq P n prof hsound N hN hN256
  have hbits : prof.bits ≤ 8 := by
    rcases hsound.bits_legal with hb | hb | hb | hb <;> omega
  have hnp : rgba8_mode.colortype ≠ LCT_PALETTE := by decide
  have hmod : (N * 2) % 2 ^ 32 = N * 2 := Nat.mod_eq_of_lt (by omega)
  refine ⟨?_, ?_, choose_palettebits_smallest N hN256⟩
  · intro hex
    have hok : choose_palette_ok prof n = true := by
      unfold choose_palette_ok
      dsimp only
      rw [hnum, hmod]
      have h1 : ¬ (n < N * 2) := by omega
      simp only [h1, if_false]
      have hex2 : ¬ ((decide (prof.colored = 0 ∧ prof.alpha = 0) = true) ∧
          prof.bits ≤ choose_palettebits N) := by
        intro ⟨hx1, hx2⟩
        have hx3 : prof.colored = 0 ∧ prof.alpha = 0 := by simpa using hx1
        exact hex ⟨hx3.1, hx3.2, hx2⟩
      rw [if_neg hex2]
      simp only [decide_eq_true_eq]
      exact ⟨hN256, h2N, hbits⟩
    rw [if_pos hok]
    refine ⟨choose_palette_colortype _ _ _, ?_⟩
    rw [(choose_palette_fields _ _ _ hnp).2, hnum]
  · intro ⟨hc, ha, hb⟩
    have hok : ¬ choose_palette_ok prof n = true := by
      unfold choose_palette_ok
      dsimp only
      rw [hnum]
      have hex2 : (decide (prof.colored = 0 ∧ prof.alpha = 0) = true) ∧
          prof.bits ≤ choose_palettebits N := ⟨by simp [hc, ha], hb⟩
      rw [if_pos hex2]
      decide
    rw [if_neg hok, choose_plain_colortype, choose_plain_bitdepth]
    simp [hc, ha]

/-- Witness of C6 as amended: the 5x1 image of four red pixels and a blue one gets a
palette of depth 1. -/
theorem C6_palette_unless_grey_witness :
    (lodepng_auto_choose_color rgba8_mode (bufOfList [255, 0, 0, 255, 255, 0, 0, 255,
      255, 0, 0, 255, 255, 0, 0, 255, 0, 0, 255, 255]) 5 1 rgba8_mode).2.colortype
      = LCT_PALETTE ∧
    (lodepng_auto_choose_color rgba8_mode (bufOfList [255, 0, 0, 255, 255, 0, 0, 255,
      255, 0, 0, 255, 255, 0, 0, 255, 0, 0, 255, 255]) 5 1 rgba8_mode).2.bitdepth
      = choose_palettebits 2 :=
  (C6_palette_unless_grey rgba8_mode (bufOfList [255, 0, 0, 255, 255, 0, 0, 255,
      255, 0, 0, 255, 255, 0, 0, 255, 0, 0, 255, 255]) 5 1 2
    (validBuf_bufOfList _ (by decide)) (by decide) (by decide) (by decide)).1 (by decide)

/-! ## C2: the second pass of the profile forces alpha without raising the depth -/

/-- C2 fails on the code: for the 17x1 image `shared_key_image` the chosen mode is
GreyAlpha at depth 4, `lodepng_convert` to it returns 0 without storing anything (the
output buffer, zero on entry, is still zero), and converting back gives red 0 for the
third pixel, whose red is 17. -/
theorem C2_round_trip_fails_on_shared_key :
    (lodepng_auto_choose_color rgba8_mode shared_key_image 17 1 rgba8_mode).2.colortype
      = LCT_GREY_ALPHA ∧
    (lodepng_auto_choose_color rgba8_mode shared_key_image 17 1 rgba8_mode).2.bitdepth = 4 ∧
    (lodepng_convert (fun _ => 0) shared_key_image
      (lodepng_auto_choose_color rgba8_mode shared_key_image 17 1 rgba8_mode).2
      rgba8_mode 17 1).1 = 0 ∧
    (lodepng_convert (fun _ => 0) shared_key_image
      (lodepng_auto_choose_color rgba8_mode shared_key_image 17 1 rgba8_mode).2
      rgba8_mode 17 1).2 1 = 0 ∧
    (lodepng_convert (fun _ => 0)
      (lodepng_convert (fun _ => 0) shared_key_image
        (lodepng_auto_choose_color rgba8_mode shared_key_image 17 1 rgba8_mode).2
        rgba8_mode 17 1).2
      rgba8_mode
      (lodepng_auto_choose_color rgba8_mode shared_key_image 17 1 rgba8_mode).2 17 1).2 8 = 0 ∧
    shared_key_image 8 = 17 := by
  decide

/-! ## C18: packing and reading back samples of 1, 2 or 4 bits -/

/-- After `n` calls of `addColorBits` in increasing order the first `n` samples are
packed, whatever the buffer held before. -/
theorem packed_upto_forLoop (d : Nat) (v : Nat → Nat) (out : Buf)
    (hd : d = 1 ∨ d = 2 ∨ d = 4) (n : Nat) :
    packed_upto d v n (forLoop n (fun k o => addColorBits o k d (v k)) out) := by
  induction n with
  | zero => exact packed_upto_zero d v out
  | succ k ih =>
    rw [forLoop_succ]
    exact packed_upto_step d v k _ (v k) hd (fun _ _ => rfl) ih

/-- C18: for a depth `d` of 1, 2 or 4, any number `N` of samples `v i < 2 ^ d` and any
initial content of the output buffer, after the calls `addColorBits(out, i, d, v i)` for
`i = 0 .. N - 1` in increasing order, `readBitsFromReversedStream` at bit offset `i * d`
with `nbits = d` returns `v i` for every `i < N` (and leaves the bit pointer at
`i * d + d`). -/
theorem C18_pack_then_read_back (d N : Nat) (v : Nat → Nat) (out : Buf)
    (hd : d = 1 ∨ d = 2 ∨ d = 4) (hv : ∀ i, i < N → v i < 2 ^ d) :
    ∀ i, i < N →
      readBitsFromReversedStream (i * d)
        (forLoop N (fun k o => addColorBits o k d (v k)) out) d = (v i, i * d + d) := by
  intro i hi
  have h1 := packed_upto_read d v N _ (packed_upto_forLoop d v out hd N) i hi
  have h2 := readBitsFromReversedStream_snd
    (forLoop N (fun k o => addColorBits o k d (v k)) out) d (i * d)
  rw [Nat.mod_eq_of_lt (hv i hi)] at h1
  exact Prod.ext h1 h2

/-- Witness of C18: the three 2-bit samples 3, 0, 2 packed over a buffer full of ones; the
second sample reads back as 0. -/
theorem C18_pack_then_read_back_witness :
    readBitsFromReversedStream (1 * 2)
      (forLoop 3 (fun k o => addColorBits o k 2 ([3, 0, 2].getD k 0)) (fun _ => 255)) 2
      = (0, 1 * 2 + 2) :=
  C18_pack_then_read_back 2 3 (fun k => [3, 0, 2].getD k 0) (fun _ => 255)
    (Or.inr (Or.inl rfl)) (by decide) 1 (by decide)

/-! ## C17: the error codes of `filter` -/

/-- C17: `filter` returns 0 exactly when the bits per pixel are not 0 and the colour type
is Palette or the bit depth is below 8; it returns 31 when the bits per pixel are 0, and 88
in every other case, in particular for Grey, RGB, GreyAlpha and RGBA at a depth of 8 or
more. -/
theorem C17_filter_error_codes (out inp : Buf) (w h : Nat) (info : LodePNGColorMode) :
    ((filter out inp w h info).1 = 0 ↔
      (lodepng_get_bpp info ≠ 0 ∧ (info.colortype = LCT_PALETTE ∨ info.bitdepth < 8))) ∧
    (lodepng_get_bpp info = 0 → (filter out inp w h info).1 = 31) ∧
    (lodepng_get_bpp info ≠ 0 → ¬(info.colortype = LCT_PALETTE ∨ info.bitdepth < 8) →
      (filter out inp w h info).1 = 88) ∧
    ((info.colortype = LCT_GREY ∨ info.colortype = LCT_RGB ∨
        info.colortype = LCT_GREY_ALPHA ∨ info.colortype = LCT_RGBA) →
      8 ≤ info.bitdepth → info.bitdepth < 2 ^ 30 → (filter out inp w h info).1 = 88) := by
  have key : (filter out inp w h info).1 =
      if lodepng_get_bpp info = 0 then 31
      else if info.colortype = LCT_PALETTE ∨ info.bitdepth < 8 then 0 else 88 := by
    unfold filter
    dsimp only
    split
    · rfl
    · split <;> rfl
  refine ⟨?_, ?_, ?_, ?_⟩
  · rw [key]
    by_cases h0 : lodepng_get_bpp info = 0
    · simp [h0]
    · by_cases h1 : info.colortype = LCT_PALETTE ∨ info.bitdepth < 8
      · simp [h0, h1]
      · simp [h0, h1]
  · intro h0
    rw [key, if_pos h0]
  · intro h0 h1
    rw [key, if_neg h0, if_neg h1]
  · intro hc h8 hlt
    have hch : 1 ≤ getNumColorChannels info.colortype ∧
        getNumColorChannels info.colortype ≤ 4 := by
      unfold getNumColorChannels
      rcases hc with hc | hc | hc | hc <;> rw [hc] <;> simp
    have hbpp : lodepng_get_bpp info ≠ 0 := by
      unfold lodepng_get_bpp lodepng_get_bpp_lct
      generalize getNumColorChannels info.colortype = c at hch
      have hpos : 0 < c * info.bitdepth := Nat.mul_pos (by omega) (by omega)
      have hle : c * info.bitdepth ≤ 4 * info.bitdepth := Nat.mul_le_mul_right _ hch.2
      have hlt2 : c * info.bitdepth < 2 ^ 32 := by
        have : (2 : Nat) ^ 32 = 4 * 2 ^ 30 := by norm_num
        omega
      rw [Nat.mod_eq_of_lt hlt2]
      omega
    have hno : ¬(info.colortype = LCT_PALETTE ∨ info.bitdepth < 8) := by
      intro hor
      rcases hor with hp | hb
      · rcases hc with hc | hc | hc | hc <;> rw [hc] at hp <;> exact absurd hp (by decide)
      · omega
    rw [key, if_neg hbpp, if_neg hno]

/-! ## C12, C13: equality of descriptors -/

/-- What `lodepng_color_mode_equal` tests: colour type, bit depth and `key_defined` agree,
the key agrees when it is defined, the palettes have the same size and the same bytes. -/
theorem lodepng_color_mode_equal_iff (a b : LodePNGColorMode) :
    lodepng_color_mode_equal a b = true ↔
      a.colortype = b.colortype ∧ a.bitdepth = b.bitdepth ∧ a.key_defined = b.key_defined ∧
      (a.key_defined ≠ 0 → a.key_r = b.key_r ∧ a.key_g = b.key_g ∧ a.key_b = b.key_b) ∧
      a.palettesize = b.palettesize ∧
      ∀ i, i < a.palettesize * 4 → a.palette i = b.palette i := by
  unfold lodepng_color_mode_equal
  by_cases h1 : a.colortype = b.colortype
  swap
  · simp [h1]
  by_cases h2 : a.bitdepth = b.bitdepth
  swap
  · simp [h2]
  by_cases h3 : a.key_defined = b.key_defined
  swap
  · simp [h3]
  by_cases h5 : a.palettesize = b.palettesize
  swap
  · simp [h5]
  by_cases h4 : a.key_defined ≠ 0 ∧ (a.key_r ≠ b.key_r ∨ a.key_g ≠ b.key_g ∨ a.key_b ≠ b.key_b)
  · rw [if_neg (not_not.mpr h1), if_neg (not_not.mpr h2), if_neg (not_not.mpr h3), if_pos h4]
    constructor
    · intro h; exact absurd h (by decide)
    · rintro ⟨_, _, _, hk, _⟩
      have := hk h4.1
      rcases h4.2 with h | h | h
      · exact absurd this.1 h
      · exact absurd this.2.1 h
      · exact absurd this.2.2 h
  · rw [if_neg (not_not.mpr h1), if_neg (not_not.mpr h2), if_neg (not_not.mpr h3), if_neg h4,
      if_neg (not_not.mpr h5), List.all_eq_true]
    constructor
    · intro h
      refine ⟨h1, h2, h3, ?_, h5, ?_⟩
      · intro hk
        by_contra hne
        apply h4
        refine ⟨hk, ?_⟩
        by_contra hall
        apply hne
        simp only [not_or, not_not] at hall
        exact hall
      · intro i hi
        have := h i (List.mem_range.mpr hi)
        simpa using this
    · rintro ⟨_, _, _, _, _, hp⟩ i hi
      have := hp i (List.mem_range.mp hi)
      simpa using this

/-- C12 fails on the code: a descriptor with a palette of one entry and a descriptor with
the empty palette, which agree on colour type, bit depth and key, are not equal for
`lodepng_color_mode_equal`, in either order; the other half of the claim holds: equal
descriptors have palettes of the same size with the same entries. -/
theorem C12_empty_palette_is_no_wildcard :
    (one_entry_palette_mode 255 0 0).colortype = empty_palette_mode.colortype ∧
    (one_entry_palette_mode 255 0 0).bitdepth = empty_palette_mode.bitdepth ∧
    (one_entry_palette_mode 255 0 0).key_defined = empty_palette_mode.key_defined ∧
    empty_palette_mode.palettesize = 0 ∧
    lodepng_color_mode_equal (one_entry_palette_mode 255 0 0) empty_palette_mode = false ∧
    lodepng_color_mode_equal empty_palette_mode (one_entry_palette_mode 255 0 0) = false ∧
    (∀ a b : LodePNGColorMode, lodepng_color_mode_equal a b = true →
      a.palettesize = b.palettesize ∧
      ∀ i, i < a.palettesize * 4 → a.palette i = b.palette i) := by
  refine ⟨by decide, by decide, by decide, by decide, by decide, by decide, ?_⟩
  intro a b h
  rw [lodepng_color_mode_equal_iff] at h
  exact ⟨h.2.2.2.2.1, h.2.2.2.2.2⟩

/-- C13 fails on the code: `lodepng_color_mode_equal` is transitive, so no three
descriptors `a`, `b`, `c` have `a` equal to `b` and `b` equal to `c` but `a` not equal to
`c`. -/
theorem C13_descriptor_equality_is_transitive (a b c : LodePNGColorMode)
    (hab : lodepng_color_mode_equal a b = true) (hbc : lodepng_color_mode_equal b c = true) :
    lodepng_color_mode_equal a c = true := by
  rw [lodepng_color_mode_equal_iff] at hab hbc ⊢
  obtain ⟨a1, a2, a3, a4, a5, a6⟩ := hab
  obtain ⟨b1, b2, b3, b4, b5, b6⟩ := hbc
  refine ⟨a1.trans b1, a2.trans b2, a3.trans b3, ?_, a5.trans b5, ?_⟩
  · intro hk
    have hk2 : b.key_defined ≠ 0 := by rw [← a3]; exact hk
    have x := a4 hk
    have y := b4 hk2
    exact ⟨x.1.trans y.1, x.2.1.trans y.2.1, x.2.2.trans y.2.2⟩
  · intro i hi
    exact (a6 i hi).trans (b6 i (by rw [← a5]; exact hi))

/-- Witness of C13: three copies of a descriptor with a palette of one entry. -/
theorem C13_descriptor_equality_is_transitive_witness :
    lodepng_color_mode_equal (one_entry_palette_mode 255 0 0) (one_entry_palette_mode 255 0 0)
      = true :=
  C13_descriptor_equality_is_transitive (one_entry_palette_mode 255 0 0)
    (one_entry_palette_mode 255 0 0) (one_entry_palette_mode 255 0 0) (by decide) (by decide)

/-! ## C14: bits per pixel and the legal pairs -/

/-- C14 fails as stated: for RGB at depth 4 and for Palette at depth 16, which
`checkColorValidity` rejects with 37, `lodepng_get_bpp` returns the bit counts 12 and 16. -/
theorem C14_bpp_of_illegal_pairs :
    ¬ legal_pair LCT_RGB 4 ∧ ¬ legal_pair LCT_PALETTE 16 ∧
    lodepng_get_bpp ⟨LCT_RGB, 4, fun _ => 0, 0, 0, 0, 0, 0⟩ = 12 ∧
    lodepng_get_bpp ⟨LCT_PALETTE, 16, fun _ => 0, 0, 0, 0, 0, 0⟩ = 16 ∧
    checkColorValidity LCT_RGB 4 = 37 ∧ checkColorValidity LCT_PALETTE 16 = 37 := by
  decide

/-- C14 as amended: `checkColorValidity` returns 0 exactly for the legal pairs, 37 for one
of the five colour types with any other bit depth and 31 for any other colour type;
`lodepng_get_bpp` returns `channels * bitdepth` for every legal pair, and for any pair the
product of the bit depth with the channel count of the colour type (0 for an unknown colour
type) as a 32-bit value. -/
theorem C14_bpp_and_validity (mode : LodePNGColorMode) :
    (checkColorValidity mode.colortype mode.bitdepth = 0 ↔
      legal_pair mode.colortype mode.bitdepth) ∧
    (¬ legal_pair mode.colortype mode.bitdepth →
      checkColorValidity mode.colortype mode.bitdepth = 37 ∨
      checkColorValidity mode.colortype mode.bitdepth = 31) ∧
    (legal_pair mode.colortype mode.bitdepth →
      lodepng_get_bpp mode = channel_count mode.colortype * mode.bitdepth) ∧
    ((mode.colortype = LCT_GREY ∨ mode.colortype = LCT_RGB ∨ mode.colortype = LCT_PALETTE ∨
        mode.colortype = LCT_GREY_ALPHA ∨ mode.colortype = LCT_RGBA) →
      lodepng_get_bpp mode = (channel_count mode.colortype * mode.bitdepth) % 2 ^ 32) ∧
    (¬(mode.colortype = LCT_GREY ∨ mode.colortype = LCT_RGB ∨ mode.colortype = LCT_PALETTE ∨
        mode.colortype = LCT_GREY_ALPHA ∨ mode.colortype = LCT_RGBA) →
      lodepng_get_bpp mode = 0) ∧
    ((mode.colortype = LCT_GREY ∨ mode.colortype = LCT_RGB ∨ mode.colortype = LCT_PALETTE ∨
        mode.colortype = LCT_GREY_ALPHA ∨ mode.colortype = LCT_RGBA) →
      ¬ legal_pair mode.colortype mode.bitdepth →
      checkColorValidity mode.colortype mode.bitdepth = 37) ∧
    (¬(mode.colortype = LCT_GREY ∨ mode.colortype = LCT_RGB ∨ mode.colortype = LCT_PALETTE ∨
        mode.colortype = LCT_GREY_ALPHA ∨ mode.colortype = LCT_RGBA) →
      checkColorValidity mode.colortype mode.bitdepth = 31) := by
  have hiff : checkColorValidity mode.colortype mode.bitdepth = 0 ↔
      legal_pair mode.colortype mode.bitdepth := by
    unfold checkColorValidity legal_pair
    by_cases h0 : mode.colortype = 0
    · simp [h0]; omega
    by_cases h2 : mode.colortype = 2
    · simp [h2]; omega
    by_cases h3 : mode.colortype = 3
    · simp [h3]; omega
    by_cases h4 : mode.colortype = 4
    · simp [h4]; omega
    by_cases h6 : mode.colortype = 6
    · simp [h6]; omega
    simp [h0, h2, h3, h4, h6]
  refine ⟨hiff, ?_, ?_, ?_, ?_, ?_, ?_⟩
  · intro hl
    have h3 : checkColorValidity mode.colortype mode.bitdepth = 0 ∨
        checkColorValidity mode.colortype mode.bitdepth = 37 ∨
        checkColorValidity mode.colortype mode.bitdepth = 31 := by
      unfold checkColorValidity
      split_ifs <;> simp
    rcases h3 with h3 | h3 | h3
    · exact absurd (hiff.mp h3) hl
    · exact Or.inl h3
    · exact Or.inr h3
  · intro hl
    unfold lodepng_get_bpp lodepng_get_bpp_lct getNumColorChannels channel_count
    have e32 : (2 : Nat) ^ 32 = 4294967296 := by norm_num
    rw [e32]
    unfold legal_pair at hl
    rcases hl with ⟨hc, hb⟩ | ⟨hc, hb⟩ | ⟨hc, hb⟩ | ⟨hc, hb⟩ | ⟨hc, hb⟩ <;> rw [hc] <;>
      simp <;> omega
  · intro hc
    unfold lodepng_get_bpp lodepng_get_bpp_lct getNumColorChannels channel_count
    rcases hc with hc | hc | hc | hc | hc <;> rw [hc] <;> simp
  · intro hc
    unfold lodepng_get_bpp lodepng_get_bpp_lct getNumColorChannels
    simp only [not_or] at hc
    obtain ⟨h0, h2, h3, h4, h6⟩ := hc
    simp [h0, h2, h3, h4, h6]
  · intro hc hl
    have hne : checkColorValidity mode.colortype mode.bitdepth ≠ 0 := fun h0 => hl (hiff.mp h0)
    have h2 : checkColorValidity mode.colortype mode.bitdepth = 0 ∨
        checkColorValidity mode.colortype mode.bitdepth = 37 := by
      unfold checkColorValidity
      rcases hc with hc | hc | hc | hc | hc <;> rw [hc] <;> simp <;> tauto
    rcases h2 with h2 | h2
    · exact absurd h2 hne
    · exact h2
  · intro hc
    unfold checkColorValidity
    simp only [not_or] at hc
    obtain ⟨h0, h2, h3, h4, h6⟩ := hc
    simp [h0, h2, h3, h4, h6]

/-! ## C15: the profile never fails -/

/-- C15 fails as stated: for a source mode of unknown colour type, whose bits per pixel
resolve to 0, `lodepng_get_color_profile` returns 0 on a 1x1 image; the decoder is defined
for this mode (it does nothing), so the call has this result. -/
theorem C15_profile_of_unknown_type_returns_zero :
    lodepng_get_bpp unknown_type_mode = 0 ∧
    (lodepng_get_color_profile (lodepng_color_profile_init profile_local) (bufOfList [7]) 1 1
      unknown_type_mode).1 = 0 ∧
    getPixelColorRGBA8_defined unknown_type_mode = true ∧
    (lodepng_get_color_profile_checked (lodepng_color_profile_init profile_local)
      (bufOfList [7]) 1 1 unknown_type_mode).map Prod.fst = some 0 := by
  decide

/-- C15 as amended: `lodepng_get_color_profile` has no failing path and does not test the
bits per pixel.  Whenever the call has a result, its error code is 0.  It has a result, 0
with a profile, for every mode for which the decoder is defined and for every mode when
there is no pixel; in particular for every mode whose bits per pixel resolve to 0 with a
colour type other than Grey (an unknown colour type, or bit depth 0).  For Grey at bit
depth 0, whose bits per pixel are 0 too, and at least one pixel, the decoder divides by
zero: the call has no result at all, neither an error code nor a profile. -/
theorem C15_profile_never_fails (profile : LodePNGColorProfile) (inp : Buf) (w h : Nat)
    (mode : LodePNGColorMode) :
    (∀ e p, lodepng_get_color_profile_checked profile inp w h mode = some (e, p) → e = 0) ∧
    (((w * h) % 2 ^ 32 = 0 ∨ getPixelColorRGBA8_defined mode = true) →
      ∃ p, lodepng_get_color_profile_checked profile inp w h mode = some (0, p) ∧
        lodepng_get_color_profile profile inp w h mode = (0, p)) ∧
    (lodepng_get_bpp mode = 0 → mode.bitdepth < 2 ^ 32 → mode.colortype ≠ LCT_GREY →
      ∃ p, lodepng_get_color_profile_checked profile inp w h mode = some (0, p)) ∧
    (mode.colortype = LCT_GREY → mode.bitdepth = 0 → (w * h) % 2 ^ 32 ≠ 0 →
      lodepng_get_bpp mode = 0 ∧
      lodepng_get_color_profile_checked profile inp w h mode = none) := by
  have herr := lodepng_get_color_profile_error profile inp w h mode
  have hpair : lodepng_get_color_profile profile inp w h mode =
      (0, (lodepng_get_color_profile profile inp w h mode).2) := by
    rw [← herr]
  have hsome : ((w * h) % 2 ^ 32 = 0 ∨ getPixelColorRGBA8_defined mode = true) →
      lodepng_get_color_profile_checked profile inp w h mode =
        some (0, (lodepng_get_color_profile profile inp w h mode).2) := by
    intro hd
    unfold lodepng_get_color_profile_checked
    dsimp only
    have hn : ¬ (profile_sixteen inp ((w * h) % 2 ^ 32) mode = false ∧
        (w * h) % 2 ^ 32 ≠ 0 ∧ getPixelColorRGBA8_defined mode = false) := by
      intro hx
      rcases hd with hd | hd
      · exact hx.2.1 hd
      · rw [hd] at hx
        exact absurd hx.2.2 (by decide)
    rw [if_neg hn, ← hpair]
  refine ⟨?_, ?_, ?_, ?_⟩
  · intro e p hres
    unfold lodepng_get_color_profile_checked at hres
    dsimp only at hres
    split at hres
    · cases hres
    · have h1 := congrArg Prod.fst (Option.some.inj hres)
      rw [herr] at h1
      exact h1.symm
  · intro hd
    exact ⟨_, hsome hd, hpair⟩
  · intro hbpp hbd hng
    refine ⟨_, hsome (Or.inr ?_)⟩
    unfold getPixelColorRGBA8_defined
    rw [if_neg hng]
    by_cases hp : mode.colortype = LCT_PALETTE
    · rw [if_pos hp]
      unfold lodepng_get_bpp lodepng_get_bpp_lct at hbpp
      rw [hp] at hbpp
      have hch : getNumColorChannels LCT_PALETTE = 1 := by decide
      rw [hch, Nat.one_mul, Nat.mod_eq_of_lt hbd] at hbpp
      rw [hbpp]
      decide
    · rw [if_neg hp]
  · intro hg hb hn
    refine ⟨?_, ?_⟩
    · unfold lodepng_get_bpp lodepng_get_bpp_lct
      rw [hb]
      rfl
    · unfold lodepng_get_color_profile_checked
      dsimp only
      have hsix : profile_sixteen inp ((w * h) % 2 ^ 32) mode = false := by
        unfold profile_sixteen
        rw [if_neg (by omega)]
      have hdef : getPixelColorRGBA8_defined mode = false := by
        unfold getPixelColorRGBA8_defined
        rw [if_pos hg, hb]
        decide
      rw [if_pos ⟨hsix, hn, hdef⟩]

/-! ## C11: the chosen mode can be illegal -/

/-- C11 fails on the code: for the 17x1 8-bit RGBA image `shared_key_image`
`lodepng_auto_choose_color` returns 0 and outputs GreyAlpha at depth 4, a pair that
`checkColorValidity` rejects with 37. -/
theorem C11_chosen_mode_illegal_on_shared_key :
    checkColorValidity rgba8_mode.colortype rgba8_mode.bitdepth = 0 ∧
    (lodepng_auto_choose_color rgba8_mode shared_key_image 17 1 rgba8_mode).1 = 0 ∧
    checkColorValidity
      (lodepng_auto_choose_color rgba8_mode shared_key_image 17 1 rgba8_mode).2.colortype
      (lodepng_auto_choose_color rgba8_mode shared_key_image 17 1 rgba8_mode).2.bitdepth = 37 ∧
    ¬ legal_pair
      (lodepng_auto_choose_color rgba8_mode shared_key_image 17 1 rgba8_mode).2.colortype
      (lodepng_auto_choose_color rgba8_mode shared_key_image 17 1 rgba8_mode).2.bitdepth := by
  decide

/-! ## C19, C20: the concrete scenario -/

/-- C19: for the 2x2 image of three opaque black pixels and an opaque white one, 8-bit
RGBA, the profile computed from a freshly initialised one has `colored = 0`,
`numcolors = 2`, `alpha = 0`, `bits = 1` (and no key), and `lodepng_auto_choose_color`
returns 0 and chooses Grey with bit depth 1 and no colour key, whatever descriptor the
output held before. -/
theorem C19_scenario_profile_and_choice (mode_out : LodePNGColorMode) :
    (lodepng_get_color_profile (lodepng_color_profile_init profile_local) scenario_image 2 2
      rgba8_mode).1 = 0 ∧
    (image_profile scenario_image 2 2 rgba8_mode).colored = 0 ∧
    (image_profile scenario_image 2 2 rgba8_mode).numcolors = 2 ∧
    (image_profile scenario_image 2 2 rgba8_mode).alpha = 0 ∧
    (image_profile scenario_image 2 2 rgba8_mode).bits = 1 ∧
    (image_profile scenario_image 2 2 rgba8_mode).key = 0 ∧
    (lodepng_auto_choose_color mode_out scenario_image 2 2 rgba8_mode).1 = 0 ∧
    (lodepng_auto_choose_color mode_out scenario_image 2 2 rgba8_mode).2.colortype = LCT_GREY ∧
    (lodepng_auto_choose_color mode_out scenario_image 2 2 rgba8_mode).2.bitdepth = 1 ∧
    (lodepng_auto_choose_color mode_out scenario_image 2 2 rgba8_mode).2.key_defined = 0 := by
  have hp : (image_profile scenario_image 2 2 rgba8_mode).colored = 0 ∧
      (image_profile scenario_image 2 2 rgba8_mode).numcolors = 2 ∧
      (image_profile scenario_image 2 2 rgba8_mode).alpha = 0 ∧
      (image_profile scenario_image 2 2 rgba8_mode).bits = 1 ∧
      (image_profile scenario_image 2 2 rgba8_mode).key = 0 := by decide
  have herr := lodepng_get_color_profile_error (lodepng_color_profile_init profile_local)
    scenario_image 2 2 rgba8_mode
  have hok : choose_palette_ok (choose_adjust_profile (image_profile scenario_image 2 2 rgba8_mode)
      ((2 * 2) % 2 ^ 32)) ((2 * 2) % 2 ^ 32) = false := by decide
  have hadj : choose_adjust_profile (image_profile scenario_image 2 2 rgba8_mode)
      ((2 * 2) % 2 ^ 32) = image_profile scenario_image 2 2 rgba8_mode := by
    unfold choose_adjust_profile
    rw [if_neg]
    rw [hp.2.2.2.2]
    simp
  obtain ⟨p1, p2, p3, p4, p5⟩ := hp
  refine ⟨herr, p1, p2, p3, p4, p5, ?_, ?_, ?_, ?_⟩
  · unfold lodepng_auto_choose_color
    dsimp only
    rw [if_neg (by rw [herr]; simp)]
    split <;> rfl
  · rw [lodepng_auto_choose_color_eq, hok, hadj]
    simp only [Bool.false_eq_true, if_false]
    rw [choose_plain_colortype, p3, p1]
    simp
  · rw [lodepng_auto_choose_color_eq, hok, hadj]
    simp only [Bool.false_eq_true, if_false]
    rw [choose_plain_bitdepth, p4]
  · rw [lodepng_auto_choose_color_eq, hok, hadj]
    simp only [Bool.false_eq_true, if_false]
    rw [choose_plain_key_defined, p5]
    simp

/-! ## Setting single bits -/

theorem setBitOfReversedStream_fst (bp : Nat) (buf : Buf) (bit : Nat) :
    (setBitOfReversedStream bp buf bit).1 = bp + 1 := by
  unfold setBitOfReversedStream
  split <;> rfl

/-- Bit `j` of the mask `(unsigned char)(~(1 << k))`. -/
theorem testBit_clear_mask (k j : Nat) (hk : k < 8) (hj : j < 8) :
    (255 - (1 <<< k)).testBit j = decide (j ≠ k) := by
  interval_cases k <;> interval_cases j <;> rfl

/-- Bit `j` of the mask `1 << k`. -/
theorem testBit_set_mask (k j : Nat) :
    ((1 : Nat) <<< k).testBit j = decide (j = k) := by
  rw [Nat.shiftLeft_eq, Nat.one_mul, Nat.testBit_two_pow]
  by_cases h : j = k
  · simp [h]
  · have : ¬ k = j := fun e => h e.symm
    simp [h, this]

/-- The function `setBitOfReversedStream` gives bit `bp` of the stream the value asked for
and leaves the other bits as they were. -/
theorem bit_at_setBitOfReversedStream (bp : Nat) (buf : Buf) (bit q : Nat) :
    bit_at (setBitOfReversedStream bp buf bit).2 q =
      if q = bp then decide (bit ≠ 0) else bit_at buf q := by
  have h3 : bp >>> 3 = bp / 8 := by rw [Nat.shiftRight_eq_div_pow]
  have h7 : bp &&& 7 = bp % 8 := Nat.and_pow_two_sub_one_eq_mod bp 3
  have hq : q % 8 < 8 := Nat.mod_lt _ (by decide)
  have hb : bp % 8 < 8 := Nat.mod_lt _ (by decide)
  unfold setBitOfReversedStream
  rw [h3, h7]
  by_cases hbit : bit = 0
  · rw [if_pos hbit]
    dsimp only
    rw [bit_at_set]
    by_cases hbyte : q / 8 = bp / 8
    · rw [if_pos hbyte, Nat.testBit_and, testBit_clear_mask _ _ (by omega) (by omega)]
      by_cases hqb : q = bp
      · subst hqb
        simp [hbit]
      · have hne : 7 - q % 8 ≠ 7 - bp % 8 := by omega
        rw [if_neg hqb]
        simp only [hne, ne_eq, not_false_eq_true, decide_True, Bool.and_true]
        unfold bit_at
        rw [hbyte]
    · have hqb : q ≠ bp := fun e => hbyte (by rw [e])
      rw [if_neg hbyte, if_neg hqb]
  · rw [if_neg hbit]
    dsimp only
    rw [bit_at_set]
    by_cases hbyte : q / 8 = bp / 8
    · rw [if_pos hbyte, show (256 : Nat) = 2 ^ 8 from rfl, Nat.testBit_mod_two_pow,
        Nat.testBit_or, testBit_set_mask]
      have e0 : 7 - q % 8 < 8 := by omega
      simp only [e0, decide_True, Bool.true_and]
      by_cases hqb : q = bp
      · subst hqb
        simp [hbit]
      · have hne : 7 - q % 8 ≠ 7 - bp % 8 := by omega
        rw [if_neg hqb]
        simp only [hne, decide_False, Bool.or_false]
        unfold bit_at
        rw [hbyte]
    · have hqb : q ≠ bp := fun e => hbyte (by rw [e])
      rw [if_neg hbyte, if_neg hqb]

/-- The function `setBitOfReversedStream` stores a byte at offset `bp / 8` and nothing
else. -/
theorem setBitOfReversedStream_bytes (bp : Nat) (buf : Buf) (bit i : Nat) :
    (i = bp / 8 → (setBitOfReversedStream bp buf bit).2 i < 256) ∧
    (i ≠ bp / 8 → (setBitOfReversedStream bp buf bit).2 i = buf i) := by
  have h3 : bp >>> 3 = bp / 8 := by rw [Nat.shiftRight_eq_div_pow]
  have h7 : bp &&& 7 = bp % 8 := Nat.and_pow_two_sub_one_eq_mod bp 3
  unfold setBitOfReversedStream
  rw [h3, h7]
  constructor
  · intro hi
    subst hi
    split
    · dsimp only
      rw [Buf.set_same]
      exact Nat.lt_of_le_of_lt Nat.and_le_right
        (Nat.lt_of_le_of_lt (Nat.sub_le 255 _) (by decide))
    · dsimp only
      rw [Buf.set_same]
      exact Nat.mod_lt _ (by decide)
  · intro hi
    split <;> exact Buf.set_other _ _ _ _ hi

/-! ## Padding the scanlines -/

theorem pad_copy_bit_spec (inp : Buf) (s : PadState) :
    (pad_copy_bit inp s).obp = s.obp + 1 ∧ (pad_copy_bit inp s).ibp = s.ibp + 1 ∧
    (∀ q, bit_at (pad_copy_bit inp s).out q =
      if q = s.obp then bit_at inp s.ibp else bit_at s.out q) ∧
    (PadValid s → PadValid (pad_copy_bit inp s)) := by
  unfold pad_copy_bit
  dsimp only
  rw [readBitFromReversedStream_eq]
  dsimp only
  refine ⟨setBitOfReversedStream_fst _ _ _, rfl, ?_, ?_⟩
  · intro q
    rw [bit_at_setBitOfReversedStream]
    cases bit_at inp s.ibp <;> simp
  · intro hv i hi
    dsimp only at hi ⊢
    rw [setBitOfReversedStream_fst] at hi
    have hb := setBitOfReversedStream_bytes s.obp s.out (bit_at inp s.ibp).toNat i
    by_cases h : i = s.obp / 8
    · exact hb.1 h
    · rw [hb.2 h]
      exact hv i (by omega)

theorem pad_zero_bit_spec (s : PadState) :
    (pad_zero_bit s).obp = s.obp + 1 ∧ (pad_zero_bit s).ibp = s.ibp ∧
    (∀ q, bit_at (pad_zero_bit s).out q = if q = s.obp then false else bit_at s.out q) ∧
    (PadValid s → PadValid (pad_zero_bit s)) := by
  unfold pad_zero_bit
  dsimp only
  refine ⟨setBitOfReversedStream_fst _ _ _, rfl, ?_, ?_⟩
  · intro q
    rw [bit_at_setBitOfReversedStream]
    simp
  · intro hv i hi
    dsimp only at hi ⊢
    rw [setBitOfReversedStream_fst] at hi
    have hb := setBitOfReversedStream_bytes s.obp s.out 0 i
    by_cases h : i = s.obp / 8
    · exact hb.1 h
    · rw [hb.2 h]
      exact hv i (by omega)

/-- The loop that copies the `n` bits of a line. -/
theorem pad_copy_loop (inp : Buf) (s : PadState) (n : Nat) :
    (forLoop n (fun _ t => pad_copy_bit inp t) s).obp = s.obp + n ∧
    (forLoop n (fun _ t => pad_copy_bit inp t) s).ibp = s.ibp + n ∧
    (∀ q, bit_at (forLoop n (fun _ t => pad_copy_bit inp t) s).out q =
      if s.obp ≤ q ∧ q < s.obp + n then bit_at inp (s.ibp + (q - s.obp)) else bit_at s.out q) ∧
    (PadValid s → PadValid (forLoop n (fun _ t => pad_copy_bit inp t) s)) := by
  induction n with
  | zero =>
    refine ⟨rfl, rfl, ?_, fun h => h⟩
    intro q
    have : ¬ (s.obp ≤ q ∧ q < s.obp + 0) := by omega
    rw [if_neg this]
    rfl
  | succ k ih =>
    rw [forLoop_succ]
    obtain ⟨i1, i2, i3, i4⟩ := ih
    obtain ⟨c1, c2, c3, c4⟩ := pad_copy_bit_spec inp (forLoop k (fun _ t => pad_copy_bit inp t) s)
    refine ⟨by rw [c1, i1]; omega, by rw [c2, i2]; omega, ?_, fun h => c4 (i4 h)⟩
    intro q
    rw [c3, i1, i2, i3]
    by_cases hq : q = s.obp + k
    · subst hq
      have : s.obp ≤ s.obp + k ∧ s.obp + k < s.obp + (k + 1) := by omega
      rw [if_pos rfl, if_pos this]
      congr 1
      omega
    · rw [if_neg hq]
      by_cases h1 : s.obp ≤ q ∧ q < s.obp + k
      · have : s.obp ≤ q ∧ q < s.obp + (k + 1) := by omega
        rw [if_pos h1, if_pos this]
      · have : ¬ (s.obp ≤ q ∧ q < s.obp + (k + 1)) := by omega
        rw [if_neg h1, if_neg this]

/-- The loop that clears the `n` padding bits of a line. -/
theorem pad_zero_loop (s : PadState) (n : Nat) :
    (forLoop n (fun _ t => pad_zero_bit t) s).obp = s.obp + n ∧
    (forLoop n (fun _ t => pad_zero_bit t) s).ibp = s.ibp ∧
    (∀ q, bit_at (forLoop n (fun _ t => pad_zero_bit t) s).out q =
      if s.obp ≤ q ∧ q < s.obp + n then false else bit_at s.out q) ∧
    (PadValid s → PadValid (forLoop n (fun _ t => pad_zero_bit t) s)) := by
  induction n with
  | zero =>
    refine ⟨rfl, rfl, ?_, fun h => h⟩
    intro q
    have : ¬ (s.obp ≤ q ∧ q < s.obp + 0) := by omega
    rw [if_neg this]
    rfl
  | succ k ih =>
    rw [forLoop_succ]
    obtain ⟨i1, i2, i3, i4⟩ := ih
    obtain ⟨c1, c2, c3, c4⟩ := pad_zero_bit_spec (forLoop k (fun _ t => pad_zero_bit t) s)
    refine ⟨by rw [c1, i1]; omega, by rw [c2, i2], ?_, fun h => c4 (i4 h)⟩
    intro q
    rw [c3, i1, i3]
    by_cases hq : q = s.obp + k
    · subst hq
      have : s.obp ≤ s.obp + k ∧ s.obp + k < s.obp + (k + 1) := by omega
      rw [if_pos rfl, if_pos this]
    · rw [if_neg hq]
      by_cases h1 : s.obp ≤ q ∧ q < s.obp + k
      · have : s.obp ≤ q ∧ q < s.obp + (k + 1) := by omega
        rw [if_pos h1, if_pos this]
      · have : ¬ (s.obp ≤ q ∧ q < s.obp + (k + 1)) := by omega
        rw [if_neg h1, if_neg this]

/-- One line of `addPaddingBits`: `il` bits copied, then `diff` bits cleared. -/
theorem pad_line_spec (inp : Buf) (il diff : Nat) (s : PadState) :
    (pad_line inp il diff s).obp = s.obp + il + diff ∧
    (pad_line inp il diff s).ibp = s.ibp + il ∧
    (∀ q, bit_at (pad_line inp il diff s).out q =
      if s.obp ≤ q ∧ q < s.obp + il then bit_at inp (s.ibp + (q - s.obp))
      else if s.obp + il ≤ q ∧ q < s.obp + il + diff then false
      else bit_at s.out q) ∧
    (PadValid s → PadValid (pad_line inp il diff s)) := by
  unfold pad_line
  obtain ⟨c1, c2, c3, c4⟩ := pad_copy_loop inp s il
  obtain ⟨z1, z2, z3, z4⟩ := pad_zero_loop (forLoop il (fun _ t => pad_copy_bit inp t) s) diff
  refine ⟨by rw [z1, c1], by rw [z2, c2], ?_, fun h => z4 (c4 h)⟩
  intro q
  rw [z3, c1, c3]
  by_cases h1 : s.obp ≤ q ∧ q < s.obp + il
  · have h2 : ¬ (s.obp + il ≤ q ∧ q < s.obp + il + diff) := by omega
    rw [if_neg h2, if_pos h1, if_pos h1]
  · by_cases h2 : s.obp + il ≤ q ∧ q < s.obp + il + diff
    · rw [if_pos h2, if_neg h1, if_pos h2]
    · rw [if_neg h2, if_neg h1, if_neg h1, if_neg h2]

theorem pad_line_PadInv (inp : Buf) (il diff y : Nat) (s : PadState)
    (h : PadInv inp il diff y s) : PadInv inp il diff (y + 1) (pad_line inp il diff s) := by
  obtain ⟨l1, l2, l3, l4⟩ := pad_line_spec inp il diff s
  have ho := h.obp_eq
  have hi := h.ibp_eq
  have hsucc : (y + 1) * (il + diff) = y * (il + diff) + (il + diff) := Nat.succ_mul _ _
  have hsucc2 : (y + 1) * il = y * il + il := Nat.succ_mul _ _
  refine ⟨by rw [l1, ho, hsucc]; omega, by rw [l2, hi, hsucc2], ?_, ?_, l4 h.valid⟩
  · intro j x hj hx
    rw [l3, ho, hi]
    by_cases hjy : j < y
    · have hle : (j + 1) * (il + diff) ≤ y * (il + diff) := Nat.mul_le_mul_right _ hjy
      have hs : (j + 1) * (il + diff) = j * (il + diff) + (il + diff) := Nat.succ_mul _ _
      have n1 : ¬ (y * (il + diff) ≤ j * (il + diff) + x ∧
          j * (il + diff) + x < y * (il + diff) + il) := by omega
      have n2 : ¬ (y * (il + diff) + il ≤ j * (il + diff) + x ∧
          j * (il + diff) + x < y * (il + diff) + il + diff) := by omega
      rw [if_neg n1, if_neg n2]
      exact h.copied j x hjy hx
    · have hjy2 : j = y := by omega
      subst hjy2
      have p1 : j * (il + diff) ≤ j * (il + diff) + x ∧
          j * (il + diff) + x < j * (il + diff) + il := by omega
      rw [if_pos p1]
      congr 1
      omega
  · intro j x hj hx1 hx2
    rw [l3, ho, hi]
    by_cases hjy : j < y
    · have hle : (j + 1) * (il + diff) ≤ y * (il + diff) := Nat.mul_le_mul_right _ hjy
      have hs : (j + 1) * (il + diff) = j * (il + diff) + (il + diff) := Nat.succ_mul _ _
      have n1 : ¬ (y * (il + diff) ≤ j * (il + diff) + x ∧
          j * (il + diff) + x < y * (il + diff) + il) := by omega
      have n2 : ¬ (y * (il + diff) + il ≤ j * (il + diff) + x ∧
          j * (il + diff) + x < y * (il + diff) + il + diff) := by omega
      rw [if_neg n1, if_neg n2]
      exact h.cleared j x hjy hx1 hx2
    · have hjy2 : j = y := by omega
      subst hjy2
      have n1 : ¬ (j * (il + diff) ≤ j * (il + diff) + x ∧
          j * (il + diff) + x < j * (il + diff) + il) := by omega
      have p2 : j * (il + diff) + il ≤ j * (il + diff) + x ∧
          j * (il + diff) + x < j * (il + diff) + il + diff := by omega
      rw [if_neg n1, if_pos p2]

/-- What `addPaddingBits` leaves in its output for `il <= ol`: line `y` of the output
holds the `il` bits of line `y` of the input followed by `ol - il` zero bits, and every
byte that holds such a bit is a byte, whatever the buffer held before. -/
theorem addPaddingBits_spec (out inp : Buf) (ol il h : Nat) (hle : il ≤ ol)
    (hol : ol < 2 ^ 64) :
    (∀ y x, y < h → x < il →
      bit_at (addPaddingBits out inp ol il h) (y * ol + x) = bit_at inp (y * il + x)) ∧
    (∀ y x, y < h → il ≤ x → x < ol →
      bit_at (addPaddingBits out inp ol il h) (y * ol + x) = false) ∧
    (∀ i, i * 8 < h * ol → addPaddingBits out inp ol il h i < 256) := by
  have hdiff : (ol + 2 ^ 64 - il) % 2 ^ 64 = ol - il := by
    have e : ol + 2 ^ 64 - il = (ol - il) + 2 ^ 64 := by omega
    rw [e, Nat.add_mod_right]
    exact Nat.mod_eq_of_lt (by omega)
  have hsum : il + (ol - il) = ol := by omega
  unfold addPaddingBits
  dsimp only
  rw [hdiff]
  have inv : PadInv inp il (ol - il) h
      (forLoop h (fun _ s => pad_line inp il (ol - il) s) ⟨0, 0, out⟩) := by
    apply forLoop_invariant_idx (PadInv inp il (ol - il)) h
    · intro i s _ hs
      exact pad_line_PadInv inp il (ol - il) i s hs
    · refine ⟨by simp, by simp, ?_, ?_, ?_⟩
      · intro j x hj; omega
      · intro j x hj; omega
      · intro i hi
        simp at hi
  refine ⟨?_, ?_, ?_⟩
  · intro y x hy hx
    have := inv.copied y x hy hx
    rw [hsum] at this
    exact this
  · intro y x hy hx1 hx2
    have := inv.cleared y x hy hx1 (by omega)
    rw [hsum] at this
    exact this
  · intro i hi
    apply inv.valid
    rw [inv.obp_eq, hsum]
    exact hi

/-! ## The filter stage -/

/-- The copying loop `for(i = 0; i != n; ++i) out[i] = scanline[i]` through pointers at the
offsets `o` and `s`. -/
theorem forLoop_copy_at (inp : Buf) (o s n : Nat) (out : Buf) (j : Nat) :
    forLoop n (fun i b => b.set (o + i) (inp (s + i))) out j =
      if o ≤ j ∧ j < o + n then inp (s + (j - o)) else out j := by
  induction n with
  | zero =>
    have : ¬ (o ≤ j ∧ j < o + 0) := by omega
    rw [if_neg this]
    rfl
  | succ k ih =>
    rw [forLoop_succ, Buf.set_apply, ih]
    by_cases h1 : j = o + k
    · subst h1
      have : o ≤ o + k ∧ o + k < o + (k + 1) := by omega
      rw [if_pos rfl, if_pos this]
      congr 1
      omega
    · rw [if_neg h1]
      by_cases h2 : o ≤ j ∧ j < o + k
      · have : o ≤ j ∧ j < o + (k + 1) := by omega
        rw [if_pos h2, if_pos this]
      · have : ¬ (o ≤ j ∧ j < o + (k + 1)) := by omega
        rw [if_neg h2, if_neg this]

/-- One scanline of `filter`: the bytes of the lines up to `y` are those of the input. -/
theorem filter_line_copies (inp : Buf) (L bw y : Nat) (st : Buf × Option Nat)
    (h : ∀ j, j < L * y → st.1 j = inp j) :
    ∀ j, j < L * (y + 1) → (filter_line inp L bw y st).1 j = inp j := by
  intro j hj
  unfold filter_line filterScanline
  dsimp only
  rw [if_pos rfl, forLoop_copy_at]
  have hs : L * (y + 1) = L * y + L := Nat.mul_succ _ _
  by_cases h1 : L * y ≤ j ∧ j < L * y + L
  · rw [if_pos h1]
    congr 1
    omega
  · rw [if_neg h1, Buf.set_other _ _ _ _ (by omega)]
    exact h j (by omega)

/-- When `filter` accepts the mode it returns 0 and its output holds the `h` scanlines of
the input unchanged. -/
theorem filter_copies (out inp : Buf) (w h : Nat) (info : LodePNGColorMode)
    (hbpp : lodepng_get_bpp info ≠ 0)
    (hmode : info.colortype = LCT_PALETTE ∨ info.bitdepth < 8) :
    (filter out inp w h info).1 = 0 ∧
    ∀ j, j < ((w * lodepng_get_bpp info + 7) % 2 ^ 32 / 8) * h →
      (filter out inp w h info).2 j = inp j := by
  unfold filter
  dsimp only
  rw [if_neg hbpp, if_pos hmode]
  refine ⟨rfl, ?_⟩
  dsimp only
  exact forLoop_invariant_idx
    (fun y (st : Buf × Option Nat) =>
      ∀ j, j < ((w * lodepng_get_bpp info + 7) % 2 ^ 32 / 8) * y → st.1 j = inp j)
    h _ (fun y st _ hst => filter_line_copies inp _ _ y st hst) (out, none)
    (fun j hj => by omega)

/-- A byte is determined by its eight bits. -/
theorem byte_of_bits (buf : Buf) (i c : Nat) (hb : buf i < 256) (hc : c < 256)
    (h : ∀ t, t < 8 → bit_at buf (i * 8 + t) = c.testBit (7 - t)) : buf i = c := by
  apply Nat.eq_of_testBit_eq
  intro k
  by_cases hk : k < 8
  · have := h (7 - k) (by omega)
    unfold bit_at at this
    have e1 : (i * 8 + (7 - k)) / 8 = i := by omega
    have e2 : 7 - (i * 8 + (7 - k)) % 8 = k := by omega
    have e3 : 7 - (7 - k) = k := by omega
    rw [e1, e2, e3] at this
    exact this
  · have h8 : (2 : Nat) ^ 8 ≤ 2 ^ k := Nat.pow_le_pow_right (by decide) (by omega)
    rw [Nat.testBit_lt_two_pow (Nat.lt_of_lt_of_le hb h8),
      Nat.testBit_lt_two_pow (Nat.lt_of_lt_of_le hc h8)]

/-- What `preProcessScanlines` returns for a mode that `filter` accepts, when the sizes
fit in 32 bits: 0, the size `h * ceil(w * bpp / 8)`, and an output that is byte for byte
the buffer written by `addPaddingBits`, that is, each line of `w * bpp` bits of the input
followed by zero bits up to the next byte. -/
theorem preProcessScanlines_spec (out0 padded0 inp : Buf) (w h : Nat)
    (color : LodePNGColorMode)
    (hmode : color.colortype = LCT_PALETTE ∨ color.bitdepth < 8)
    (hbpp : lodepng_get_bpp color ≠ 0)
    (hw : w * lodepng_get_bpp color + 7 < 2 ^ 32)
    (hsize : h * ((w * lodepng_get_bpp color + 7) / 8) < 2 ^ 32) :
    (preProcessScanlines out0 padded0 inp w h color).1 = 0 ∧
    (preProcessScanlines out0 padded0 inp w h color).2.1 =
      h * ((w * lodepng_get_bpp color + 7) / 8) ∧
    (∀ i, i < h * ((w * lodepng_get_bpp color + 7) / 8) →
      (preProcessScanlines out0 padded0 inp w h color).2.2 i =
        addPaddingBits padded0 inp ((w * lodepng_get_bpp color + 7) / 8 * 8)
          (w * lodepng_get_bpp color) h i) ∧
    (∀ i, i < h * ((w * lodepng_get_bpp color + 7) / 8) →
      (preProcessScanlines out0 padded0 inp w h color).2.2 i < 256) ∧
    (∀ y x, y < h → x < w * lodepng_get_bpp color →
      bit_at (preProcessScanlines out0 padded0 inp w h color).2.2
        (y * ((w * lodepng_get_bpp color + 7) / 8 * 8) + x)
        = bit_at inp (y * (w * lodepng_get_bpp color) + x)) ∧
    (∀ y x, y < h → w * lodepng_get_bpp color ≤ x →
      x < (w * lodepng_get_bpp color + 7) / 8 * 8 →
      bit_at (preProcessScanlines out0 padded0 inp w h color).2.2
        (y * ((w * lodepng_get_bpp color + 7) / 8 * 8) + x) = false) := by
  generalize hB : lodepng_get_bpp color = bpp at *
  have e1 : (w * bpp + 7) % 2 ^ 32 = w * bpp + 7 := Nat.mod_eq_of_lt hw
  have e2 : (w * bpp) % 2 ^ 32 = w * bpp := Nat.mod_eq_of_lt (by omega)
  have e3 : ((w * bpp + 7) / 8 * 8) % 2 ^ 32 = (w * bpp + 7) / 8 * 8 :=
    Nat.mod_eq_of_lt (by omega)
  have e4 : (h * ((w * bpp + 7) / 8)) % 2 ^ 32 = h * ((w * bpp + 7) / 8) :=
    Nat.mod_eq_of_lt hsize
  have hle : w * bpp ≤ (w * bpp + 7) / 8 * 8 := by omega
  have h64 : (w * bpp + 7) / 8 * 8 < 2 ^ 64 := by
    have : (2 : Nat) ^ 32 < 2 ^ 64 := by norm_num
    omega
  obtain ⟨p1, p2, p3⟩ := addPaddingBits_spec padded0 inp ((w * bpp + 7) / 8 * 8) (w * bpp) h
    hle h64
  have hf := filter_copies out0
    (addPaddingBits padded0 inp ((w * bpp + 7) / 8 * 8) (w * bpp) h) w h color
    (by rw [hB]; exact hbpp) hmode
  rw [hB, e1] at hf
  have hpre : preProcessScanlines out0 padded0 inp w h color =
      ((filter out0 (addPaddingBits padded0 inp ((w * bpp + 7) / 8 * 8) (w * bpp) h)
          w h color).1,
        h * ((w * bpp + 7) / 8),
        (filter out0 (addPaddingBits padded0 inp ((w * bpp + 7) / 8 * 8) (w * bpp) h)
          w h color).2) := by
    unfold preProcessScanlines
    dsimp only
    rw [hB, e1, e2, e3, e4]
  rw [hpre]
  dsimp only
  have hbytes : ∀ i, i < h * ((w * bpp + 7) / 8) →
      (filter out0 (addPaddingBits padded0 inp ((w * bpp + 7) / 8 * 8) (w * bpp) h)
          w h color).2 i =
        addPaddingBits padded0 inp ((w * bpp + 7) / 8 * 8) (w * bpp) h i := by
    intro i hi
    exact hf.2 i (by rw [Nat.mul_comm]; exact hi)
  have hbits : ∀ y x, y < h → x < (w * bpp + 7) / 8 * 8 →
      bit_at (filter out0 (addPaddingBits padded0 inp ((w * bpp + 7) / 8 * 8) (w * bpp) h)
          w h color).2 (y * ((w * bpp + 7) / 8 * 8) + x) =
        bit_at (addPaddingBits padded0 inp ((w * bpp + 7) / 8 * 8) (w * bpp) h)
          (y * ((w * bpp + 7) / 8 * 8) + x) := by
    intro y x hy hx
    unfold bit_at
    rw [hbytes]
    have hle2 : (y + 1) * ((w * bpp + 7) / 8) ≤ h * ((w * bpp + 7) / 8) :=
      Nat.mul_le_mul_right _ hy
    have hs : (y + 1) * ((w * bpp + 7) / 8) = y * ((w * bpp + 7) / 8) + (w * bpp + 7) / 8 :=
      Nat.succ_mul _ _
    have ha : y * ((w * bpp + 7) / 8 * 8) = y * ((w * bpp + 7) / 8) * 8 := by
      rw [Nat.mul_assoc]
    omega
  refine ⟨hf.1, rfl, hbytes, ?_, ?_, ?_⟩
  · intro i hi
    rw [hbytes i hi]
    apply p3
    have : h * ((w * bpp + 7) / 8 * 8) = h * ((w * bpp + 7) / 8) * 8 := by
      rw [Nat.mul_assoc]
    omega
  · intro y x hy hx
    rw [hbits y x hy (by omega)]
    exact p1 y x hy hx
  · intro y x hy hx1 hx2
    rw [hbits y x hy hx2]
    exact p2 y x hy hx1 hx2

/-! ## C16: the filter stage leaves the padded scanlines unchanged -/

/-- C16: for a mode that is Palette or has a bit depth below 8, with `bpp` not 0, and for
`w`, `h` whose sizes fit in 32 bits, `preProcessScanlines` returns 0 with
`outsize = h * ceil(w * bpp / 8)`, and its output is byte for byte the buffer written by
`addPaddingBits`: every byte of it is a byte, each scanline holds the `w * bpp` bits of the
same scanline of the packed input followed by zero bits up to the next byte boundary, and
there is neither a filter-type byte nor any differencing.  The input and the prior contents
of the two allocated buffers are arbitrary. -/
theorem C16_filter_stage_keeps_padded_input (out0 padded0 inp : Buf) (w h : Nat)
    (color : LodePNGColorMode)
    (hmode : color.colortype = LCT_PALETTE ∨ color.bitdepth < 8)
    (hbpp : lodepng_get_bpp color ≠ 0)
    (hw : w * lodepng_get_bpp color + 7 < 2 ^ 32)
    (hsize : h * ((w * lodepng_get_bpp color + 7) / 8) < 2 ^ 32) :
    (preProcessScanlines out0 padded0 inp w h color).1 = 0 ∧
    (preProcessScanlines out0 padded0 inp w h color).2.1 =
      h * ((w * lodepng_get_bpp color + 7) / 8) ∧
    (∀ i, i < h * ((w * lodepng_get_bpp color + 7) / 8) →
      (preProcessScanlines out0 padded0 inp w h color).2.2 i =
        addPaddingBits padded0 inp ((w * lodepng_get_bpp color + 7) / 8 * 8)
          (w * lodepng_get_bpp color) h i) ∧
    (∀ i, i < h * ((w * lodepng_get_bpp color + 7) / 8) →
      (preProcessScanlines out0 padded0 inp w h color).2.2 i < 256) ∧
    (∀ y x, y < h → x < w * lodepng_get_bpp color →
      bit_at (preProcessScanlines out0 padded0 inp w h color).2.2
        (y * ((w * lodepng_get_bpp color + 7) / 8 * 8) + x)
        = bit_at inp (y * (w * lodepng_get_bpp color) + x)) ∧
    (∀ y x, y < h → w * lodepng_get_bpp color ≤ x →
      x < (w * lodepng_get_bpp color + 7) / 8 * 8 →
      bit_at (preProcessScanlines out0 padded0 inp w h color).2.2
        (y * ((w * lodepng_get_bpp color + 7) / 8 * 8) + x) = false) :=
  preProcessScanlines_spec out0 padded0 inp w h color hmode hbpp hw hsize

/-- Witness of C16: three scanlines of three 2-bit palette indices each, over allocated
buffers that held other bytes: the call returns 0 with `outsize = 3`. -/
theorem C16_filter_stage_keeps_padded_input_witness :
    (preProcessScanlines (fun _ => 170) (fun _ => 85) (bufOfList [27, 228, 192]) 3 3
      five_entry_palette_mode).1 = 0 ∧
    (preProcessScanlines (fun _ => 170) (fun _ => 85) (bufOfList [27, 228, 192]) 3 3
      five_entry_palette_mode).2.1 = 3 * ((3 * lodepng_get_bpp five_entry_palette_mode + 7) / 8) :=
  ⟨(C16_filter_stage_keeps_padded_input (fun _ => 170) (fun _ => 85) (bufOfList [27, 228, 192])
      3 3 five_entry_palette_mode (by decide) (by decide) (by decide) (by decide)).1,
   (C16_filter_stage_keeps_padded_input (fun _ => 170) (fun _ => 85) (bufOfList [27, 228, 192])
      3 3 five_entry_palette_mode (by decide) (by decide) (by decide) (by decide)).2.1⟩

/-! ## C20: the bytes of the concrete scenario -/

/-- C20 fails as stated: on the scenario image converted to Grey of depth 1,
`preProcessScanlines` with `w = 2`, `h = 2` yields two bytes, not one, and the first of them
is 0, not `00010000`. -/
theorem C20_filter_stage_yields_two_bytes :
    (preProcessScanlines (fun _ => 0) (fun _ => 0)
      (lodepng_convert (fun _ => 0) scenario_image grey1_mode rgba8_mode 2 2).2 2 2
      grey1_mode).2.1 = 2 ∧
    (preProcessScanlines (fun _ => 0) (fun _ => 0)
      (lodepng_convert (fun _ => 0) scenario_image grey1_mode rgba8_mode 2 2).2 2 2
      grey1_mode).2.2 0 = 0 ∧
    (preProcessScanlines (fun _ => 0) (fun _ => 0)
      (lodepng_convert (fun _ => 0) scenario_image grey1_mode rgba8_mode 2 2).2 2 2
      grey1_mode).2.2 1 = 64 := by
  decide

/-- The conversion of the scenario image to Grey of depth 1 stores the byte `00010000`,
whatever the output buffer held before. -/
theorem scenario_converted (conv0 : Buf) :
    (lodepng_convert conv0 scenario_image grey1_mode rgba8_mode 2 2).1 = 0 ∧
    (lodepng_convert conv0 scenario_image grey1_mode rgba8_mode 2 2).2 0 = 16 := by
  have h4 : (2 * 2) % 2 ^ 32 = 4 := by decide
  have hne : lodepng_color_mode_equal grey1_mode rgba8_mode = false := by decide
  unfold lodepng_convert
  simp only [h4, hne, Bool.false_eq_true, if_false]
  simp [grey1_mode, rgba8_mode, convert_loop, getPixelColorRGBA8, rgba8ToPixel, addColorBits,
    scenario_image, bufOfList, Buf.set]
  decide

/-- C20 as amended: the scenario image converted to Grey of depth 1 is the single byte
`00010000` (black is bit 0, white is bit 1), and `preProcessScanlines` with `w = 2`,
`h = 2` returns 0 with two bytes, one per scanline, `00000000` and `01000000`: the two bits
of each scanline followed by six zero bits.  The prior contents of the buffers are
arbitrary. -/
theorem C20_scenario_output_bytes (conv0 out0 padded0 : Buf) :
    (lodepng_convert conv0 scenario_image grey1_mode rgba8_mode 2 2).1 = 0 ∧
    (lodepng_convert conv0 scenario_image grey1_mode rgba8_mode 2 2).2 0 = 16 ∧
    (rgba8ToPixel (fun _ => 0) 0 grey1_mode color_tree_init ⟨0, 0, 0, 255⟩).2 0 = 0 ∧
    (rgba8ToPixel (fun _ => 0) 0 grey1_mode color_tree_init ⟨255, 255, 255, 255⟩).2 0 = 128 ∧
    (preProcessScanlines out0 padded0
      (lodepng_convert conv0 scenario_image grey1_mode rgba8_mode 2 2).2 2 2 grey1_mode).1 = 0 ∧
    (preProcessScanlines out0 padded0
      (lodepng_convert conv0 scenario_image grey1_mode rgba8_mode 2 2).2 2 2 grey1_mode).2.1
      = 2 ∧
    (preProcessScanlines out0 padded0
      (lodepng_convert conv0 scenario_image grey1_mode rgba8_mode 2 2).2 2 2 grey1_mode).2.2 0
      = 0 ∧
    (preProcessScanlines out0 padded0
      (lodepng_convert conv0 scenario_image grey1_mode rgba8_mode 2 2).2 2 2 grey1_mode).2.2 1
      = 64 := by
  obtain ⟨c1, c2⟩ := scenario_converted conv0
  generalize (lodepng_convert conv0 scenario_image grey1_mode rgba8_mode 2 2).2 = conv at c2 ⊢
  have hb : lodepng_get_bpp grey1_mode = 1 := by decide
  obtain ⟨s1, s2, _, s4, s5, s6⟩ := preProcessScanlines_spec out0 padded0 conv 2 2 grey1_mode
    (by decide) (by decide) (by decide) (by decide)
  rw [hb] at s2 s4 s5 s6
  have hconv : ∀ q, q < 8 → bit_at conv q = (16 : Nat).testBit (7 - q) := by
    intro q hq
    unfold bit_at
    have e1 : q / 8 = 0 := by omega
    have e2 : q % 8 = q := by omega
    rw [e1, e2, c2]
  refine ⟨c1, c2, by decide, by decide, s1, s2, ?_, ?_⟩
  · apply byte_of_bits _ 0 0 (s4 0 (by decide)) (by decide)
    intro t ht
    rw [Nat.zero_testBit]
    by_cases h2 : t < 2
    · have := s5 0 t (by decide) (by omega)
      simp only [Nat.zero_mul, Nat.zero_add] at this ⊢
      rw [this, hconv t (by omega)]
      interval_cases t <;> rfl
    · have := s6 0 t (by decide) (by omega) (by omega)
      simp only [Nat.zero_mul, Nat.zero_add] at this ⊢
      exact this
  · apply byte_of_bits _ 1 64 (s4 1 (by decide)) (by decide)
    intro t ht
    by_cases h2 : t < 2
    · have := s5 1 t (by decide) (by omega)
      have e : (2 * 1 + 7) / 8 * 8 = 8 := by decide
      rw [e] at this
      rw [this, hconv _ (by omega)]
      interval_cases t <;> rfl
    · have := s6 1 t (by decide) (by omega) (by omega)
      have e : (2 * 1 + 7) / 8 * 8 = 8 := by decide
      rw [e] at this
      rw [this]
      have ht2 : 2 ≤ t := by omega
      interval_cases t <;> rfl

/-! ## C30: padding per scanline -/

/-- A bit position below `h * ol` lies in one of the `h` lines of `ol` bits. -/
theorem line_of_bit (ol h q : Nat) (hq : q < h * ol) :
    q / ol < h ∧ q % ol < ol ∧ q / ol * ol + q % ol = q := by
  have hpos : 0 < ol := by
    rcases Nat.eq_zero_or_pos ol with h0 | h0
    · rw [h0] at hq; simp at hq
    · exact h0
  refine ⟨?_, Nat.mod_lt _ hpos, ?_⟩
  · apply Nat.div_lt_of_lt_mul
    rw [Nat.mul_comm]
    exact hq
  · rw [Nat.mul_comm]
    exact Nat.div_add_mod q ol

/-- C30: for `olinebits >= ilinebits` (values of `size_t`), any `h`, any input and any
initial content of the output, after `addPaddingBits` bit `y * olinebits + x` of the output
is bit `y * ilinebits + x` of the input for `x < ilinebits`, and is 0 for
`ilinebits <= x < olinebits`, for every row `y < h`, the bits being numbered from the most
significant bit of each byte; hence every output bit below `h * olinebits` does not depend
on what the output held before, and for `olinebits = ilinebits` the output equals the
input, bit for bit below `h * olinebits` and byte for byte on the bytes below that bound
when the input holds bytes. -/
theorem C30_per_scanline_padding (out inp : Buf) (ol il h : Nat) (hle : il ≤ ol)
    (hol : ol < 2 ^ 64) :
    (∀ y x, y < h → x < il →
      bit_at (addPaddingBits out inp ol il h) (y * ol + x) = bit_at inp (y * il + x)) ∧
    (∀ y x, y < h → il ≤ x → x < ol →
      bit_at (addPaddingBits out inp ol il h) (y * ol + x) = false) ∧
    (∀ out2 q, q < h * ol →
      bit_at (addPaddingBits out inp ol il h) q = bit_at (addPaddingBits out2 inp ol il h) q) ∧
    (ol = il → ∀ q, q < h * ol → bit_at (addPaddingBits out inp ol il h) q = bit_at inp q) ∧
    (ol = il → ValidBuf inp → ∀ i, i * 8 + 8 ≤ h * ol →
      addPaddingBits out inp ol il h i = inp i) := by
  obtain ⟨p1, p2, p3⟩ := addPaddingBits_spec out inp ol il h hle hol
  have hsame : ol = il → ∀ q, q < h * ol →
      bit_at (addPaddingBits out inp ol il h) q = bit_at inp q := by
    intro he q hq
    obtain ⟨hy, hx, hsum⟩ := line_of_bit ol h q hq
    have := p1 (q / ol) (q % ol) hy (by omega)
    rw [← he, hsum] at this
    rw [← he]
    exact this
  refine ⟨p1, p2, ?_, hsame, ?_⟩
  · intro out2 q hq
    obtain ⟨q1, q2, _⟩ := addPaddingBits_spec out2 inp ol il h hle hol
    obtain ⟨hy, hx, hsum⟩ := line_of_bit ol h q hq
    by_cases hxi : q % ol < il
    · have a := p1 (q / ol) (q % ol) hy hxi
      have b := q1 (q / ol) (q % ol) hy hxi
      rw [hsum] at a b
      rw [a, b]
    · have a := p2 (q / ol) (q % ol) hy (by omega) hx
      have b := q2 (q / ol) (q % ol) hy (by omega) hx
      rw [hsum] at a b
      rw [a, b]
  · intro he hv i hi
    apply byte_of_bits _ i (inp i) (p3 i (by omega)) (hv i)
    intro t ht
    rw [hsame he (i * 8 + t) (by omega)]
    unfold bit_at
    have e1 : (i * 8 + t) / 8 = i := by omega
    have e2 : (i * 8 + t) % 8 = t := by omega
    rw [e1, e2]

/-- Witness of C30: two lines of 3 bits padded to 8 bits each; bit 1 of the second line of
the output is bit 4 of the input. -/
theorem C30_per_scanline_padding_witness :
    bit_at (addPaddingBits (fun _ => 255) (bufOfList [172]) 8 3 2) (1 * 8 + 1)
      = bit_at (bufOfList [172]) (1 * 3 + 1) :=
  (C30_per_scanline_padding (fun _ => 255) (bufOfList [172]) 8 3 2 (by decide)
    (by norm_num)).1 1 1 (by decide) (by decide)

/-! ## C21, C22, C23: the choice as a function of the profile -/

/-- The palette filled by the loop of `lodepng_palette_add` calls: `n` more entries, taken
in order from `p`. -/
theorem palette_add_loop_palette (p : Buf) (n : Nat) (m : LodePNGColorMode) :
    ∀ j c, j < n → c < 4 →
      (forLoop n (fun i m => (lodepng_palette_add m (p (i * 4 + 0)) (p (i * 4 + 1))
        (p (i * 4 + 2)) (p (i * 4 + 3))).2) m).palette (4 * (m.palettesize + j) + c)
        = p (j * 4 + c) := by
  induction n with
  | zero => intro j c hj; omega
  | succ k ih =>
    intro j c hj hc
    have hsz := (palette_add_loop_fields p k m).2
    rw [forLoop_succ]
    generalize forLoop k (fun i m => (lodepng_palette_add m (p (i * 4 + 0)) (p (i * 4 + 1))
        (p (i * 4 + 2)) (p (i * 4 + 3))).2) m = m1 at ih hsz ⊢
    unfold lodepng_palette_add
    dsimp only
    rw [hsz]
    by_cases hjk : j = k
    · subst hjk
      have hc4 : c = 0 ∨ c = 1 ∨ c = 2 ∨ c = 3 := by omega
      rcases hc4 with h | h | h | h <;> subst h <;> simp [Buf.set]
    · have hlt : j < k := by omega
      rw [Buf.set_other _ _ _ _ (by omega), Buf.set_other _ _ _ _ (by omega),
        Buf.set_other _ _ _ _ (by omega), Buf.set_other _ _ _ _ (by omega)]
      exact ih j c hlt hc

/-- The palette branch when the original palette is not kept: Palette, the depth of the
number of colours, and the colours of the profile in order. -/
theorem choose_palette_fresh (mode_out mode_in : LodePNGColorMode) (prof : LodePNGColorProfile)
    (hkeep : ¬(mode_in.colortype = LCT_PALETTE ∧ mode_in.palettesize ≥ prof.numcolors ∧
      mode_in.bitdepth = choose_palettebits prof.numcolors)) :
    (choose_palette mode_out prof mode_in).colortype = LCT_PALETTE ∧
    (choose_palette mode_out prof mode_in).bitdepth = choose_palettebits prof.numcolors ∧
    (choose_palette mode_out prof mode_in).palettesize = prof.numcolors ∧
    (choose_palette mode_out prof mode_in).key_defined = mode_out.key_defined ∧
    ∀ i, i < prof.numcolors * 4 →
      (choose_palette mode_out prof mode_in).palette i = prof.palette i := by
  have hsz := (palette_add_loop_fields prof.palette prof.numcolors
    (lodepng_palette_clear mode_out)).2
  have hkd := (palette_add_loop_fields prof.palette prof.numcolors
    (lodepng_palette_clear mode_out)).1
  have hpal := palette_add_loop_palette prof.palette prof.numcolors
    (lodepng_palette_clear mode_out)
  have h0 : (lodepng_palette_clear mode_out).palettesize = 0 := rfl
  rw [h0, Nat.zero_add] at hsz
  unfold choose_palette
  dsimp only
  rw [hsz, if_neg hkeep]
  refine ⟨rfl, rfl, rfl, hkd, ?_⟩
  intro i hi
  have := hpal (i / 4) (i % 4) (by omega) (Nat.mod_lt _ (by decide))
  rw [h0, Nat.zero_add] at this
  have e1 : 4 * (i / 4) + i % 4 = i := Nat.div_add_mod i 4
  have e2 : i / 4 * 4 + i % 4 = i := by omega
  rw [e1, e2] at this
  exact this

/-- The palette branch when the original palette is kept: the output is the source
descriptor. -/
theorem choose_palette_kept (mode_out mode_in : LodePNGColorMode) (prof : LodePNGColorProfile)
    (hkeep : mode_in.colortype = LCT_PALETTE ∧ mode_in.palettesize ≥ prof.numcolors ∧
      mode_in.bitdepth = choose_palettebits prof.numcolors) :
    choose_palette mode_out prof mode_in = mode_in := by
  have hsz := (palette_add_loop_fields prof.palette prof.numcolors
    (lodepng_palette_clear mode_out)).2
  have h0 : (lodepng_palette_clear mode_out).palettesize = 0 := rfl
  rw [h0, Nat.zero_add] at hsz
  unfold choose_palette
  dsimp only
  rw [hsz, if_pos hkeep]
  rfl

/-- The value of `palette_ok` spelled out. -/
theorem choose_palette_ok_iff (prof : LodePNGColorProfile) (wh : Nat) :
    choose_palette_ok prof wh = true ↔
      (prof.numcolors ≤ 256 ∧ 2 * prof.numcolors < wh ∧ prof.bits ≤ 8 ∧
        ¬(prof.colored = 0 ∧ prof.alpha = 0 ∧
          prof.bits ≤ (if prof.numcolors ≤ 2 then 1 else if prof.numcolors ≤ 4 then 2
            else if prof.numcolors ≤ 16 then 4 else 8))) := by
  unfold choose_palette_ok choose_palettebits
  dsimp only
  by_cases hn : prof.numcolors ≤ 256
  · have e : (prof.numcolors * 2) % 2 ^ 32 = 2 * prof.numcolors := by
      rw [Nat.mod_eq_of_lt (by
        have : (2 : Nat) ^ 32 = 4294967296 := by norm_num
        omega)]
      omega
    rw [e]
    by_cases hg : prof.colored = 0 ∧ prof.alpha = 0 ∧
        prof.bits ≤ (if prof.numcolors ≤ 2 then 1 else if prof.numcolors ≤ 4 then 2
          else if prof.numcolors ≤ 16 then 4 else 8)
    · have hg2 : (decide (prof.colored = 0 ∧ prof.alpha = 0) = true) ∧
          prof.bits ≤ (if prof.numcolors ≤ 2 then 1 else if prof.numcolors ≤ 4 then 2
            else if prof.numcolors ≤ 16 then 4 else 8) := ⟨by simp [hg.1, hg.2.1], hg.2.2⟩
      rw [if_pos hg2]
      simp [hg]
    · have hg2 : ¬((decide (prof.colored = 0 ∧ prof.alpha = 0) = true) ∧
          prof.bits ≤ (if prof.numcolors ≤ 2 then 1 else if prof.numcolors ≤ 4 then 2
            else if prof.numcolors ≤ 16 then 4 else 8)) := by
        intro hx
        apply hg
        have := hx.1
        simp at this
        exact ⟨this.1, this.2, hx.2⟩
      rw [if_neg hg2]
      by_cases hwh : wh < 2 * prof.numcolors
      · rw [if_pos hwh]
        simp
        intro _ hlt
        omega
      · rw [if_neg hwh]
        simp [hn, hg]
  · constructor
    · intro hx
      exfalso
      split_ifs at hx <;> simp_all <;> omega
    · intro hx
      exact absurd hx.1 hn

/-- The chosen colour type is Palette exactly when `palette_ok` holds. -/
theorem chosen_palette_iff (mode_out mode_in : LodePNGColorMode) (image : Buf) (w h : Nat) :
    (lodepng_auto_choose_color mode_out image w h mode_in).2.colortype = LCT_PALETTE ↔
      choose_palette_ok (chosen_profile image w h mode_in) ((w * h) % 2 ^ 32) = true := by
  rw [lodepng_auto_choose_color_eq]
  unfold chosen_profile
  by_cases hok : choose_palette_ok (choose_adjust_profile (image_profile image w h mode_in)
      ((w * h) % 2 ^ 32)) ((w * h) % 2 ^ 32) = true
  · rw [if_pos hok]
    exact ⟨fun _ => hok, fun _ => choose_palette_colortype _ _ _⟩
  · rw [if_neg hok, choose_plain_colortype]
    constructor
    · intro hx
      split_ifs at hx <;> exact absurd hx (by decide)
    · intro hx
      exact absurd hx hok
/-- C21: with `prof` the profile the function decides on and `n = prof.numcolors`,
`lodepng_auto_choose_color` outputs the colour type Palette if and only if `n <= 256`,
`2 n < w * h`, `prof.bits <= 8` and not (`prof.colored = 0`, `prof.alpha = 0` and
`prof.bits <= pb(n)`), where `pb(n)` is 1 for `n <= 2`, 2 for `n <= 4`, 4 for `n <= 16`,
else 8; when it does and the source is not a Palette mode, the output has bit depth
`pb(n)`, `n` palette entries, and these are the first `n` colours of the profile in order.
The product `w * h` is the 32-bit one of the source. -/
theorem C21_palette_eligibility (mode_out mode_in : LodePNGColorMode) (image : Buf)
    (w h : Nat) :
    ((lodepng_auto_choose_color mode_out image w h mode_in).2.colortype = LCT_PALETTE ↔
      ((chosen_profile image w h mode_in).numcolors ≤ 256 ∧
       2 * (chosen_profile image w h mode_in).numcolors < (w * h) % 2 ^ 32 ∧
       (chosen_profile image w h mode_in).bits ≤ 8 ∧
       ¬((chosen_profile image w h mode_in).colored = 0 ∧
         (chosen_profile image w h mode_in).alpha = 0 ∧
         (chosen_profile image w h mode_in).bits ≤
           (if (chosen_profile image w h mode_in).numcolors ≤ 2 then 1
            else if (chosen_profile image w h mode_in).numcolors ≤ 4 then 2
            else if (chosen_profile image w h mode_in).numcolors ≤ 16 then 4 else 8)))) ∧
    ((lodepng_auto_choose_color mode_out image w h mode_in).2.colortype = LCT_PALETTE →
      mode_in.colortype ≠ LCT_PALETTE →
      (lodepng_auto_choose_color mode_out image w h mode_in).2.bitdepth =
        (if (chosen_profile image w h mode_in).numcolors ≤ 2 then 1
         else if (chosen_profile image w h mode_in).numcolors ≤ 4 then 2
         else if (chosen_profile image w h mode_in).numcolors ≤ 16 then 4 else 8) ∧
      (lodepng_auto_choose_color mode_out image w h mode_in).2.palettesize =
        (chosen_profile image w h mode_in).numcolors ∧
      ∀ j, j < (chosen_profile image w h mode_in).numcolors →
        palette_entry (lodepng_auto_choose_color mode_out image w h mode_in).2.palette j =
          palette_entry (chosen_profile image w h mode_in).palette j) := by
  constructor
  · rw [chosen_palette_iff, choose_palette_ok_iff]
  · intro hpal hin
    have hok := (chosen_palette_iff mode_out mode_in image w h).mp hpal
    rw [lodepng_auto_choose_color_eq]
    unfold chosen_profile at hok ⊢
    rw [if_pos hok]
    generalize choose_adjust_profile (image_profile image w h mode_in) ((w * h) % 2 ^ 32)
      = prof
    obtain ⟨_, f2, f3, _, f5⟩ := choose_palette_fresh { mode_out with key_defined := 0 }
      mode_in prof (fun hx => hin hx.1)
    refine ⟨f2, f3, ?_⟩
    intro j hj
    unfold palette_entry
    rw [f5 _ (by omega), f5 _ (by omega), f5 _ (by omega), f5 _ (by omega)]

/-- C22: whenever `lodepng_auto_choose_color` does not choose Palette, the output bit depth
is the `bits` of the profile it decides on, the colour type is RGBA for alpha and colour,
GreyAlpha for alpha without colour, RGB for colour without alpha and Grey otherwise, and
`key_defined` is 1 exactly when the profile has a key and `alpha` is 0 (it is 0
otherwise). -/
theorem C22_non_palette_choice (mode_out mode_in : LodePNGColorMode) (image : Buf)
    (w h : Nat)
    (hnp : (lodepng_auto_choose_color mode_out image w h mode_in).2.colortype ≠ LCT_PALETTE) :
    (lodepng_auto_choose_color mode_out image w h mode_in).2.bitdepth =
      (chosen_profile image w h mode_in).bits ∧
    ((chosen_profile image w h mode_in).alpha ≠ 0 →
      (chosen_profile image w h mode_in).colored ≠ 0 →
      (lodepng_auto_choose_color mode_out image w h mode_in).2.colortype = LCT_RGBA) ∧
    ((chosen_profile image w h mode_in).alpha ≠ 0 →
      (chosen_profile image w h mode_in).colored = 0 →
      (lodepng_auto_choose_color mode_out image w h mode_in).2.colortype = LCT_GREY_ALPHA) ∧
    ((chosen_profile image w h mode_in).alpha = 0 →
      (chosen_profile image w h mode_in).colored ≠ 0 →
      (lodepng_auto_choose_color mode_out image w h mode_in).2.colortype = LCT_RGB) ∧
    ((chosen_profile image w h mode_in).alpha = 0 →
      (chosen_profile image w h mode_in).colored = 0 →
      (lodepng_auto_choose_color mode_out image w h mode_in).2.colortype = LCT_GREY) ∧
    ((lodepng_auto_choose_color mode_out image w h mode_in).2.key_defined = 1 ↔
      ((chosen_profile image w h mode_in).key ≠ 0 ∧
       (chosen_profile image w h mode_in).alpha = 0)) ∧
    ((lodepng_auto_choose_color mode_out image w h mode_in).2.key_defined = 1 ∨
     (lodepng_auto_choose_color mode_out image w h mode_in).2.key_defined = 0) := by
  have hok : ¬ choose_palette_ok (chosen_profile image w h mode_in) ((w * h) % 2 ^ 32) = true :=
    fun hx => hnp ((chosen_palette_iff mode_out mode_in image w h).mpr hx)
  rw [lodepng_auto_choose_color_eq]
  unfold chosen_profile at hok ⊢
  rw [if_neg hok]
  generalize choose_adjust_profile (image_profile image w h mode_in) ((w * h) % 2 ^ 32)
    = prof
  rw [choose_plain_bitdepth, choose_plain_colortype, choose_plain_key_defined]
  refine ⟨rfl, ?_, ?_, ?_, ?_, ?_, ?_⟩
  · intro ha hc; simp [ha, hc]
  · intro ha hc; simp [ha, hc]
  · intro ha hc; simp [ha, hc]
  · intro ha hc; simp [ha, hc]
  · by_cases hk : prof.key ≠ 0 ∧ prof.alpha = 0
    · rw [if_pos hk]; simp [hk]
    · rw [if_neg hk]; simp [hk]
  · by_cases hk : prof.key ≠ 0 ∧ prof.alpha = 0
    · rw [if_pos hk]; exact Or.inl rfl
    · rw [if_neg hk]; exact Or.inr rfl

/-- Witness of C22: the scenario image is not given a palette; its mode has the bit depth
of the profile. -/
theorem C22_non_palette_choice_witness :
    (lodepng_auto_choose_color rgba8_mode scenario_image 2 2 rgba8_mode).2.bitdepth =
      (chosen_profile scenario_image 2 2 rgba8_mode).bits :=
  (C22_non_palette_choice rgba8_mode rgba8_mode scenario_image 2 2 (by decide)).1

/-- C23: when the palette is eligible (`palette_ok`) and the source mode is itself Palette
with at least as many entries as the profile has colours and with the chosen palette bit
depth, the output descriptor has the colour type, bit depth, palette size and palette
entries of the source, `lodepng_color_mode_equal(out, in)` holds and `lodepng_convert`
between the two is the byte copy; otherwise the output is the palette built from the
profile, at the depth of its number of colours. -/
theorem C23_keep_original_palette (mode_out mode_in : LodePNGColorMode) (image : Buf)
    (w h : Nat)
    (hok : choose_palette_ok (chosen_profile image w h mode_in) ((w * h) % 2 ^ 32) = true) :
    ((mode_in.colortype = LCT_PALETTE ∧
        mode_in.palettesize ≥ (chosen_profile image w h mode_in).numcolors ∧
        mode_in.bitdepth = choose_palettebits (chosen_profile image w h mode_in).numcolors) →
      (lodepng_auto_choose_color mode_out image w h mode_in).2.colortype = mode_in.colortype ∧
      (lodepng_auto_choose_color mode_out image w h mode_in).2.bitdepth = mode_in.bitdepth ∧
      (lodepng_auto_choose_color mode_out image w h mode_in).2.palettesize
        = mode_in.palettesize ∧
      (∀ j, j < mode_in.palettesize →
        palette_entry (lodepng_auto_choose_color mode_out image w h mode_in).2.palette j =
          palette_entry mode_in.palette j) ∧
      lodepng_color_mode_equal (lodepng_auto_choose_color mode_out image w h mode_in).2 mode_in
        = true ∧
      ∀ out P : Buf,
        (lodepng_convert out P (lodepng_auto_choose_color mode_out image w h mode_in).2
          mode_in w h).1 = 0 ∧
        ∀ i, i < lodepng_get_raw_size w h mode_in →
          (lodepng_convert out P (lodepng_auto_choose_color mode_out image w h mode_in).2
            mode_in w h).2 i = P i) ∧
    (¬(mode_in.colortype = LCT_PALETTE ∧
        mode_in.palettesize ≥ (chosen_profile image w h mode_in).numcolors ∧
        mode_in.bitdepth = choose_palettebits (chosen_profile image w h mode_in).numcolors) →
      (lodepng_auto_choose_color mode_out image w h mode_in).2.colortype = LCT_PALETTE ∧
      (lodepng_auto_choose_color mode_out image w h mode_in).2.bitdepth =
        choose_palettebits (chosen_profile image w h mode_in).numcolors ∧
      (lodepng_auto_choose_color mode_out image w h mode_in).2.palettesize =
        (chosen_profile image w h mode_in).numcolors ∧
      ∀ j, j < (chosen_profile image w h mode_in).numcolors →
        palette_entry (lodepng_auto_choose_color mode_out image w h mode_in).2.palette j =
          palette_entry (chosen_profile image w h mode_in).palette j) := by
  rw [lodepng_auto_choose_color_eq]
  unfold chosen_profile at hok ⊢
  rw [if_pos hok]
  generalize choose_adjust_profile (image_profile image w h mode_in) ((w * h) % 2 ^ 32)
    = prof
  constructor
  · intro hkeep
    rw [choose_palette_kept _ _ _ hkeep]
    refine ⟨rfl, rfl, rfl, fun _ _ => rfl, lodepng_color_mode_equal_self mode_in, ?_⟩
    intro out P
    unfold lodepng_convert
    simp only [lodepng_color_mode_equal_self, if_true]
    refine ⟨trivial, ?_⟩
    intro i hi
    rw [forLoop_copy]
    simp [hi]
  · intro hkeep
    obtain ⟨f1, f2, f3, _, f5⟩ := choose_palette_fresh { mode_out with key_defined := 0 }
      mode_in prof hkeep
    refine ⟨f1, f2, f3, ?_⟩
    intro j hj
    unfold palette_entry
    rw [f5 _ (by omega), f5 _ (by omega), f5 _ (by omega), f5 _ (by omega)]

/-- Witness of C23: a 3x3 image in a palette mode of depth 2 with three entries, all used;
the chosen descriptor keeps the palette size 3 of the source. -/
theorem C23_keep_original_palette_witness :
    (lodepng_auto_choose_color rgba8_mode rgb_palette_image 3 3 rgb_palette_mode).2.palettesize
      = rgb_palette_mode.palettesize :=
  ((C23_keep_original_palette rgba8_mode rgb_palette_mode rgb_palette_image 3 3
    (by decide)).1 (by decide)).2.2.1

/-! ## C28: images that are truly 16-bit -/

/-- The two bytes of a big-endian 16-bit sample. -/
theorem sample16_bytes (hi lo : Nat) (hh : hi < 256) (hl : lo < 256) :
    (256 * hi + lo) &&& 255 = lo ∧ ((256 * hi + lo) >>> 8) &&& 255 = hi := by
  have e1 : ∀ x : Nat, x &&& 255 = x % 256 := fun x => Nat.and_pow_two_sub_one_eq_mod x 8
  rw [e1, e1, Nat.shiftRight_eq_div_pow]
  constructor <;> omega

/-- The test of the 16-bit pre-check on a sample. -/
theorem sample16_bne (hi lo : Nat) (hh : hi < 256) (hl : lo < 256) :
    (((256 * hi + lo) &&& 255) != (((256 * hi + lo) >>> 8) &&& 255)) = decide (hi ≠ lo) := by
  obtain ⟨e1, e2⟩ := sample16_bytes hi lo hh hl
  rw [e1, e2]
  by_cases h : hi = lo
  · simp [h]
  · have : ¬ lo = hi := fun e => h e.symm
    simp [h, this]

/-- A 16-bit sample whose bytes differ makes the pre-check of its pixel succeed. -/
theorem bytes_differ_of_sample (inp : Buf) (hP : ValidBuf inp) (mode : LodePNGColorMode)
    (hct : mode.colortype = LCT_GREY ∨ mode.colortype = LCT_RGB ∨
      mode.colortype = LCT_GREY_ALPHA ∨ mode.colortype = LCT_RGBA)
    (c0 : Color) (i c : Nat) (hc : c < getNumColorChannels mode.colortype)
    (hd : inp (i * (2 * getNumColorChannels mode.colortype) + 2 * c) ≠
      inp (i * (2 * getNumColorChannels mode.colortype) + 2 * c + 1)) :
    bytes_differ (getPixelColorRGBA16 c0 inp i mode) = true := by
  unfold bytes_differ getPixelColorRGBA16
  rcases hct with h | h | h | h
  · rw [h] at hc hd
    have hc0 : c = 0 := by
      have : getNumColorChannels LCT_GREY = 1 := rfl
      omega
    subst hc0
    have e : getNumColorChannels LCT_GREY = 1 := rfl
    rw [e] at hd
    simp only [h, if_true]
    rw [sample16_bne _ _ (hP _) (hP _)]
    have e1 : i * (2 * 1) + 2 * 0 = i * 2 + 0 := by omega
    have e2 : i * (2 * 1) + 2 * 0 + 1 = i * 2 + 1 := by omega
    rw [e1, e2] at hd
    try simp only [Nat.add_zero] at hd
    simp [hd]
  · rw [h] at hc hd
    have e : getNumColorChannels LCT_RGB = 3 := rfl
    rw [e] at hc hd
    have h1 : ¬ LCT_RGB = LCT_GREY := by decide
    simp only [h, h1, if_true, if_false]
    rw [sample16_bne _ _ (hP _) (hP _), sample16_bne _ _ (hP _) (hP _),
      sample16_bne _ _ (hP _) (hP _)]
    have hc3 : c = 0 ∨ c = 1 ∨ c = 2 := by omega
    rcases hc3 with hx | hx | hx <;> subst hx
    · have e1 : i * (2 * 3) + 2 * 0 = i * 6 + 0 := by omega
      have e2 : i * (2 * 3) + 2 * 0 + 1 = i * 6 + 1 := by omega
      rw [e1, e2] at hd
      try simp only [Nat.add_zero] at hd
      simp [hd]
    · have e1 : i * (2 * 3) + 2 * 1 = i * 6 + 2 := by omega
      have e2 : i * (2 * 3) + 2 * 1 + 1 = i * 6 + 3 := by omega
      rw [e1, e2] at hd
      try simp only [Nat.add_zero] at hd
      simp [hd]
    · have e1 : i * (2 * 3) + 2 * 2 = i * 6 + 4 := by omega
      have e2 : i * (2 * 3) + 2 * 2 + 1 = i * 6 + 5 := by omega
      rw [e1, e2] at hd
      try simp only [Nat.add_zero] at hd
      simp [hd]
  · rw [h] at hc hd
    have e : getNumColorChannels LCT_GREY_ALPHA = 2 := rfl
    rw [e] at hc hd
    have h1 : ¬ LCT_GREY_ALPHA = LCT_GREY := by decide
    have h2 : ¬ LCT_GREY_ALPHA = LCT_RGB := by decide
    simp only [h, h1, h2, if_true, if_false]
    rw [sample16_bne _ _ (hP _) (hP _), sample16_bne _ _ (hP _) (hP _)]
    have hc3 : c = 0 ∨ c = 1 := by omega
    rcases hc3 with hx | hx <;> subst hx
    · have e1 : i * (2 * 2) + 2 * 0 = i * 4 + 0 := by omega
      have e2 : i * (2 * 2) + 2 * 0 + 1 = i * 4 + 1 := by omega
      rw [e1, e2] at hd
      try simp only [Nat.add_zero] at hd
      simp [hd]
    · have e1 : i * (2 * 2) + 2 * 1 = i * 4 + 2 := by omega
      have e2 : i * (2 * 2) + 2 * 1 + 1 = i * 4 + 3 := by omega
      rw [e1, e2] at hd
      try simp only [Nat.add_zero] at hd
      simp [hd]
  · rw [h] at hc hd
    have e : getNumColorChannels LCT_RGBA = 4 := rfl
    rw [e] at hc hd
    have h1 : ¬ LCT_RGBA = LCT_GREY := by decide
    have h2 : ¬ LCT_RGBA = LCT_RGB := by decide
    have h3 : ¬ LCT_RGBA = LCT_GREY_ALPHA := by decide
    simp only [h, h1, h2, h3, if_true, if_false]
    rw [sample16_bne _ _ (hP _) (hP _), sample16_bne _ _ (hP _) (hP _),
      sample16_bne _ _ (hP _) (hP _), sample16_bne _ _ (hP _) (hP _)]
    have hc3 : c = 0 ∨ c = 1 ∨ c = 2 ∨ c = 3 := by omega
    rcases hc3 with hx | hx | hx | hx <;> subst hx
    · have e1 : i * (2 * 4) + 2 * 0 = i * 8 + 0 := by omega
      have e2 : i * (2 * 4) + 2 * 0 + 1 = i * 8 + 1 := by omega
      rw [e1, e2] at hd
      try simp only [Nat.add_zero] at hd
      simp [hd]
    · have e1 : i * (2 * 4) + 2 * 1 = i * 8 + 2 := by omega
      have e2 : i * (2 * 4) + 2 * 1 + 1 = i * 8 + 3 := by omega
      rw [e1, e2] at hd
      try simp only [Nat.add_zero] at hd
      simp [hd]
    · have e1 : i * (2 * 4) + 2 * 2 = i * 8 + 4 := by omega
      have e2 : i * (2 * 4) + 2 * 2 + 1 = i * 8 + 5 := by omega
      rw [e1, e2] at hd
      try simp only [Nat.add_zero] at hd
      simp [hd]
    · have e1 : i * (2 * 4) + 2 * 3 = i * 8 + 6 := by omega
      have e2 : i * (2 * 4) + 2 * 3 + 1 = i * 8 + 7 := by omega
      rw [e1, e2] at hd
      try simp only [Nat.add_zero] at hd
      simp [hd]

/-- The pre-check finds a pixel whose test succeeds. -/
theorem profile_sixteen_loop_of_pixel (inp : Buf) (mode : LodePNGColorMode)
    (hct : mode.colortype = LCT_GREY ∨ mode.colortype = LCT_RGB ∨
      mode.colortype = LCT_GREY_ALPHA ∨ mode.colortype = LCT_RGBA) (j : Nat)
    (hj : bytes_differ (getPixelColorRGBA16 Color.zero inp j mode) = true) :
    ∀ fuel i c, i ≤ j → j < i + fuel → profile_sixteen_loop inp mode fuel i c = true := by
  intro fuel
  induction fuel with
  | zero => intro i c h1 h2; omega
  | succ k ih =>
    intro i c h1 h2
    unfold profile_sixteen_loop
    dsimp only
    by_cases hb : bytes_differ (getPixelColorRGBA16 c inp i mode) = true
    · rw [if_pos hb]
    · rw [if_neg hb]
      by_cases hij : i = j
      · subst hij
        rw [getPixelColorRGBA16_indep c Color.zero inp i mode hct] at hb
        exact absurd hj hb
      · exact ih (i + 1) _ (by omega) (by omega)

/-- The 16-bit scanning loop and the second pass leave `bits` as it is when it is 16. -/
theorem profile_run16_bits (inp : Buf) (n : Nat) (mode : LodePNGColorMode) (s0 : ProfileState) :
    (profile_run16 inp n mode s0).bits = 16 := by
  unfold profile_run16
  dsimp only
  have h2 := profile_loop16_invariant (fun (s : ProfileState) => s.profile.bits = 16) inp mode n
    (fun i s _ hs => by
      unfold profile_step16 profile_alpha16 profile_colored16
      dsimp only
      split_ifs <;> simp_all [bits_at_least_8])
    n 0 { s0 with profile := { s0.profile with bits := 16 }, bits_done := true,
                  numcolors_done := true } (by omega) rfl
  split
  · exact forLoop_invariant (fun (s : ProfileState) => s.profile.bits = 16) n _
      (fun i s _ hs => by
        unfold profile_keycheck16
        dsimp only
        split_ifs <;> simp_all) _ h2
  · exact h2

/-- C28: for a 16-bit source mode (Grey, RGB, GreyAlpha or RGBA at depth 16) and an image
of bytes in which some sample of some scanned pixel has a high byte different from its low
byte, `lodepng_get_color_profile` leaves `bits = 16`, whatever profile it started from, and
`lodepng_auto_choose_color` returns 0 and outputs bit depth 16 with a colour type that is
not Palette. -/
theorem C28_truly_sixteen_bit (mode_out mode_in : LodePNGColorMode) (inp : Buf) (w h : Nat)
    (hP : ValidBuf inp)
    (hct : mode_in.colortype = LCT_GREY ∨ mode_in.colortype = LCT_RGB ∨
      mode_in.colortype = LCT_GREY_ALPHA ∨ mode_in.colortype = LCT_RGBA)
    (hbd : mode_in.bitdepth = 16)
    (hdiff : ∃ i c, i < (w * h) % 2 ^ 32 ∧ c < getNumColorChannels mode_in.colortype ∧
      inp (i * (2 * getNumColorChannels mode_in.colortype) + 2 * c) ≠
        inp (i * (2 * getNumColorChannels mode_in.colortype) + 2 * c + 1)) :
    (∀ p : LodePNGColorProfile, (lodepng_get_color_profile p inp w h mode_in).2.bits = 16) ∧
    (lodepng_auto_choose_color mode_out inp w h mode_in).1 = 0 ∧
    (lodepng_auto_choose_color mode_out inp w h mode_in).2.bitdepth = 16 ∧
    (lodepng_auto_choose_color mode_out inp w h mode_in).2.colortype ≠ LCT_PALETTE := by
  obtain ⟨i, c, hi, hc, hd⟩ := hdiff
  have hpix := bytes_differ_of_sample inp hP mode_in hct Color.zero i c hc hd
  have hsix : profile_sixteen inp ((w * h) % 2 ^ 32) mode_in = true := by
    unfold profile_sixteen
    rw [if_pos hbd]
    exact profile_sixteen_loop_of_pixel inp mode_in hct i hpix _ 0 _ (Nat.zero_le i) (by omega)
  have hbits : ∀ p : LodePNGColorProfile,
      (lodepng_get_color_profile p inp w h mode_in).2.bits = 16 := by
    intro p
    unfold lodepng_get_color_profile
    dsimp only
    rw [if_pos hsix]
    exact profile_run16_bits _ _ _ _
  have hprof : (chosen_profile inp w h mode_in).bits = 16 := by
    unfold chosen_profile choose_adjust_profile image_profile
    split
    · unfold bits_at_least_8
      dsimp only
      rw [hbits]
      rfl
    · exact hbits _
  have hno : ¬ choose_palette_ok (chosen_profile inp w h mode_in) ((w * h) % 2 ^ 32) = true := by
    rw [choose_palette_ok_iff, hprof]
    intro hx
    exact absurd hx.2.2.1 (by decide)
  refine ⟨hbits, ?_, ?_, ?_⟩
  · unfold lodepng_auto_choose_color
    dsimp only
    rw [if_neg (by rw [lodepng_get_color_profile_error]; simp)]
    split <;> rfl
  · rw [lodepng_auto_choose_color_eq]
    unfold chosen_profile at hno hprof
    rw [if_neg hno, choose_plain_bitdepth, hprof]
  · intro hx
    exact hno ((chosen_palette_iff mode_out mode_in inp w h).mp hx)

/-- Witness of C28: a 1x1 16-bit RGBA image whose red sample is `0x0102`. -/
theorem C28_truly_sixteen_bit_witness :
    (lodepng_auto_choose_color rgba8_mode (bufOfList [1, 2, 0, 0, 0, 0, 255, 255]) 1 1
      ⟨LCT_RGBA, 16, fun _ => 0, 0, 0, 0, 0, 0⟩).2.bitdepth = 16 :=
  (C28_truly_sixteen_bit rgba8_mode ⟨LCT_RGBA, 16, fun _ => 0, 0, 0, 0, 0, 0⟩
    (bufOfList [1, 2, 0, 0, 0, 0, 255, 255]) 1 1 (validBuf_bufOfList _ (by decide))
    (by decide) rfl ⟨0, 0, by decide, by decide, by decide⟩).2.2.1

/-! ## C29: 16-bit images whose bytes are replicated -/

theorem getValueRequiredBits_le (v : Nat) : getValueRequiredBits v ≤ 8 := by
  rcases getValueRequiredBits_legal v with h | h | h | h <;> omega

/-- The scanning step keeps `bits` at most 8. -/
theorem profile_step8_bits_le (inp : Buf) (mode : LodePNGColorMode) (bpp maxn i : Nat)
    (s : ProfileState) (h : s.profile.bits ≤ 8) :
    (profile_step8 inp mode bpp maxn i s).profile.bits ≤ 8 := by
  unfold profile_step8
  rw [(profile_numcolors8_fields maxn _).2.2.2.2.2.2.2.2.1]
  have h1 : (profile_bits8 bpp { s with c := getPixelColorRGBA8 s.c inp i mode }).profile.bits
      ≤ 8 := by
    unfold profile_bits8
    dsimp only
    split_ifs
    · exact getValueRequiredBits_le _
    · exact h
    · exact h
  generalize profile_bits8 bpp { s with c := getPixelColorRGBA8 s.c inp i mode } = s1 at h1 ⊢
  have h2 : (profile_colored8 s1).profile.bits ≤ 8 := by
    unfold profile_colored8 bits_at_least_8
    split_ifs <;> simp_all
  generalize profile_colored8 s1 = s2 at h2 ⊢
  unfold profile_alpha8 bits_at_least_8
  dsimp only
  split_ifs <;> simp_all

/-- The block on `bits` does not depend on `bpp` while `bits` stays below it. -/
theorem profile_bits8_congr (bpp bpp2 : Nat) (s : ProfileState) (h : s.profile.bits ≤ 8)
    (hb : 8 < bpp) (hb2 : 8 < bpp2) : profile_bits8 bpp s = profile_bits8 bpp2 s := by
  unfold profile_bits8
  dsimp only
  have hle : (if (!s.bits_done) = true ∧ s.profile.bits < 8 then
      (if getValueRequiredBits s.c.r > s.profile.bits then
        { s.profile with bits := getValueRequiredBits s.c.r }
       else s.profile)
    else s.profile).bits ≤ 8 := by
    split_ifs
    · exact getValueRequiredBits_le _
    · exact h
    · exact h
  generalize (if (!s.bits_done) = true ∧ s.profile.bits < 8 then
      (if getValueRequiredBits s.c.r > s.profile.bits then
        { s.profile with bits := getValueRequiredBits s.c.r }
       else s.profile)
    else s.profile) = p1 at hle ⊢
  have e1 : decide (p1.bits ≥ bpp) = false := by simp; omega
  have e2 : decide (p1.bits ≥ bpp2) = false := by simp; omega
  rw [e1, e2]

/-- Two images whose pixels decode alike go through the scanning loop alike, as long as
`bits` cannot reach the bits per pixel. -/
theorem profile_loop8_congr (inp inp2 : Buf) (mode mode2 : LodePNGColorMode)
    (bpp bpp2 maxn : Nat)
    (hdec : ∀ c i, getPixelColorRGBA8 c inp i mode = getPixelColorRGBA8 c inp2 i mode2)
    (hb : 8 < bpp) (hb2 : 8 < bpp2) :
    ∀ fuel i s, s.profile.bits ≤ 8 →
      profile_loop8 inp mode bpp maxn fuel i s = profile_loop8 inp2 mode2 bpp2 maxn fuel i s := by
  have hstep : ∀ i s, s.profile.bits ≤ 8 →
      profile_step8 inp mode bpp maxn i s = profile_step8 inp2 mode2 bpp2 maxn i s := by
    intro i s hs
    unfold profile_step8
    rw [hdec]
    have hcong := profile_bits8_congr bpp bpp2
      { s with c := getPixelColorRGBA8 s.c inp2 i mode2 } hs hb hb2
    rw [hcong]
  intro fuel
  induction fuel with
  | zero => intro i s _; rfl
  | succ k ih =>
    intro i s hs
    unfold profile_loop8
    dsimp only
    rw [hstep i s hs]
    split
    · rfl
    · exact ih (i + 1) _ (by
        rw [← hstep i s hs]
        exact profile_step8_bits_le inp mode bpp maxn i s hs)

/-- The pre-check finds nothing when no pixel passes its test. -/
theorem profile_sixteen_loop_false (inp : Buf) (mode : LodePNGColorMode) (n : Nat)
    (h : ∀ c j, j < n → bytes_differ (getPixelColorRGBA16 c inp j mode) = false) :
    ∀ fuel i c, i + fuel ≤ n → profile_sixteen_loop inp mode fuel i c = false := by
  intro fuel
  induction fuel with
  | zero => intro i c _; rfl
  | succ k ih =>
    intro i c hi
    unfold profile_sixteen_loop
    dsimp only
    rw [h c i (by omega)]
    simp only [Bool.false_eq_true, if_false]
    exact ih (i + 1) _ (by omega)

/-- The pixels of a 16-bit RGBA image as the 8-bit loops decode them are those of the image
of its high bytes. -/
theorem getPixelColorRGBA8_high_bytes (mode16 : LodePNGColorMode)
    (hct : mode16.colortype = LCT_RGBA) (hbd : mode16.bitdepth = 16) (inp : Buf) (c : Color)
    (i : Nat) :
    getPixelColorRGBA8 c inp i mode16 = getPixelColorRGBA8 c (high_bytes inp) i rgba8_mode := by
  rw [getPixelColorRGBA8_rgba8]
  unfold getPixelColorRGBA8 pixel_rgba8 high_bytes
  have h1 : ¬ LCT_RGBA = LCT_GREY := by decide
  have h2 : ¬ LCT_RGBA = LCT_RGB := by decide
  have h3 : ¬ LCT_RGBA = LCT_PALETTE := by decide
  have h4 : ¬ LCT_RGBA = LCT_GREY_ALPHA := by decide
  have h5 : ¬ (16 : Nat) = 8 := by decide
  simp only [hct, hbd, h1, h2, h3, h4, h5, if_true, if_false]
  have e0 : (i * 4 + 0) / 4 * 8 + (i * 4 + 0) % 4 * 2 = i * 8 + 0 := by omega
  have e1 : (i * 4 + 1) / 4 * 8 + (i * 4 + 1) % 4 * 2 = i * 8 + 2 := by omega
  have e2 : (i * 4 + 2) / 4 * 8 + (i * 4 + 2) % 4 * 2 = i * 8 + 4 := by omega
  have e3 : (i * 4 + 3) / 4 * 8 + (i * 4 + 3) % 4 * 2 = i * 8 + 6 := by omega
  rw [e0, e1, e2, e3]

theorem validBuf_high_bytes (inp : Buf) (hP : ValidBuf inp) : ValidBuf (high_bytes inp) :=
  fun _ => hP _

/-- The profile of a 16-bit RGBA image whose samples all have equal bytes is the profile
of the image of its high bytes. -/
theorem profile_of_replicated (p : LodePNGColorProfile) (mode16 : LodePNGColorMode)
    (inp : Buf) (w h : Nat) (hP : ValidBuf inp) (hct : mode16.colortype = LCT_RGBA)
    (hbd : mode16.bitdepth = 16) (hp : p.bits ≤ 8)
    (hrep : ∀ i c, i < (w * h) % 2 ^ 32 → c < 4 → inp (i * 8 + 2 * c) = inp (i * 8 + 2 * c + 1)) :
    lodepng_get_color_profile p inp w h mode16 =
      lodepng_get_color_profile p (high_bytes inp) w h rgba8_mode := by
  have hsix : profile_sixteen inp ((w * h) % 2 ^ 32) mode16 = false := by
    unfold profile_sixteen
    rw [if_pos hbd]
    apply profile_sixteen_loop_false inp mode16 ((w * h) % 2 ^ 32) _ _ 0 _ (by omega)
    intro c j hj
    unfold bytes_differ getPixelColorRGBA16
    have h1 : ¬ LCT_RGBA = LCT_GREY := by decide
    have h2 : ¬ LCT_RGBA = LCT_RGB := by decide
    have h4 : ¬ LCT_RGBA = LCT_GREY_ALPHA := by decide
    simp only [hct, h1, h2, h4, if_true, if_false]
    rw [sample16_bne _ _ (hP _) (hP _), sample16_bne _ _ (hP _) (hP _),
      sample16_bne _ _ (hP _) (hP _), sample16_bne _ _ (hP _) (hP _)]
    have r0 := hrep j 0 hj (by decide)
    have r1 := hrep j 1 hj (by decide)
    have r2 := hrep j 2 hj (by decide)
    have r3 := hrep j 3 hj (by decide)
    simp only [Nat.mul_zero, Nat.mul_one, Nat.add_zero] at r0 r1 r2 r3
    have e2 : j * 8 + 2 * 2 = j * 8 + 4 := by omega
    have e3 : j * 8 + 2 * 3 = j * 8 + 6 := by omega
    have e4 : j * 8 + 4 + 1 = j * 8 + 5 := by omega
    have e5 : j * 8 + 6 + 1 = j * 8 + 7 := by omega
    have e6 : j * 8 + 2 + 1 = j * 8 + 3 := by omega
    rw [e2, e4] at r2
    rw [e3, e5] at r3
    rw [e6] at r1
    simp [r0, r1, r2, r3]
  have hsix8 : profile_sixteen (high_bytes inp) ((w * h) % 2 ^ 32) rgba8_mode = false := by
    unfold profile_sixteen
    rw [if_neg (by decide)]
  have hstart : profile_start p mode16 = profile_start p rgba8_mode := by
    have g : lodepng_is_greyscale_type mode16 = false := by
      unfold lodepng_is_greyscale_type; rw [hct]; decide
    have a : lodepng_can_have_alpha mode16 = true := by
      unfold lodepng_can_have_alpha lodepng_is_alpha_type; rw [hct]; simp
    have b : lodepng_get_bpp mode16 = 64 := by
      unfold lodepng_get_bpp lodepng_get_bpp_lct; rw [hct, hbd]; decide
    unfold profile_start
    rw [g, a, b]
    rfl
  have hkey : profile_keycheck8 inp mode16 = profile_keycheck8 (high_bytes inp) rgba8_mode := by
    funext i s
    unfold profile_keycheck8
    rw [getPixelColorRGBA8_high_bytes mode16 hct hbd]
  have hb16 : lodepng_get_bpp mode16 = 64 := by
    unfold lodepng_get_bpp lodepng_get_bpp_lct; rw [hct, hbd]; decide
  have hb8 : lodepng_get_bpp rgba8_mode = 32 := by decide
  unfold lodepng_get_color_profile
  dsimp only
  rw [hsix, hsix8]
  simp only [Bool.false_eq_true, if_false]
  unfold profile_run8
  dsimp only
  rw [hstart, hkey, hb16, hb8,
    profile_loop8_congr inp (high_bytes inp) mode16 rgba8_mode 64 32 _
      (getPixelColorRGBA8_high_bytes mode16 hct hbd inp) (by decide) (by decide) _ 0 _ hp]
  rfl
/-- The mode chosen for an 8-bit RGBA image has a bit depth of at most 8. -/
theorem chosen_bitdepth_rgba8 (mode_out : LodePNGColorMode) (P : Buf) (hP : ValidBuf P)
    (w h : Nat) : (lodepng_auto_choose_color mode_out P w h rgba8_mode).2.bitdepth ≤ 8 := by
  have hsound := choose_adjust_profile_sound P _ _ ((w * h) % 2 ^ 32)
    (image_profile_rgba8 P hP w h)
  rw [lodepng_auto_choose_color_eq]
  generalize choose_adjust_profile (image_profile P w h rgba8_mode) ((w * h) % 2 ^ 32) = prof
    at hsound ⊢
  split
  · rw [(choose_palette_fields _ _ _ (by decide)).2]
    unfold choose_palettebits
    split_ifs <;> omega
  · rw [choose_plain_bitdepth]
    rcases hsound.bits_legal with hb | hb | hb | hb <;> omega

/-- C29: for a 16-bit RGBA image of bytes in which every sample of every scanned pixel has
equal high and low bytes, `lodepng_get_color_profile` started from a freshly initialised
profile returns exactly what it returns for the 8-bit RGBA image made of the high bytes
(the same `colored`, `alpha`, `key`, `key_r`, `key_g`, `key_b`, `numcolors`, `palette`
and `bits`); hence `lodepng_auto_choose_color` returns the same for both, and the chosen
bit depth is at most 8. -/
theorem C29_replicated_sixteen_bit (mode_out mode16 : LodePNGColorMode) (inp : Buf)
    (w h : Nat) (hP : ValidBuf inp) (hct : mode16.colortype = LCT_RGBA)
    (hbd : mode16.bitdepth = 16)
    (hrep : ∀ i, i < (w * h) % 2 ^ 32 → ∀ c, c < 4 →
      inp (i * 8 + 2 * c) = inp (i * 8 + 2 * c + 1)) :
    lodepng_get_color_profile (lodepng_color_profile_init profile_local) inp w h mode16 =
      lodepng_get_color_profile (lodepng_color_profile_init profile_local) (high_bytes inp)
        w h rgba8_mode ∧
    lodepng_auto_choose_color mode_out inp w h mode16 =
      lodepng_auto_choose_color mode_out (high_bytes inp) w h rgba8_mode ∧
    (lodepng_auto_choose_color mode_out inp w h mode16).2.bitdepth ≤ 8 := by
  have hprof := profile_of_replicated (lodepng_color_profile_init profile_local) mode16 inp w h
    hP hct hbd (by decide) (fun i c hi hc => hrep i hi c hc)
  have hchoose : lodepng_auto_choose_color mode_out inp w h mode16 =
      lodepng_auto_choose_color mode_out (high_bytes inp) w h rgba8_mode := by
    unfold lodepng_auto_choose_color
    rw [hprof]
    dsimp only
    have hpal : ∀ (m : LodePNGColorMode) (prof : LodePNGColorProfile),
        choose_palette m prof mode16 = choose_palette m prof rgba8_mode := by
      intro m prof
      unfold choose_palette
      dsimp only
      rw [if_neg (fun hx => absurd (hct.symm.trans hx.1) (by decide)),
        if_neg (fun hx => absurd hx.1 (by decide))]
    rw [hpal]
  refine ⟨hprof, hchoose, ?_⟩
  rw [hchoose]
  exact chosen_bitdepth_rgba8 mode_out (high_bytes inp) (validBuf_high_bytes inp hP) w h

/-- Witness of C29: the 2x1 16-bit RGBA image of the pixels `(0x0101, 0x0202, 0x0303,
0xFFFF)` and `(0x0505, 0x0505, 0x0505, 0xFFFF)` is chosen a mode of at most 8 bits. -/
theorem C29_replicated_sixteen_bit_witness :
    (lodepng_auto_choose_color rgba8_mode
      (bufOfList [1, 1, 2, 2, 3, 3, 255, 255, 5, 5, 5, 5, 5, 5, 255, 255]) 2 1
      ⟨LCT_RGBA, 16, fun _ => 0, 0, 0, 0, 0, 0⟩).2.bitdepth ≤ 8 :=
  (C29_replicated_sixteen_bit rgba8_mode ⟨LCT_RGBA, 16, fun _ => 0, 0, 0, 0, 0, 0⟩
    (bufOfList [1, 1, 2, 2, 3, 3, 255, 255, 5, 5, 5, 5, 5, 5, 255, 255]) 2 1
    (validBuf_bufOfList _ (by decide)) rfl rfl (by decide)).2.2

/-! ## C24: the key of the output -/

/-- The key fields of the non-palette branch when the profile has a usable key. -/
theorem choose_plain_key (m : LodePNGColorMode) (p : LodePNGColorProfile)
    (hk : p.key ≠ 0) (ha : p.alpha = 0) :
    (choose_plain m p).key_r = p.key_r % 2 ^ p.bits ∧
    (choose_plain m p).key_g = p.key_g % 2 ^ p.bits ∧
    (choose_plain m p).key_b = p.key_b % 2 ^ p.bits := by
  have hm : ((1 : Nat) <<< p.bits) - 1 = 2 ^ p.bits - 1 := by rw [Nat.shiftLeft_eq, Nat.one_mul]
  unfold choose_plain
  simp only [hk, ha, ne_eq, not_false_eq_true, and_self, if_true, hm,
    Nat.and_pow_two_sub_one_eq_mod]

/-- The sample of depth 1, 2 or 4 of a grey level that the depth can hold: the 16-bit
value `257 * v` reduced modulo `2 ^ d` is the one `k < 2 ^ d` with `k * 255 / (2 ^ d - 1) = v`. -/
theorem lowbit_key_sample (d v : Nat) (hd : d = 1 ∨ d = 2 ∨ d = 4) (hv : v < 256)
    (hreq : getValueRequiredBits v ≤ d) :
    (257 * v) % 2 ^ d < 2 ^ d ∧ (257 * v) % 2 ^ d * 255 / (2 ^ d - 1) = v ∧
    ∀ k, k < 2 ^ d → k * 255 / (2 ^ d - 1) = v → k = (257 * v) % 2 ^ d := by
  obtain ⟨r1, r2, r4⟩ := lowbit_key_recover v hv
  have hm : ∀ e : Nat, (257 * v) &&& ((1 <<< e) - 1) = (257 * v) % 2 ^ e := by
    intro e
    rw [Nat.shiftLeft_eq, Nat.one_mul, Nat.and_pow_two_sub_one_eq_mod]
  rw [hm] at r1 r2 r4
  rcases hd with h | h | h <;> subst h
  · have := r1 hreq
    norm_num at this ⊢
    refine ⟨by omega, by omega, fun k hk hkv => by omega⟩
  · have := r2 hreq
    norm_num at this ⊢
    refine ⟨by omega, by omega, fun k hk hkv => by omega⟩
  · have := r4 hreq
    norm_num at this ⊢
    refine ⟨by omega, by omega, fun k hk hkv => by omega⟩
/-- C24: for an 8-bit RGBA image of bytes whose chosen mode has `key_defined = 1`, with `d`
the chosen bit depth: the key of the profile is the RGB of the first fully transparent
pixel, each byte `v` replicated to the 16-bit value `257 * v`; the key of the output is
`(257 * v) mod 2 ^ d` in each channel; `d` is 1, 2, 4 or 8; for `d = 8` the output key is
`v` itself, and for `d` in 1, 2, 4 it is the unique `k < 2 ^ d` with
`k * 255 / (2 ^ d - 1) = v`. -/
theorem C24_key_normalisation (mode_out : LodePNGColorMode) (P : Buf) (w h : Nat)
    (hP : ValidBuf P)
    (hkd : (lodepng_auto_choose_color mode_out P w h rgba8_mode).2.key_defined = 1) :
    ∃ j, j < (w * h) % 2 ^ 32 ∧ (pixel_rgba8 P j).a = 0 ∧
      (∀ i, i < j → (pixel_rgba8 P i).a ≠ 0) ∧
      (image_profile P w h rgba8_mode).key ≠ 0 ∧
      (image_profile P w h rgba8_mode).key_r = 257 * (pixel_rgba8 P j).r ∧
      (image_profile P w h rgba8_mode).key_g = 257 * (pixel_rgba8 P j).g ∧
      (image_profile P w h rgba8_mode).key_b = 257 * (pixel_rgba8 P j).b ∧
      (lodepng_auto_choose_color mode_out P w h rgba8_mode).2.key_r =
        (257 * (pixel_rgba8 P j).r) %
          2 ^ (lodepng_auto_choose_color mode_out P w h rgba8_mode).2.bitdepth ∧
      (lodepng_auto_choose_color mode_out P w h rgba8_mode).2.key_g =
        (257 * (pixel_rgba8 P j).g) %
          2 ^ (lodepng_auto_choose_color mode_out P w h rgba8_mode).2.bitdepth ∧
      (lodepng_auto_choose_color mode_out P w h rgba8_mode).2.key_b =
        (257 * (pixel_rgba8 P j).b) %
          2 ^ (lodepng_auto_choose_color mode_out P w h rgba8_mode).2.bitdepth ∧
      ((lodepng_auto_choose_color mode_out P w h rgba8_mode).2.bitdepth = 1 ∨
       (lodepng_auto_choose_color mode_out P w h rgba8_mode).2.bitdepth = 2 ∨
       (lodepng_auto_choose_color mode_out P w h rgba8_mode).2.bitdepth = 4 ∨
       (lodepng_auto_choose_color mode_out P w h rgba8_mode).2.bitdepth = 8) ∧
      ((lodepng_auto_choose_color mode_out P w h rgba8_mode).2.bitdepth = 8 →
        (lodepng_auto_choose_color mode_out P w h rgba8_mode).2.key_r = (pixel_rgba8 P j).r ∧
        (lodepng_auto_choose_color mode_out P w h rgba8_mode).2.key_g = (pixel_rgba8 P j).g ∧
        (lodepng_auto_choose_color mode_out P w h rgba8_mode).2.key_b = (pixel_rgba8 P j).b) ∧
      ((lodepng_auto_choose_color mode_out P w h rgba8_mode).2.bitdepth < 8 →
        sample_of_level (lodepng_auto_choose_color mode_out P w h rgba8_mode).2.bitdepth
          (pixel_rgba8 P j).r (lodepng_auto_choose_color mode_out P w h rgba8_mode).2.key_r ∧
        sample_of_level (lodepng_auto_choose_color mode_out P w h rgba8_mode).2.bitdepth
          (pixel_rgba8 P j).g (lodepng_auto_choose_color mode_out P w h rgba8_mode).2.key_g ∧
        sample_of_level (lodepng_auto_choose_color mode_out P w h rgba8_mode).2.bitdepth
          (pixel_rgba8 P j).b (lodepng_auto_choose_color mode_out P w h rgba8_mode).2.key_b) := by
  have hsound := image_profile_rgba8 P hP w h
  rw [lodepng_auto_choose_color_eq] at hkd ⊢
  generalize (w * h) % 2 ^ 32 = n at hsound hkd ⊢
  generalize image_profile P w h rgba8_mode = ip at hsound hkd ⊢
  -- the choice is not a palette, and the adjustment has not fired
  by_cases hok : choose_palette_ok (choose_adjust_profile ip n) n = true
  · rw [if_pos hok, (choose_palette_fields _ _ _ (by decide)).1] at hkd
    simp at hkd
  rw [if_neg hok] at hkd ⊢
  rw [choose_plain_key_defined] at hkd
  have hka : (choose_adjust_profile ip n).key ≠ 0 ∧ (choose_adjust_profile ip n).alpha = 0 := by
    by_contra hx
    rw [if_neg hx] at hkd
    simp at hkd
  have hadj : choose_adjust_profile ip n = ip := by
    unfold choose_adjust_profile at hka ⊢
    by_cases hc : ip.key ≠ 0 ∧ n ≤ 16
    · rw [if_pos hc] at hka
      have := hka.2
      simp at this
    · rw [if_neg hc]
  rw [hadj] at hka ⊢
  obtain ⟨hk, h0⟩ := hka
  obtain ⟨kr, kg, kb⟩ := choose_plain_key { mode_out with key_defined := 0 } ip hk h0
  rw [kr, kg, kb, choose_plain_bitdepth]
  -- the first fully transparent pixel
  obtain ⟨j0, hj0, ha0, _⟩ := hsound.origin hk
  have hex : ∃ j, j < n ∧ (pixel_rgba8 P j).a = 0 := ⟨j0, hj0, ha0⟩
  have hjn := (Nat.find_spec hex).1
  have hja := (Nat.find_spec hex).2
  have hmin : ∀ i, i < Nat.find hex → (pixel_rgba8 P i).a ≠ 0 := by
    intro i hi hz
    exact Nat.find_min hex hi ⟨by omega, hz⟩
  generalize Nat.find hex = j at hjn hja hmin
  have hcol : 257 * (pixel_rgba8 P j).r = ip.key_r ∧ 257 * (pixel_rgba8 P j).g = ip.key_g ∧
      257 * (pixel_rgba8 P j).b = ip.key_b := by
    rcases hsound.keyed h0 hk j hjn with ⟨h255, _⟩ | ⟨_, e⟩
    · omega
    · exact e
  obtain ⟨er, eg, eb⟩ := hcol
  have hbyte := pixel_rgba8_isByte P hP j
  refine ⟨j, hjn, hja, hmin, hk, er.symm, eg.symm, eb.symm, by rw [er], by rw [eg], by rw [eb],
    hsound.bits_legal, ?_, ?_⟩
  · intro h8
    rw [h8, ← er, ← eg, ← eb]
    refine ⟨?_, ?_, ?_⟩
    · have := hbyte.1; omega
    · have := hbyte.2.1; omega
    · have := hbyte.2.2.1; omega
  · intro hlt
    have hd : ip.bits = 1 ∨ ip.bits = 2 ∨ ip.bits = 4 := by
      rcases hsound.bits_legal with hb | hb | hb | hb
      · exact Or.inl hb
      · exact Or.inr (Or.inl hb)
      · exact Or.inr (Or.inr hb)
      · omega
    obtain ⟨hgrey, hreq⟩ := hsound.low hlt
    have hg := hsound.grey hgrey j hjn
    have hs := lowbit_key_sample ip.bits (pixel_rgba8 P j).r hd hbyte.1 (hreq j hjn)
    rw [← er, ← eg, ← eb, ← hg.1, ← hg.2]
    exact ⟨hs, hs, hs⟩

/-- Witness of C24: the image `keyed_grey_image` gets a key; the key of the output is
`257 * v` modulo `2 ^ d` for the red `v` of a fully transparent pixel. -/
theorem C24_key_normalisation_witness :
    ∃ j, j < (17 * 1) % 2 ^ 32 ∧ (pixel_rgba8 keyed_grey_image j).a = 0 ∧
      (lodepng_auto_choose_color rgba8_mode keyed_grey_image 17 1 rgba8_mode).2.key_r =
        (257 * (pixel_rgba8 keyed_grey_image j).r) %
          2 ^ (lodepng_auto_choose_color rgba8_mode keyed_grey_image 17 1
            rgba8_mode).2.bitdepth := by
  obtain ⟨j, h1, h2, _, _, _, _, _, h8, _⟩ := C24_key_normalisation rgba8_mode
    keyed_grey_image 17 1 (validBuf_bufOfList _ (by decide)) (by decide)
  exact ⟨j, h1, h2, h8⟩

/-! ## C25: the colour question is settled exactly -/

theorem profile_colored8_bits_done (s : ProfileState) :
    (profile_colored8 s).bits_done = s.bits_done := by
  unfold profile_colored8
  split <;> rfl

theorem profile_alpha8_bits_done (s : ProfileState) :
    (profile_alpha8 s).bits_done = s.bits_done := by
  unfold profile_alpha8
  dsimp only
  split_ifs <;> rfl

theorem profile_bits8_not_done (bpp : Nat) (s : ProfileState) (h : s.profile.bits ≤ 8)
    (hb : 8 < bpp) : (profile_bits8 bpp s).bits_done = false := by
  unfold profile_bits8
  dsimp only
  have hle : (if (!s.bits_done) = true ∧ s.profile.bits < 8 then
      (if getValueRequiredBits s.c.r > s.profile.bits then
        { s.profile with bits := getValueRequiredBits s.c.r }
       else s.profile)
    else s.profile).bits ≤ 8 := by
    split_ifs
    · exact getValueRequiredBits_le _
    · exact h
    · exact h
  generalize (if (!s.bits_done) = true ∧ s.profile.bits < 8 then
      (if getValueRequiredBits s.c.r > s.profile.bits then
        { s.profile with bits := getValueRequiredBits s.c.r }
       else s.profile)
    else s.profile) = p1 at hle ⊢
  simp
  omega

/-- While `bits` is at most 8 and the pixels have more than 8 bits, `bits_done` stays false
and the scanning loop does not leave early. -/
theorem profile_step8_not_done (inp : Buf) (mode : LodePNGColorMode) (bpp maxn i : Nat)
    (s : ProfileState) (h : s.profile.bits ≤ 8) (hb : 8 < bpp) :
    (profile_step8 inp mode bpp maxn i s).bits_done = false ∧
    profile_all_done (profile_step8 inp mode bpp maxn i s) = false := by
  have hd : (profile_step8 inp mode bpp maxn i s).bits_done = false := by
    unfold profile_step8
    rw [(profile_numcolors8_fields maxn _).2.2.2.2.2.2.2.2.2.1, profile_alpha8_bits_done,
      profile_colored8_bits_done]
    exact profile_bits8_not_done bpp _ h hb
  refine ⟨hd, ?_⟩
  unfold profile_all_done
  rw [hd]
  simp

/-- A coloured pixel met while the colour question is open settles it. -/
theorem profile_step8_colored_set (inp : Buf) (mode : LodePNGColorMode) (bpp maxn i : Nat)
    (s : ProfileState) (hd : s.colored_done = false)
    (hpix : (getPixelColorRGBA8 s.c inp i mode).r ≠ (getPixelColorRGBA8 s.c inp i mode).g ∨
      (getPixelColorRGBA8 s.c inp i mode).r ≠ (getPixelColorRGBA8 s.c inp i mode).b) :
    (profile_step8 inp mode bpp maxn i s).profile.colored = 1 ∧
    (profile_step8 inp mode bpp maxn i s).colored_done = true := by
  unfold profile_step8
  have f4 := profile_numcolors8_fields maxn (profile_alpha8 (profile_colored8
    (profile_bits8 bpp { s with c := getPixelColorRGBA8 s.c inp i mode })))
  have f3 := profile_alpha8_fields (profile_colored8
    (profile_bits8 bpp { s with c := getPixelColorRGBA8 s.c inp i mode }))
  rw [f4.1, f4.2.1, f3.1, f3.2.1]
  obtain ⟨_, b2, b3⟩ := profile_bits8_colored bpp { s with c := getPixelColorRGBA8 s.c inp i mode }
  generalize profile_bits8 bpp { s with c := getPixelColorRGBA8 s.c inp i mode } = s1 at b2 b3 ⊢
  have hd1 : s1.colored_done = false := by rw [b2]; exact hd
  have hc1 : s1.c.r ≠ s1.c.g ∨ s1.c.r ≠ s1.c.b := by rw [b3]; exact hpix
  unfold profile_colored8
  have hcond : (!s1.colored_done) = true ∧ (s1.c.r ≠ s1.c.g ∨ s1.c.r ≠ s1.c.b) := by
    rw [hd1]; exact ⟨rfl, hc1⟩
  rw [if_pos hcond]
  exact ⟨by simp, rfl⟩

/-- The colour question after `k` pixels of an 8-bit RGB or RGBA image: still open with
every pixel so far grey, or settled by a coloured pixel. -/
theorem profile_loop8_colored_exact (inp : Buf) (mode : LodePNGColorMode) (bpp maxn n : Nat)
    (hct : mode.colortype = LCT_RGB ∨ mode.colortype = LCT_RGBA) (hb : 8 < bpp)
    (s0 : ProfileState) (h0 : s0.profile.bits ≤ 8) (hd0 : s0.colored_done = false)
    (hc0 : s0.profile.colored = 0) :
    ((profile_loop8 inp mode bpp maxn n 0 s0).profile.colored = 0 ∨
      (profile_loop8 inp mode bpp maxn n 0 s0).profile.colored = 1) ∧
    ((profile_loop8 inp mode bpp maxn n 0 s0).profile.colored = 1 ↔
      ∃ j, j < n ∧ ((getPixelColorRGBA8 Color.zero inp j mode).r ≠
          (getPixelColorRGBA8 Color.zero inp j mode).g ∨
        (getPixelColorRGBA8 Color.zero inp j mode).r ≠
          (getPixelColorRGBA8 Color.zero inp j mode).b)) := by
  have hind : ∀ c, ∀ j, getPixelColorRGBA8 c inp j mode =
      getPixelColorRGBA8 Color.zero inp j mode := fun c j =>
    getPixelColorRGBA8_indep c Color.zero inp j mode (by
      rcases hct with h | h
      · exact Or.inl h
      · exact Or.inr (Or.inr h))
  have hinv := profile_loop8_invariant_idx
    (fun k (s : ProfileState) => s.profile.bits ≤ 8 ∧
      ((s.colored_done = false ∧ s.profile.colored = 0 ∧
          ∀ j, j < k → ((getPixelColorRGBA8 Color.zero inp j mode).r =
              (getPixelColorRGBA8 Color.zero inp j mode).g ∧
            (getPixelColorRGBA8 Color.zero inp j mode).r =
              (getPixelColorRGBA8 Color.zero inp j mode).b)) ∨
        (s.colored_done = true ∧ s.profile.colored = 1 ∧
          ∃ j, j < k ∧ ((getPixelColorRGBA8 Color.zero inp j mode).r ≠
              (getPixelColorRGBA8 Color.zero inp j mode).g ∨
            (getPixelColorRGBA8 Color.zero inp j mode).r ≠
              (getPixelColorRGBA8 Color.zero inp j mode).b))))
    inp mode bpp maxn n
    (fun i s _ hs => by
      obtain ⟨hbits, hcase⟩ := hs
      refine ⟨profile_step8_bits_le inp mode bpp maxn i s hbits, ?_⟩
      rcases hcase with ⟨d, c, g⟩ | ⟨d, c, j, hj, hne⟩
      · by_cases hpix : (getPixelColorRGBA8 Color.zero inp i mode).r =
              (getPixelColorRGBA8 Color.zero inp i mode).g ∧
            (getPixelColorRGBA8 Color.zero inp i mode).r =
              (getPixelColorRGBA8 Color.zero inp i mode).b
        · have := profile_step8_colored inp mode bpp maxn i s (Or.inr (by rw [hind]; exact hpix))
          left
          refine ⟨this.2.trans d, this.1.trans c, ?_⟩
          intro j hj
          by_cases hji : j = i
          · subst hji; exact hpix
          · exact g j (by omega)
        · have hne : (getPixelColorRGBA8 Color.zero inp i mode).r ≠
                (getPixelColorRGBA8 Color.zero inp i mode).g ∨
              (getPixelColorRGBA8 Color.zero inp i mode).r ≠
                (getPixelColorRGBA8 Color.zero inp i mode).b := by
            by_contra hx
            simp only [not_or, not_not] at hx
            exact hpix hx
          have := profile_step8_colored_set inp mode bpp maxn i s d (by rw [hind]; exact hne)
          right
          exact ⟨this.2, this.1, i, by omega, hne⟩
      · have := profile_step8_colored inp mode bpp maxn i s (Or.inl d)
        right
        exact ⟨this.2.trans d, this.1.trans c, j, by omega, hne⟩)
    (fun i s _ hs => (profile_step8_not_done inp mode bpp maxn i s hs.1 hb).2)
    n 0 s0 (by omega) ⟨h0, Or.inl ⟨hd0, hc0, fun j hj => absurd hj (Nat.not_lt_zero j)⟩⟩
  obtain ⟨_, hcase⟩ := hinv
  rcases hcase with ⟨_, c, g⟩ | ⟨_, c, j, hj, hne⟩
  · refine ⟨Or.inl c, ?_⟩
    rw [c]
    constructor
    · intro hx; exact absurd hx (by decide)
    · intro ⟨j, hj, hne⟩
      have := g j hj
      rcases hne with h | h
      · exact absurd this.1 h
      · exact absurd this.2 h
  · exact ⟨Or.inr c, fun _ => ⟨j, hj, hne⟩, fun _ => c⟩
/-- The red, green and blue of a pixel of an 8-bit RGB or RGBA image are its first three
bytes. -/
theorem getPixelColorRGBA8_rgb (c : Color) (inp : Buf) (i : Nat) (mode : LodePNGColorMode)
    (hct : mode.colortype = LCT_RGB ∨ mode.colortype = LCT_RGBA) (hbd : mode.bitdepth = 8) :
    (getPixelColorRGBA8 c inp i mode).r = inp (i * getNumColorChannels mode.colortype + 0) ∧
    (getPixelColorRGBA8 c inp i mode).g = inp (i * getNumColorChannels mode.colortype + 1) ∧
    (getPixelColorRGBA8 c inp i mode).b = inp (i * getNumColorChannels mode.colortype + 2) := by
  unfold getPixelColorRGBA8
  rcases hct with h | h
  · have h1 : ¬ LCT_RGB = LCT_GREY := by decide
    simp only [h, hbd, h1, if_true, if_false]
    exact ⟨rfl, rfl, rfl⟩
  · have h1 : ¬ LCT_RGBA = LCT_GREY := by decide
    have h2 : ¬ LCT_RGBA = LCT_RGB := by decide
    have h3 : ¬ LCT_RGBA = LCT_PALETTE := by decide
    have h4 : ¬ LCT_RGBA = LCT_GREY_ALPHA := by decide
    simp only [h, hbd, h1, h2, h3, h4, if_true, if_false]
    exact ⟨rfl, rfl, rfl⟩

/-- C25: for an 8-bit RGB or RGBA source image, the profile computed from a freshly
initialised one has `colored = 1` if and only if at least one of the scanned pixels has
`r != g` or `r != b`, and `colored = 0` otherwise: the scanning loop never leaves before the
colour question is settled. -/
theorem C25_colour_detection_exact (inp : Buf) (w h : Nat) (mode : LodePNGColorMode)
    (hct : mode.colortype = LCT_RGB ∨ mode.colortype = LCT_RGBA) (hbd : mode.bitdepth = 8) :
    ((image_profile inp w h mode).colored = 1 ↔
      ∃ i, i < (w * h) % 2 ^ 32 ∧
        (inp (i * getNumColorChannels mode.colortype + 0) ≠
            inp (i * getNumColorChannels mode.colortype + 1) ∨
         inp (i * getNumColorChannels mode.colortype + 0) ≠
            inp (i * getNumColorChannels mode.colortype + 2))) ∧
    ((image_profile inp w h mode).colored = 0 ∨ (image_profile inp w h mode).colored = 1) := by
  have hsix : profile_sixteen inp ((w * h) % 2 ^ 32) mode = false := by
    unfold profile_sixteen
    rw [if_neg (by rw [hbd]; decide)]
  have hbpp : 8 < lodepng_get_bpp mode := by
    unfold lodepng_get_bpp lodepng_get_bpp_lct
    rcases hct with h | h <;> rw [h, hbd] <;> decide
  have hgrey : lodepng_is_greyscale_type mode = false := by
    unfold lodepng_is_greyscale_type
    rcases hct with h | h <;> rw [h] <;> decide
  obtain ⟨hflag, hiff⟩ := profile_loop8_colored_exact inp mode (lodepng_get_bpp mode)
    (profile_maxnumcolors (lodepng_get_bpp mode)) ((w * h) % 2 ^ 32) hct hbpp
    (profile_start (lodepng_color_profile_init profile_local) mode)
    (show (1 : Nat) ≤ 8 by decide) hgrey rfl
  have hfinal : (image_profile inp w h mode).colored =
      (profile_loop8 inp mode (lodepng_get_bpp mode)
        (profile_maxnumcolors (lodepng_get_bpp mode)) ((w * h) % 2 ^ 32) 0
        (profile_start (lodepng_color_profile_init profile_local) mode)).profile.colored := by
    unfold image_profile lodepng_get_color_profile
    dsimp only
    rw [hsix]
    simp only [Bool.false_eq_true, if_false]
    unfold profile_run8
    dsimp only
    generalize profile_loop8 inp mode (lodepng_get_bpp mode)
      (profile_maxnumcolors (lodepng_get_bpp mode)) ((w * h) % 2 ^ 32) 0
      (profile_start (lodepng_color_profile_init profile_local) mode) = s2
    show (if s2.profile.key ≠ 0 ∧ s2.profile.alpha = 0 then
        forLoop ((w * h) % 2 ^ 32) (profile_keycheck8 inp mode) s2 else s2).profile.colored = _
    split
    · exact forLoop_invariant (fun (s : ProfileState) => s.profile.colored = s2.profile.colored)
        _ _ (fun i s _ hs => (profile_keycheck8_colored inp mode i s).trans hs) s2 rfl
    · rfl
  rw [hfinal]
  refine ⟨?_, hflag⟩
  rw [hiff]
  constructor
  · intro ⟨j, hj, hne⟩
    obtain ⟨e1, e2, e3⟩ := getPixelColorRGBA8_rgb Color.zero inp j mode hct hbd
    rw [e1, e2, e3] at hne
    exact ⟨j, hj, hne⟩
  · intro ⟨j, hj, hne⟩
    obtain ⟨e1, e2, e3⟩ := getPixelColorRGBA8_rgb Color.zero inp j mode hct hbd
    refine ⟨j, hj, ?_⟩
    rw [e1, e2, e3]
    exact hne

/-- Witness of C25: a 2x1 8-bit RGB image whose second pixel is `(1, 2, 3)` is profiled as
coloured. -/
theorem C25_colour_detection_exact_witness :
    (image_profile (bufOfList [9, 9, 9, 1, 2, 3]) 2 1
      ⟨LCT_RGB, 8, fun _ => 0, 0, 0, 0, 0, 0⟩).colored = 1 :=
  (C25_colour_detection_exact (bufOfList [9, 9, 9, 1, 2, 3]) 2 1
    ⟨LCT_RGB, 8, fun _ => 0, 0, 0, 0, 0, 0⟩ (Or.inl rfl) rfl).1.mpr
    ⟨1, by decide, Or.inl (by decide)⟩

/-! ## C26: the smallest bit depth of a grey opaque image -/

/-- A level is representable at depth 1, 2, 4 or 8 exactly when `getValueRequiredBits`
asks for no more. -/
theorem level_representable_iff (d v : Nat) (hd : d = 1 ∨ d = 2 ∨ d = 4 ∨ d = 8)
    (hv : v < 256) : level_representable d v ↔ getValueRequiredBits v ≤ d := by
  unfold level_representable getValueRequiredBits
  rcases hd with h | h | h | h <;> subst h
  · norm_num
    constructor
    · rintro ⟨k, hk, e⟩
      have : v = 0 ∨ v = 255 := by omega
      simp [this]
    · intro hle
      by_cases h0 : v = 0 ∨ v = 255
      · rcases h0 with h0 | h0
        · exact ⟨0, by omega, by omega⟩
        · exact ⟨1, by omega, by omega⟩
      · rw [if_neg h0] at hle
        split_ifs at hle <;> omega
  · norm_num
    constructor
    · rintro ⟨k, hk, e⟩
      split_ifs <;> omega
    · intro hle
      refine ⟨v / 85, ?_, ?_⟩
      · omega
      · split_ifs at hle <;> omega
  · norm_num
    constructor
    · rintro ⟨k, hk, e⟩
      split_ifs <;> omega
    · intro hle
      refine ⟨v / 17, ?_, ?_⟩
      · omega
      · split_ifs at hle <;> omega
  · constructor
    · intro _
      split_ifs <;> omega
    · intro _
      refine ⟨v, hv, ?_⟩
      show v * 255 / 255 = v
      omega

theorem profile_colored8_noop (s : ProfileState) (hg : s.c.r = s.c.g ∧ s.c.r = s.c.b) :
    profile_colored8 s = s := by
  unfold profile_colored8
  rw [if_neg]
  intro hx
  rcases hx.2 with h | h
  · exact h hg.1
  · exact h hg.2

theorem profile_alpha8_noop (s : ProfileState) (ha : s.c.a = 255) (hk : s.profile.key = 0) :
    profile_alpha8 s = s := by
  unfold profile_alpha8
  dsimp only
  split
  · rw [if_neg (fun hx => hx.1 ha), if_neg (fun hx => by rw [ha] at hx; exact absurd hx.1 (by decide)),
      if_neg (fun hx => hx.2.1 hk)]
  · rfl

/-- The block on `bits`, while it is open, raises `bits` to the bits that the red sample
requires. -/
theorem profile_bits8_max (bpp : Nat) (s : ProfileState) (hd : s.bits_done = false)
    (h8 : s.profile.bits ≤ 8) :
    (profile_bits8 bpp s).profile.bits = max s.profile.bits (getValueRequiredBits s.c.r) := by
  unfold profile_bits8
  dsimp only
  have hr := getValueRequiredBits_le s.c.r
  rw [hd]
  split_ifs with c1 c2
  · show getValueRequiredBits s.c.r = _
    omega
  · omega
  · simp at c1
    omega

/-- One iteration of the scanning loop on a grey, fully opaque pixel. -/
theorem profile_step8_InvGreyOpaque (P : Buf) (k : Nat) (s : ProfileState)
    (hg : (pixel_rgba8 P k).r = (pixel_rgba8 P k).g ∧ (pixel_rgba8 P k).r = (pixel_rgba8 P k).b)
    (ha : (pixel_rgba8 P k).a = 255) (h : InvGreyOpaque P k s) :
    InvGreyOpaque P (k + 1) (profile_step8 P rgba8_mode 32 257 k s) := by
  have hstep := profile_step8_not_done P rgba8_mode 32 257 k s h.bits_le (by decide)
  have hle := profile_step8_bits_le P rgba8_mode 32 257 k s h.bits_le
  unfold profile_step8 at hstep hle ⊢
  rw [getPixelColorRGBA8_rgba8] at hstep hle ⊢
  have f1 := profile_bits8_fields 32 { s with c := pixel_rgba8 P k }
  have hmax := profile_bits8_max 32 { s with c := pixel_rgba8 P k } h.notdone h.bits_le
  generalize profile_bits8 32 { s with c := pixel_rgba8 P k } = s1 at f1 hmax hstep hle ⊢
  have hc1 : s1.c = pixel_rgba8 P k := f1.2.2.2.2.2.2.2.2.2.2.2.2
  have hk1 : s1.profile.key = 0 := f1.2.2.2.2.1.trans h.key0
  rw [profile_colored8_noop s1 (by rw [hc1]; exact hg),
    profile_alpha8_noop s1 (by rw [hc1]; exact ha) hk1] at hstep hle ⊢
  have f4 := profile_numcolors8_fields 257 s1
  have hbits : (profile_numcolors8 257 s1).profile.bits =
      max s.profile.bits (getValueRequiredBits (pixel_rgba8 P k).r) :=
    f4.2.2.2.2.2.2.2.2.1.trans hmax
  refine ⟨f4.2.2.2.2.1.trans hk1, f4.2.2.1.trans (f1.2.2.1.trans h.alpha0),
    f4.1.trans (f1.1.trans h.colored0), hstep.1, hle, ?_, ?_⟩
  · rw [hbits]
    by_cases hnew : s.profile.bits < getValueRequiredBits (pixel_rgba8 P k).r
    · right
      exact ⟨k, by omega, by omega⟩
    · rcases h.attained with h1 | ⟨j, hj, e⟩
      · left; omega
      · right; exact ⟨j, by omega, by omega⟩
  · intro j hj
    rw [hbits]
    by_cases hjk : j = k
    · subst hjk; omega
    · have := h.bound j (by omega)
      omega

/-- The profile of an 8-bit RGBA image is the one left by the branch below 16 bits. -/
theorem image_profile_rgba8_run8 (P : Buf) (w h : Nat) :
    image_profile P w h rgba8_mode =
      profile_run8 P ((w * h) % 2 ^ 32) rgba8_mode
        (profile_start (lodepng_color_profile_init profile_local) rgba8_mode) := by
  unfold image_profile lodepng_get_color_profile
  dsimp only
  have hsix : profile_sixteen P ((w * h) % 2 ^ 32) rgba8_mode = false := by
    unfold profile_sixteen
    rw [if_neg (by decide)]
  rw [hsix]
  rfl

/-- The profile of an 8-bit RGBA image of `n` pixels, all grey and fully opaque: `bits` is
the largest of 1 and the bits required by the red samples. -/
theorem profile_run8_grey_opaque (P : Buf) (n : Nat)
    (hall : ∀ j, j < n →
      (pixel_rgba8 P j).r = (pixel_rgba8 P j).g ∧ (pixel_rgba8 P j).r = (pixel_rgba8 P j).b ∧
      (pixel_rgba8 P j).a = 255) :
    (profile_run8 P n rgba8_mode
      (profile_start (lodepng_color_profile_init profile_local) rgba8_mode)).key = 0 ∧
    (profile_run8 P n rgba8_mode
      (profile_start (lodepng_color_profile_init profile_local) rgba8_mode)).alpha = 0 ∧
    (profile_run8 P n rgba8_mode
      (profile_start (lodepng_color_profile_init profile_local) rgba8_mode)).colored = 0 ∧
    ((profile_run8 P n rgba8_mode
        (profile_start (lodepng_color_profile_init profile_local) rgba8_mode)).bits = 1 ∨
      ∃ j, j < n ∧ getValueRequiredBits (pixel_rgba8 P j).r =
        (profile_run8 P n rgba8_mode
          (profile_start (lodepng_color_profile_init profile_local) rgba8_mode)).bits) ∧
    (∀ j, j < n → getValueRequiredBits (pixel_rgba8 P j).r ≤
      (profile_run8 P n rgba8_mode
        (profile_start (lodepng_color_profile_init profile_local) rgba8_mode)).bits) := by
  have hloop : InvGreyOpaque P n (profile_loop8 P rgba8_mode 32 257 n 0
      (profile_start (lodepng_color_profile_init profile_local) rgba8_mode)) :=
    profile_loop8_invariant_idx (InvGreyOpaque P) P rgba8_mode 32 257 n
      (fun i s hi hs => profile_step8_InvGreyOpaque P i s ⟨(hall i hi).1, (hall i hi).2.1⟩
        (hall i hi).2.2 hs)
      (fun i s _ hs => (profile_step8_not_done P rgba8_mode 32 257 i s hs.bits_le
        (by decide)).2)
      n 0 _ (by omega)
      ⟨rfl, rfl, rfl, by decide, by decide, Or.inl rfl,
        fun j hj => absurd hj (Nat.not_lt_zero j)⟩
  unfold profile_run8
  have hbpp : lodepng_get_bpp rgba8_mode = 32 := by decide
  have hmax : profile_maxnumcolors 32 = 257 := by decide
  rw [hbpp]
  dsimp only
  rw [hmax]
  generalize profile_loop8 P rgba8_mode 32 257 n 0
    (profile_start (lodepng_color_profile_init profile_local) rgba8_mode) = s2 at hloop ⊢
  have hno : ¬(s2.profile.key ≠ 0 ∧ s2.profile.alpha = 0) := fun hx => hx.1 hloop.key0
  rw [if_neg hno]
  exact ⟨hloop.key0, hloop.alpha0, hloop.colored0, hloop.attained, hloop.bound⟩
/-- C26 fails on the code in its last part: the pixels of the 17x1 image `shared_key_image`
are all grey, its opaque black pixel forces alpha (the profile has `alpha = 1`), yet `bits`
is 4, not 8.  The rest of the claim holds: for an 8-bit RGBA image of bytes whose scanned
pixels are all grey and fully opaque, `bits` is the smallest depth of 1, 2, 4, 8 at which
every red sample is exactly representable, and an image with a coloured pixel has
`bits = 8`. -/
theorem C26_bits_of_grey_images :
    ((∀ j, j < 17 → (pixel_rgba8 shared_key_image j).r = (pixel_rgba8 shared_key_image j).g ∧
        (pixel_rgba8 shared_key_image j).r = (pixel_rgba8 shared_key_image j).b) ∧
      (image_profile shared_key_image 17 1 rgba8_mode).alpha = 1 ∧
      (image_profile shared_key_image 17 1 rgba8_mode).bits = 4) ∧
    (∀ (P : Buf) (w h : Nat), ValidBuf P →
      (∀ j, j < (w * h) % 2 ^ 32 →
        (pixel_rgba8 P j).r = (pixel_rgba8 P j).g ∧ (pixel_rgba8 P j).r = (pixel_rgba8 P j).b ∧
        (pixel_rgba8 P j).a = 255) →
      ((image_profile P w h rgba8_mode).bits = 1 ∨ (image_profile P w h rgba8_mode).bits = 2 ∨
        (image_profile P w h rgba8_mode).bits = 4 ∨ (image_profile P w h rgba8_mode).bits = 8) ∧
      (∀ j, j < (w * h) % 2 ^ 32 →
        level_representable (image_profile P w h rgba8_mode).bits (pixel_rgba8 P j).r) ∧
      (∀ d, (d = 1 ∨ d = 2 ∨ d = 4 ∨ d = 8) →
        (∀ j, j < (w * h) % 2 ^ 32 → level_representable d (pixel_rgba8 P j).r) →
        (image_profile P w h rgba8_mode).bits ≤ d)) ∧
    (∀ (P : Buf) (w h : Nat), ValidBuf P →
      (∃ j, j < (w * h) % 2 ^ 32 ∧
        ((pixel_rgba8 P j).r ≠ (pixel_rgba8 P j).g ∨ (pixel_rgba8 P j).r ≠ (pixel_rgba8 P j).b)) →
      (image_profile P w h rgba8_mode).bits = 8) := by
  refine ⟨⟨by decide, by decide, by decide⟩, ?_, ?_⟩
  · intro P w h hP hall
    have hrun := profile_run8_grey_opaque P ((w * h) % 2 ^ 32) hall
    rw [← image_profile_rgba8_run8] at hrun
    obtain ⟨_, _, _, hatt, hbound⟩ := hrun
    have hlegal : (image_profile P w h rgba8_mode).bits = 1 ∨
        (image_profile P w h rgba8_mode).bits = 2 ∨
        (image_profile P w h rgba8_mode).bits = 4 ∨
        (image_profile P w h rgba8_mode).bits = 8 := by
      rcases hatt with h1 | ⟨j, _, e⟩
      · exact Or.inl h1
      · rw [← e]
        exact getValueRequiredBits_legal _
    refine ⟨hlegal, ?_, ?_⟩
    · intro j hj
      rw [level_representable_iff _ _ hlegal (pixel_rgba8_isByte P hP j).1]
      exact hbound j hj
    · intro d hd hrep
      rcases hatt with h1 | ⟨j, hj, e⟩
      · rcases hd with h | h | h | h <;> omega
      · have := (level_representable_iff d _ hd (pixel_rgba8_isByte P hP j).1).mp (hrep j hj)
        omega
  · intro P w h hP ⟨j, hj, hne⟩
    have hsound := image_profile_rgba8 P hP w h
    by_contra hx
    have hlt : (image_profile P w h rgba8_mode).bits < 8 := by
      rcases hsound.bits_legal with hb | hb | hb | hb <;> omega
    have hg := hsound.grey (hsound.low hlt).1 j hj
    rcases hne with h1 | h1
    · exact h1 hg.1
    · exact h1 hg.2

/-! ## C27: the palette of the profile in order of first occurrence -/

theorem first_seen_succ (P : Buf) (k : Nat) :
    first_seen P (k + 1) =
      first_seen P k ++ (if new_colour_at P k then [pixel_rgba8 P k] else []) := by
  unfold first_seen
  rw [List.range_succ, List.filter_append, List.map_append]
  congr 1
  by_cases h : new_colour_at P k
  · simp [h]
  · simp [h]

theorem mem_first_seen (P : Buf) (k : Nat) (c : Color) :
    c ∈ first_seen P k ↔ ∃ i, i < k ∧ pixel_rgba8 P i = c := by
  induction k with
  | zero => simp [first_seen]
  | succ k ih =>
    rw [first_seen_succ, List.mem_append, ih]
    constructor
    · rintro (⟨i, hi, e⟩ | hmem)
      · exact ⟨i, by omega, e⟩
      · by_cases h : new_colour_at P k
        · rw [if_pos h, List.mem_singleton] at hmem
          exact ⟨k, by omega, hmem.symm⟩
        · rw [if_neg h] at hmem
          simp at hmem
    · rintro ⟨i, hi, e⟩
      by_cases hik : i = k
      · subst hik
        by_cases h : new_colour_at P i
        · right
          rw [if_pos h, List.mem_singleton]
          exact e.symm
        · left
          unfold new_colour_at at h
          simp only [not_forall, not_not] at h
          obtain ⟨i2, hi2, e2⟩ := h
          exact ⟨i2, hi2, by rw [← e]; simpa using e2⟩
      · left
        exact ⟨i, by omega, e⟩

theorem new_colour_at_iff (P : Buf) (k : Nat) :
    new_colour_at P k ↔ pixel_rgba8 P k ∉ first_seen P k := by
  rw [mem_first_seen]
  unfold new_colour_at
  constructor
  · rintro h ⟨i, hi, e⟩
    exact h i hi e
  · intro h i hi e
    exact h ⟨i, hi, e⟩

theorem first_seen_nodup (P : Buf) (k : Nat) : (first_seen P k).Nodup := by
  induction k with
  | zero => simp [first_seen]
  | succ k ih =>
    rw [first_seen_succ]
    by_cases h : new_colour_at P k
    · rw [if_pos h]
      rw [List.nodup_append]
      refine ⟨ih, List.nodup_singleton _, ?_⟩
      intro a ha1 ha2
      rw [List.mem_singleton] at ha2
      subst ha2
      exact (new_colour_at_iff P k).mp h ha1
    · rw [if_neg h, List.append_nil]
      exact ih

theorem mem_image_iff_first_seen (P : Buf) (k : Nat) (c : Color) :
    c ∈ Finset.image (pixel_rgba8 P) (Finset.range k) ↔ c ∈ first_seen P k := by
  rw [mem_first_seen, Finset.mem_image]
  constructor
  · rintro ⟨i, hi, e⟩; exact ⟨i, Finset.mem_range.mp hi, e⟩
  · rintro ⟨i, hi, e⟩; exact ⟨i, Finset.mem_range.mpr hi, e⟩

theorem first_seen_length (P : Buf) (k : Nat) :
    (first_seen P k).length = (Finset.image (pixel_rgba8 P) (Finset.range k)).card := by
  rw [← List.toFinset_card_of_nodup (first_seen_nodup P k)]
  congr 1
  ext c
  rw [List.mem_toFinset, mem_image_iff_first_seen]

theorem InvOrder_of_fields (P : Buf) (k : Nat) (s s1 : ProfileState) (h : InvOrder P k s)
    (h3 : s1.profile.numcolors = s.profile.numcolors)
    (h4 : s1.profile.palette = s.profile.palette) : InvOrder P k s1 := by
  obtain ⟨hc, he⟩ := h
  exact ⟨by rw [h3]; exact hc, by rw [h3, h4]; exact he⟩

/-- The block on `numcolors` keeps the palette in order of first occurrence. -/
theorem profile_numcolors8_InvOrder (P : Buf) (hP : ValidBuf P) (k : Nat) (s : ProfileState)
    (hcnt : InvCount P k s) (hord : InvOrder P k s) (hc : s.c = pixel_rgba8 P k) :
    InvOrder P (k + 1) (profile_numcolors8 257 s) := by
  obtain ⟨ht, hcount, hfull⟩ := hcnt
  obtain ⟨hnum, hent⟩ := hord
  have hcb : s.c.IsByte := by rw [hc]; exact pixel_rgba8_isByte P hP k
  have hlen := first_seen_length P k
  have hsucc := first_seen_succ P k
  have hkeep : ∀ t, t < (first_seen P k).length →
      (first_seen P (k + 1)).getD t Color.zero = (first_seen P k).getD t Color.zero := by
    intro t ht1
    rw [hsucc, List.getD_append _ _ _ _ ht1]
  have hlen_le : (first_seen P k).length ≤ (first_seen P (k + 1)).length := by
    rw [hsucc, List.length_append]
    omega
  unfold profile_numcolors8
  dsimp only
  by_cases hnd : s.numcolors_done = false
  · obtain ⟨hn, hle, htree, _⟩ := hcount hnd
    have hlen2 : (first_seen P k).length = s.profile.numcolors := by rw [hlen, ← hn]
    simp only [hnd, Bool.not_false, if_true]
    by_cases hhas : color_tree_has s.tree s.c.r s.c.g s.c.b s.c.a = true
    · simp only [hhas, Bool.not_true, Bool.false_eq_true, if_false]
      have hmem : pixel_rgba8 P k ∈ first_seen P k := by
        rw [← mem_image_iff_first_seen, ← hc]
        apply (htree s.c hcb).mp
        unfold color_tree_has at hhas
        simpa using hhas
      have hold : ¬ new_colour_at P k := fun hx => (new_colour_at_iff P k).mp hx hmem
      have hsame : first_seen P (k + 1) = first_seen P k := by
        rw [hsucc, if_neg hold, List.append_nil]
      exact ⟨by rw [hsame]; exact hnum, by rw [hsame]; exact hent⟩
    · have hhas0 : color_tree_has s.tree s.c.r s.c.g s.c.b s.c.a = false := by
        cases hx : color_tree_has s.tree s.c.r s.c.g s.c.b s.c.a
        · rfl
        · exact absurd hx hhas
      simp only [hhas0, Bool.not_false, if_true]
      have hnot : pixel_rgba8 P k ∉ first_seen P k := by
        rw [← mem_image_iff_first_seen, ← hc]
        intro hm
        have := (htree s.c hcb).mpr hm
        unfold color_tree_has at hhas0
        simp at hhas0
        omega
      have hnew : new_colour_at P k := (new_colour_at_iff P k).mpr hnot
      have hext : first_seen P (k + 1) = first_seen P k ++ [pixel_rgba8 P k] := by
        rw [hsucc, if_pos hnew]
      have hlen3 : (first_seen P (k + 1)).length = s.profile.numcolors + 1 := by
        rw [hext, List.length_append, hlen2]
        rfl
      constructor
      · show s.profile.numcolors + 1 = min (first_seen P (k + 1)).length 257
        rw [hlen3]
        omega
      · intro t ht1 ht256
        have ht2 : t < s.profile.numcolors + 1 := ht1
        by_cases htn : t = s.profile.numcolors
        · subst htn
          have hlt256 : s.profile.numcolors < 256 := ht256
          simp only [hlt256, if_true]
          rw [hext, List.getD_append_right _ _ _ _ (by omega), hlen2, Nat.sub_self]
          rw [← hc]
          unfold palette_entry
          simp [Buf.set_apply]
        · have htl : t < s.profile.numcolors := by omega
          rw [hkeep t (by omega), ← hent t htl ht256]
          unfold palette_entry
          split
          · have e0 : t * 4 + 0 ≠ s.profile.numcolors * 4 + 0 := by omega
            have e1 : t * 4 + 0 ≠ s.profile.numcolors * 4 + 1 := by omega
            have e2 : t * 4 + 0 ≠ s.profile.numcolors * 4 + 2 := by omega
            have e3 : t * 4 + 0 ≠ s.profile.numcolors * 4 + 3 := by omega
            have f0 : t * 4 + 1 ≠ s.profile.numcolors * 4 + 0 := by omega
            have f1 : t * 4 + 1 ≠ s.profile.numcolors * 4 + 1 := by omega
            have f2 : t * 4 + 1 ≠ s.profile.numcolors * 4 + 2 := by omega
            have f3 : t * 4 + 1 ≠ s.profile.numcolors * 4 + 3 := by omega
            have g0 : t * 4 + 2 ≠ s.profile.numcolors * 4 + 0 := by omega
            have g1 : t * 4 + 2 ≠ s.profile.numcolors * 4 + 1 := by omega
            have g2 : t * 4 + 2 ≠ s.profile.numcolors * 4 + 2 := by omega
            have g3 : t * 4 + 2 ≠ s.profile.numcolors * 4 + 3 := by omega
            have k0 : t * 4 + 3 ≠ s.profile.numcolors * 4 + 0 := by omega
            have k1 : t * 4 + 3 ≠ s.profile.numcolors * 4 + 1 := by omega
            have k2 : t * 4 + 3 ≠ s.profile.numcolors * 4 + 2 := by omega
            have k3 : t * 4 + 3 ≠ s.profile.numcolors * 4 + 3 := by omega
            simp only [Buf.set_apply, e0, e1, e2, e3, f0, f1, f2, f3, g0, g1, g2, g3, k0, k1,
              k2, k3, if_false]
          · rfl
  · have hd1 : s.numcolors_done = true := by
      cases hx : s.numcolors_done
      · exact absurd hx hnd
      · rfl
    simp only [hd1, Bool.not_true, Bool.false_eq_true, if_false]
    obtain ⟨h257, hcard⟩ := hfull hd1
    have hl : 257 ≤ (first_seen P k).length := by rw [hlen]; exact hcard
    constructor
    · rw [h257]
      omega
    · intro t ht1 ht256
      rw [hkeep t (by omega)]
      exact hent t ht1 ht256
/-- One iteration of the scanning loop on an 8-bit RGBA image keeps the palette in order of
first occurrence. -/
theorem profile_step8_InvOrder (P : Buf) (hP : ValidBuf P) (k : Nat) (s : ProfileState)
    (hprof : InvProfile P k s) (hord : InvOrder P k s) :
    InvOrder P (k + 1) (profile_step8 P rgba8_mode 32 257 k s) := by
  unfold profile_step8
  rw [getPixelColorRGBA8_rgba8]
  have f1 := profile_bits8_fields 32 { s with c := pixel_rgba8 P k }
  generalize profile_bits8 32 { s with c := pixel_rgba8 P k } = s1 at f1 ⊢
  have f2 := profile_colored8_fields s1
  generalize profile_colored8 s1 = s2 at f2 ⊢
  have f3 := profile_alpha8_fields s2
  generalize profile_alpha8 s2 = s3 at f3 ⊢
  have htree : s3.tree = s.tree :=
    f3.2.2.2.2.1.trans (f2.2.2.2.2.2.2.2.2.1.trans f1.2.2.2.2.2.2.2.2.2.2.1)
  have hdone : s3.numcolors_done = s.numcolors_done :=
    f3.2.2.2.2.2.1.trans (f2.2.2.2.2.2.2.2.2.2.1.trans f1.2.2.2.2.2.2.2.2.2.2.2.1)
  have hnum : s3.profile.numcolors = s.profile.numcolors :=
    f3.2.2.1.trans (f2.2.2.2.2.2.2.1.trans f1.2.2.2.2.2.2.2.2.1)
  have hpal : s3.profile.palette = s.profile.palette :=
    f3.2.2.2.1.trans (f2.2.2.2.2.2.2.2.1.trans f1.2.2.2.2.2.2.2.2.2.1)
  have hc : s3.c = pixel_rgba8 P k :=
    f3.2.2.2.2.2.2.trans (f2.2.2.2.2.2.2.2.2.2.2.trans f1.2.2.2.2.2.2.2.2.2.2.2.2)
  exact profile_numcolors8_InvOrder P hP k s3
    (InvCount_of_fields P k s s3 hprof.count htree hdone hnum hpal)
    (InvOrder_of_fields P k s s3 hord hnum hpal) hc

/-- The palette of the profile of an 8-bit RGBA image of `n` pixels. -/
theorem profile_run8_order (P : Buf) (hP : ValidBuf P) (n : Nat) :
    (profile_run8 P n rgba8_mode
      (profile_start (lodepng_color_profile_init profile_local) rgba8_mode)).numcolors =
        min (first_seen P n).length 257 ∧
    ∀ t, t < min (first_seen P n).length 256 →
      palette_entry (profile_run8 P n rgba8_mode
        (profile_start (lodepng_color_profile_init profile_local) rgba8_mode)).palette t =
      (first_seen P n).getD t Color.zero := by
  have hloop := profile_loop8_invariant_idx
    (fun k s => InvProfile P k s ∧ InvOrder P k s) P rgba8_mode 32 257 n
    (fun i s _ hs => ⟨profile_step8_InvProfile P hP i s hs.1,
      profile_step8_InvOrder P hP i s hs.1 hs.2⟩)
    (fun i s _ hs => InvProfile_not_all_done P (i + 1) _ (profile_step8_InvProfile P hP i s hs.1))
    n 0 (profile_start (lodepng_color_profile_init profile_local) rgba8_mode) (by omega)
    ⟨InvProfile_start P, ⟨by simp [first_seen, profile_start, lodepng_color_profile_init], fun t ht => by
      have h0 : (profile_start (lodepng_color_profile_init profile_local) rgba8_mode).profile.numcolors = 0 := rfl
      rw [h0] at ht
      exact absurd ht (Nat.not_lt_zero t)⟩⟩
  unfold profile_run8
  have hbpp : lodepng_get_bpp rgba8_mode = 32 := by decide
  have hmax : profile_maxnumcolors 32 = 257 := by decide
  rw [hbpp]
  dsimp only
  rw [hmax]
  generalize profile_loop8 P rgba8_mode 32 257 n 0
    (profile_start (lodepng_color_profile_init profile_local) rgba8_mode) = s2 at hloop ⊢
  obtain ⟨hprof, hnum, hent⟩ := hloop
  have hfin : ∀ p : LodePNGColorProfile, p.numcolors = s2.profile.numcolors →
      p.palette = s2.profile.palette →
      p.numcolors = min (first_seen P n).length 257 ∧
      ∀ t, t < min (first_seen P n).length 256 →
        palette_entry p.palette t = (first_seen P n).getD t Color.zero := by
    intro p h1 h2
    rw [h1, h2]
    refine ⟨hnum, ?_⟩
    intro t ht
    exact hent t (by rw [hnum]; omega) (by omega)
  by_cases hsecond : s2.profile.key ≠ 0 ∧ s2.profile.alpha = 0
  · rw [if_pos hsecond]
    obtain ⟨_, _, _, _, _, g6, g7, _⟩ := profile_keycheck8_rgba8 P n s2 hsecond.2
    exact hfin _ g6 g7
  · rw [if_neg hsecond]
    exact hfin _ rfl rfl

/-- C27: for an 8-bit RGBA image of bytes with `D` distinct `(r, g, b, a)` colours among its
scanned pixels, the profile computed from a freshly initialised one ends with
`numcolors = min(D, 257)`, and for every `j < min(D, 256)` entry `j` of its palette is the
`j`-th distinct colour in order of first occurrence in the scan; these colours are pairwise
different, and they are exactly the colours of the pixels. -/
theorem C27_profile_palette_order (P : Buf) (w h : Nat) (hP : ValidBuf P) :
    (image_profile P w h rgba8_mode).numcolors =
      min (Finset.image (pixel_rgba8 P) (Finset.range ((w * h) % 2 ^ 32))).card 257 ∧
    (first_seen P ((w * h) % 2 ^ 32)).length =
      (Finset.image (pixel_rgba8 P) (Finset.range ((w * h) % 2 ^ 32))).card ∧
    (∀ j, j < min (Finset.image (pixel_rgba8 P) (Finset.range ((w * h) % 2 ^ 32))).card 256 →
      palette_entry (image_profile P w h rgba8_mode).palette j =
        (first_seen P ((w * h) % 2 ^ 32)).getD j Color.zero) ∧
    (first_seen P ((w * h) % 2 ^ 32)).Nodup ∧
    (∀ c, c ∈ first_seen P ((w * h) % 2 ^ 32) ↔
      ∃ i, i < (w * h) % 2 ^ 32 ∧ pixel_rgba8 P i = c) := by
  obtain ⟨h1, h2⟩ := profile_run8_order P hP ((w * h) % 2 ^ 32)
  rw [← image_profile_rgba8_run8] at h1 h2
  have hlen := first_seen_length P ((w * h) % 2 ^ 32)
  rw [hlen] at h1 h2
  exact ⟨h1, hlen, h2, first_seen_nodup P _, mem_first_seen P _⟩

/-- Witness of C27: in a 4x1 image with the colours A, B, A, C the palette of the profile
starts A, B, C. -/
theorem C27_profile_palette_order_witness :
    palette_entry (image_profile (bufOfList [1, 2, 3, 255, 4, 5, 6, 255, 1, 2, 3, 255,
      7, 8, 9, 255]) 4 1 rgba8_mode).palette 2 =
      (first_seen (bufOfList [1, 2, 3, 255, 4, 5, 6, 255, 1, 2, 3, 255, 7, 8, 9, 255])
        ((4 * 1) % 2 ^ 32)).getD 2 Color.zero :=
  (C27_profile_palette_order (bufOfList [1, 2, 3, 255, 4, 5, 6, 255, 1, 2, 3, 255,
    7, 8, 9, 255]) 4 1 (validBuf_bufOfList _ (by decide))).2.2.1 2 (by decide)

/-! ## The filters of a scanline -/

/-- A loop that stores `g i` at offset `a + i`. -/
theorem forLoop_set_at (g : Nat → Nat) (a n : Nat) (out : Buf) (j : Nat) :
    forLoop n (fun i b => b.set (a + i) (g i)) out j =
      if a ≤ j ∧ j < a + n then g (j - a) else out j := by
  induction n with
  | zero =>
    have : ¬ (a ≤ j ∧ j < a + 0) := by omega
    rw [if_neg this]
    rfl
  | succ k ih =>
    rw [forLoop_succ, Buf.set_apply, ih]
    by_cases h1 : j = a + k
    · subst h1
      have : a ≤ a + k ∧ a + k < a + (k + 1) := by omega
      rw [if_pos rfl, if_pos this]
      congr 1
      omega
    · rw [if_neg h1]
      by_cases h2 : a ≤ j ∧ j < a + k
      · have : a ≤ j ∧ j < a + (k + 1) := by omega
        rw [if_pos h2, if_pos this]
      · have : ¬ (a ≤ j ∧ j < a + (k + 1)) := by omega
        rw [if_neg h2, if_neg this]

/-- The two loops of a filter: the first `bytewidth` bytes, then the bytes up to `length`. -/
theorem filter_two_loops (g1 g2 : Nat → Nat) (o bw len : Nat) (out : Buf) (i : Nat)
    (hi : i < len) :
    forLoop (len - bw) (fun j b => b.set (o + (bw + j)) (g2 j))
      (forLoop bw (fun k b => b.set (o + k) (g1 k)) out) (o + i) =
    if i < bw then g1 i else g2 (i - bw) := by
  have hfun : (fun j (b : Buf) => b.set (o + (bw + j)) (g2 j)) =
      (fun j (b : Buf) => b.set (o + bw + j) (g2 j)) := by
    funext j b
    rw [Nat.add_assoc]
  rw [hfun, forLoop_set_at, forLoop_set_at]
  by_cases h : i < bw
  · have h1 : ¬ (o + bw ≤ o + i ∧ o + i < o + bw + (len - bw)) := by omega
    have h2 : o ≤ o + i ∧ o + i < o + bw := by omega
    rw [if_neg h1, if_pos h2, if_pos h]
    congr 1
    omega
  · have h1 : o + bw ≤ o + i ∧ o + i < o + bw + (len - bw) := by omega
    rw [if_pos h1, if_neg h]
    congr 1
    omega

theorem byte_diff_zero (x : Nat) (hx : x < 256) : byte_diff x 0 = x := by
  unfold byte_diff
  omega

theorem byte_diff_cast (x y : Nat) : ((byte_diff x y : Nat) : Int) = ((x : Int) - (y : Int)) % 256 := by
  unfold byte_diff
  omega

theorem byte_diff_injective (x1 x2 y : Nat) (h1 : x1 < 256) (h2 : x2 < 256)
    (h : byte_diff x1 y = byte_diff x2 y) : x1 = x2 := by
  unfold byte_diff at h
  omega

theorem paethPredictor_up (b : Nat) (hb : b < 256) : paethPredictor 0 b 0 = b := by
  unfold paethPredictor
  simp only [sub_zero, zero_add, abs_zero]
  have h1 : |(b : Int)| = b := abs_of_nonneg (by omega)
  rw [h1]
  by_cases h0 : b = 0
  · subst h0
    simp
  · have h2 : (0 : Int) < b := by omega
    simp only [lt_self_iff_false, false_and, if_false, h2, if_true]
    omega

theorem paethPredictor_left (a : Nat) (ha : a < 256) : paethPredictor a 0 0 = a := by
  unfold paethPredictor
  simp only [sub_zero, add_zero, abs_zero]
  have h1 : |(a : Int)| = a := abs_of_nonneg (by omega)
  rw [h1]
  have h2 : ¬ ((a : Int) < 0) := by omega
  simp only [lt_self_iff_false, and_false, if_false, h2]
  omega

/-- Every byte that `filterScanline` writes for a scanline is the byte of the scanline
minus the prediction of the filter type, modulo 256. -/
theorem filterScanline_formula (out inp : Buf) (o s : Nat) (prevline : Option Nat)
    (length bytewidth t : Nat) (hP : ValidBuf inp) (ht : t ≤ 4) (i : Nat) (hi : i < length) :
    filterScanline out o inp s prevline length bytewidth t (o + i) =
      byte_diff (inp (s + i))
        (filter_prediction t (filter_left inp s bytewidth i) (filter_up inp prevline i)
          (filter_upleft inp prevline bytewidth i)) := by
  have hz : ∀ q, inp q = byte_diff (inp q) 0 := fun q => (byte_diff_zero _ (hP q)).symm
  have hsub : ∀ k, ¬ k < bytewidth → bytewidth + (k - bytewidth) = k := by
    intro k hk
    omega
  unfold filterScanline filter_prediction filter_left filter_up filter_upleft
  have ht5 : t = 0 ∨ t = 1 ∨ t = 2 ∨ t = 3 ∨ t = 4 := by omega
  rcases ht5 with h | h | h | h | h <;> subst h
  · simp only [if_true]
    rw [forLoop_set_at]
    have h1 : o ≤ o + i ∧ o + i < o + length := by omega
    rw [if_pos h1, Nat.add_sub_cancel_left]
    exact hz _
  · simp only [if_true, OfNat.ofNat_ne_zero, if_false, one_ne_zero]
    rw [filter_two_loops _ _ _ _ _ _ _ hi]
    by_cases hb : i < bytewidth
    · rw [if_pos hb, if_pos hb]
      exact hz _
    · rw [if_neg hb, if_neg hb, hsub i hb]
  · cases prevline with
    | none =>
      simp only [if_true, OfNat.ofNat_ne_zero, if_false, OfNat.ofNat_ne_one]
      rw [forLoop_set_at]
      have h1 : o ≤ o + i ∧ o + i < o + length := by omega
      rw [if_pos h1, Nat.add_sub_cancel_left]
      exact hz _
    | some p =>
      simp only [if_true, OfNat.ofNat_ne_zero, if_false, OfNat.ofNat_ne_one]
      rw [forLoop_set_at]
      have h1 : o ≤ o + i ∧ o + i < o + length := by omega
      rw [if_pos h1, Nat.add_sub_cancel_left]
  · have e0 : ¬ (3 : Nat) = 0 := by decide
    have e1 : ¬ (3 : Nat) = 1 := by decide
    have e2 : ¬ (3 : Nat) = 2 := by decide
    cases prevline with
    | none =>
      simp only [e0, e1, e2, if_true, if_false]
      rw [filter_two_loops _ _ _ _ _ _ _ hi]
      by_cases hb : i < bytewidth
      · rw [if_pos hb, if_pos hb]
        simp only [Nat.zero_add, Nat.zero_div]
        exact hz _
      · rw [if_neg hb, if_neg hb, hsub i hb, Nat.shiftRight_eq_div_pow]
        try simp only [Nat.add_zero, pow_one]
    | some p =>
      simp only [e0, e1, e2, if_true, if_false]
      rw [filter_two_loops _ _ _ _ _ _ _ hi]
      by_cases hb : i < bytewidth
      · rw [if_pos hb, if_pos hb, Nat.shiftRight_eq_div_pow]
        simp only [Nat.zero_add, pow_one]
      · rw [if_neg hb, if_neg hb, hsub i hb, Nat.shiftRight_eq_div_pow]
        try simp only [pow_one]
  · have e0 : ¬ (4 : Nat) = 0 := by decide
    have e1 : ¬ (4 : Nat) = 1 := by decide
    have e2 : ¬ (4 : Nat) = 2 := by decide
    have e3 : ¬ (4 : Nat) = 3 := by decide
    cases prevline with
    | none =>
      simp only [e0, e1, e2, e3, if_true, if_false]
      rw [filter_two_loops _ _ _ _ _ _ _ hi]
      by_cases hb : i < bytewidth
      · simp only [hb, if_true]
        have := paethPredictor_left 0 (by decide)
        simp only [Nat.cast_zero] at this ⊢
        rw [this]
        exact hz _
      · simp only [hb, if_false]
        rw [hsub i hb]
        have := paethPredictor_left (inp (s + (i - bytewidth))) (hP _)
        simp only [Nat.cast_zero] at this ⊢
        rw [this]
    | some p =>
      simp only [e0, e1, e2, e3, if_true, if_false]
      rw [filter_two_loops _ _ _ _ _ _ _ hi]
      by_cases hb : i < bytewidth
      · simp only [hb, if_true]
        have := paethPredictor_up (inp (p + i)) (hP _)
        simp only [Nat.cast_zero] at this ⊢
        rw [this]
      · simp only [hb, if_false]
        rw [hsub i hb]
/-! ## C31, C33, C34: the filter formulas and their inversion -/

/-- C31: for every scanline of bytes, previous line or none, length and byte width,
`filterScanline` with type 4 writes `out[i] = (scan[i] - paethPredictor(left, up, upleft))
mod 256` for every `i < length`, where `left = scan[i - bw]`, `up = prev[i]`,
`upleft = prev[i - bw]` and a term that does not exist (`i < bw`, or no previous line) is 0;
and `paethPredictor(0, b, 0) = b`, `paethPredictor(a, 0, 0) = a` for all bytes `a`, `b`. -/
theorem C31_paeth_filter_formula (out inp : Buf) (o s : Nat) (prevline : Option Nat)
    (length bytewidth : Nat) (hP : ValidBuf inp) :
    (∀ i, i < length →
      ((filterScanline out o inp s prevline length bytewidth 4 (o + i) : Nat) : Int) =
        ((inp (s + i) : Int) -
          ((paethPredictor (filter_left inp s bytewidth i) (filter_up inp prevline i)
            (filter_upleft inp prevline bytewidth i) : Nat) : Int)) % 256) ∧
    (∀ b : Nat, b < 256 → paethPredictor 0 b 0 = b) ∧
    (∀ a : Nat, a < 256 → paethPredictor a 0 0 = a) := by
  refine ⟨?_, fun b hb => ?_, fun a ha => ?_⟩
  · intro i hi
    rw [filterScanline_formula out inp o s prevline length bytewidth 4 hP (by decide) i hi,
      byte_diff_cast]
    rfl
  · have := paethPredictor_up b hb
    simpa using this
  · have := paethPredictor_left a ha
    simpa using this

/-- Witness of C31: a second scanline `40, 50, 60` under the line `10, 20, 30`, one byte per
pixel; the formula at byte 1. -/
theorem C31_paeth_filter_formula_witness :
    ((filterScanline (fun _ => 0) 0 (bufOfList [10, 20, 30, 40, 50, 60]) 3 (some 0) 3 1 4
        (0 + 1) : Nat) : Int) =
      ((bufOfList [10, 20, 30, 40, 50, 60] (3 + 1) : Int) -
        ((paethPredictor (filter_left (bufOfList [10, 20, 30, 40, 50, 60]) 3 1 1)
          (filter_up (bufOfList [10, 20, 30, 40, 50, 60]) (some 0) 1)
          (filter_upleft (bufOfList [10, 20, 30, 40, 50, 60]) (some 0) 1 1) : Nat) : Int)) % 256 :=
  (C31_paeth_filter_formula (fun _ => 0) (bufOfList [10, 20, 30, 40, 50, 60]) 0 3 (some 0) 3 1
    (validBuf_bufOfList _ (by decide))).1 1 (by decide)

/-- C33: for every scanline of bytes, previous line or none, length and byte width,
`filterScanline` with type 3 writes `out[i] = (scan[i] - floor((left + up) / 2)) mod 256`
for every `i < length`, where `left = scan[i - bw]` (0 when `i < bw`) and `up = prev[i]`
(0 when there is no previous line); the sum `left + up` is that of the integers, up to 510,
not a byte. -/
theorem C33_average_filter_formula (out inp : Buf) (o s : Nat) (prevline : Option Nat)
    (length bytewidth : Nat) (hP : ValidBuf inp) :
    (∀ i, i < length →
      ((filterScanline out o inp s prevline length bytewidth 3 (o + i) : Nat) : Int) =
        ((inp (s + i) : Int) -
          (((filter_left inp s bytewidth i + filter_up inp prevline i) / 2 : Nat) : Int))
            % 256) ∧
    (∀ i, filter_left inp s bytewidth i + filter_up inp prevline i ≤ 510) := by
  refine ⟨?_, ?_⟩
  · intro i hi
    rw [filterScanline_formula out inp o s prevline length bytewidth 3 hP (by decide) i hi,
      byte_diff_cast]
    rfl
  · intro i
    have h1 : filter_left inp s bytewidth i ≤ 255 := by
      unfold filter_left
      split
      · omega
      · exact Nat.le_of_lt_succ (hP _)
    have h2 : filter_up inp prevline i ≤ 255 := by
      unfold filter_up
      cases prevline with
      | none => exact Nat.zero_le _
      | some p => exact Nat.le_of_lt_succ (hP _)
    omega

/-- Witness of C33: the scanline `200, 50` under the line `255, 255`, one byte per pixel;
at byte 1 the mean of 200 and 255 is 227, not that of a wrapped sum. -/
theorem C33_average_filter_formula_witness :
    ((filterScanline (fun _ => 0) 0 (bufOfList [255, 255, 200, 50]) 2 (some 0) 2 1 3
        (0 + 1) : Nat) : Int) =
      ((bufOfList [255, 255, 200, 50] (2 + 1) : Int) -
        (((filter_left (bufOfList [255, 255, 200, 50]) 2 1 1 +
          filter_up (bufOfList [255, 255, 200, 50]) (some 0) 1) / 2 : Nat) : Int)) % 256 :=
  (C33_average_filter_formula (fun _ => 0) (bufOfList [255, 255, 200, 50]) 0 2 (some 0) 2 1
    (validBuf_bufOfList _ (by decide))).1 1 (by decide)

/-- C34: for every filter type 0 to 4, byte width at least 1, length and previous line or
none, `filterScanline` is injective in the scanline: two scanlines of bytes that give the
same `length` output bytes under the same previous line are equal. -/
theorem C34_filters_are_reversible (out1 out2 inp1 inp2 : Buf) (o s : Nat)
    (prevline : Option Nat) (length bytewidth t : Nat)
    (hP1 : ValidBuf inp1) (hP2 : ValidBuf inp2) (ht : t ≤ 4) (hbw : 1 ≤ bytewidth)
    (hprev : ∀ p, prevline = some p → ∀ i, i < length → inp1 (p + i) = inp2 (p + i))
    (hout : ∀ i, i < length →
      filterScanline out1 o inp1 s prevline length bytewidth t (o + i) =
        filterScanline out2 o inp2 s prevline length bytewidth t (o + i)) :
    ∀ i, i < length → inp1 (s + i) = inp2 (s + i) := by
  intro i
  induction i using Nat.strong_induction_on with
  | _ i ih =>
    intro hi
    have h := hout i hi
    rw [filterScanline_formula out1 inp1 o s prevline length bytewidth t hP1 ht i hi,
      filterScanline_formula out2 inp2 o s prevline length bytewidth t hP2 ht i hi] at h
    have hl : filter_left inp1 s bytewidth i = filter_left inp2 s bytewidth i := by
      unfold filter_left
      split
      · rfl
      · exact ih (i - bytewidth) (by omega) (by omega)
    have hu : filter_up inp1 prevline i = filter_up inp2 prevline i := by
      unfold filter_up
      cases hp : prevline with
      | none => rfl
      | some p => exact hprev p hp i hi
    have hul : filter_upleft inp1 prevline bytewidth i =
        filter_upleft inp2 prevline bytewidth i := by
      unfold filter_upleft
      split
      · rfl
      · cases hp : prevline with
        | none => rfl
        | some p => exact hprev p hp (i - bytewidth) (by omega)
    rw [hl, hu, hul] at h
    exact byte_diff_injective _ _ _ (hP1 _) (hP2 _) h

/-- Witness of C34: two buffers that hold the same previous line `10, 20, 30` and give the
same Paeth output for the scanline at offset 3 hold the same byte 1 of it, whatever follows
the scanline. -/
theorem C34_filters_are_reversible_witness :
    bufOfList [10, 20, 30, 40, 50, 60, 7] (3 + 1) =
      bufOfList [10, 20, 30, 40, 50, 60, 9] (3 + 1) :=
  C34_filters_are_reversible (fun _ => 0) (fun _ => 1) (bufOfList [10, 20, 30, 40, 50, 60, 7])
    (bufOfList [10, 20, 30, 40, 50, 60, 9]) 0 3 (some 0) 3 1 4
    (validBuf_bufOfList _ (by decide)) (validBuf_bufOfList _ (by decide)) (by decide)
    (by decide)
    (fun p hp i hi => by
      cases hp
      have h3 : i = 0 ∨ i = 1 ∨ i = 2 := by omega
      rcases h3 with h | h | h <;> subst h <;> rfl)
    (fun i hi => by
      have h3 : i = 0 ∨ i = 1 ∨ i = 2 := by omega
      rcases h3 with h | h | h <;> subst h <;> decide)
    1 (by decide)

/-! ## C32: the order of preference of the Paeth predictor -/

/-- C32 does not hold on ties: for left 0, up 3, upper-left 2 the distances are
`pa = pc = 1 < pb = 2` and `paethPredictor` returns the left byte 0, not the upper-left
byte 2; for left 3, up 0, upper-left 2 the distances are `pb = pc = 1 < pa = 2` and it
returns the upper byte 0, not the upper-left byte 2. -/
theorem C32_ties_do_not_go_to_upper_left :
    (|(3 : Int) - 2| = 1 ∧ |(0 : Int) - 2| = 2 ∧ |(0 : Int) + 3 - 2 * 2| = 1 ∧
      paethPredictor 0 3 2 = 0) ∧
    (|(0 : Int) - 2| = 2 ∧ |(3 : Int) - 2| = 1 ∧ |(3 : Int) + 0 - 2 * 2| = 1 ∧
      paethPredictor 3 0 2 = 0) := by
  decide

/-- C32, amended: for all bytes `a` (left), `b` (up), `c` (upper-left), with
`pa = |b - c|`, `pb = |a - c|`, `pc = |a + b - 2c|`, `paethPredictor` returns a candidate
of smallest distance and on ties prefers `a` over both `b` and `c`, and `b` over `c`:
it returns `a` when `pa <= pb` and `pa <= pc`, else `b` when `pb <= pc`, else `c`. -/
theorem C32_paeth_prefers_left_then_up (a b c : Nat) (ha : a < 256) (hb : b < 256)
    (hc : c < 256) :
    (|(b : Int) - c| ≤ |(a : Int) - c| → |(b : Int) - c| ≤ |(a : Int) + b - 2 * c| →
      paethPredictor a b c = a) ∧
    (|(a : Int) - c| < |(b : Int) - c| → |(a : Int) - c| ≤ |(a : Int) + b - 2 * c| →
      paethPredictor a b c = b) ∧
    (|(a : Int) + b - 2 * c| < |(b : Int) - c| → |(a : Int) + b - 2 * c| < |(a : Int) - c| →
      paethPredictor a b c = c) := by
  have e : (a : Int) + b - c - c = (a : Int) + b - 2 * c := by ring
  unfold paethPredictor
  simp only [e]
  generalize |(b : Int) - c| = pa
  generalize |(a : Int) - c| = pb
  generalize |(a : Int) + b - 2 * c| = pc
  refine ⟨fun h1 h2 => ?_, fun h1 h2 => ?_, fun h1 h2 => ?_⟩
  · have n1 : ¬ (pc < pa ∧ pc < pb) := by omega
    have n2 : ¬ (pb < pa) := by omega
    rw [if_neg n1, if_neg n2]
    omega
  · have n1 : ¬ (pc < pa ∧ pc < pb) := by omega
    rw [if_neg n1, if_pos h1]
    omega
  · rw [if_pos ⟨h1, h2⟩]
    omega

/-- Witness of C32, amended: left 0, up 3, upper-left 2 tie on `pa = pc`; the predictor is
the left byte. -/
theorem C32_paeth_prefers_left_then_up_witness :
    paethPredictor (0 : Nat) (3 : Nat) (2 : Nat) = (0 : Nat) :=
  (C32_paeth_prefers_left_then_up 0 3 2 (by decide) (by decide) (by decide)).1 (by decide)
    (by decide)

/-! ## C37: reading bits, the most significant first -/

theorem bits_value_succ (buf : Buf) (p m : Nat) :
    bits_value buf p (m + 1) = (bit_at buf p).toNat * 2 ^ m + bits_value buf (p + 1) m := by
  unfold bits_value
  rw [Finset.sum_range_succ', Nat.add_comm]
  congr 1
  apply Finset.sum_congr rfl
  intro k _
  have e1 : p + (k + 1) = p + 1 + k := by omega
  have e2 : m + 1 - 1 - (k + 1) = m - 1 - k := by omega
  rw [e1, e2]

theorem bits_value_lt (buf : Buf) : ∀ n p, bits_value buf p n < 2 ^ n := by
  intro n
  induction n with
  | zero => intro p; simp [bits_value]
  | succ m ih =>
    intro p
    rw [bits_value_succ, Nat.pow_succ]
    have h1 := ih (p + 1)
    have h2 : (bit_at buf p).toNat ≤ 1 := Bool.toNat_le _
    have h3 : (bit_at buf p).toNat * 2 ^ m ≤ 1 * 2 ^ m := Nat.mul_le_mul_right _ h2
    omega

theorem readBitsFromReversedStream_eq (buf : Buf) :
    ∀ n p, readBitsFromReversedStream p buf n = (bits_value buf p n, p + n) := by
  intro n
  induction n with
  | zero => intro p; simp [readBitsFromReversedStream, bits_value]
  | succ m ih =>
    intro p
    unfold readBitsFromReversedStream
    dsimp only
    rw [readBitFromReversedStream_eq]
    dsimp only
    rw [ih (p + 1), bits_value_succ, Nat.shiftLeft_eq]
    dsimp only
    congr 1
    omega

/-- C37: for every buffer, bit offset `p` and `n` in 1, 2, 4, 8, 16,
`readBitsFromReversedStream` returns the sum over `k < n` of `bit (p + k) * 2 ^ (n - 1 - k)`,
where `bit q` is bit `7 - q mod 8` of byte `q div 8`, and advances the offset by exactly
`n`; the value is below `2 ^ n`, so it fits the `unsigned` result; and
`readBitFromReversedStream` is the case `n = 1`. -/
theorem C37_msb_first_bit_reads (buf : Buf) (p n : Nat)
    (hn : n = 1 ∨ n = 2 ∨ n = 4 ∨ n = 8 ∨ n = 16) :
    (readBitsFromReversedStream p buf n).1 =
      Finset.sum (Finset.range n) (fun k => (bit_at buf (p + k)).toNat * 2 ^ (n - 1 - k)) ∧
    (readBitsFromReversedStream p buf n).2 = p + n ∧
    (readBitsFromReversedStream p buf n).1 < 2 ^ n ∧
    (readBitsFromReversedStream p buf n).1 < 2 ^ 32 ∧
    (∀ q, bit_at buf q = (buf (q / 8)).testBit (7 - q % 8)) ∧
    readBitFromReversedStream p buf = ((bit_at buf p).toNat, p + 1) ∧
    readBitsFromReversedStream p buf 1 = readBitFromReversedStream p buf := by
  have hlt := bits_value_lt buf n p
  have h32 : 2 ^ n ≤ 2 ^ 32 := by
    rcases hn with h | h | h | h | h <;> subst h <;> decide
  rw [readBitsFromReversedStream_eq]
  refine ⟨rfl, rfl, hlt, Nat.lt_of_lt_of_le hlt h32, fun _ => rfl,
    readBitFromReversedStream_eq p buf, ?_⟩
  rw [readBitsFromReversedStream_eq, readBitFromReversedStream_eq]
  simp [bits_value]

/-- Witness of C37: the four bits at offset 2 of the byte `0b10110100` are `1101`. -/
theorem C37_msb_first_bit_reads_witness :
    (readBitsFromReversedStream 2 (bufOfList [180]) 4).1 =
      Finset.sum (Finset.range 4)
        (fun k => (bit_at (bufOfList [180]) (2 + k)).toNat * 2 ^ (4 - 1 - k)) :=
  (C37_msb_first_bit_reads (bufOfList [180]) 2 4 (by decide)).1

/-! ## C38: the colour tree as a finite map -/

/-- Adding the colours of a list does not change the lookup of a colour that is not in
the list. -/
theorem color_tree_fold_other (c : Color) (hc : c.IsByte) :
    ∀ (l : List (Color × Nat)) (t : ColorTree), (∀ e ∈ l, e.1.IsByte) →
      c ∉ l.map Prod.fst →
      color_tree_get
        (l.foldl (fun t e => color_tree_add t e.1.r e.1.g e.1.b e.1.a e.2) t) c.r c.g c.b c.a =
      color_tree_get t c.r c.g c.b c.a := by
  intro l
  induction l with
  | nil => intro t _ _; rfl
  | cons x l ih =>
    intro t hb hn
    rw [List.foldl_cons]
    have hx := hb x (List.mem_cons_self _ _)
    have hne : x.1 ≠ c := by
      intro h
      apply hn
      rw [List.map_cons, ← h]
      exact List.mem_cons_self _ _
    have hn2 : c ∉ l.map Prod.fst := by
      intro h
      apply hn
      rw [List.map_cons]
      exact List.mem_cons_of_mem _ h
    rw [ih _ (fun e he => hb e (List.mem_cons_of_mem _ he)) hn2]
    exact color_tree_get_add_ne t x.1.r x.1.g x.1.b x.1.a x.2 c.r c.g c.b c.a
      hx.1 hx.2.1 hx.2.2.1 hx.2.2.2 hc.1 hc.2.1 hc.2.2.1 hc.2.2.2 (color_ne_channels _ _ hne)

/-- After adding the pairwise distinct colours of a list, each of them is mapped to its
index. -/
theorem color_tree_fold_mem :
    ∀ (l : List (Color × Nat)) (t : ColorTree), t ≠ ColorTree.null →
      (∀ e ∈ l, e.1.IsByte) → (l.map Prod.fst).Nodup → ∀ e ∈ l,
      color_tree_get
        (l.foldl (fun t e => color_tree_add t e.1.r e.1.g e.1.b e.1.a e.2) t)
        e.1.r e.1.g e.1.b e.1.a = (e.2 : Int) := by
  intro l
  induction l with
  | nil => intro t _ _ _ e he; cases he
  | cons x l ih =>
    intro t ht hb hd e he
    rw [List.foldl_cons]
    rw [List.map_cons, List.nodup_cons] at hd
    rcases List.mem_cons.mp he with h | h
    · subst h
      rw [color_tree_fold_other e.1 (hb e (List.mem_cons_self _ _)) l _
        (fun e2 he2 => hb e2 (List.mem_cons_of_mem _ he2)) hd.1]
      exact color_tree_get_add_eq t _ _ _ _ _ ht
    · exact ih _ (color_tree_add_node t _ _ _ _ _ ht)
        (fun e2 he2 => hb e2 (List.mem_cons_of_mem _ he2)) hd.2 e h

/-- C38: for a tree built from an empty root by `color_tree_add` of pairwise distinct
colours of bytes with indices that an `int` holds, `color_tree_get` returns the index
(a value from 0 to `2 ^ 31 - 1`) for every added colour and -1 for every colour
`(r, g, b, a)` of bytes that was not added; and adding one colour to any tree never changes
the result for a different colour. -/
theorem C38_color_tree_is_finite_map (l : List (Color × Nat))
    (hbyte : ∀ e ∈ l, e.1.IsByte) (hdist : (l.map Prod.fst).Nodup)
    (hidx : ∀ e ∈ l, e.2 < 2 ^ 31) :
    (∀ e ∈ l, color_tree_get (tree_of_colors l) e.1.r e.1.g e.1.b e.1.a = (e.2 : Int) ∧
      0 ≤ color_tree_get (tree_of_colors l) e.1.r e.1.g e.1.b e.1.a ∧
      color_tree_get (tree_of_colors l) e.1.r e.1.g e.1.b e.1.a < 2 ^ 31) ∧
    (∀ c : Color, c.IsByte → c ∉ l.map Prod.fst →
      color_tree_get (tree_of_colors l) c.r c.g c.b c.a = -1) ∧
    (∀ (t : ColorTree) (c c2 : Color) (index : Nat), c.IsByte → c2.IsByte → c ≠ c2 →
      color_tree_get (color_tree_add t c.r c.g c.b c.a index) c2.r c2.g c2.b c2.a =
        color_tree_get t c2.r c2.g c2.b c2.a) := by
  have hinit : color_tree_init ≠ ColorTree.null := by
    intro h
    cases h
  refine ⟨?_, ?_, ?_⟩
  · intro e he
    have h := color_tree_fold_mem l color_tree_init hinit hbyte hdist e he
    unfold tree_of_colors
    rw [h]
    have h2 := hidx e he
    refine ⟨rfl, by omega, by omega⟩
  · intro c hc hn
    unfold tree_of_colors
    rw [color_tree_fold_other c hc l color_tree_init hbyte hn]
    exact color_tree_get_from_init c.r c.g c.b c.a 8 0
  · intro t c c2 index hc hc2 hne
    exact color_tree_get_add_ne t c.r c.g c.b c.a index c2.r c2.g c2.b c2.a
      hc.1 hc.2.1 hc.2.2.1 hc.2.2.2 hc2.1 hc2.2.1 hc2.2.2.1 hc2.2.2.2
      (color_ne_channels _ _ hne)

/-- Witness of C38: after adding red with index 0 and green with index 1, blue is not
found. -/
theorem C38_color_tree_is_finite_map_witness :
    color_tree_get (tree_of_colors [(⟨255, 0, 0, 255⟩, 0), (⟨0, 255, 0, 255⟩, 1)])
      0 0 255 255 = -1 :=
  (C38_color_tree_is_finite_map [(⟨255, 0, 0, 255⟩, 0), (⟨0, 255, 0, 255⟩, 1)]
    (by simp [Color.IsByte]) (by decide) (by decide)).2.1 ⟨0, 0, 255, 255⟩
    (by simp [Color.IsByte]) (by decide)

/-! ## C35: palette indices beyond the palette -/

theorem store_pixel_spec (buf : Buf) (off ha r g b a : Nat) :
    store_pixel buf off ha r g b a (off + 0) = r ∧
    store_pixel buf off ha r g b a (off + 1) = g ∧
    store_pixel buf off ha r g b a (off + 2) = b ∧
    (ha ≠ 0 → store_pixel buf off ha r g b a (off + 3) = a) ∧
    (∀ q, q < off → store_pixel buf off ha r g b a q = buf q) := by
  unfold store_pixel
  by_cases h : ha ≠ 0
  · rw [if_pos h]
    refine ⟨?_, ?_, ?_, fun _ => ?_, fun q hq => ?_⟩
    · simp [Buf.set_apply]
    · simp [Buf.set_apply]
    · simp [Buf.set_apply]
    · simp [Buf.set_apply]
    · rw [Buf.set_other _ _ _ _ (by omega), Buf.set_other _ _ _ _ (by omega),
        Buf.set_other _ _ _ _ (by omega), Buf.set_other _ _ _ _ (by omega)]
  · rw [if_neg h]
    refine ⟨?_, ?_, ?_, fun h2 => absurd h2 h, fun q hq => ?_⟩
    · simp [Buf.set_apply]
    · simp [Buf.set_apply]
    · simp [Buf.set_apply]
    · rw [Buf.set_other _ _ _ _ (by omega), Buf.set_other _ _ _ _ (by omega),
        Buf.set_other _ _ _ _ (by omega)]

/-- The colour that both decoders give to a pixel of a palette image whose stored index is
`index`. -/
theorem getPixelColorRGBA8_palette (c : Color) (inp : Buf) (i : Nat) (mode : LodePNGColorMode)
    (hct : mode.colortype = LCT_PALETTE) :
    getPixelColorRGBA8 c inp i mode =
      if sample_at inp mode.bitdepth i ≥ mode.palettesize then ⟨0, 0, 0, 255⟩
      else palette_entry mode.palette (sample_at inp mode.bitdepth i) := by
  unfold getPixelColorRGBA8 sample_at palette_entry
  have h1 : ¬ LCT_PALETTE = LCT_GREY := by decide
  have h2 : ¬ LCT_PALETTE = LCT_RGB := by decide
  simp only [hct, h1, h2, if_true, if_false]

/-- The loop of `getPixelColorsRGBA8` over the pixels of a palette image: after `n` pixels
the bytes of each of them are in the buffer. -/
theorem getPixelColorsRGBA8_palette (buffer inp : Buf) (n has_alpha : Nat)
    (mode : LodePNGColorMode) (hct : mode.colortype = LCT_PALETTE) (i : Nat) (hi : i < n) :
    getPixelColorsRGBA8 buffer n has_alpha inp mode
        (i * (if has_alpha ≠ 0 then 4 else 3) + 0) = (getPixelColorRGBA8 Color.zero inp i mode).r ∧
    getPixelColorsRGBA8 buffer n has_alpha inp mode
        (i * (if has_alpha ≠ 0 then 4 else 3) + 1) = (getPixelColorRGBA8 Color.zero inp i mode).g ∧
    getPixelColorsRGBA8 buffer n has_alpha inp mode
        (i * (if has_alpha ≠ 0 then 4 else 3) + 2) = (getPixelColorRGBA8 Color.zero inp i mode).b ∧
    (has_alpha ≠ 0 → getPixelColorsRGBA8 buffer n has_alpha inp mode
        (i * (if has_alpha ≠ 0 then 4 else 3) + 3) =
          (getPixelColorRGBA8 Color.zero inp i mode).a) := by
  unfold getPixelColorsRGBA8
  have h1 : ¬ LCT_PALETTE = LCT_GREY := by decide
  have h2 : ¬ LCT_PALETTE = LCT_RGB := by decide
  simp only [hct, h1, h2, if_true, if_false]
  generalize hnc : (if has_alpha ≠ 0 then 4 else 3) = nc
  have hnc3 : 3 ≤ nc := by rw [← hnc]; split <;> omega
  have hnc4 : has_alpha ≠ 0 → nc = 4 := by
    intro h
    rw [← hnc, if_pos h]
  have hinv := forLoop_invariant_idx
    (fun k (st : Buf × Nat) => (mode.bitdepth ≠ 8 → st.2 = k * mode.bitdepth) ∧
      ∀ j, j < k →
        st.1 (j * nc + 0) = (getPixelColorRGBA8 Color.zero inp j mode).r ∧
        st.1 (j * nc + 1) = (getPixelColorRGBA8 Color.zero inp j mode).g ∧
        st.1 (j * nc + 2) = (getPixelColorRGBA8 Color.zero inp j mode).b ∧
        (has_alpha ≠ 0 → st.1 (j * nc + 3) = (getPixelColorRGBA8 Color.zero inp j mode).a))
    n
    (fun i (st : Buf × Nat) =>
      if (if mode.bitdepth = 8 then (inp i, st.2)
          else readBitsFromReversedStream st.2 inp mode.bitdepth).1 ≥ mode.palettesize then
        (store_pixel st.1 (i * nc) has_alpha 0 0 0 255,
          (if mode.bitdepth = 8 then (inp i, st.2)
           else readBitsFromReversedStream st.2 inp mode.bitdepth).2)
      else
        (store_pixel st.1 (i * nc) has_alpha
          (mode.palette ((if mode.bitdepth = 8 then (inp i, st.2)
            else readBitsFromReversedStream st.2 inp mode.bitdepth).1 * 4 + 0))
          (mode.palette ((if mode.bitdepth = 8 then (inp i, st.2)
            else readBitsFromReversedStream st.2 inp mode.bitdepth).1 * 4 + 1))
          (mode.palette ((if mode.bitdepth = 8 then (inp i, st.2)
            else readBitsFromReversedStream st.2 inp mode.bitdepth).1 * 4 + 2))
          (mode.palette ((if mode.bitdepth = 8 then (inp i, st.2)
            else readBitsFromReversedStream st.2 inp mode.bitdepth).1 * 4 + 3)),
          (if mode.bitdepth = 8 then (inp i, st.2)
           else readBitsFromReversedStream st.2 inp mode.bitdepth).2))
    (by
      intro k st _ hs
      obtain ⟨hptr, hold⟩ := hs
      have hidx : (if mode.bitdepth = 8 then (inp k, st.2)
          else readBitsFromReversedStream st.2 inp mode.bitdepth).1 =
          sample_at inp mode.bitdepth k := by
        unfold sample_at
        by_cases h8 : mode.bitdepth = 8
        · rw [if_pos h8, if_pos h8]
        · rw [if_neg h8, if_neg h8, hptr h8]
      have hnext : mode.bitdepth ≠ 8 →
          (if mode.bitdepth = 8 then (inp k, st.2)
            else readBitsFromReversedStream st.2 inp mode.bitdepth).2 =
          (k + 1) * mode.bitdepth := by
        intro h8
        rw [if_neg h8, readBitsFromReversedStream_snd, hptr h8, Nat.succ_mul]
      have hpix := getPixelColorRGBA8_palette Color.zero inp k mode hct
      dsimp only
      rw [hidx]
      by_cases hge : sample_at inp mode.bitdepth k ≥ mode.palettesize
      · rw [if_pos hge] at hpix ⊢
        refine ⟨hnext, ?_⟩
        intro j hj
        dsimp only
        have sp := store_pixel_spec st.1 (k * nc) has_alpha 0 0 0 255
        by_cases hjk : j = k
        · subst hjk
          rw [hpix]
          exact ⟨sp.1, sp.2.1, sp.2.2.1, sp.2.2.2.1⟩
        · have hjlt : j < k := by omega
          have hmul : (j + 1) * nc ≤ k * nc := Nat.mul_le_mul_right _ hjlt
          rw [Nat.succ_mul] at hmul
          have ho := hold j hjlt
          refine ⟨?_, ?_, ?_, ?_⟩
          · rw [sp.2.2.2.2 _ (by omega)]; exact ho.1
          · rw [sp.2.2.2.2 _ (by omega)]; exact ho.2.1
          · rw [sp.2.2.2.2 _ (by omega)]; exact ho.2.2.1
          · intro ha
            have := hnc4 ha
            rw [sp.2.2.2.2 _ (by omega)]
            exact ho.2.2.2 ha
      · rw [if_neg hge] at hpix ⊢
        refine ⟨hnext, ?_⟩
        intro j hj
        dsimp only
        have sp := store_pixel_spec st.1 (k * nc) has_alpha
          (mode.palette (sample_at inp mode.bitdepth k * 4 + 0))
          (mode.palette (sample_at inp mode.bitdepth k * 4 + 1))
          (mode.palette (sample_at inp mode.bitdepth k * 4 + 2))
          (mode.palette (sample_at inp mode.bitdepth k * 4 + 3))
        by_cases hjk : j = k
        · subst hjk
          rw [hpix]
          exact ⟨sp.1, sp.2.1, sp.2.2.1, sp.2.2.2.1⟩
        · have hjlt : j < k := by omega
          have hmul : (j + 1) * nc ≤ k * nc := Nat.mul_le_mul_right _ hjlt
          rw [Nat.succ_mul] at hmul
          have ho := hold j hjlt
          refine ⟨?_, ?_, ?_, ?_⟩
          · rw [sp.2.2.2.2 _ (by omega)]; exact ho.1
          · rw [sp.2.2.2.2 _ (by omega)]; exact ho.2.1
          · rw [sp.2.2.2.2 _ (by omega)]; exact ho.2.2.1
          · intro ha
            have := hnc4 ha
            rw [sp.2.2.2.2 _ (by omega)]
            exact ho.2.2.2 ha)
    (buffer, 0)
    ⟨fun _ => (Nat.zero_mul _).symm, fun j hj => absurd hj (Nat.not_lt_zero j)⟩
  exact hinv.2 i hi

/-- C35: for a Palette source mode of depth 1, 2, 4 or 8 and a pixel `i` whose stored
index is `>= palettesize`, the decoder `getPixelColorRGBA8` yields `(0, 0, 0, 255)` and
`getPixelColorsRGBA8` stores `0, 0, 0` and, when it stores alpha, 255; for an index
`< palettesize` both yield the `(r, g, b, a)` of that palette entry.  Neither has an error
result. -/
theorem C35_palette_index_out_of_range (c : Color) (buffer inp : Buf)
    (numpixels has_alpha : Nat) (mode : LodePNGColorMode) (i : Nat)
    (hmode : mode.colortype = LCT_PALETTE ∧
      (mode.bitdepth = 1 ∨ mode.bitdepth = 2 ∨ mode.bitdepth = 4 ∨ mode.bitdepth = 8))
    (hi : i < numpixels) :
    (sample_at inp mode.bitdepth i ≥ mode.palettesize →
      getPixelColorRGBA8 c inp i mode = ⟨0, 0, 0, 255⟩ ∧
      getPixelColorsRGBA8 buffer numpixels has_alpha inp mode
        (i * (if has_alpha ≠ 0 then 4 else 3) + 0) = 0 ∧
      getPixelColorsRGBA8 buffer numpixels has_alpha inp mode
        (i * (if has_alpha ≠ 0 then 4 else 3) + 1) = 0 ∧
      getPixelColorsRGBA8 buffer numpixels has_alpha inp mode
        (i * (if has_alpha ≠ 0 then 4 else 3) + 2) = 0 ∧
      (has_alpha ≠ 0 → getPixelColorsRGBA8 buffer numpixels has_alpha inp mode
        (i * (if has_alpha ≠ 0 then 4 else 3) + 3) = 255)) ∧
    (sample_at inp mode.bitdepth i < mode.palettesize →
      getPixelColorRGBA8 c inp i mode =
        palette_entry mode.palette (sample_at inp mode.bitdepth i) ∧
      getPixelColorsRGBA8 buffer numpixels has_alpha inp mode
        (i * (if has_alpha ≠ 0 then 4 else 3) + 0) =
          (palette_entry mode.palette (sample_at inp mode.bitdepth i)).r ∧
      getPixelColorsRGBA8 buffer numpixels has_alpha inp mode
        (i * (if has_alpha ≠ 0 then 4 else 3) + 1) =
          (palette_entry mode.palette (sample_at inp mode.bitdepth i)).g ∧
      getPixelColorsRGBA8 buffer numpixels has_alpha inp mode
        (i * (if has_alpha ≠ 0 then 4 else 3) + 2) =
          (palette_entry mode.palette (sample_at inp mode.bitdepth i)).b ∧
      (has_alpha ≠ 0 → getPixelColorsRGBA8 buffer numpixels has_alpha inp mode
        (i * (if has_alpha ≠ 0 then 4 else 3) + 3) =
          (palette_entry mode.palette (sample_at inp mode.bitdepth i)).a)) ∧
    (sample_at inp mode.bitdepth i =
      if mode.bitdepth = 8 then inp i
      else Finset.sum (Finset.range mode.bitdepth) (fun k =>
        (bit_at inp (i * mode.bitdepth + k)).toNat * 2 ^ (mode.bitdepth - 1 - k))) := by
  have hbulk := getPixelColorsRGBA8_palette buffer inp numpixels has_alpha mode hmode.1 i hi
  have hone := getPixelColorRGBA8_palette c inp i mode hmode.1
  have hzero := getPixelColorRGBA8_palette Color.zero inp i mode hmode.1
  refine ⟨fun hge => ?_, fun hlt => ?_, ?_⟩
  · rw [if_pos hge] at hone hzero
    rw [hzero] at hbulk
    exact ⟨hone, hbulk⟩
  · have hn : ¬ sample_at inp mode.bitdepth i ≥ mode.palettesize := by omega
    rw [if_neg hn] at hone hzero
    rw [hzero] at hbulk
    exact ⟨hone, hbulk⟩
  · unfold sample_at
    split
    · rfl
    · rw [readBitsFromReversedStream_eq]
      rfl

/-- Witness of C35: in a 2-bit palette image with three entries, the pixel 2, which stores
index 3, decodes to opaque black. -/
theorem C35_palette_index_out_of_range_witness :
    getPixelColorRGBA8 Color.zero (bufOfList [108]) 2 rgb_palette_mode = ⟨0, 0, 0, 255⟩ :=
  ((C35_palette_index_out_of_range Color.zero (fun _ => 0) (bufOfList [108]) 4 1
    rgb_palette_mode 2 ⟨rfl, Or.inr (Or.inl rfl)⟩ (by decide)).1 (by decide)).1

/-! ## C36: the chosen mode is not larger than the source -/

/-- The profile of a source that is not read as 16-bit has `bits <= 8`. -/
theorem image_profile_bits_le (inp : Buf) (w h : Nat) (mode : LodePNGColorMode)
    (hbd : mode.bitdepth ≠ 16) : (image_profile inp w h mode).bits ≤ 8 := by
  unfold image_profile lodepng_get_color_profile
  dsimp only
  have hsix : profile_sixteen inp ((w * h) % 2 ^ 32) mode = false := by
    unfold profile_sixteen
    rw [if_neg hbd]
  rw [hsix]
  simp only [Bool.false_eq_true, if_false]
  unfold profile_run8
  dsimp only
  have hloop := profile_loop8_invariant (fun s => s.profile.bits ≤ 8) inp mode
    (lodepng_get_bpp mode) (profile_maxnumcolors (lodepng_get_bpp mode)) ((w * h) % 2 ^ 32)
    (fun i s _ hs => profile_step8_bits_le inp mode _ _ i s hs)
    ((w * h) % 2 ^ 32) 0 (profile_start (lodepng_color_profile_init profile_local) mode)
    (by omega) (show (1 : Nat) ≤ 8 by decide)
  generalize profile_loop8 inp mode (lodepng_get_bpp mode)
    (profile_maxnumcolors (lodepng_get_bpp mode)) ((w * h) % 2 ^ 32) 0
    (profile_start (lodepng_color_profile_init profile_local) mode) = s2 at hloop ⊢
  have hkeep : ∀ p : LodePNGColorProfile, p.bits ≤ 8 → (profile_key_to_16 p).bits ≤ 8 :=
    fun p hp => hp
  apply hkeep
  split
  · exact forLoop_invariant (fun (s : ProfileState) => s.profile.bits ≤ 8) _ _
      (fun i s _ hs => by
        unfold profile_keycheck8
        dsimp only
        split
        · exact hs
        · exact hs) s2 hloop
  · exact hloop

/-- A scanning step on a pixel that decodes as opaque leaves a profile without alpha and
without key as it is. -/
theorem profile_step8_no_alpha (inp : Buf) (mode : LodePNGColorMode) (bpp maxn i : Nat)
    (s : ProfileState) (ha : ∀ c, (getPixelColorRGBA8 c inp i mode).a = 255)
    (h : s.profile.alpha = 0 ∧ s.profile.key = 0) :
    (profile_step8 inp mode bpp maxn i s).profile.alpha = 0 ∧
    (profile_step8 inp mode bpp maxn i s).profile.key = 0 := by
  unfold profile_step8
  rw [(profile_numcolors8_fields maxn _).2.2.1, (profile_numcolors8_fields maxn _).2.2.2.2.1]
  have f1 := profile_bits8_fields bpp { s with c := getPixelColorRGBA8 s.c inp i mode }
  generalize profile_bits8 bpp { s with c := getPixelColorRGBA8 s.c inp i mode } = s1 at f1 ⊢
  have f2 := profile_colored8_fields s1
  generalize profile_colored8 s1 = s2 at f2 ⊢
  have halpha : s2.profile.alpha = 0 := by rw [f2.1, f1.2.2.1]; exact h.1
  have hkey : s2.profile.key = 0 := by rw [f2.2.2.1, f1.2.2.2.2.1]; exact h.2
  have hc : s2.c.a = 255 := by
    rw [f2.2.2.2.2.2.2.2.2.2.2, f1.2.2.2.2.2.2.2.2.2.2.2.2]
    exact ha s.c
  unfold profile_alpha8
  dsimp only
  split
  · have n1 : ¬ (s2.c.a ≠ 255 ∧ (s2.c.a ≠ 0 ∨ (s2.profile.key ≠ 0 ∧
        (!decide (s2.c.r = s2.profile.key_r ∧ s2.c.g = s2.profile.key_g ∧
          s2.c.b = s2.profile.key_b)) = true))) := fun hx => hx.1 hc
    have n2 : ¬ (s2.c.a = 0 ∧ s2.profile.alpha = 0 ∧ s2.profile.key = 0) := by
      intro hx
      rw [hc] at hx
      exact absurd hx.1 (by decide)
    have n3 : ¬ (s2.c.a = 255 ∧ s2.profile.key ≠ 0 ∧
        decide (s2.c.r = s2.profile.key_r ∧ s2.c.g = s2.profile.key_g ∧
          s2.c.b = s2.profile.key_b) = true) := fun hx => hx.2.1 hkey
    rw [if_neg n1, if_neg n2, if_neg n3]
    exact ⟨halpha, hkey⟩
  · exact ⟨halpha, hkey⟩

/-- The profile of an 8-bit RGB image without colour key has neither alpha nor key. -/
theorem image_profile_rgb8 (inp : Buf) (w h : Nat) (mode : LodePNGColorMode)
    (hct : mode.colortype = LCT_RGB) (hbd : mode.bitdepth = 8) (hk : mode.key_defined = 0) :
    (image_profile inp w h mode).alpha = 0 ∧ (image_profile inp w h mode).key = 0 := by
  have ha : ∀ i c, (getPixelColorRGBA8 c inp i mode).a = 255 := by
    intro i c
    unfold getPixelColorRGBA8
    have h1 : ¬ LCT_RGB = LCT_GREY := by decide
    simp [hct, hbd, hk, h1]
  unfold image_profile lodepng_get_color_profile
  dsimp only
  have hsix : profile_sixteen inp ((w * h) % 2 ^ 32) mode = false := by
    unfold profile_sixteen
    rw [if_neg (by omega)]
  rw [hsix]
  simp only [Bool.false_eq_true, if_false]
  unfold profile_run8
  dsimp only
  have hloop := profile_loop8_invariant
    (fun s => s.profile.alpha = 0 ∧ s.profile.key = 0) inp mode
    (lodepng_get_bpp mode) (profile_maxnumcolors (lodepng_get_bpp mode)) ((w * h) % 2 ^ 32)
    (fun i s _ hs => profile_step8_no_alpha inp mode _ _ i s (ha i) hs)
    ((w * h) % 2 ^ 32) 0 (profile_start (lodepng_color_profile_init profile_local) mode)
    (by omega) ⟨rfl, rfl⟩
  generalize profile_loop8 inp mode (lodepng_get_bpp mode)
    (profile_maxnumcolors (lodepng_get_bpp mode)) ((w * h) % 2 ^ 32) 0
    (profile_start (lodepng_color_profile_init profile_local) mode) = s2 at hloop ⊢
  have hn : ¬ (s2.profile.key ≠ 0 ∧ s2.profile.alpha = 0) := fun hx => hx.1 hloop.2
  rw [if_neg hn]
  exact hloop

/-- C36: for every 8-bit RGBA source image, and every 8-bit RGB source image without a
colour key, `lodepng_auto_choose_color` returns 0 and the bits per pixel of the chosen mode
are at most those of the source mode, which are 32 for RGBA and 24 for RGB. -/
theorem C36_chosen_mode_not_larger (mode_out mode_in : LodePNGColorMode) (image : Buf)
    (w h : Nat)
    (hsrc : (mode_in.colortype = LCT_RGBA ∧ mode_in.bitdepth = 8) ∨
      (mode_in.colortype = LCT_RGB ∧ mode_in.bitdepth = 8 ∧ mode_in.key_defined = 0)) :
    (lodepng_auto_choose_color mode_out image w h mode_in).1 = 0 ∧
    lodepng_get_bpp (lodepng_auto_choose_color mode_out image w h mode_in).2 ≤
      lodepng_get_bpp mode_in ∧
    (mode_in.colortype = LCT_RGBA → lodepng_get_bpp mode_in = 32) ∧
    (mode_in.colortype = LCT_RGB → lodepng_get_bpp mode_in = 24) := by
  have hbd : mode_in.bitdepth = 8 := by
    rcases hsrc with h | h
    · exact h.2
    · exact h.2.1
  have hnp : mode_in.colortype ≠ LCT_PALETTE := by
    rcases hsrc with h | h
    · rw [h.1]; decide
    · rw [h.1]; decide
  have herr : (lodepng_auto_choose_color mode_out image w h mode_in).1 = 0 := by
    have he := lodepng_get_color_profile_error (lodepng_color_profile_init profile_local)
      image w h mode_in
    unfold lodepng_auto_choose_color
    simp only [he, ne_eq, not_true_eq_false, if_false]
    split <;> rfl
  have hbits := image_profile_bits_le image w h mode_in (by omega)
  have hadj : (choose_adjust_profile (image_profile image w h mode_in)
      ((w * h) % 2 ^ 32)).bits ≤ 8 := by
    unfold choose_adjust_profile bits_at_least_8
    split_ifs <;> simp_all
  have h32 : mode_in.colortype = LCT_RGBA → lodepng_get_bpp mode_in = 32 := by
    intro hc
    unfold lodepng_get_bpp lodepng_get_bpp_lct
    rw [hc, hbd]
    decide
  have h24 : mode_in.colortype = LCT_RGB → lodepng_get_bpp mode_in = 24 := by
    intro hc
    unfold lodepng_get_bpp lodepng_get_bpp_lct
    rw [hc, hbd]
    decide
  refine ⟨herr, ?_, h32, h24⟩
  rw [lodepng_auto_choose_color_eq]
  split
  · -- a palette: one channel of at most 8 bits
    have hf := choose_palette_fields { mode_out with key_defined := 0 } mode_in
      (choose_adjust_profile (image_profile image w h mode_in) ((w * h) % 2 ^ 32)) hnp
    have hct := choose_palette_colortype { mode_out with key_defined := 0 } mode_in
      (choose_adjust_profile (image_profile image w h mode_in) ((w * h) % 2 ^ 32))
    have hpb : choose_palettebits (choose_adjust_profile (image_profile image w h mode_in)
        ((w * h) % 2 ^ 32)).numcolors ≤ 8 := by
      unfold choose_palettebits
      split_ifs <;> omega
    have hle : lodepng_get_bpp (choose_palette { mode_out with key_defined := 0 }
        (choose_adjust_profile (image_profile image w h mode_in) ((w * h) % 2 ^ 32)) mode_in)
        ≤ 8 := by
      unfold lodepng_get_bpp lodepng_get_bpp_lct
      rw [hct, hf.2]
      have : getNumColorChannels LCT_PALETTE = 1 := by decide
      rw [this, Nat.one_mul]
      exact Nat.le_trans (Nat.mod_le _ _) hpb
    rcases hsrc with hs | hs
    · rw [h32 hs.1]; omega
    · rw [h24 hs.1]; omega
  · generalize hprof : choose_adjust_profile (image_profile image w h mode_in)
      ((w * h) % 2 ^ 32) = prof at hadj ⊢
    have hbpp : lodepng_get_bpp (choose_plain { mode_out with key_defined := 0 } prof) ≤
        getNumColorChannels (choose_plain { mode_out with key_defined := 0 } prof).colortype
          * prof.bits := by
      unfold lodepng_get_bpp lodepng_get_bpp_lct
      rw [choose_plain_bitdepth]
      exact Nat.mod_le _ _
    rcases hsrc with hs | hs
    · rw [h32 hs.1]
      have hch : getNumColorChannels
          (choose_plain { mode_out with key_defined := 0 } prof).colortype ≤ 4 := by
        rw [choose_plain_colortype]
        split_ifs <;> decide
      have := Nat.mul_le_mul hch hadj
      omega
    · rw [h24 hs.1]
      have hak := image_profile_rgb8 image w h mode_in hs.1 hs.2.1 hs.2.2
      have halpha : prof.alpha = 0 := by
        rw [← hprof]
        unfold choose_adjust_profile
        have hn : ¬ ((image_profile image w h mode_in).key ≠ 0 ∧ (w * h) % 2 ^ 32 ≤ 16) :=
          fun hx => hx.1 hak.2
        rw [if_neg hn]
        exact hak.1
      have hch : getNumColorChannels
          (choose_plain { mode_out with key_defined := 0 } prof).colortype ≤ 3 := by
        rw [choose_plain_colortype]
        have : ¬ prof.alpha ≠ 0 := fun hx => hx halpha
        rw [if_neg this]
        split_ifs <;> decide
      have := Nat.mul_le_mul hch hadj
      omega

/-- Witness of C36: the scenario image, an 8-bit RGBA source, is chosen a mode of at most
32 bits per pixel. -/
theorem C36_chosen_mode_not_larger_witness :
    lodepng_get_bpp (lodepng_auto_choose_color rgba8_mode scenario_image 2 2 rgba8_mode).2 ≤
      lodepng_get_bpp rgba8_mode :=
  (C36_chosen_mode_not_larger rgba8_mode rgba8_mode scenario_image 2 2
    (Or.inl ⟨rfl, rfl⟩)).2.1

end LodePNG
